import Mathlib

/-!
# Verification development for the Jive compiler

A shallow embedding of the compiler pipeline (`lexer.c`, `parser.c`,
`symbol_table.c`, `codegen.c`, `stack_machine_ir.c`, `stack_machine.c`) and
theorems about it.

Conventions of the embedding:
* a C pointer to an owned tree (`ASTNode*`, `Scope*`) is a value of an inductive
  type with a `null` constructor;
* a C linked list threaded through a dedicated `next` field (`Symbol`,
  `IRInstruction`) is a Lean `List`, head first;
* C `int` values are `Int`, counters that only grow from 0 are `Nat`; no statement
  below depends on wrap-around, and where the range of `int` matters (the label
  counter) it is a hypothesis;
* `exit(1)` and the dereference of a NULL pointer end the run: the embedded
  function returns `Except.error` with the `Fatal` value naming the exit path;
* `malloc`/`free`/`strdup` bookkeeping is not modelled.
-/

namespace Jive

/-! ## Part 1: definitions -/

/-! ### Enumerations of the headers -/

/-- Token kinds, `lexer.h`. -/
inductive TokenType
  | TOKEN_EOF | TOKEN_INT_LIT | TOKEN_STRING_LIT | TOKEN_IDENT
  | TOKEN_FN | TOKEN_RETURN | TOKEN_LET | TOKEN_CALL | TOKEN_IF | TOKEN_ELSE
  | TOKEN_WHILE | TOKEN_INT | TOKEN_STRING | TOKEN_PRINT | TOKEN_MALLOC | TOKEN_FREE
  | TOKEN_PLUS | TOKEN_MINUS | TOKEN_STAR | TOKEN_SLASH | TOKEN_ASSIGN
  | TOKEN_EQ | TOKEN_NE | TOKEN_LT | TOKEN_GT | TOKEN_LE | TOKEN_GE
  | TOKEN_LPAREN | TOKEN_RPAREN | TOKEN_LBRACE | TOKEN_RBRACE
  | TOKEN_COLON | TOKEN_SEMICOLON | TOKEN_COMMA | TOKEN_ARROW
  deriving DecidableEq, Repr

/-- AST node kinds, `parser.h`. -/
inductive ASTNodeType
  | AST_INT_LIT | AST_STRING_LIT | AST_VAR | AST_BINOP | AST_ASSIGN | AST_VAR_DECL
  | AST_RETURN | AST_CALL_EXPR | AST_CALL_STMT | AST_FN_DEF | AST_PROGRAM | AST_BLOCK
  | AST_IF | AST_WHILE | AST_COMPARE | AST_PRINT | AST_MALLOC | AST_FREE
  deriving DecidableEq, Repr

/-- Arithmetic operator tags, `parser.h`. -/
inductive BinOpType
  | BINOP_PLUS | BINOP_MINUS | BINOP_MULT | BINOP_DIV
  deriving DecidableEq, Repr

/-- Relational operator tags, `parser.h`; the C enum numbers them 0 to 5. -/
inductive CompareOpType
  | COMPARE_EQ | COMPARE_NE | COMPARE_LT | COMPARE_GT | COMPARE_LE | COMPARE_GE
  deriving DecidableEq, Repr

/-- Symbol kinds, `symbol_table.h`. -/
inductive SymType
  | SYM_VAR | SYM_FN | SYM_PARAM
  deriving DecidableEq, Repr

/-- IR opcodes, `stack_machine_ir.h`. -/
inductive IROp
  | IR_PUSH | IR_PUSH_STR | IR_POP | IR_ADD | IR_SUB | IR_MUL | IR_DIV
  | IR_LOAD | IR_STORE | IR_CALL | IR_RET | IR_JMP | IR_JZ | IR_JNZ
  | IR_LABEL | IR_CMP | IR_PRINT | IR_MALLOC | IR_FREE
  deriving DecidableEq, Repr

/-- The ways a run of the pipeline ends without a result. -/
inductive Fatal
  /-- The exit of `declare_var` called with a NULL scope (`exit(1)`). -/
  | declare_var_null_scope
  /-- A NULL pointer is dereferenced or handed to `strdup` (undefined behaviour). -/
  | null_deref
  /-- The exit of `expect_token` on another token kind than the expected one (`exit(1)`). -/
  | expected_token (expected got : TokenType)
  /-- The exit of `parse_primary` when it built no node (`exit(1)`). -/
  | failed_primary
  /-- The final `else` of `parse_statement` (`exit(1)`). -/
  | unexpected_statement_token (got : TokenType)
  /-- The exit taken when `lookup` finds no symbol for a referenced or assigned name (`exit(1)`). -/
  | undefined_variable (name : String)
  /-- The `default` case of `gen_expression` (`exit(1)`). -/
  | unexpected_expression_node (t : ASTNodeType)
  /-- The `default` case of `gen_statement` (`exit(1)`). -/
  | unexpected_statement_node (t : ASTNodeType)
  /-- The recursion budget of the embedded parser is used up (not a behaviour of the C code). -/
  | out_of_fuel
  deriving DecidableEq, Repr

deriving instance DecidableEq for Except

/-! ### Symbol table, `symbol_table.c` -/

/-- A `Symbol` of `symbol_table.h`; the `next` link is the tail of the scope's list. -/
structure Symbol where
  name : String
  type : SymType
  offset : Int
  deriving DecidableEq, Repr

/-- A `Scope*`: NULL, or a scope with its symbol list (most recently declared first),
its parent and its two counters. -/
inductive Scope
  | null
  | mk (symbols : List Symbol) (parent : Scope) (local_count : Int) (param_count : Int)
  deriving DecidableEq, Repr

/-- The function `create_scope`. -/
def create_scope (parent : Scope) : Scope :=
  .mk [] parent 0 0

/-- The inner loop shared by `lookup` and `declare_var`: the first symbol of the list
whose name `strcmp`s equal to `name`. -/
def find_symbol (symbols : List Symbol) (name : String) : Option Symbol :=
  symbols.find? (fun sym => sym.name == name)

/-- The function `lookup`: walks from `scope` to the root. -/
def lookup : Scope → String → Option Symbol
  | .null, _ => none
  | .mk symbols parent _ _, name =>
    match find_symbol symbols name with
    | some sym => some sym
    | none => lookup parent name

/-- The function `declare_var`: returns the symbol and the scope as it is after the call. -/
def declare_var (scope : Scope) (name : String) (type : SymType) : Except Fatal (Symbol × Scope) :=
  match scope with
  | .null => .error .declare_var_null_scope
  | .mk symbols parent local_count param_count =>
    match find_symbol symbols name with
    | some existing => .ok (existing, .mk symbols parent local_count param_count)
    | none =>
      let local_count1 := local_count + 1
      let sym : Symbol := { name := name, type := type, offset := -(local_count1 * 8) }
      .ok (sym, .mk (sym :: symbols) parent local_count1 param_count)

/-- The function `declare_param`: returns the symbol and the scope as it is after the call. -/
def declare_param (scope : Scope) (name : String) : Except Fatal (Symbol × Scope) :=
  match scope with
  | .null => .error .null_deref
  | .mk symbols parent local_count param_count =>
    let param_count1 := param_count + 1
    let sym : Symbol := { name := name, type := .SYM_PARAM, offset := 16 + (param_count1 - 1) * 8 }
    .ok (sym, .mk (sym :: symbols) parent local_count param_count1)

/-- Declares the names of a list as parameters, one `declare_param` call each, in order;
returns the symbols in call order and the final scope. -/
def declare_param_seq : Scope → List String → Except Fatal (List Symbol × Scope)
  | scope, [] => .ok ([], scope)
  | scope, name :: rest =>
    match declare_param scope name with
    | .error e => .error e
    | .ok (sym, scope1) =>
      match declare_param_seq scope1 rest with
      | .error e => .error e
      | .ok (syms, scope2) => .ok (sym :: syms, scope2)

/-- Declares the names of a list as local variables, one `declare_var` call each, in order;
returns the symbols in call order and the final scope. -/
def declare_var_seq : Scope → List String → Except Fatal (List Symbol × Scope)
  | scope, [] => .ok ([], scope)
  | scope, name :: rest =>
    match declare_var scope name .SYM_VAR with
    | .error e => .error e
    | .ok (sym, scope1) =>
      match declare_var_seq scope1 rest with
      | .error e => .error e
      | .ok (syms, scope2) => .ok (sym :: syms, scope2)

/-- The symbol lists met on the walk from a scope to the root, nearest scope first. -/
def scope_path : Scope → List (List Symbol)
  | .null => []
  | .mk symbols parent _ _ => symbols :: scope_path parent

/-- The local count of a scope (0 for NULL). -/
def Scope.locals : Scope → Int
  | .null => 0
  | .mk _ _ local_count _ => local_count

/-- The parameter count of a scope (0 for NULL). -/
def Scope.params : Scope → Int
  | .null => 0
  | .mk _ _ _ param_count => param_count

/-- The symbol list of a scope (empty for NULL). -/
def Scope.syms : Scope → List Symbol
  | .null => []
  | .mk symbols _ _ _ => symbols

/-! ### Intermediate representation, `stack_machine_ir.c` -/

/-- An `IRInstruction` of `stack_machine_ir.h`; the `next` link is the tail of the program list.
A NULL `label` or `str_value` is `none`. -/
structure IRInstruction where
  op : IROp
  operand : Int
  label : Option String
  str_value : Option String
  deriving DecidableEq, Repr

/-- The function `emit_ir`: appends one instruction at the tail of the program. -/
def emit_ir (program : List IRInstruction) (op : IROp) (operand : Int) (label : Option String) :
    List IRInstruction :=
  program ++ [{ op := op, operand := operand, label := label, str_value := none }]

/-- The function `emit_ir_str`: appends one instruction with a string payload. -/
def emit_ir_str (program : List IRInstruction) (op : IROp) (str_value : Option String) :
    List IRInstruction :=
  program ++ [{ op := op, operand := 0, label := none, str_value := str_value }]

/-! ### Abstract syntax tree, `parser.h` -/

/-- An `ASTNode*`: NULL, or a node with the fields of `struct ASTNode` in declaration order.
A NULL `char*` field is `none`. -/
inductive ASTNode
  | null
  | node (type : ASTNodeType) (left right condition then_block else_block body : ASTNode)
      (fn_name : Option String) (params body_nodes : ASTNode)
      (call_name : Option String) (args : ASTNode)
      (var_name : Option String) (int_value : Int) (string_value : Option String)
      (binop : BinOpType) (compare_op : CompareOpType)
      (statements : ASTNode) (stmt_count : Int)
  deriving DecidableEq, Repr

/-- The function `create_ast_node`: `calloc` zeroes every field, then the type is set. -/
def create_ast_node (type : ASTNodeType) : ASTNode :=
  .node type .null .null .null .null .null .null none .null .null none .null none 0 none
    .BINOP_PLUS .COMPARE_EQ .null 0

namespace ASTNode

/-- The assignment `node->left = v` (no effect modelled on NULL; callers guard). -/
def set_left : ASTNode → ASTNode → ASTNode
  | .null, _ => .null
  | .node t _ r c tb eb b fnm ps bn cnm ar vn iv sv bo co st sc, v =>
    .node t v r c tb eb b fnm ps bn cnm ar vn iv sv bo co st sc

/-- The assignment `node->right = v`. -/
def set_right : ASTNode → ASTNode → ASTNode
  | .null, _ => .null
  | .node t l _ c tb eb b fnm ps bn cnm ar vn iv sv bo co st sc, v =>
    .node t l v c tb eb b fnm ps bn cnm ar vn iv sv bo co st sc

/-- The assignment `node->condition = v`. -/
def set_condition : ASTNode → ASTNode → ASTNode
  | .null, _ => .null
  | .node t l r _ tb eb b fnm ps bn cnm ar vn iv sv bo co st sc, v =>
    .node t l r v tb eb b fnm ps bn cnm ar vn iv sv bo co st sc

/-- The assignment `node->then_block = v`. -/
def set_then_block : ASTNode → ASTNode → ASTNode
  | .null, _ => .null
  | .node t l r c _ eb b fnm ps bn cnm ar vn iv sv bo co st sc, v =>
    .node t l r c v eb b fnm ps bn cnm ar vn iv sv bo co st sc

/-- The assignment `node->else_block = v`. -/
def set_else_block : ASTNode → ASTNode → ASTNode
  | .null, _ => .null
  | .node t l r c tb _ b fnm ps bn cnm ar vn iv sv bo co st sc, v =>
    .node t l r c tb v b fnm ps bn cnm ar vn iv sv bo co st sc

/-- The assignment `node->body = v`. -/
def set_body : ASTNode → ASTNode → ASTNode
  | .null, _ => .null
  | .node t l r c tb eb _ fnm ps bn cnm ar vn iv sv bo co st sc, v =>
    .node t l r c tb eb v fnm ps bn cnm ar vn iv sv bo co st sc

/-- The assignment `node->fn_name = v`. -/
def set_fn_name : ASTNode → Option String → ASTNode
  | .null, _ => .null
  | .node t l r c tb eb b _ ps bn cnm ar vn iv sv bo co st sc, v =>
    .node t l r c tb eb b v ps bn cnm ar vn iv sv bo co st sc

/-- The assignment `node->params = v`. -/
def set_params : ASTNode → ASTNode → ASTNode
  | .null, _ => .null
  | .node t l r c tb eb b fnm _ bn cnm ar vn iv sv bo co st sc, v =>
    .node t l r c tb eb b fnm v bn cnm ar vn iv sv bo co st sc

/-- The assignment `node->body_nodes = v`. -/
def set_body_nodes : ASTNode → ASTNode → ASTNode
  | .null, _ => .null
  | .node t l r c tb eb b fnm ps _ cnm ar vn iv sv bo co st sc, v =>
    .node t l r c tb eb b fnm ps v cnm ar vn iv sv bo co st sc

/-- The assignment `node->call_name = v`. -/
def set_call_name : ASTNode → Option String → ASTNode
  | .null, _ => .null
  | .node t l r c tb eb b fnm ps bn _ ar vn iv sv bo co st sc, v =>
    .node t l r c tb eb b fnm ps bn v ar vn iv sv bo co st sc

/-- The assignment `node->args = v`. -/
def set_args : ASTNode → ASTNode → ASTNode
  | .null, _ => .null
  | .node t l r c tb eb b fnm ps bn cnm _ vn iv sv bo co st sc, v =>
    .node t l r c tb eb b fnm ps bn cnm v vn iv sv bo co st sc

/-- The assignment `node->var_name = v`. -/
def set_var_name : ASTNode → Option String → ASTNode
  | .null, _ => .null
  | .node t l r c tb eb b fnm ps bn cnm ar _ iv sv bo co st sc, v =>
    .node t l r c tb eb b fnm ps bn cnm ar v iv sv bo co st sc

/-- The assignment `node->int_value = v`. -/
def set_int_value : ASTNode → Int → ASTNode
  | .null, _ => .null
  | .node t l r c tb eb b fnm ps bn cnm ar vn _ sv bo co st sc, v =>
    .node t l r c tb eb b fnm ps bn cnm ar vn v sv bo co st sc

/-- The assignment `node->string_value = v`. -/
def set_string_value : ASTNode → Option String → ASTNode
  | .null, _ => .null
  | .node t l r c tb eb b fnm ps bn cnm ar vn iv _ bo co st sc, v =>
    .node t l r c tb eb b fnm ps bn cnm ar vn iv v bo co st sc

/-- The assignment `node->binop = v`. -/
def set_binop : ASTNode → BinOpType → ASTNode
  | .null, _ => .null
  | .node t l r c tb eb b fnm ps bn cnm ar vn iv sv _ co st sc, v =>
    .node t l r c tb eb b fnm ps bn cnm ar vn iv sv v co st sc

/-- The assignment `node->compare_op = v`. -/
def set_compare_op : ASTNode → CompareOpType → ASTNode
  | .null, _ => .null
  | .node t l r c tb eb b fnm ps bn cnm ar vn iv sv bo _ st sc, v =>
    .node t l r c tb eb b fnm ps bn cnm ar vn iv sv bo v st sc

/-- The assignment `node->statements = v`. -/
def set_statements : ASTNode → ASTNode → ASTNode
  | .null, _ => .null
  | .node t l r c tb eb b fnm ps bn cnm ar vn iv sv bo co _ sc, v =>
    .node t l r c tb eb b fnm ps bn cnm ar vn iv sv bo co v sc

/-- The assignment `node->stmt_count = v`. -/
def set_stmt_count : ASTNode → Int → ASTNode
  | .null, _ => .null
  | .node t l r c tb eb b fnm ps bn cnm ar vn iv sv bo co st _, v =>
    .node t l r c tb eb b fnm ps bn cnm ar vn iv sv bo co st v

/-- Whether the pointer is NULL. -/
def is_null : ASTNode → Bool
  | .null => true
  | .node .. => false

/-- The field `node->right` (NULL for NULL). -/
def get_right : ASTNode → ASTNode
  | .null => .null
  | .node _ _ r _ _ _ _ _ _ _ _ _ _ _ _ _ _ _ _ => r

/-- The field `node->type`, when the pointer is not NULL. -/
def get_type : ASTNode → Option ASTNodeType
  | .null => none
  | .node t _ _ _ _ _ _ _ _ _ _ _ _ _ _ _ _ _ _ => some t

end ASTNode

/-- The numbering of `CompareOpType` by the C enum, the operand of `IR_CMP`. -/
def CompareOpType.toInt : CompareOpType → Int
  | .COMPARE_EQ => 0
  | .COMPARE_NE => 1
  | .COMPARE_LT => 2
  | .COMPARE_GT => 3
  | .COMPARE_LE => 4
  | .COMPARE_GE => 5

/-! ### Code generator, `codegen.c` -/

/-- The file-level state of `codegen.c`: `current_program`, `current_scope` (with its parent
chain, by value) and `label_counter`. The variable `global_scope` is written once and only read
back into `current_scope` on the next line, so it is not kept. -/
structure CodeGen where
  current_program : List IRInstruction
  current_scope : Scope
  label_counter : Nat
  deriving DecidableEq, Repr

/-- The call `emit_ir(current_program, op, operand, label)`. -/
def CodeGen.emit (cg : CodeGen) (op : IROp) (operand : Int) (label : Option String) : CodeGen :=
  { cg with current_program := emit_ir cg.current_program op operand label }

/-- The text `snprintf(label, 32, "%s_%d", pfx, n)` leaves in the 32-byte buffer: at most 31
characters of the formatted text. -/
def label_text (pfx : String) (n : Nat) : String :=
  String.mk ((pfx ++ "_" ++ Nat.repr n).data.take 31)

/-- The function `generate_label`: the label for the current counter, and the counter raised. -/
def generate_label (pfx : String) (cg : CodeGen) : String × CodeGen :=
  (label_text pfx cg.label_counter, { cg with label_counter := cg.label_counter + 1 })

/-- The text `sprintf(label, "_%s", name)` builds: the mangled function label. -/
def mangle (name : String) : String :=
  "_" ++ name

/-- The `switch` of `gen_expression` for a non-NULL node. The recursive calls of the C function
on `node->left`, `node->right` and the argument loop over `node->args` are passed in as
`gen_left`, `gen_right` and `gen_args` (the loop returns `arg_count`). -/
def gen_expression_node (type : ASTNodeType)
    (gen_left gen_right : CodeGen → Except Fatal CodeGen)
    (gen_args : CodeGen → Except Fatal (Int × CodeGen))
    (call_name var_name : Option String) (int_value : Int) (string_value : Option String)
    (binop : BinOpType) (compare_op : CompareOpType) (cg : CodeGen) : Except Fatal CodeGen :=
  match type with
  | .AST_INT_LIT => .ok (cg.emit .IR_PUSH int_value none)
  | .AST_STRING_LIT =>
    .ok { cg with current_program := emit_ir_str cg.current_program .IR_PUSH_STR string_value }
  | .AST_MALLOC => do
    let cg1 ← gen_left cg
    .ok (cg1.emit .IR_MALLOC 0 none)
  | .AST_VAR =>
    match var_name with
    | none => .error .null_deref
    | some name =>
      match lookup cg.current_scope name with
      | none => .error (.undefined_variable name)
      | some sym => .ok (cg.emit .IR_LOAD sym.offset none)
  | .AST_BINOP => do
    let cg1 ← gen_left cg
    let cg2 ← gen_right cg1
    match binop with
    | .BINOP_PLUS => .ok (cg2.emit .IR_ADD 0 none)
    | .BINOP_MINUS => .ok (cg2.emit .IR_SUB 0 none)
    | .BINOP_MULT => .ok (cg2.emit .IR_MUL 0 none)
    | .BINOP_DIV => .ok (cg2.emit .IR_DIV 0 none)
  | .AST_COMPARE => do
    let cg1 ← gen_left cg
    let cg2 ← gen_right cg1
    .ok (cg2.emit .IR_CMP compare_op.toInt none)
  | .AST_CALL_EXPR => do
    let (arg_count, cg1) ← gen_args cg
    match call_name with
    | none => .error .null_deref
    | some name => .ok (cg1.emit .IR_CALL arg_count (some (mangle name)))
  | t => .error (.unexpected_expression_node t)

/-- The `switch` of `gen_statement` for a non-NULL node. The calls of the C function on the
node's fields are passed in: `gen_left` is `gen_expression(node->left)`, `gen_condition` is
`gen_expression(node->condition)`, `gen_args` the argument loop over `node->args`, `gen_then`,
`gen_else`, `gen_body` are `gen_block` on the three block fields, `gen_self` is `gen_block(node)`
for a node already known to be of type `AST_BLOCK`, and `has_else` is `node->else_block != NULL`. -/
def gen_statement_node (type : ASTNodeType)
    (gen_left gen_condition : CodeGen → Except Fatal CodeGen)
    (gen_args : CodeGen → Except Fatal (Int × CodeGen))
    (gen_then gen_else gen_body gen_self : CodeGen → Except Fatal CodeGen)
    (has_else : Bool) (call_name var_name : Option String) (cg : CodeGen) :
    Except Fatal CodeGen :=
  match type with
  | .AST_VAR_DECL => do
    let cg1 ← gen_left cg
    match var_name with
    | none => .error .null_deref
    | some name =>
      match lookup cg1.current_scope name with
      | some sym => .ok (cg1.emit .IR_STORE sym.offset none)
      | none => do
        let (sym, scope1) ← declare_var cg1.current_scope name .SYM_VAR
        .ok ({ cg1 with current_scope := scope1 }.emit .IR_STORE sym.offset none)
  | .AST_ASSIGN => do
    let cg1 ← gen_left cg
    match var_name with
    | none => .error .null_deref
    | some name =>
      match lookup cg1.current_scope name with
      | none => .error (.undefined_variable name)
      | some sym => .ok (cg1.emit .IR_STORE sym.offset none)
  | .AST_RETURN => do
    let cg1 ← gen_left cg
    .ok (cg1.emit .IR_RET 0 none)
  | .AST_CALL_STMT => do
    let (arg_count, cg1) ← gen_args cg
    match call_name with
    | none => .error .null_deref
    | some name =>
      let cg2 := cg1.emit .IR_CALL arg_count (some (mangle name))
      .ok (cg2.emit .IR_POP 0 none)
  | .AST_IF => do
    let (else_label, cg1) := generate_label "else" cg
    let (end_label, cg2) := generate_label "endif" cg1
    let cg3 ← gen_condition cg2
    let cg4 := cg3.emit .IR_JZ 0 (some else_label)
    let cg5 ← gen_then cg4
    let cg6 := if has_else then cg5.emit .IR_JMP 0 (some end_label) else cg5
    if has_else then do
      let cg7 := cg6.emit .IR_LABEL 0 (some else_label)
      let cg8 ← gen_else cg7
      .ok (cg8.emit .IR_LABEL 0 (some end_label))
    else
      .ok (cg6.emit .IR_LABEL 0 (some else_label))
  | .AST_WHILE => do
    let (loop_label, cg1) := generate_label "loop" cg
    let (end_label, cg2) := generate_label "endloop" cg1
    let cg3 := cg2.emit .IR_LABEL 0 (some loop_label)
    let cg4 ← gen_condition cg3
    let cg5 := cg4.emit .IR_JZ 0 (some end_label)
    let cg6 ← gen_body cg5
    let cg7 := cg6.emit .IR_JMP 0 (some loop_label)
    .ok (cg7.emit .IR_LABEL 0 (some end_label))
  | .AST_BLOCK => gen_self cg
  | .AST_PRINT => do
    let cg1 ← gen_left cg
    .ok (cg1.emit .IR_PRINT 0 none)
  | .AST_FREE => do
    let cg1 ← gen_left cg
    .ok (cg1.emit .IR_FREE 0 none)
  | t => .error (.unexpected_statement_node t)

mutual
/-- The function `gen_expression`. -/
def gen_expression : ASTNode → CodeGen → Except Fatal CodeGen
  | .null, cg => .ok cg
  | .node type left right _ _ _ _ _ _ _ call_name args var_name int_value string_value
      binop compare_op _ _, cg =>
    gen_expression_node type (gen_expression left) (gen_expression right) (gen_call_args args 0)
      call_name var_name int_value string_value binop compare_op cg
/-- The argument loop of `AST_CALL_EXPR` and `AST_CALL_STMT`:
`while (arg) { gen_expression(arg); arg = arg->right; arg_count++; }`, started at `arg` with
the count so far; returns the final `arg_count`. -/
def gen_call_args : ASTNode → Int → CodeGen → Except Fatal (Int × CodeGen)
  | .null, arg_count, cg => .ok (arg_count, cg)
  | .node type left right _ _ _ _ _ _ _ call_name args var_name int_value string_value
      binop compare_op _ _, arg_count, cg => do
    let cg1 ← gen_expression_node type (gen_expression left) (gen_expression right)
      (gen_call_args args 0) call_name var_name int_value string_value binop compare_op cg
    gen_call_args right (arg_count + 1) cg1
end

mutual
/-- The function `gen_statement`. -/
def gen_statement : ASTNode → CodeGen → Except Fatal CodeGen
  | .null, cg => .ok cg
  | .node type left _ condition then_block else_block body _ _ _ call_name args var_name _ _
      _ _ statements _, cg =>
    gen_statement_node type (gen_expression left) (gen_expression condition)
      (gen_call_args args 0) (gen_block then_block) (gen_block else_block) (gen_block body)
      (gen_statement_list statements) (!else_block.is_null) call_name var_name cg
/-- The function `gen_block`. -/
def gen_block : ASTNode → CodeGen → Except Fatal CodeGen
  | .null, cg => .ok cg
  | .node type _ _ _ _ _ _ _ _ _ _ _ _ _ _ _ _ statements _, cg =>
    if type ≠ .AST_BLOCK then .ok cg else gen_statement_list statements cg
/-- The loop of `gen_block`: `while (stmt) { gen_statement(stmt); stmt = stmt->right; }`. -/
def gen_statement_list : ASTNode → CodeGen → Except Fatal CodeGen
  | .null, cg => .ok cg
  | .node type left right condition then_block else_block body _ _ _ call_name args var_name _ _
      _ _ statements _, cg => do
    let cg1 ← gen_statement_node type (gen_expression left) (gen_expression condition)
      (gen_call_args args 0) (gen_block then_block) (gen_block else_block) (gen_block body)
      (gen_statement_list statements) (!else_block.is_null) call_name var_name cg
    gen_statement_list right cg1
end

/-- The parameter loop of `generate_code`:
`while (param) { declare_param(current_scope, param->var_name); param = param->right; }`. -/
def gen_declare_params : ASTNode → Scope → Except Fatal Scope
  | .null, scope => .ok scope
  | .node _ _ right _ _ _ _ _ _ _ _ _ var_name _ _ _ _ _ _, scope =>
    match var_name with
    | none => .error .null_deref
    | some name => do
      let (_, scope1) ← declare_param scope name
      gen_declare_params right scope1

/-- The `AST_FN_DEF` branch of the loop of `generate_code`, for the fields of the definition
node. -/
def gen_function (fn_name : Option String) (params body_nodes : ASTNode) (cg : CodeGen) :
    Except Fatal CodeGen := do
  let old_scope := cg.current_scope
  let fn_scope := create_scope old_scope
  let scope1 ← gen_declare_params params fn_scope
  let cg1 := { cg with current_scope := scope1 }
  match fn_name with
  | none => .error .null_deref
  | some name =>
    let cg2 := cg1.emit .IR_LABEL 0 (some (mangle name))
    let cg3 ← (if body_nodes.is_null then .ok cg2 else gen_block body_nodes cg2)
    let cg4 := cg3.emit .IR_RET 0 none
    .ok { cg4 with current_scope := old_scope }

/-- The loop of `generate_code` over the top-level statements:
`while (stmt) { if (stmt->type == AST_FN_DEF) ... else gen_statement(stmt); stmt = stmt->right; }`. -/
def gen_toplevel : ASTNode → CodeGen → Except Fatal CodeGen
  | .null, cg => .ok cg
  | .node type left right condition then_block else_block body fn_name params body_nodes
      call_name args var_name int_value string_value binop compare_op statements stmt_count,
      cg => do
    let cg1 ← (if type = .AST_FN_DEF then gen_function fn_name params body_nodes cg
      else gen_statement (.node type left right condition then_block else_block body fn_name
        params body_nodes call_name args var_name int_value string_value binop compare_op
        statements stmt_count) cg)
    gen_toplevel right cg1

/-- The state `generate_code` starts from: empty program, counter 0, a fresh global scope. -/
def CodeGen.init : CodeGen :=
  { current_program := [], current_scope := create_scope .null, label_counter := 0 }

/-- The function `generate_code`: the IR program, or the fatal exit. -/
def generate_code : ASTNode → Except Fatal (List IRInstruction)
  | .null => .ok CodeGen.init.current_program
  | .node type _ _ _ _ _ _ _ _ _ _ _ _ _ _ _ _ statements _ =>
    if type ≠ .AST_PROGRAM then .ok CodeGen.init.current_program
    else do
      let cg ← gen_toplevel statements CodeGen.init
      .ok cg.current_program

/-! ### Lexer, `lexer.c` -/

/-- A `Token` of `lexer.h`; a NULL `value` is `none`. -/
structure Token where
  type : TokenType
  value : Option String
  line : Int
  col : Int
  deriving DecidableEq, Repr

/-- The file-level state of `lexer.c`: the source text (the characters before the terminating
NUL), the cursor `pos`, and `line` and `col`. -/
structure Lexer where
  source : List Char
  pos : Nat
  line : Int
  col : Int
  deriving DecidableEq, Repr

/-- The NUL character that ends a C string. -/
def NUL : Char := Char.ofNat 0

/-- The read `source[i]`: the terminating NUL at and after the end of the text. -/
def Lexer.char_at (lx : Lexer) (i : Nat) : Char :=
  lx.source.getD i NUL

/-- The function `init_lexer`. -/
def init_lexer (src : List Char) : Lexer :=
  { source := src, pos := 0, line := 1, col := 1 }

/-- The C library `isdigit` in the C locale. -/
def isdigit (c : Char) : Bool := c.isDigit

/-- The C library `isalpha` in the C locale. -/
def isalpha (c : Char) : Bool := c.isAlpha

/-- The C library `isalnum` in the C locale. -/
def isalnum (c : Char) : Bool := c.isAlphanum

/-- The function `copy_string(source + start, len)`. -/
def copy_string (source : List Char) (start len : Nat) : String :=
  String.mk ((source.drop start).take len)

/-- The number of characters the comment loop of `skip_whitespace` passes:
`while (source[pos] != NUL && source[pos] != newline) pos++`, on the text from the cursor. -/
def comment_length (rest : List Char) : Nat :=
  (rest.takeWhile (fun c => c != NUL && c != '\n')).length

/-- The loop of `skip_whitespace`, at most `fuel` rounds. -/
def skip_whitespace_loop : Nat → Lexer → Lexer
  | 0, lx => lx
  | fuel + 1, lx =>
    let c := lx.char_at lx.pos
    if c == ' ' || c == '\t' then
      skip_whitespace_loop fuel { lx with pos := lx.pos + 1, col := lx.col + 1 }
    else if c == '\n' then
      skip_whitespace_loop fuel { lx with pos := lx.pos + 1, line := lx.line + 1, col := 1 }
    else if c == '/' && lx.char_at (lx.pos + 1) == '/' then
      let lx1 := { lx with pos := lx.pos + comment_length (lx.source.drop lx.pos) }
      if lx1.char_at lx1.pos == '\n' then
        skip_whitespace_loop fuel { lx1 with pos := lx1.pos + 1, line := lx1.line + 1, col := 1 }
      else
        skip_whitespace_loop fuel lx1
    else lx

/-- The function `skip_whitespace`. Every round of its loop moves the cursor forward and the
loop stops at the terminating NUL, so the number of characters left bounds the rounds. -/
def skip_whitespace (lx : Lexer) : Lexer :=
  skip_whitespace_loop (lx.source.length - lx.pos) lx

/-- The number of characters the string-literal loop of `next_token` passes, on the text after the
opening quote: it stops at NUL or at a quote, and steps over two characters at a backslash that
is not followed by NUL. -/
def string_body_length : List Char → Nat
  | [] => 0
  | [c] => if c == NUL || c == '"' then 0 else 1
  | c :: d :: rest =>
    if c == NUL || c == '"' then 0
    else if c == '\\' && d != NUL then 2 + string_body_length rest
    else 1 + string_body_length (d :: rest)

/-- The function `make_token`: stamps the token with the lexer's current `line` and `col`. -/
def make_token (lx : Lexer) (type : TokenType) (value : Option String) : Token :=
  { type := type, value := value, line := lx.line, col := lx.col }

/-- The keyword chain of `next_token`: the keyword kind of an identifier text, if any. -/
def keyword_type (value : String) : Option TokenType :=
  if value == "fn" then some .TOKEN_FN
  else if value == "return" then some .TOKEN_RETURN
  else if value == "let" then some .TOKEN_LET
  else if value == "call" then some .TOKEN_CALL
  else if value == "if" then some .TOKEN_IF
  else if value == "else" then some .TOKEN_ELSE
  else if value == "while" then some .TOKEN_WHILE
  else if value == "int" then some .TOKEN_INT
  else if value == "string" then some .TOKEN_STRING
  else if value == "print" then some .TOKEN_PRINT
  else if value == "malloc" then some .TOKEN_MALLOC
  else if value == "free" then some .TOKEN_FREE
  else none

/-- The operator `switch` of `next_token`, entered with the cursor already past `ch`. -/
def operator_token (lx : Lexer) (ch : Char) : Token × Lexer :=
  let two (t : TokenType) : Token × Lexer :=
    let lx1 := { lx with pos := lx.pos + 1, col := lx.col + 1 }
    (make_token lx1 t none, lx1)
  let one (t : TokenType) : Token × Lexer := (make_token lx t none, lx)
  if ch == '+' then one .TOKEN_PLUS
  else if ch == '-' then
    if lx.char_at lx.pos == '>' then two .TOKEN_ARROW else one .TOKEN_MINUS
  else if ch == '*' then one .TOKEN_STAR
  else if ch == '/' then one .TOKEN_SLASH
  else if ch == '=' then
    if lx.char_at lx.pos == '=' then two .TOKEN_EQ else one .TOKEN_ASSIGN
  else if ch == '!' then
    if lx.char_at lx.pos == '=' then two .TOKEN_NE else one .TOKEN_EOF
  else if ch == '<' then
    if lx.char_at lx.pos == '=' then two .TOKEN_LE else one .TOKEN_LT
  else if ch == '>' then
    if lx.char_at lx.pos == '=' then two .TOKEN_GE else one .TOKEN_GT
  else if ch == '(' then one .TOKEN_LPAREN
  else if ch == ')' then one .TOKEN_RPAREN
  else if ch == '{' then one .TOKEN_LBRACE
  else if ch == '}' then one .TOKEN_RBRACE
  else if ch == ':' then one .TOKEN_COLON
  else if ch == ';' then one .TOKEN_SEMICOLON
  else if ch == ',' then one .TOKEN_COMMA
  else one .TOKEN_EOF

/-- The function `next_token`: the token and the lexer state after the call. -/
def next_token (lx0 : Lexer) : Token × Lexer :=
  let lx := skip_whitespace lx0
  let c := lx.char_at lx.pos
  if c == NUL then (make_token lx .TOKEN_EOF none, lx)
  else if c == '"' then
    let start_pos := lx.pos + 1
    let len := string_body_length (lx.source.drop start_pos)
    let lx1 := { lx with pos := start_pos + len, col := lx.col + 1 + len }
    if lx1.char_at lx1.pos == NUL then (make_token lx1 .TOKEN_EOF none, lx1)
    else
      let value := copy_string lx.source start_pos len
      let lx2 := { lx1 with pos := lx1.pos + 1, col := lx1.col + 1 }
      (make_token lx2 .TOKEN_STRING_LIT (some value), lx2)
  else if isdigit c then
    let len := ((lx.source.drop lx.pos).takeWhile isdigit).length
    let lx1 := { lx with pos := lx.pos + len, col := lx.col + len }
    (make_token lx1 .TOKEN_INT_LIT (some (copy_string lx.source lx.pos len)), lx1)
  else if isalpha c || c == '_' then
    let len := ((lx.source.drop lx.pos).takeWhile (fun d => isalnum d || d == '_')).length
    let lx1 := { lx with pos := lx.pos + len, col := lx.col + len }
    let value := copy_string lx.source lx.pos len
    match keyword_type value with
    | some t => (make_token lx1 t none, lx1)
    | none => (make_token lx1 .TOKEN_IDENT (some value), lx1)
  else
    operator_token { lx with pos := lx.pos + 1, col := lx.col + 1 } c

/-! ### Parser, `parser.c` -/

/-- The file-level state of `parser.c` together with the lexer it pulls tokens from.
The pointer `current_token` is never NULL once `parse_program` has fetched the first token
(`next_token` always returns a token), so the `current_token &&` guards of the C code are
always true and the token is kept by value. -/
structure Parser where
  lexer : Lexer
  current_token : Token
  current_scope : Scope
  deriving DecidableEq, Repr

/-- The assignment `current_token = next_token()`. -/
def Parser.advance (p : Parser) : Parser :=
  let r := next_token p.lexer
  { p with lexer := r.2, current_token := r.1 }

/-- The function `expect_token`. -/
def expect_token (expected : TokenType) (p : Parser) : Except Fatal Parser :=
  if p.current_token.type ≠ expected then
    .error (.expected_token expected p.current_token.type)
  else .ok p.advance

/-- The C library `strdup`, which dereferences its argument. -/
def strdup (s : Option String) : Except Fatal String :=
  match s with
  | none => .error .null_deref
  | some v => .ok v

/-- The value of a decimal digit character. -/
def digit_value (c : Char) : Nat := c.toNat - '0'.toNat

/-- The number a run of decimal digits denotes. -/
def decimal_value (digits : List Char) : Nat :=
  digits.foldl (fun acc c => 10 * acc + digit_value c) 0

/-- The C library `atoi` on a run of decimal digits, as glibc computes it: `strtol` saturates at
`LONG_MAX` and the result is converted to a 32-bit `int`. The C standard leaves the result
undefined when the number exceeds `INT_MAX`. -/
def atoi (text : String) : Int :=
  let n : Nat := min (decimal_value (text.data.takeWhile isdigit)) (2 ^ 63 - 1)
  let m : Nat := n % 2 ^ 32
  if m < 2 ^ 31 then (m : Int) else (m : Int) - 2 ^ 32

/-- The head of a sibling chain under construction (`block->statements`, `args`, `params`) and
its tail pointer (`last_stmt`, `last_arg`, `last_param`): `nodes` lists the non-NULL nodes of
the chain in order, and `last_null` records that the tail pointer is NULL. -/
structure NodeChain where
  nodes : List ASTNode
  last_null : Bool
  deriving DecidableEq, Repr

/-- The chain with head and tail pointer NULL. -/
def NodeChain.empty : NodeChain := { nodes := [], last_null := true }

/-- The assignments `head = n; last = n;`. -/
def NodeChain.first (n : ASTNode) : NodeChain :=
  if n.is_null then { nodes := [], last_null := true } else { nodes := [n], last_null := false }

/-- The assignments `last->right = n; last = n;`, which dereference `last`. -/
def NodeChain.link_after (ch : NodeChain) (n : ASTNode) : Except Fatal NodeChain :=
  if ch.last_null then .error .null_deref
  else if n.is_null then
    .ok { nodes := ch.nodes.dropLast ++ (ch.nodes.getLast?.toList.map (fun l => l.set_right .null)),
          last_null := true }
  else .ok { nodes := ch.nodes ++ [n], last_null := false }

/-- The statement step shared by `parse_block` and `parse_program`:
`if (head == NULL) { head = stmt; last = stmt; } else { last->right = stmt; last = stmt; }`. -/
def NodeChain.append_stmt (ch : NodeChain) (stmt : ASTNode) : Except Fatal NodeChain :=
  if ch.nodes.isEmpty then .ok (NodeChain.first stmt) else ch.link_after stmt

/-- The tree the head pointer of a chain points to: every node's `right` field holds the next
node of the chain, and the last node keeps the `right` field it has. -/
def link_right : List ASTNode → ASTNode
  | [] => .null
  | [n] => n
  | n :: m :: rest => n.set_right (link_right (m :: rest))

/-- One parameter of a function definition in `parse_program`: the name, `:`, `int`, the
`AST_VAR_DECL` node and the `declare_param` call. -/
def parse_param (p : Parser) : Except Fatal (ASTNode × Parser) := do
  let param_name ← strdup p.current_token.value
  let p1 ← expect_token .TOKEN_IDENT p
  let param := (create_ast_node .AST_VAR_DECL).set_var_name (some param_name)
  let p2 ← expect_token .TOKEN_COLON p1
  let p3 ← expect_token .TOKEN_INT p2
  let (_, scope1) ← declare_param p3.current_scope param_name
  .ok (param, { p3 with current_scope := scope1 })

/-- The loop over the further parameters in `parse_program`:
`while (current_token->type == TOKEN_COMMA) { ... last_param->right = next_param; ... }`. -/
def parse_params_loop : Nat → NodeChain → Parser → Except Fatal (NodeChain × Parser)
  | 0, _, _ => .error .out_of_fuel
  | fuel + 1, ch, p =>
    if p.current_token.type = .TOKEN_COMMA then do
      let p1 ← expect_token .TOKEN_COMMA p
      let (next_param, p2) ← parse_param p1
      let ch1 ← ch.link_after next_param
      parse_params_loop fuel ch1 p2
    else .ok (ch, p)

mutual
/-- The function `parse_primary`. -/
def parse_primary : Nat → Parser → Except Fatal (ASTNode × Parser)
  | 0, _ => .error .out_of_fuel
  | fuel + 1, p => do
    let (node, p1) ← (
      if p.current_token.type = .TOKEN_INT_LIT then do
        let text ← strdup p.current_token.value
        .ok ((create_ast_node .AST_INT_LIT).set_int_value (atoi text), p.advance)
      else if p.current_token.type = .TOKEN_STRING_LIT then do
        let text ← strdup p.current_token.value
        .ok ((create_ast_node .AST_STRING_LIT).set_string_value (some text), p.advance)
      else if p.current_token.type = .TOKEN_IDENT then do
        let ident_name ← strdup p.current_token.value
        let peeked := next_token p.lexer
        if peeked.1.type = .TOKEN_LPAREN then do
          let p1 := { p with lexer := peeked.2, current_token := peeked.1 }
          let node := (create_ast_node .AST_CALL_EXPR).set_call_name (some ident_name)
          let p2 ← expect_token .TOKEN_LPAREN p1
          let (args, p3) ← parse_arguments fuel p2
          let p4 ← expect_token .TOKEN_RPAREN p3
          .ok (node.set_args args, p4)
        else
          .ok ((create_ast_node .AST_VAR).set_var_name (some ident_name),
               { p with lexer := peeked.2, current_token := peeked.1 })
      else if p.current_token.type = .TOKEN_MALLOC then do
        let p1 ← expect_token .TOKEN_MALLOC p
        let p2 ← expect_token .TOKEN_LPAREN p1
        let (size, p3) ← parse_expression fuel p2
        let p4 ← expect_token .TOKEN_RPAREN p3
        .ok ((create_ast_node .AST_MALLOC).set_left size, p4)
      else if p.current_token.type = .TOKEN_LPAREN then do
        let p1 ← expect_token .TOKEN_LPAREN p
        let (inner, p2) ← parse_expression fuel p1
        let p3 ← expect_token .TOKEN_RPAREN p2
        .ok (inner, p3)
      else .ok (ASTNode.null, p))
    if node.is_null then .error .failed_primary else .ok (node, p1)
/-- The argument list that `parse_primary` and `parse_statement` parse after the `(` of a call
(the same text at its three places in `parser.c`): returns the `args` pointer. -/
def parse_arguments : Nat → Parser → Except Fatal (ASTNode × Parser)
  | 0, _ => .error .out_of_fuel
  | fuel + 1, p =>
    if p.current_token.type ≠ .TOKEN_RPAREN then do
      let (arg, p1) ← parse_expression fuel p
      let (ch, p2) ← parse_arguments_loop fuel (NodeChain.first arg) p1
      .ok (link_right ch.nodes, p2)
    else .ok (ASTNode.null, p)
/-- The loop over the further arguments:
`while (current_token->type == TOKEN_COMMA) { ... last_arg->right = next_arg; ... }`. -/
def parse_arguments_loop : Nat → NodeChain → Parser → Except Fatal (NodeChain × Parser)
  | 0, _, _ => .error .out_of_fuel
  | fuel + 1, ch, p =>
    if p.current_token.type = .TOKEN_COMMA then do
      let p1 ← expect_token .TOKEN_COMMA p
      let (next_arg, p2) ← parse_expression fuel p1
      let ch1 ← ch.link_after next_arg
      parse_arguments_loop fuel ch1 p2
    else .ok (ch, p)
/-- The function `parse_unary`. -/
def parse_unary : Nat → Parser → Except Fatal (ASTNode × Parser)
  | 0, _ => .error .out_of_fuel
  | fuel + 1, p =>
    if p.current_token.type = .TOKEN_MINUS then do
      let p1 ← expect_token .TOKEN_MINUS p
      let node := (create_ast_node .AST_BINOP).set_binop .BINOP_MINUS
      let node := node.set_left ((create_ast_node .AST_INT_LIT).set_int_value 0)
      let (operand, p2) ← parse_unary fuel p1
      .ok (node.set_right operand, p2)
    else parse_primary fuel p
/-- The function `parse_multiplicative`. -/
def parse_multiplicative : Nat → Parser → Except Fatal (ASTNode × Parser)
  | 0, _ => .error .out_of_fuel
  | fuel + 1, p => do
    let (left, p1) ← parse_unary fuel p
    parse_multiplicative_loop fuel left p1
/-- The loop of `parse_multiplicative`, entered with `left`. -/
def parse_multiplicative_loop : Nat → ASTNode → Parser → Except Fatal (ASTNode × Parser)
  | 0, _, _ => .error .out_of_fuel
  | fuel + 1, left, p =>
    if p.current_token.type = .TOKEN_STAR ∨ p.current_token.type = .TOKEN_SLASH then do
      let node := create_ast_node .AST_BINOP
      let (node, p1) ← (
        if p.current_token.type = .TOKEN_STAR then do
          let p1 ← expect_token .TOKEN_STAR p
          .ok (node.set_binop .BINOP_MULT, p1)
        else do
          let p1 ← expect_token .TOKEN_SLASH p
          .ok (node.set_binop .BINOP_DIV, p1))
      let node := node.set_left left
      let (right, p2) ← parse_unary fuel p1
      parse_multiplicative_loop fuel (node.set_right right) p2
    else .ok (left, p)
/-- The function `parse_additive`. -/
def parse_additive : Nat → Parser → Except Fatal (ASTNode × Parser)
  | 0, _ => .error .out_of_fuel
  | fuel + 1, p => do
    let (left, p1) ← parse_multiplicative fuel p
    parse_additive_loop fuel left p1
/-- The loop of `parse_additive`, entered with `left`. -/
def parse_additive_loop : Nat → ASTNode → Parser → Except Fatal (ASTNode × Parser)
  | 0, _, _ => .error .out_of_fuel
  | fuel + 1, left, p =>
    if p.current_token.type = .TOKEN_PLUS ∨ p.current_token.type = .TOKEN_MINUS then do
      let node := create_ast_node .AST_BINOP
      let (node, p1) ← (
        if p.current_token.type = .TOKEN_PLUS then do
          let p1 ← expect_token .TOKEN_PLUS p
          .ok (node.set_binop .BINOP_PLUS, p1)
        else do
          let p1 ← expect_token .TOKEN_MINUS p
          .ok (node.set_binop .BINOP_MINUS, p1))
      let node := node.set_left left
      let (right, p2) ← parse_multiplicative fuel p1
      parse_additive_loop fuel (node.set_right right) p2
    else .ok (left, p)
/-- The function `parse_comparison`. -/
def parse_comparison : Nat → Parser → Except Fatal (ASTNode × Parser)
  | 0, _ => .error .out_of_fuel
  | fuel + 1, p => do
    let (left, p1) ← parse_additive fuel p
    let t := p1.current_token.type
    if t = .TOKEN_EQ ∨ t = .TOKEN_NE ∨ t = .TOKEN_LT ∨ t = .TOKEN_GT ∨ t = .TOKEN_LE
        ∨ t = .TOKEN_GE then do
      let node := create_ast_node .AST_COMPARE
      let (node, p2) ← (
        if t = .TOKEN_EQ then do
          let p2 ← expect_token .TOKEN_EQ p1
          .ok (node.set_compare_op .COMPARE_EQ, p2)
        else if t = .TOKEN_NE then do
          let p2 ← expect_token .TOKEN_NE p1
          .ok (node.set_compare_op .COMPARE_NE, p2)
        else if t = .TOKEN_LT then do
          let p2 ← expect_token .TOKEN_LT p1
          .ok (node.set_compare_op .COMPARE_LT, p2)
        else if t = .TOKEN_GT then do
          let p2 ← expect_token .TOKEN_GT p1
          .ok (node.set_compare_op .COMPARE_GT, p2)
        else if t = .TOKEN_LE then do
          let p2 ← expect_token .TOKEN_LE p1
          .ok (node.set_compare_op .COMPARE_LE, p2)
        else do
          let p2 ← expect_token .TOKEN_GE p1
          .ok (node.set_compare_op .COMPARE_GE, p2))
      let node := node.set_left left
      let (right, p3) ← parse_additive fuel p2
      .ok (node.set_right right, p3)
    else .ok (left, p1)
/-- The function `parse_expression`. -/
def parse_expression : Nat → Parser → Except Fatal (ASTNode × Parser)
  | 0, _ => .error .out_of_fuel
  | fuel + 1, p => parse_comparison fuel p
/-- The function `parse_block`. -/
def parse_block : Nat → Parser → Except Fatal (ASTNode × Parser)
  | 0, _ => .error .out_of_fuel
  | fuel + 1, p => do
    let p1 ← expect_token .TOKEN_LBRACE p
    let block := create_ast_node .AST_BLOCK
    let (ch, stmt_count, p2) ← parse_block_loop fuel NodeChain.empty 0 p1
    let p3 ← expect_token .TOKEN_RBRACE p2
    .ok ((block.set_statements (link_right ch.nodes)).set_stmt_count stmt_count, p3)
/-- The loop of `parse_block`, entered with the chain and the count built so far. -/
def parse_block_loop : Nat → NodeChain → Int → Parser → Except Fatal (NodeChain × Int × Parser)
  | 0, _, _, _ => .error .out_of_fuel
  | fuel + 1, ch, stmt_count, p =>
    if p.current_token.type ≠ .TOKEN_RBRACE then do
      let (stmt, p1) ← parse_statement fuel p
      let ch1 ← ch.append_stmt stmt
      parse_block_loop fuel ch1 (stmt_count + 1) p1
    else .ok (ch, stmt_count, p)
/-- The function `parse_statement`. -/
def parse_statement : Nat → Parser → Except Fatal (ASTNode × Parser)
  | 0, _ => .error .out_of_fuel
  | fuel + 1, p =>
    if p.current_token.type = .TOKEN_LET then do
      let p1 ← expect_token .TOKEN_LET p
      let var_name ← strdup p1.current_token.value
      let p2 ← expect_token .TOKEN_IDENT p1
      let p3 ← expect_token .TOKEN_COLON p2
      let (is_string, p4) ← (
        if p3.current_token.type = .TOKEN_STRING then do
          let p4 ← expect_token .TOKEN_STRING p3
          .ok ((1 : Int), p4)
        else do
          let p4 ← expect_token .TOKEN_INT p3
          .ok ((0 : Int), p4))
      let p5 ← expect_token .TOKEN_ASSIGN p4
      let node := (create_ast_node .AST_VAR_DECL).set_var_name (some var_name)
      let node := node.set_int_value (if is_string ≠ 0 then 1 else 0)
      let (init, p6) ← parse_expression fuel p5
      let node := node.set_left init
      let p7 ← expect_token .TOKEN_SEMICOLON p6
      match p7.current_scope with
      | .null => .ok (node, p7)
      | scope => do
        let (_, scope1) ← declare_var scope var_name .SYM_VAR
        .ok (node, { p7 with current_scope := scope1 })
    else if p.current_token.type = .TOKEN_IDENT then do
      let name ← strdup p.current_token.value
      let p1 := p.advance
      if p1.current_token.type = .TOKEN_ASSIGN then do
        let p2 ← expect_token .TOKEN_ASSIGN p1
        let node := (create_ast_node .AST_ASSIGN).set_var_name (some name)
        let (value, p3) ← parse_expression fuel p2
        let p4 ← expect_token .TOKEN_SEMICOLON p3
        .ok (node.set_left value, p4)
      else if p1.current_token.type = .TOKEN_LPAREN then do
        let node := (create_ast_node .AST_CALL_STMT).set_call_name (some name)
        let p2 ← expect_token .TOKEN_LPAREN p1
        let (args, p3) ← parse_arguments fuel p2
        let p4 ← expect_token .TOKEN_RPAREN p3
        let p5 ← expect_token .TOKEN_SEMICOLON p4
        .ok (node.set_args args, p5)
      else .ok (ASTNode.null, p1)
    else if p.current_token.type = .TOKEN_CALL then do
      let p1 ← expect_token .TOKEN_CALL p
      let p2 ← expect_token .TOKEN_IDENT p1
      let node := create_ast_node .AST_CALL_STMT
      let call_name ← strdup p2.current_token.value
      let node := node.set_call_name (some call_name)
      let p3 := p2.advance
      let p4 ← expect_token .TOKEN_LPAREN p3
      let (args, p5) ← parse_arguments fuel p4
      let p6 ← expect_token .TOKEN_RPAREN p5
      let p7 ← expect_token .TOKEN_SEMICOLON p6
      .ok (node.set_args args, p7)
    else if p.current_token.type = .TOKEN_RETURN then do
      let p1 ← expect_token .TOKEN_RETURN p
      let (value, p2) ← parse_expression fuel p1
      let p3 ← expect_token .TOKEN_SEMICOLON p2
      .ok ((create_ast_node .AST_RETURN).set_left value, p3)
    else if p.current_token.type = .TOKEN_IF then do
      let p1 ← expect_token .TOKEN_IF p
      let p2 ← expect_token .TOKEN_LPAREN p1
      let node := create_ast_node .AST_IF
      let (condition, p3) ← parse_expression fuel p2
      let node := node.set_condition condition
      let p4 ← expect_token .TOKEN_RPAREN p3
      let (then_block, p5) ← parse_block fuel p4
      let node := node.set_then_block then_block
      if p5.current_token.type = .TOKEN_ELSE then do
        let p6 ← expect_token .TOKEN_ELSE p5
        if p6.current_token.type = .TOKEN_IF then do
          let else_if_block := create_ast_node .AST_BLOCK
          let (nested, p7) ← parse_statement fuel p6
          let else_if_block := (else_if_block.set_statements nested).set_stmt_count 1
          .ok (node.set_else_block else_if_block, p7)
        else do
          let (else_block, p7) ← parse_block fuel p6
          .ok (node.set_else_block else_block, p7)
      else .ok (node, p5)
    else if p.current_token.type = .TOKEN_WHILE then do
      let p1 ← expect_token .TOKEN_WHILE p
      let p2 ← expect_token .TOKEN_LPAREN p1
      let node := create_ast_node .AST_WHILE
      let (condition, p3) ← parse_expression fuel p2
      let node := node.set_condition condition
      let p4 ← expect_token .TOKEN_RPAREN p3
      let (body, p5) ← parse_block fuel p4
      .ok (node.set_body body, p5)
    else if p.current_token.type = .TOKEN_PRINT then do
      let p1 ← expect_token .TOKEN_PRINT p
      let p2 ← expect_token .TOKEN_LPAREN p1
      let (value, p3) ← parse_expression fuel p2
      let p4 ← expect_token .TOKEN_RPAREN p3
      let p5 ← expect_token .TOKEN_SEMICOLON p4
      .ok ((create_ast_node .AST_PRINT).set_left value, p5)
    else if p.current_token.type = .TOKEN_FREE then do
      let p1 ← expect_token .TOKEN_FREE p
      let p2 ← expect_token .TOKEN_LPAREN p1
      let (pointer, p3) ← parse_expression fuel p2
      let p4 ← expect_token .TOKEN_RPAREN p3
      let p5 ← expect_token .TOKEN_SEMICOLON p4
      .ok ((create_ast_node .AST_FREE).set_left pointer, p5)
    else if p.current_token.type = .TOKEN_LBRACE then
      parse_block fuel p
    else .error (.unexpected_statement_token p.current_token.type)
end

/-- The `TOKEN_FN` branch of the loop of `parse_program`: one function definition. -/
def parse_function (fuel : Nat) (p : Parser) : Except Fatal (ASTNode × Parser) := do
  let p1 ← expect_token .TOKEN_FN p
  let fn_name ← strdup p1.current_token.value
  let p2 ← expect_token .TOKEN_IDENT p1
  let p3 ← expect_token .TOKEN_LPAREN p2
  let stmt := (create_ast_node .AST_FN_DEF).set_fn_name (some fn_name)
  let old_scope := p3.current_scope
  let p4 := { p3 with current_scope := create_scope p3.current_scope }
  let (stmt, p5) ← (
    if p4.current_token.type ≠ .TOKEN_RPAREN then do
      let (param, p5) ← parse_param p4
      let (ch, p6) ← parse_params_loop fuel (NodeChain.first param) p5
      .ok (stmt.set_params (link_right ch.nodes), p6)
    else .ok (stmt, p4))
  let p6 ← expect_token .TOKEN_RPAREN p5
  let p7 ← expect_token .TOKEN_ARROW p6
  let p8 ← expect_token .TOKEN_INT p7
  let (body, p9) ← parse_block fuel p8
  .ok (stmt.set_body_nodes body, { p9 with current_scope := old_scope })

/-- The loop of `parse_program`, entered with the chain and the count built so far. -/
def parse_program_loop : Nat → NodeChain → Int → Parser → Except Fatal (NodeChain × Int × Parser)
  | 0, _, _, _ => .error .out_of_fuel
  | fuel + 1, ch, stmt_count, p =>
    if p.current_token.type ≠ .TOKEN_EOF then do
      let (stmt, p1) ← (
        if p.current_token.type = .TOKEN_FN then parse_function fuel p
        else parse_statement fuel p)
      let ch1 ← ch.append_stmt stmt
      parse_program_loop fuel ch1 (stmt_count + 1) p1
    else .ok (ch, stmt_count, p)

/-- The function `parse_program`, run on a freshly initialised lexer over `source`; `fuel`
bounds the depth of the recursion of the embedded parser. -/
def parse_program (fuel : Nat) (source : List Char) : Except Fatal ASTNode := do
  let first := next_token (init_lexer source)
  let p : Parser :=
    { lexer := first.2, current_token := first.1, current_scope := create_scope .null }
  let program := create_ast_node .AST_PROGRAM
  let (ch, stmt_count, _) ← parse_program_loop fuel NodeChain.empty 0 p
  .ok ((program.set_statements (link_right ch.nodes)).set_stmt_count stmt_count)

/-- The pipeline of `main` up to the IR: `init_lexer`, `parse_program`, `generate_code`. -/
def compile (fuel : Nat) (source : List Char) : Except Fatal (List IRInstruction) := do
  let ast ← parse_program fuel source
  generate_code ast

/-! ### Vocabulary of the statements below -/

/-- An instruction without label and string payload, as `emit_ir(program, op, operand, NULL)`
leaves it. -/
def ir (op : IROp) (operand : Int) : IRInstruction :=
  { op := op, operand := operand, label := none, str_value := none }

/-- An instruction with a label, as `emit_ir(program, op, operand, label)` leaves it. -/
def ir_label (op : IROp) (operand : Int) (label : String) : IRInstruction :=
  { op := op, operand := operand, label := some label, str_value := none }

/-- The number of nodes on the chain that starts at a node and follows the `right` fields. -/
def chain_length : ASTNode → Int
  | .null => 0
  | .node _ _ right _ _ _ _ _ _ _ _ _ _ _ _ _ _ _ _ => 1 + chain_length right

/-- The arithmetic instruction of an operator tag. -/
def binop_ir : BinOpType → IRInstruction
  | .BINOP_PLUS => ir .IR_ADD 0
  | .BINOP_MINUS => ir .IR_SUB 0
  | .BINOP_MULT => ir .IR_MUL 0
  | .BINOP_DIV => ir .IR_DIV 0

/-- The lowering of one expression node, given the lowering of its operands and of its argument
chain: a variable reference loads the offset `ρ` gives its name. -/
def lower_expression_node (ρ : String → Int) (type : ASTNodeType)
    (low_left low_right low_args : List IRInstruction) (arg_count : Int)
    (call_name var_name : Option String) (int_value : Int) (string_value : Option String)
    (binop : BinOpType) (compare_op : CompareOpType) : List IRInstruction :=
  match type with
  | .AST_INT_LIT => [ir .IR_PUSH int_value]
  | .AST_STRING_LIT => [{ op := .IR_PUSH_STR, operand := 0, label := none, str_value := string_value }]
  | .AST_MALLOC => low_left ++ [ir .IR_MALLOC 0]
  | .AST_VAR => [ir .IR_LOAD (ρ (var_name.getD ""))]
  | .AST_BINOP => low_left ++ low_right ++ [binop_ir binop]
  | .AST_COMPARE => low_left ++ low_right ++ [ir .IR_CMP compare_op.toInt]
  | .AST_CALL_EXPR => low_args ++ [ir_label .IR_CALL arg_count (mangle (call_name.getD ""))]
  | _ => []

mutual
/-- The lowering of an expression under the offsets `ρ`. -/
def lower_expression (ρ : String → Int) : ASTNode → List IRInstruction
  | .null => []
  | .node type left right _ _ _ _ _ _ _ call_name args var_name int_value string_value
      binop compare_op _ _ =>
    lower_expression_node ρ type (lower_expression ρ left) (lower_expression ρ right)
      (lower_call_args ρ args) (chain_length args) call_name var_name int_value string_value
      binop compare_op
/-- The lowering of the nodes of a `right` chain, one after the other. -/
def lower_call_args (ρ : String → Int) : ASTNode → List IRInstruction
  | .null => []
  | .node type left right _ _ _ _ _ _ _ call_name args var_name int_value string_value
      binop compare_op _ _ =>
    lower_expression_node ρ type (lower_expression ρ left) (lower_expression ρ right)
      (lower_call_args ρ args) (chain_length args) call_name var_name int_value string_value
      binop compare_op ++ lower_call_args ρ right
end

/-- The names one statement node declares, given the names its blocks declare. -/
def declared_statement_node (type : ASTNodeType) (d_then d_else d_body d_self : List String)
    (var_name : Option String) : List String :=
  match type with
  | .AST_VAR_DECL => var_name.toList
  | .AST_IF => d_then ++ d_else
  | .AST_WHILE => d_body
  | .AST_BLOCK => d_self
  | _ => []

mutual
/-- The names of the variable declarations of a statement, nested blocks included, in lowering
order and with repetitions. -/
def declared_statement : ASTNode → List String
  | .null => []
  | .node type _ _ _ then_block else_block body _ _ _ _ _ var_name _ _ _ _ statements _ =>
    declared_statement_node type (declared_block then_block) (declared_block else_block)
      (declared_block body) (declared_statement_list statements) var_name
/-- The names of the variable declarations of a block. -/
def declared_block : ASTNode → List String
  | .null => []
  | .node type _ _ _ _ _ _ _ _ _ _ _ _ _ _ _ _ statements _ =>
    if type ≠ .AST_BLOCK then [] else declared_statement_list statements
/-- The names of the variable declarations of the statements of a `right` chain. -/
def declared_statement_list : ASTNode → List String
  | .null => []
  | .node type _ right _ then_block else_block body _ _ _ _ _ var_name _ _ _ _ statements _ =>
    declared_statement_node type (declared_block then_block) (declared_block else_block)
      (declared_block body) (declared_statement_list statements) var_name
      ++ declared_statement_list right
end

/-- The number of labels one statement node takes from the counter. -/
def label_count_statement_node (type : ASTNodeType) (n_then n_else n_body n_self : Nat) : Nat :=
  match type with
  | .AST_IF => 2 + n_then + n_else
  | .AST_WHILE => 2 + n_body
  | .AST_BLOCK => n_self
  | _ => 0

mutual
/-- The number of labels the lowering of a statement takes from the counter. -/
def label_count_statement : ASTNode → Nat
  | .null => 0
  | .node type _ _ _ then_block else_block body _ _ _ _ _ _ _ _ _ _ statements _ =>
    label_count_statement_node type (label_count_block then_block) (label_count_block else_block)
      (label_count_block body) (label_count_statement_list statements)
/-- The number of labels the lowering of a block takes from the counter. -/
def label_count_block : ASTNode → Nat
  | .null => 0
  | .node type _ _ _ _ _ _ _ _ _ _ _ _ _ _ _ _ statements _ =>
    if type ≠ .AST_BLOCK then 0 else label_count_statement_list statements
/-- The number of labels the lowering of the statements of a `right` chain takes. -/
def label_count_statement_list : ASTNode → Nat
  | .null => 0
  | .node type _ right _ then_block else_block body _ _ _ _ _ _ _ _ _ _ statements _ =>
    label_count_statement_node type (label_count_block then_block) (label_count_block else_block)
      (label_count_block body) (label_count_statement_list statements)
      + label_count_statement_list right
end

/-- The lowering of one statement node at label counter `k`, given the lowering of its
expressions and blocks: a declaration and an assignment store at the offset `ρ` gives the name;
an `if` takes the labels `else_k` and `endif_(k+1)`, a `while` the labels `loop_k` and
`endloop_(k+1)`, and their blocks are lowered with the counters that follow. -/
def lower_statement_node (ρ : String → Int) (type : ASTNodeType)
    (low_left low_condition low_args : List IRInstruction) (arg_count : Int)
    (low_then low_else low_body low_self : Nat → List IRInstruction) (n_then : Nat)
    (has_else : Bool) (call_name var_name : Option String) (k : Nat) : List IRInstruction :=
  match type with
  | .AST_VAR_DECL => low_left ++ [ir .IR_STORE (ρ (var_name.getD ""))]
  | .AST_ASSIGN => low_left ++ [ir .IR_STORE (ρ (var_name.getD ""))]
  | .AST_RETURN => low_left ++ [ir .IR_RET 0]
  | .AST_CALL_STMT =>
    low_args ++ [ir_label .IR_CALL arg_count (mangle (call_name.getD "")), ir .IR_POP 0]
  | .AST_IF =>
    if has_else then
      low_condition ++ [ir_label .IR_JZ 0 (label_text "else" k)] ++ low_then (k + 2)
        ++ [ir_label .IR_JMP 0 (label_text "endif" (k + 1)),
            ir_label .IR_LABEL 0 (label_text "else" k)]
        ++ low_else (k + 2 + n_then) ++ [ir_label .IR_LABEL 0 (label_text "endif" (k + 1))]
    else
      low_condition ++ [ir_label .IR_JZ 0 (label_text "else" k)] ++ low_then (k + 2)
        ++ [ir_label .IR_LABEL 0 (label_text "else" k)]
  | .AST_WHILE =>
    [ir_label .IR_LABEL 0 (label_text "loop" k)] ++ low_condition
      ++ [ir_label .IR_JZ 0 (label_text "endloop" (k + 1))] ++ low_body (k + 2)
      ++ [ir_label .IR_JMP 0 (label_text "loop" k),
          ir_label .IR_LABEL 0 (label_text "endloop" (k + 1))]
  | .AST_BLOCK => low_self k
  | .AST_PRINT => low_left ++ [ir .IR_PRINT 0]
  | .AST_FREE => low_left ++ [ir .IR_FREE 0]
  | _ => []

mutual
/-- The lowering of a statement under the offsets `ρ` at label counter `k`. -/
def lower_statement (ρ : String → Int) : ASTNode → Nat → List IRInstruction
  | .null, _ => []
  | .node type left _ condition then_block else_block body _ _ _ call_name args var_name _ _
      _ _ statements _, k =>
    lower_statement_node ρ type (lower_expression ρ left) (lower_expression ρ condition)
      (lower_call_args ρ args) (chain_length args) (lower_block ρ then_block)
      (lower_block ρ else_block) (lower_block ρ body) (lower_statement_list ρ statements)
      (label_count_block then_block) (!else_block.is_null) call_name var_name k
/-- The lowering of a block under the offsets `ρ` at label counter `k`. -/
def lower_block (ρ : String → Int) : ASTNode → Nat → List IRInstruction
  | .null, _ => []
  | .node type _ _ _ _ _ _ _ _ _ _ _ _ _ _ _ _ statements _, k =>
    if type ≠ .AST_BLOCK then [] else lower_statement_list ρ statements k
/-- The lowering of the statements of a `right` chain, one after the other, each at the
counter the statements before it leave. -/
def lower_statement_list (ρ : String → Int) : ASTNode → Nat → List IRInstruction
  | .null, _ => []
  | .node type left right condition then_block else_block body _ _ _ call_name args var_name _ _
      _ _ statements _, k =>
    lower_statement_node ρ type (lower_expression ρ left) (lower_expression ρ condition)
      (lower_call_args ρ args) (chain_length args) (lower_block ρ then_block)
      (lower_block ρ else_block) (lower_block ρ body) (lower_statement_list ρ statements)
      (label_count_block then_block) (!else_block.is_null) call_name var_name k
    ++ lower_statement_list ρ right
        (k + label_count_statement_node type (label_count_block then_block)
          (label_count_block else_block) (label_count_block body)
          (label_count_statement_list statements))
end

/-- The scope after the declarations of a list of names are lowered in order, as the
`AST_VAR_DECL` case of `gen_statement` treats them: a name `lookup` resolves allocates nothing,
any other name is declared with `declare_var`. -/
def allocate_locals : Scope → List String → Scope
  | scope, [] => scope
  | scope, name :: rest =>
    match lookup scope name with
    | some _ => allocate_locals scope rest
    | none =>
      match declare_var scope name .SYM_VAR with
      | .ok (_, scope1) => allocate_locals scope1 rest
      | .error _ => scope

/-- The environment `ρ` gives every name `lookup` resolves in the scope the offset of the symbol
found. -/
def agrees (ρ : String → Int) (scope : Scope) : Prop :=
  ∀ name sym, lookup scope name = some sym → ρ name = sym.offset

/-- The names of the nodes of a `right` chain of parameter nodes. -/
def param_names : ASTNode → List String
  | .null => []
  | .node _ _ right _ _ _ _ _ _ _ _ _ var_name _ _ _ _ _ _ =>
    var_name.getD "" :: param_names right

/-- The first occurrences of the elements of a list, in order. -/
def first_occurrences : List String → List String
  | [] => []
  | name :: rest => name :: (first_occurrences rest).filter (fun other => other != name)

/-- The contract of a lowering step for an expression: when it returns, scope and label
counter are unchanged and the program has grown by `low ρ`, for every environment `ρ` that agrees
with the scope. -/
def ExprSpec (g : CodeGen → Except Fatal CodeGen) (low : (String → Int) → List IRInstruction) :
    Prop :=
  ∀ cg cg1, g cg = .ok cg1 →
    cg1.current_scope = cg.current_scope ∧ cg1.label_counter = cg.label_counter ∧
    ∀ ρ, agrees ρ cg.current_scope → cg1.current_program = cg.current_program ++ low ρ

/-- The contract of the argument loop: as `ExprSpec`, and the count returned is `count`. -/
def ArgsSpec (g : CodeGen → Except Fatal (Int × CodeGen)) (count : Int)
    (low : (String → Int) → List IRInstruction) : Prop :=
  ∀ cg c cg1, g cg = .ok (c, cg1) →
    c = count ∧ cg1.current_scope = cg.current_scope ∧ cg1.label_counter = cg.label_counter ∧
    ∀ ρ, agrees ρ cg.current_scope → cg1.current_program = cg.current_program ++ low ρ

/-- The contract of a lowering step for a statement: when it returns, the scope is the one
`allocate_locals` gives for the names `decls`, the label counter has advanced by `labels`, and
the program has grown by `low ρ k` (`k` the counter at entry), for every environment `ρ` that
agrees with the final scope. -/
def StmtSpec (g : CodeGen → Except Fatal CodeGen) (decls : List String) (labels : Nat)
    (low : (String → Int) → Nat → List IRInstruction) : Prop :=
  ∀ cg cg1, g cg = .ok cg1 →
    cg1.current_scope = allocate_locals cg.current_scope decls ∧
    cg1.label_counter = cg.label_counter + labels ∧
    ∀ ρ, agrees ρ cg1.current_scope →
      cg1.current_program = cg.current_program ++ low ρ cg.label_counter

/-- The error contract of a lowering step: it fails with the undefined-variable error only for a
name `lookup` does not resolve in the scope at entry. -/
def UndefSpec (g : CodeGen → Except Fatal CodeGen) : Prop :=
  ∀ cg v, g cg = .error (.undefined_variable v) → lookup cg.current_scope v = none

/-- The error contract of the argument loop. -/
def UndefArgsSpec (g : CodeGen → Except Fatal (Int × CodeGen)) : Prop :=
  ∀ cg v, g cg = .error (.undefined_variable v) → lookup cg.current_scope v = none

/-! ### Visibility of names, as the specification describes it -/

/-- The field `node->fn_name`. -/
def ASTNode.get_fn_name : ASTNode → Option String
  | .null => none
  | .node _ _ _ _ _ _ _ fn_name _ _ _ _ _ _ _ _ _ _ _ => fn_name

/-- The field `node->params`. -/
def ASTNode.get_params : ASTNode → ASTNode
  | .null => .null
  | .node _ _ _ _ _ _ _ _ params _ _ _ _ _ _ _ _ _ _ => params

/-- The field `node->body_nodes`. -/
def ASTNode.get_body_nodes : ASTNode → ASTNode
  | .null => .null
  | .node _ _ _ _ _ _ _ _ _ body_nodes _ _ _ _ _ _ _ _ _ => body_nodes

/-- The field `node->statements`. -/
def ASTNode.get_statements : ASTNode → ASTNode
  | .null => .null
  | .node _ _ _ _ _ _ _ _ _ _ _ _ _ _ _ _ _ statements _ => statements

/-- The tree `parse_program` returns for a source text (NULL when the parser does not
return). -/
def program_tree (source : String) : ASTNode :=
  match parse_program 100 source.toList with
  | .ok ast => ast
  | .error _ => .null

/-- A function whose body refers to its parameters inside a `while` and a nested `if`. -/
def loop_function_source : String :=
  "fn f(a: int, b: int) -> int { while (a < b) { if (b) { a = a + b; } } return a; }"

/-- A function that declares `x`, `y`, `x` again, its parameter `p` and `z`, three of them in
a nested block. -/
def locals_function_source : String :=
  "fn f(p: int) -> int { let x: int = 1; if (p) { let y: int = 2; let x: int = 3; let p: int = 4; } let z: int = y; return z; }"

/-- The first top-level statement of the tree `parse_program` returns for a source text
(NULL when the parser does not return). -/
def first_statement (source : String) : ASTNode :=
  match parse_program 100 source.toList with
  | .ok ast => ast.get_statements
  | .error _ => .null

/-- The environment a scope induces: every name `lookup` resolves has the offset of the symbol
found (0 for the other names). -/
def scope_offsets (scope : Scope) : String → Int :=
  fun name => match lookup scope name with
    | some sym => sym.offset
    | none => 0

/-- The check of one expression node against the visible names, given the checks of its
operands and of its argument chain: a variable reference must be to a visible name. -/
def scan_expression_node (type : ASTNodeType) (scan_left scan_right scan_args : Except Fatal Unit)
    (call_name var_name : Option String) (visible : List String) : Except Fatal Unit :=
  match type with
  | .AST_INT_LIT => .ok ()
  | .AST_STRING_LIT => .ok ()
  | .AST_MALLOC => scan_left
  | .AST_VAR =>
    match var_name with
    | none => .error .null_deref
    | some name => if name ∈ visible then .ok () else .error (.undefined_variable name)
  | .AST_BINOP => do scan_left; scan_right
  | .AST_COMPARE => do scan_left; scan_right
  | .AST_CALL_EXPR => do
    scan_args
    match call_name with
    | none => .error .null_deref
    | some _ => .ok ()
  | t => .error (.unexpected_expression_node t)

mutual
/-- The first failure met when the nodes of an expression are visited in lowering order with
the given visible names, if any. -/
def scan_expression (visible : List String) : ASTNode → Except Fatal Unit
  | .null => .ok ()
  | .node type left right _ _ _ _ _ _ _ call_name args var_name _ _ _ _ _ _ =>
    scan_expression_node type (scan_expression visible left) (scan_expression visible right)
      (scan_call_args visible args) call_name var_name visible
/-- The check of the nodes of a `right` chain, one after the other. -/
def scan_call_args (visible : List String) : ASTNode → Except Fatal Unit
  | .null => .ok ()
  | .node type left right _ _ _ _ _ _ _ call_name args var_name _ _ _ _ _ _ => do
    scan_expression_node type (scan_expression visible left) (scan_expression visible right)
      (scan_call_args visible args) call_name var_name visible
    scan_call_args visible right
end

/-- The check of one statement node: a declaration makes its name visible from then on, an
assignment must be to a visible name; returns the names visible after the statement. -/
def scan_statement_node (type : ASTNodeType) (scan_left scan_condition scan_args : Except Fatal Unit)
    (scan_then scan_else scan_body scan_self : List String → Except Fatal (List String))
    (has_else : Bool) (call_name var_name : Option String) (visible : List String) :
    Except Fatal (List String) :=
  match type with
  | .AST_VAR_DECL => do
    scan_left
    match var_name with
    | none => .error .null_deref
    | some name => .ok (if name ∈ visible then visible else name :: visible)
  | .AST_ASSIGN => do
    scan_left
    match var_name with
    | none => .error .null_deref
    | some name => if name ∈ visible then .ok visible else .error (.undefined_variable name)
  | .AST_RETURN => do scan_left; .ok visible
  | .AST_CALL_STMT => do
    scan_args
    match call_name with
    | none => .error .null_deref
    | some _ => .ok visible
  | .AST_IF => do
    scan_condition
    let visible1 ← scan_then visible
    if has_else then scan_else visible1 else .ok visible1
  | .AST_WHILE => do
    scan_condition
    scan_body visible
  | .AST_BLOCK => scan_self visible
  | .AST_PRINT => do scan_left; .ok visible
  | .AST_FREE => do scan_left; .ok visible
  | t => .error (.unexpected_statement_node t)

mutual
/-- The check of a statement against the visible names; returns the names visible after it. -/
def scan_statement : ASTNode → List String → Except Fatal (List String)
  | .null, visible => .ok visible
  | .node type left _ condition then_block else_block body _ _ _ call_name args var_name _ _
      _ _ statements _, visible =>
    scan_statement_node type (scan_expression visible left) (scan_expression visible condition)
      (scan_call_args visible args) (scan_block then_block) (scan_block else_block)
      (scan_block body) (scan_statement_list statements) (!else_block.is_null) call_name
      var_name visible
/-- The check of a block. -/
def scan_block : ASTNode → List String → Except Fatal (List String)
  | .null, visible => .ok visible
  | .node type _ _ _ _ _ _ _ _ _ _ _ _ _ _ _ _ statements _, visible =>
    if type ≠ .AST_BLOCK then .ok visible else scan_statement_list statements visible
/-- The check of the statements of a `right` chain, one after the other. -/
def scan_statement_list : ASTNode → List String → Except Fatal (List String)
  | .null, visible => .ok visible
  | .node type left right condition then_block else_block body _ _ _ call_name args var_name _ _
      _ _ statements _, visible => do
    let visible1 ← scan_statement_node type (scan_expression visible left)
      (scan_expression visible condition) (scan_call_args visible args) (scan_block then_block)
      (scan_block else_block) (scan_block body) (scan_statement_list statements)
      (!else_block.is_null) call_name var_name visible
    scan_statement_list right visible1
end

/-- The names of a chain of parameter nodes, last parameter first, put before the visible
names; fails on a node without a name. -/
def scan_params : ASTNode → List String → Except Fatal (List String)
  | .null, visible => .ok visible
  | .node _ _ right _ _ _ _ _ _ _ _ _ var_name _ _ _ _ _ _, visible =>
    match var_name with
    | none => .error .null_deref
    | some name => scan_params right (name :: visible)

/-- The check of a function definition: inside the body the parameters and the names visible
at the definition are visible, and the names declared in the body stay inside it. -/
def scan_function (fn_name : Option String) (params body_nodes : ASTNode)
    (visible : List String) : Except Fatal (List String) := do
  let visible1 ← scan_params params visible
  match fn_name with
  | none => .error .null_deref
  | some _ => do
    let _ ← scan_block body_nodes visible1
    .ok visible

/-- The check of the top-level statements, in order. -/
def scan_toplevel : ASTNode → List String → Except Fatal (List String)
  | .null, visible => .ok visible
  | .node type left right condition then_block else_block body fn_name params body_nodes
      call_name args var_name int_value string_value binop compare_op statements stmt_count,
      visible => do
    let visible1 ← (if type = .AST_FN_DEF then scan_function fn_name params body_nodes visible
      else scan_statement (.node type left right condition then_block else_block body fn_name
        params body_nodes call_name args var_name int_value string_value binop compare_op
        statements stmt_count) visible)
    scan_toplevel right visible1

/-- The first failure met when a program is visited in lowering order, starting with no
visible name: in particular the first reference or assignment to a name that is not visible. -/
def scan_program : ASTNode → Except Fatal Unit
  | .null => .ok ()
  | .node type _ _ _ _ _ _ _ _ _ _ _ _ _ _ _ _ statements _ =>
    if type ≠ .AST_PROGRAM then .ok ()
    else do
      let _ ← scan_toplevel statements []
      .ok ()

/-- The scope of a generator state resolves exactly the visible names. -/
def Visible (scope : Scope) (visible : List String) : Prop :=
  scope ≠ .null ∧ ∀ name, lookup scope name ≠ none ↔ name ∈ visible

/-- The outcome of a generator step on an expression matches the outcome of the check. -/
def MatchesExpr : Except Fatal CodeGen → Except Fatal Unit → Prop
  | .ok _, .ok _ => True
  | .error e1, .error e2 => e1 = e2
  | _, _ => False

/-- The outcome of the argument loop matches the outcome of the check. -/
def MatchesArgs : Except Fatal (Int × CodeGen) → Except Fatal Unit → Prop
  | .ok _, .ok _ => True
  | .error e1, .error e2 => e1 = e2
  | _, _ => False

/-- The outcome of the parameter loop matches the outcome of the check. -/
def MatchesScope : Except Fatal Scope → Except Fatal (List String) → Prop
  | .ok scope, .ok visible => Visible scope visible
  | .error e1, .error e2 => e1 = e2
  | _, _ => False

/-- The outcome of a generator step on a statement matches the outcome of the check. -/
def MatchesStmt : Except Fatal CodeGen → Except Fatal (List String) → Prop
  | .ok cg, .ok visible => Visible cg.current_scope visible
  | .error e1, .error e2 => e1 = e2
  | _, _ => False

/-! ### Control flow and function definitions: fields and sample programs -/

/-- The field `node->condition`. -/
def ASTNode.get_condition : ASTNode → ASTNode
  | .null => .null
  | .node _ _ _ condition _ _ _ _ _ _ _ _ _ _ _ _ _ _ _ => condition

/-- The field `node->then_block`. -/
def ASTNode.get_then_block : ASTNode → ASTNode
  | .null => .null
  | .node _ _ _ _ then_block _ _ _ _ _ _ _ _ _ _ _ _ _ _ => then_block

/-- The field `node->else_block`. -/
def ASTNode.get_else_block : ASTNode → ASTNode
  | .null => .null
  | .node _ _ _ _ _ else_block _ _ _ _ _ _ _ _ _ _ _ _ _ => else_block

/-- The field `node->body`. -/
def ASTNode.get_body : ASTNode → ASTNode
  | .null => .null
  | .node _ _ _ _ _ _ body _ _ _ _ _ _ _ _ _ _ _ _ => body

/-- An `if` with an `else` branch at top level. -/
def if_else_source : String :=
  "if (1 == 1) { print(1); } else { print(0); }"

/-- A `while` loop at top level. -/
def while_source : String :=
  "while (1 < 2) { print(3); }"

/-- A function whose body ends in a `return`. -/
def return_function_source : String :=
  "fn f(a: int) -> int { print(a); return a + 1; }"

/-- Whether the last node of the `right` chain that starts at a node is an `AST_RETURN`. -/
def chain_ends_in_return : ASTNode → Bool
  | .null => false
  | .node type _ right _ _ _ _ _ _ _ _ _ _ _ _ _ _ _ _ =>
    if right.is_null then decide (type = .AST_RETURN) else chain_ends_in_return right

/-! ### Assembly backend, `stack_machine.c`

The function `generate_assembly` writes the assembly text to a file with a sequence of `fprintf`
calls. The embedding returns the texts of these calls in order (the file holds their
concatenation); the failure of `fopen` is not modelled. The constant `PLATFORM_MACOS`, fixed
when the compiler itself is built, is the parameter `macos`. The counters `str_idx`,
`current_str_idx` and `instruction_num` count instructions of the program from 0 and are
natural numbers. -/

/-- The text `fprintf` writes for `%d`. -/
def format_int : Int → String
  | .ofNat n => Nat.repr n
  | .negSucc n => "-" ++ Nat.repr (n + 1)

/-- The test `instr->op == IR_PUSH_STR && instr->str_value` of the three string loops. -/
def is_string_entry (instr : IRInstruction) : Bool :=
  instr.op == .IR_PUSH_STR && instr.str_value.isSome

/-- The first loop of `generate_assembly`: the value of `string_counter`. -/
def count_strings : List IRInstruction → Nat
  | [] => 0
  | instr :: rest => (if is_string_entry instr then 1 else 0) + count_strings rest

/-- The loop that writes the string table, entered with `str_idx`: one line
`str_<idx>: db "<payload>", 0` for every PUSH_STR with a payload. -/
def data_entries_loop : Nat → List IRInstruction → List String
  | _, [] => []
  | str_idx, instr :: rest =>
    if instr.op = .IR_PUSH_STR then
      match instr.str_value with
      | some payload =>
        ("str_" ++ Nat.repr str_idx ++ ": db \"" ++ payload ++ "\", 0\n")
          :: data_entries_loop (str_idx + 1) rest
      | none => data_entries_loop str_idx rest
    else data_entries_loop str_idx rest

/-- The data section: the header, the string table when `string_counter > 0`, the two format
strings and an empty line. -/
def asm_data_section (program : List IRInstruction) : List String :=
  ["section .data\n"]
    ++ (if count_strings program > 0 then data_entries_loop 0 program else [])
    ++ ["fmt_int: db \"%d\", 10, 0\n", "fmt_str: db \"%s\", 0\n", "\n"]

/-- The loops that set `has_main` and `has_main_check`: whether some instruction is a LABEL
whose label is `_main`. -/
def has_main : List IRInstruction → Bool
  | [] => false
  | instr :: rest =>
    if instr.op = .IR_LABEL ∧ instr.label = some "_main" then true else has_main rest

/-- The lines of the entry point the Linux branch writes when `has_main` is set. -/
def start_trampoline : List String :=
  ["_start:\n", "    call _main\n", "    mov rax, 60\n", "    mov rdi, 0\n", "    syscall\n\n"]

/-- The head of the text section: the directives of the platform and, on Linux, the entry
point when the program has a `_main` label. -/
def asm_text_header (macos : Bool) (program : List IRInstruction) : List String :=
  if macos then
    ["section .text\n", "global _main\n", "extern _printf\n", "extern _malloc\n",
     "extern _free\n\n"]
  else
    ["section .text\n", "global _start\n", "extern printf\n", "extern malloc\n",
     "extern free\n\n"]
      ++ (if has_main program then start_trampoline else [])

/-- The search loop of the `IR_PUSH_STR` case, `while (search_instr != instr)`, for the
instruction at position `instruction_num`: the number of PUSH_STR instructions with a payload
before it. -/
def string_index : List IRInstruction → Nat → Nat
  | [], _ => 0
  | _, 0 => 0
  | search_instr :: rest, instruction_num + 1 =>
    (if is_string_entry search_instr then 1 else 0) + string_index rest instruction_num

/-- The lines that print the value in `rax` with the format string `fmt`, in the order of the
platform. -/
def asm_print_call (macos : Bool) (fmt : String) : List String :=
  if macos then
    ["    lea rdi, [rel " ++ fmt ++ "]\n", "    mov rsi, rax\n", "    xor rax, rax\n",
     "    call _printf\n"]
  else
    ["    mov rsi, rax\n", "    lea rdi, [rel " ++ fmt ++ "]\n", "    xor rax, rax\n",
     "    call printf\n"]

/-- The `switch` of the main loop of `generate_assembly` for the instruction `instr` at position
`instruction_num` of `program`. The 64-byte label buffers of the `IR_CMP` and `IR_PRINT` cases
hold the text whole for every `int`. -/
def asm_instruction (macos : Bool) (program : List IRInstruction) (instruction_num : Nat)
    (instr : IRInstruction) : List String :=
  match instr.op with
  | .IR_LABEL =>
    match instr.label with
    | some label => [label ++ ":\n"]
    | none => []
  | .IR_PUSH => ["    push " ++ format_int instr.operand ++ "\n"]
  | .IR_PUSH_STR =>
    ["    lea rax, [rel str_" ++ Nat.repr (string_index program instruction_num) ++ "]\n",
     "    push rax\n"]
  | .IR_POP => ["    pop rax\n"]
  | .IR_ADD => ["    pop rbx\n", "    pop rax\n", "    add rax, rbx\n", "    push rax\n"]
  | .IR_SUB => ["    pop rbx\n", "    pop rax\n", "    sub rax, rbx\n", "    push rax\n"]
  | .IR_MUL => ["    pop rbx\n", "    pop rax\n", "    imul rax, rbx\n", "    push rax\n"]
  | .IR_DIV =>
    ["    pop rbx\n", "    pop rax\n", "    cqo\n", "    idiv rbx\n", "    push rax\n"]
  | .IR_LOAD =>
    [if instr.operand ≥ 0 then "    mov rax, [rbp + " ++ format_int instr.operand ++ "]\n"
     else "    mov rax, [rbp " ++ format_int instr.operand ++ "]\n",
     "    push rax\n"]
  | .IR_STORE =>
    ["    pop rax\n",
     if instr.operand ≥ 0 then "    mov [rbp + " ++ format_int instr.operand ++ "], rax\n"
     else "    mov [rbp " ++ format_int instr.operand ++ "], rax\n"]
  | .IR_CALL =>
    (match instr.label with
      | some label => ["    call " ++ label ++ "\n"]
      | none => [])
      ++ ["    push rax\n"]
  | .IR_RET => ["    pop rax\n", "    mov rsp, rbp\n", "    pop rbp\n", "    ret\n"]
  | .IR_CMP =>
    let true_label := ".cmp_true_" ++ Nat.repr instruction_num
    let end_label := ".cmp_end_" ++ Nat.repr instruction_num
    ["    pop rbx\n", "    pop rax\n", "    cmp rax, rbx\n"]
      ++ (if instr.operand = 0 then ["    je " ++ true_label ++ "\n"]
          else if instr.operand = 1 then ["    jne " ++ true_label ++ "\n"]
          else if instr.operand = 2 then ["    jl " ++ true_label ++ "\n"]
          else if instr.operand = 3 then ["    jg " ++ true_label ++ "\n"]
          else if instr.operand = 4 then ["    jle " ++ true_label ++ "\n"]
          else if instr.operand = 5 then ["    jge " ++ true_label ++ "\n"]
          else [])
      ++ ["    push 0\n", "    jmp " ++ end_label ++ "\n", true_label ++ ":\n", "    push 1\n",
          end_label ++ ":\n"]
  | .IR_JMP =>
    match instr.label with
    | some label => ["    jmp " ++ label ++ "\n"]
    | none => []
  | .IR_JZ =>
    ["    pop rax\n", "    test rax, rax\n"]
      ++ (match instr.label with
          | some label => ["    jz " ++ label ++ "\n"]
          | none => [])
  | .IR_JNZ =>
    ["    pop rax\n", "    test rax, rax\n"]
      ++ (match instr.label with
          | some label => ["    jnz " ++ label ++ "\n"]
          | none => [])
  | .IR_PRINT =>
    let print_str_label := ".print_str_" ++ Nat.repr instruction_num
    let print_end_label := ".print_end_" ++ Nat.repr instruction_num
    ["    pop rax\n", "    cmp rax, 0x1000\n", "    jge " ++ print_str_label ++ "\n"]
      ++ asm_print_call macos "fmt_int"
      ++ ["    jmp " ++ print_end_label ++ "\n", print_str_label ++ ":\n"]
      ++ asm_print_call macos "fmt_str"
      ++ [print_end_label ++ ":\n"]
  | .IR_MALLOC =>
    ["    pop rdi\n", if macos then "    call _malloc\n" else "    call malloc\n",
     "    push rax\n"]
  | .IR_FREE => ["    pop rdi\n", if macos then "    call _free\n" else "    call free\n"]

/-- The main loop of `generate_assembly`, entered at position `instruction_num` with the
instructions still to translate. -/
def asm_code_loop (macos : Bool) (program : List IRInstruction) :
    Nat → List IRInstruction → List String
  | _, [] => []
  | instruction_num, instr :: rest =>
    asm_instruction macos program instruction_num instr
      ++ asm_code_loop macos program (instruction_num + 1) rest

/-- The lines of the process exit of the platform. -/
def exit_sequence (macos : Bool) : List String :=
  [if macos then "\n    mov rax, 0x2000001  ; exit syscall\n"
   else "\n    mov rax, 60  ; exit syscall\n",
   "    mov rdi, 0\n", "    syscall\n"]

/-- The end of `generate_assembly`: the process exit unless `has_main_check` is set. -/
def asm_exit (macos : Bool) (program : List IRInstruction) : List String :=
  if has_main program then [] else exit_sequence macos

/-- The function `generate_assembly`: the texts written to the output file, in order. -/
def generate_assembly (macos : Bool) (program : List IRInstruction) : List String :=
  asm_data_section program ++ asm_text_header macos program
    ++ asm_code_loop macos program 0 program ++ asm_exit macos program

/-! ### Vocabulary of the statements on the backend -/

/-- The number of lines that push a word on the machine stack. -/
def count_pushes (lines : List String) : Nat :=
  (lines.filter (fun line => "    push ".data.isPrefixOf line.data)).length

/-- The number of lines that pop a word off the machine stack. -/
def count_pops (lines : List String) : Nat :=
  (lines.filter (fun line => "    pop ".data.isPrefixOf line.data)).length

/-- The IR of `let p: int = malloc(8); free(p);`. -/
def malloc_free_ir : List IRInstruction :=
  [ir .IR_PUSH 8, ir .IR_MALLOC 0, ir .IR_STORE (-8), ir .IR_LOAD (-8), ir .IR_FREE 0]

/-- The payloads of the PUSH_STR instructions of a program, in program order. -/
def string_payloads (program : List IRInstruction) : List String :=
  program.filterMap (fun instr => if instr.op = .IR_PUSH_STR then instr.str_value else none)

/-- The data-section line of the entry `str_i` holding a payload. -/
def data_entry (i : Nat) (payload : String) : String :=
  "str_" ++ Nat.repr i ++ ": db \"" ++ payload ++ "\", 0\n"

/-- The IR of a program that prints three string literals, two of them equal. -/
def three_strings_ir : List IRInstruction :=
  match compile 100 "print(\"a\"); print(\"b\"); print(\"a\");".toList with
  | .ok program => program
  | .error _ => []

/-- The IR of a program with a function named `start` and a function named `main`. -/
def start_main_ir : List IRInstruction :=
  match compile 100 "fn start() -> int { return 1; } fn main() -> int { return start(); }".toList with
  | .ok program => program
  | .error _ => []

/-- The IR of a program with a function named `printf`. -/
def printf_ir : List IRInstruction :=
  match compile 100 "fn printf() -> int { return 1; }".toList with
  | .ok program => program
  | .error _ => []

/-- The token `next_token` reads first from a text. -/
def first_token (text : String) : Token :=
  (next_token (init_lexer text.toList)).1

/-! ### Vocabulary of the statements on labels -/

/-- The labels the LABEL instructions of a program define, in program order. -/
def label_defs (program : List IRInstruction) : List String :=
  program.filterMap (fun instr => if instr.op = .IR_LABEL then instr.label else none)

/-- The labels the JZ and JMP instructions of a program name, in program order. -/
def jump_targets (program : List IRInstruction) : List String :=
  program.filterMap
    (fun instr => if instr.op = .IR_JZ ∨ instr.op = .IR_JMP then instr.label else none)

/-- The prefixes `gen_statement` passes to `generate_label`. -/
def label_prefixes : List String :=
  ["else", "endif", "loop", "endloop"]

/-- The label is the one `generate_label` returns for one of its four prefixes at a counter
value from `k` up to `k1` (excluded). -/
def label_index_in (label : String) (k k1 : Nat) : Prop :=
  ∃ pfx ∈ label_prefixes, ∃ j, k ≤ j ∧ j < k1 ∧ label = label_text pfx j

/-- The number of labels the lowering of a chain of top-level statements takes from the
counter. -/
def label_count_toplevel : ASTNode → Nat
  | .null => 0
  | .node type _ right _ then_block else_block body _ _ body_nodes _ _ _ _ _ _ _ statements _ =>
    (if type = .AST_FN_DEF then label_count_block body_nodes
     else label_count_statement_node type (label_count_block then_block)
       (label_count_block else_block) (label_count_block body)
       (label_count_statement_list statements))
    + label_count_toplevel right

/-- The labels of a stretch of IR are generated at counter values from `k` up to `k1`, every
label is defined once, and every jump names a label the stretch defines. -/
def LabelledWithin (code : List IRInstruction) (k k1 : Nat) : Prop :=
  (∀ l ∈ label_defs code, label_index_in l k k1) ∧ (label_defs code).Nodup
    ∧ ∀ l ∈ jump_targets code, l ∈ label_defs code

/-- The labels of a stretch of top-level IR are function labels or are generated at counter
values from `k` up to `k1`, every label that is not a function label is defined at most once,
and every jump names a generated label the stretch defines. -/
def TopLabelled (code : List IRInstruction) (k k1 : Nat) : Prop :=
  (∀ l ∈ label_defs code, (∃ name, l = mangle name) ∨ label_index_in l k k1)
    ∧ (∀ l, (¬ ∃ name, l = mangle name) → (label_defs code).count l ≤ 1)
    ∧ ∀ l ∈ jump_targets code, l ∈ label_defs code ∧ label_index_in l k k1

/-- The IR the pipeline returns for a source text (empty when it does not return). -/
def ir_of_source (source : String) : List IRInstruction :=
  match compile 100 source.toList with
  | .ok program => program
  | .error _ => []

/-- A program with an `if` inside a function and a `while` at top level. -/
def labels_source : String :=
  "fn f() -> int { if (1) { return 2; } return 3; } while (f()) { print(4); }"

/-! ### Vocabulary of the statements on expressions -/

/-- Every result of the first computation is a result of the second. -/
def Mono {α : Type} (x y : Except Fatal α) : Prop :=
  ∀ r, x = .ok r → y = .ok r

/-- The operator tag `parse_additive` sets for the token of an additive operator. -/
def additive_op : TokenType → Option BinOpType
  | .TOKEN_PLUS => some .BINOP_PLUS
  | .TOKEN_MINUS => some .BINOP_MINUS
  | _ => none

/-- The operator tag `parse_multiplicative` sets for the token of a multiplicative operator. -/
def multiplicative_op : TokenType → Option BinOpType
  | .TOKEN_STAR => some .BINOP_MULT
  | .TOKEN_SLASH => some .BINOP_DIV
  | _ => none

/-- The operator tag `parse_comparison` sets for the token of a relational operator. -/
def comparison_op : TokenType → Option CompareOpType
  | .TOKEN_EQ => some .COMPARE_EQ
  | .TOKEN_NE => some .COMPARE_NE
  | .TOKEN_LT => some .COMPARE_LT
  | .TOKEN_GT => some .COMPARE_GT
  | .TOKEN_LE => some .COMPARE_LE
  | .TOKEN_GE => some .COMPARE_GE
  | _ => none

/-- The `AST_BINOP` node the parser builds: created, then operator, left and right operand
set. -/
def binop_tree (op : BinOpType) (l r : ASTNode) : ASTNode :=
  (((create_ast_node .AST_BINOP).set_binop op).set_left l).set_right r

/-- The `AST_COMPARE` node the parser builds: created, then operator, left and right operand
set. -/
def compare_tree (op : CompareOpType) (l r : ASTNode) : ASTNode :=
  (((create_ast_node .AST_COMPARE).set_compare_op op).set_left l).set_right r

/-- The parser state `parse_program` enters its loop with on a source text. -/
def parser_at (source : String) : Parser :=
  { lexer := (next_token (init_lexer source.toList)).2,
    current_token := (next_token (init_lexer source.toList)).1,
    current_scope := create_scope .null }

/-- The node a parsing function has returned (NULL when it has not returned). -/
def parsed_node (result : Except Fatal (ASTNode × Parser)) : ASTNode :=
  match result with
  | .ok (node, _) => node
  | .error _ => .null

/-- The parser state a parsing function has returned in (the given state when it has not
returned). -/
def parsed_rest (result : Except Fatal (ASTNode × Parser)) (p : Parser) : Parser :=
  match result with
  | .ok (_, p1) => p1
  | .error _ => p

/-- The parser state after `parse_unary`, with fuel 5, has read one operand from a state. -/
def after_operand (p : Parser) : Parser :=
  parsed_rest (parse_unary 5 p) p

/-- The operand `parse_unary`, with fuel 5, reads from a state. -/
def operand_at (p : Parser) : ASTNode :=
  parsed_node (parse_unary 5 p)

/-- The parser state after `parse_additive`, with fuel 7, has read one operand of a comparison
from a state. -/
def after_additive (p : Parser) : Parser :=
  parsed_rest (parse_additive 7 p) p

/-- The operand of a comparison `parse_additive`, with fuel 7, reads from a state. -/
def additive_at (p : Parser) : ASTNode :=
  parsed_node (parse_additive 7 p)

/-- The statement `2 + 3 * 4;` as an expression followed by a semicolon. -/
def sum_product_source : String :=
  "2 + 3 * 4;"

/-! ### The compare sequence on the machine

The backend's assembly is text. To state what the compare sequence computes, its lines are read
back (`decode_line`) and run on a model of the part of an x86-64 machine they use: the registers
`rax` and `rbx`, the operands of the last `cmp` (which stand for the flags), and the stack of
64-bit words, as signed integers. The meaning of the instructions is the architecture's, not
code of the compiler: `pop` moves the top word into the register, `cmp rax, rbx` sets the flags
for `rax - rbx`, the conditional jumps `je`, `jne`, `jl`, `jg`, `jle`, `jge` are taken when the
first operand of the last `cmp` is equal, not equal, less, greater, less or equal, greater or
equal to the second as signed integers, `jmp` is always taken, `push` pushes its immediate. -/

/-- The conditions of the conditional jumps. -/
inductive JumpCondition
  | je | jne | jl | jg | jle | jge
  deriving DecidableEq, Repr

/-- A line of assembly, read back from its text. -/
inductive AsmLine
  | pop_rbx
  | pop_rax
  | cmp_rax_rbx
  | push_imm (value : Int)
  | jump_if (condition : JumpCondition) (target : String)
  | jmp (target : String)
  | label (name : String)
  | other
  deriving DecidableEq, Repr

/-- The instruction of an indented line, from its mnemonic and its operand text. -/
def decode_instruction (mnemonic operand : String) : AsmLine :=
  if mnemonic = "pop" then
    (if operand = "rbx" then .pop_rbx else if operand = "rax" then .pop_rax else .other)
  else if mnemonic = "cmp" then (if operand = "rax, rbx" then .cmp_rax_rbx else .other)
  else if mnemonic = "push" then
    (if operand = "0" then .push_imm 0 else if operand = "1" then .push_imm 1 else .other)
  else if mnemonic = "je" then .jump_if .je operand
  else if mnemonic = "jne" then .jump_if .jne operand
  else if mnemonic = "jl" then .jump_if .jl operand
  else if mnemonic = "jg" then .jump_if .jg operand
  else if mnemonic = "jle" then .jump_if .jle operand
  else if mnemonic = "jge" then .jump_if .jge operand
  else if mnemonic = "jmp" then .jmp operand
  else .other

/-- Reads a line of the output back: an instruction line is four spaces, the mnemonic, a space,
the operands and a newline; a label line is the label, a colon and a newline. -/
def decode_line (line : String) : AsmLine :=
  if line.data.take 4 = [' ', ' ', ' ', ' '] then
    decode_instruction (String.mk ((line.data.drop 4).takeWhile (fun c => c != ' ')))
      (String.mk (((line.data.drop 4).dropWhile (fun c => c != ' ')).drop 1).dropLast)
  else if line.data.reverse.take 2 = ['\n', ':'] then
    .label (String.mk line.data.dropLast.dropLast)
  else .other

/-- The registers, the operands of the last `cmp`, and the stack (top first). -/
structure Machine where
  rax : Int
  rbx : Int
  cmp_left : Int
  cmp_right : Int
  stack : List Int
  deriving DecidableEq, Repr

/-- Whether a conditional jump is taken after `cmp left, right`. -/
def condition_holds : JumpCondition → Int → Int → Bool
  | .je, left, right => decide (left = right)
  | .jne, left, right => decide (left ≠ right)
  | .jl, left, right => decide (left < right)
  | .jg, left, right => decide (left > right)
  | .jle, left, right => decide (left ≤ right)
  | .jge, left, right => decide (left ≥ right)

/-- The position of the line that defines a label. -/
def find_label (lines : List AsmLine) (name : String) : Option Nat :=
  if lines.indexOf (.label name) < lines.length then some (lines.indexOf (.label name)) else none

/-- One step of the machine at line `pc`: the next line and the new state. -/
def step_line (lines : List AsmLine) (pc : Nat) (m : Machine) : Option (Nat × Machine) :=
  match lines[pc]? with
  | some .pop_rbx =>
    match m.stack with
    | v :: rest => some (pc + 1, { m with rbx := v, stack := rest })
    | [] => none
  | some .pop_rax =>
    match m.stack with
    | v :: rest => some (pc + 1, { m with rax := v, stack := rest })
    | [] => none
  | some .cmp_rax_rbx => some (pc + 1, { m with cmp_left := m.rax, cmp_right := m.rbx })
  | some (.push_imm v) => some (pc + 1, { m with stack := v :: m.stack })
  | some (.jump_if c target) =>
    if condition_holds c m.cmp_left m.cmp_right then
      (find_label lines target).map (fun i => (i, m))
    else some (pc + 1, m)
  | some (.jmp target) => (find_label lines target).map (fun i => (i, m))
  | some (.label _) => some (pc + 1, m)
  | some .other => none
  | none => none

/-- The run of a sequence of lines from line `pc` until control leaves it at its end, in at
most `fuel` steps. -/
def run_lines : Nat → List AsmLine → Nat → Machine → Option Machine
  | 0, _, _, _ => none
  | fuel + 1, lines, pc, m =>
    if pc = lines.length then some m
    else
      match step_line lines pc m with
      | none => none
      | some (pc1, m1) => run_lines fuel lines pc1 m1

/-- Whether the relation of a comparison operator holds between two signed integers. -/
def compare_holds : CompareOpType → Int → Int → Bool
  | .COMPARE_EQ, left, right => decide (left = right)
  | .COMPARE_NE, left, right => decide (left ≠ right)
  | .COMPARE_LT, left, right => decide (left < right)
  | .COMPARE_GT, left, right => decide (left > right)
  | .COMPARE_LE, left, right => decide (left ≤ right)
  | .COMPARE_GE, left, right => decide (left ≥ right)

/-- The mnemonic of the conditional jump the backend writes for a comparison operator. -/
def jump_mnemonic : CompareOpType → String
  | .COMPARE_EQ => "je"
  | .COMPARE_NE => "jne"
  | .COMPARE_LT => "jl"
  | .COMPARE_GT => "jg"
  | .COMPARE_LE => "jle"
  | .COMPARE_GE => "jge"

/-- The condition of the conditional jump the backend writes for a comparison operator. -/
def jump_condition : CompareOpType → JumpCondition
  | .COMPARE_EQ => .je
  | .COMPARE_NE => .jne
  | .COMPARE_LT => .jl
  | .COMPARE_GT => .jg
  | .COMPARE_LE => .jle
  | .COMPARE_GE => .jge

/-- The statement `1 + 2 <= 3 * 4;` as an expression followed by a semicolon. -/
def comparison_source : String :=
  "1 + 2 <= 3 * 4;"

/-! ### Vocabulary of the statements on the lexer -/

/-- The text from the cursor to the end of the source. -/
def Lexer.remaining (lx : Lexer) : List Char :=
  lx.source.drop lx.pos

/-- The lexer state after `n` calls of `next_token`. -/
def lexer_after : Nat → Lexer → Lexer
  | 0, lx => lx
  | n + 1, lx => lexer_after n (next_token lx).2

/-- The token the call number `n` (from 0) of `next_token` returns. -/
def nth_token (n : Nat) (lx : Lexer) : Token :=
  (next_token (lexer_after n lx)).1

/-- The 1-based line and column of the character at index `i` of a text: one more than the
number of newlines before it, and one more than the number of characters between the last of
these newlines and it. -/
def line_col_at (source : List Char) (i : Nat) : Int × Int :=
  (1 + ((source.take i).count '\n' : Nat),
   1 + (((source.take i).reverse.takeWhile (fun c => c != '\n')).length : Nat))

/-! ### String literals: the closing quote -/

/-- Whether the character at index `i` of the body of a string literal is escaped: the
character before it is a backslash that is not escaped itself. -/
def escaped (body : List Char) : Nat → Bool
  | 0 => false
  | i + 1 => body.getD i NUL == '\\' && !escaped body i

/-- The closing quote of the body of a string literal is at index `j`: the first quote that is
not escaped. -/
def closing_quote_at (body : List Char) (j : Nat) : Prop :=
  body.getD j NUL = '"' ∧ escaped body j = false
    ∧ ∀ i, i < j → body.getD i NUL = '"' → escaped body i = true

/-- A string literal with an escaped quote, then an identifier. -/
def string_literal_source : String :=
  "  \"a\\\"b\\n\" x"

/-- A string literal whose only later quote is escaped. -/
def open_string_source : String :=
  "\"ab\\\"c"

/-! ### Words, operators and numbers -/

/-- The character class `[A-Za-z_]`. -/
def word_start (c : Char) : Bool :=
  ('A' ≤ c && c ≤ 'Z') || ('a' ≤ c && c ≤ 'z') || c == '_'

/-- The character class `[A-Za-z0-9_]`. -/
def word_char (c : Char) : Bool :=
  word_start c || ('0' ≤ c && c ≤ '9')

/-- The twelve reserved words with their token kinds. -/
def reserved_words : List (String × TokenType) :=
  [("fn", .TOKEN_FN), ("return", .TOKEN_RETURN), ("let", .TOKEN_LET), ("call", .TOKEN_CALL),
   ("if", .TOKEN_IF), ("else", .TOKEN_ELSE), ("while", .TOKEN_WHILE), ("int", .TOKEN_INT),
   ("string", .TOKEN_STRING), ("print", .TOKEN_PRINT), ("malloc", .TOKEN_MALLOC),
   ("free", .TOKEN_FREE)]

/-- The run `w` is the maximal run of characters of the class `p` at the front of a text: the
text starts with `w`, every character of `w` is in the class, and the character after `w`, if
there is one, is not. -/
def maximal_run (p : Char → Bool) (w text : List Char) : Prop :=
  ∃ rest, text = w ++ rest ∧ (∀ c ∈ w, p c = true) ∧ (∀ c ∈ rest.head?, p c = false)

/-- The operators that start with `-`, `=`, `!`, `<` or `>`: for the first character, the second
character that completes the two-character operator, the kind of the two-character operator,
and the kind of the first character alone (the error token for a lone `!`). -/
def two_char_operator (c : Char) : Option (Char × TokenType × TokenType) :=
  if c = '-' then some ('>', .TOKEN_ARROW, .TOKEN_MINUS)
  else if c = '=' then some ('=', .TOKEN_EQ, .TOKEN_ASSIGN)
  else if c = '!' then some ('=', .TOKEN_NE, .TOKEN_EOF)
  else if c = '<' then some ('=', .TOKEN_LE, .TOKEN_LT)
  else if c = '>' then some ('=', .TOKEN_GE, .TOKEN_GT)
  else none

/-- A reserved word, then a word that starts with it. -/
def words_source : String :=
  " while whilst"

/-! ### The stream of tokens -/

/-- The kinds and payloads of the first `n` tokens that successive calls of `next_token` return
from a state. -/
def token_stream (n : Nat) (lx : Lexer) : List (TokenType × Option String) :=
  (List.range n).map (fun i => ((nth_token i lx).type, (nth_token i lx).value))

/-- A text that starts with blanks and a comment line. -/
def comment_source : List Char :=
  " \t\n".toList ++ "//".toList ++ " a / b".toList ++ "\n".toList ++ "x / y".toList

/-! ### If statements and `else if` -/

/-- The field `node->stmt_count` (0 for NULL). -/
def ASTNode.get_stmt_count : ASTNode → Int
  | .null => 0
  | .node _ _ _ _ _ _ _ _ _ _ _ _ _ _ _ _ _ _ stmt_count => stmt_count

/-- The `AST_IF` node with a condition, a then-block and an else-block (NULL when the statement
has no `else`). -/
def if_tree (condition then_block else_block : ASTNode) : ASTNode :=
  (((create_ast_node .AST_IF).set_condition condition).set_then_block then_block).set_else_block
    else_block

/-- The `AST_BLOCK` node with statement count 1 whose statement chain starts at a node. -/
def single_statement_block (statement : ASTNode) : ASTNode :=
  ((create_ast_node .AST_BLOCK).set_statements statement).set_stmt_count 1

/-- An `if` statement with an `else if` and a final `else`. -/
def else_if_source : String :=
  "if (1) { } else if (2) { } else { }"

/-- The parser state after the condition of the statement of `else_if_source`. -/
def else_if_condition_end : Parser :=
  parsed_rest (parse_expression 8 (parser_at else_if_source).advance.advance)
    (parser_at else_if_source)

/-- The parser state after the then-block of the statement of `else_if_source`. -/
def else_if_then_end : Parser :=
  parsed_rest (parse_block 3 else_if_condition_end.advance) (parser_at else_if_source)

/-- The statement parsed from the second `if` of `else_if_source`. -/
def else_if_nested : ASTNode :=
  parsed_node (parse_statement 12 else_if_then_end.advance)

/-- The parser state after the statement of `else_if_source`. -/
def else_if_end : Parser :=
  parsed_rest (parse_statement 12 else_if_then_end.advance) (parser_at else_if_source)

/-! ### Scopes across function definitions -/

/-- The names the top-level statements of a `right` chain declare, in order: a function
definition contributes none, any other statement the names `declared_statement` gives. -/
def declared_toplevel : ASTNode → List String
  | .null => []
  | .node type _ right _ then_block else_block body _ _ _ _ _ var_name _ _ _ _ statements _ =>
    (if type = .AST_FN_DEF then []
     else declared_statement_node type (declared_block then_block) (declared_block else_block)
       (declared_block body) (declared_statement_list statements) var_name)
      ++ declared_toplevel right

/-- A function with a parameter and a local variable, then a top-level declaration. -/
def scoped_source : String :=
  "fn f(a: int) -> int { let x: int = 1; return a; } let y: int = 2;"

/-- The generator state after the top-level statements of `scoped_source` (the initial state
when the generator does not return). -/
def scoped_result : CodeGen :=
  match gen_toplevel (program_tree scoped_source).get_statements CodeGen.init with
  | .ok cg => cg
  | .error _ => CodeGen.init

/-! ### Parsing with enough fuel -/

/-- With enough fuel the fuel-bounded computation returns the result `r`: the function it
embeds returns `r`. -/
def Returns {α : Type} (F : Nat → Except Fatal α) (r : α) : Prop :=
  ∃ fuel, ∀ f, fuel ≤ f → F f = .ok r

/-- The `AST_INT_LIT` node of a value. -/
def int_tree (value : Int) : ASTNode :=
  (create_ast_node .AST_INT_LIT).set_int_value value

/-- With enough fuel the fuel-bounded computation stops with the fatal error `e`: the function
it embeds exits with `e`. -/
def Fails {α : Type} (F : Nat → Except Fatal α) (e : Fatal) : Prop :=
  ∃ fuel, ∀ f, fuel ≤ f → F f = .error e

/-- The requirement of `gen_expression` on one node: its kind has a case of the `switch`, a
variable and a call carry their name, and the operands the case lowers are not NULL. -/
def expression_node_ok (type : ASTNodeType) (left right : ASTNode)
    (call_name var_name : Option String) : Bool :=
  match type with
  | .AST_INT_LIT => true
  | .AST_STRING_LIT => true
  | .AST_VAR => var_name.isSome
  | .AST_BINOP => !left.is_null && !right.is_null
  | .AST_COMPARE => !left.is_null && !right.is_null
  | .AST_CALL_EXPR => call_name.isSome
  | .AST_MALLOC => !left.is_null
  | _ => false

/-- Every node of an expression tree that `gen_expression` can reach (through `left`, `right`
and `args`) meets `expression_node_ok`; NULL is such a tree. -/
def expression_tree : ASTNode → Bool
  | .null => true
  | .node type left right _ _ _ _ _ _ _ call_name args var_name _ _ _ _ _ _ =>
    expression_node_ok type left right call_name var_name && expression_tree left
      && expression_tree right && expression_tree args

/-- The requirement of `gen_statement` on one node: its kind has a case of the `switch`, a
declaration, an assignment and a call carry their name, and the expression the case lowers is
not NULL. -/
def statement_node_ok (type : ASTNodeType) (left condition : ASTNode)
    (call_name var_name : Option String) : Bool :=
  match type with
  | .AST_VAR_DECL => var_name.isSome && !left.is_null
  | .AST_ASSIGN => var_name.isSome && !left.is_null
  | .AST_RETURN => !left.is_null
  | .AST_CALL_STMT => call_name.isSome
  | .AST_IF => !condition.is_null
  | .AST_WHILE => !condition.is_null
  | .AST_BLOCK => true
  | .AST_PRINT => !left.is_null
  | .AST_FREE => !left.is_null
  | _ => false

/-- Every node of a chain of statements that `gen_statement` can reach meets
`statement_node_ok`, its expressions are expression trees and its blocks are such chains
again; NULL is such a chain. -/
def statement_tree : ASTNode → Bool
  | .null => true
  | .node type left right condition then_block else_block body _ _ _ call_name args var_name _ _
      _ _ statements _ =>
    statement_node_ok type left condition call_name var_name && expression_tree left
      && expression_tree condition && expression_tree args && statement_tree then_block
      && statement_tree else_block && statement_tree body && statement_tree statements
      && statement_tree right

/-- Every node of a chain of parameters carries its name. -/
def param_chain : ASTNode → Bool
  | .null => true
  | .node _ _ right _ _ _ _ _ _ _ _ _ var_name _ _ _ _ _ _ => var_name.isSome && param_chain right

/-- The chain of the top-level nodes of a program: a function definition carries its name, its
parameters carry theirs and its body is a statement tree; every other node is a statement as
in `statement_tree`. -/
def toplevel_tree : ASTNode → Bool
  | .null => true
  | .node type left right condition then_block else_block body fn_name params body_nodes
      call_name args var_name _ _ _ _ statements _ =>
    (if type = .AST_FN_DEF then fn_name.isSome && param_chain params && statement_tree body_nodes
     else statement_node_ok type left condition call_name var_name && expression_tree left
      && expression_tree condition && expression_tree args && statement_tree then_block
      && statement_tree else_block && statement_tree body && statement_tree statements)
    && toplevel_tree right

/-- The result of a parser function is an expression tree that is not NULL. -/
def ExprResult (r : ASTNode × Parser) : Prop :=
  r.1.is_null = false ∧ expression_tree r.1 = true

/-- Every node of a chain under construction is an expression tree that is not NULL. -/
def ExprChain (ch : NodeChain) : Prop :=
  ∀ n ∈ ch.nodes, n.is_null = false ∧ expression_tree n = true

/-- Every node of a chain under construction is a statement tree. -/
def StmtChain (ch : NodeChain) : Prop :=
  ∀ n ∈ ch.nodes, statement_tree n = true

/-- Every node of a chain under construction is a top-level tree. -/
def TopChain (ch : NodeChain) : Prop :=
  ∀ n ∈ ch.nodes, toplevel_tree n = true

/-- Every node of a chain under construction carries a name. -/
def ParamChain (ch : NodeChain) : Prop :=
  ∀ n ∈ ch.nodes, param_chain n = true

/-- A computation fails with no other error than an undefined variable. -/
def OnlyUndefined {α : Type} (x : Except Fatal α) : Prop :=
  ∀ e, x = .error e → ∃ name, e = .undefined_variable name

/-- Every result a computation can return satisfies `P`. -/
def Yields {α : Type} (P : α → Prop) (x : Except Fatal α) : Prop :=
  ∀ r, x = .ok r → P r

/-- The number of words an instruction of each kind adds to the evaluation stack, as the
specification tabulates it: +1 for PUSH, PUSH_STR, LOAD and CALL, 0 for MALLOC, JMP and LABEL,
-1 for every other kind. -/
def spec_stack_effect : IROp → Int
  | .IR_PUSH => 1
  | .IR_PUSH_STR => 1
  | .IR_LOAD => 1
  | .IR_CALL => 1
  | .IR_MALLOC => 0
  | .IR_JMP => 0
  | .IR_LABEL => 0
  | _ => -1

/-- The sum of the tabulated effects of the instructions of a piece of IR. -/
def net_effect (code : List IRInstruction) : Int :=
  (code.map (fun instr => spec_stack_effect instr.op)).sum

/-- The sum of the argument counts the CALL instructions of a piece of IR carry. -/
def call_arguments (code : List IRInstruction) : Int :=
  (code.map (fun instr => if instr.op = .IR_CALL then instr.operand else 0)).sum

/-- The number of `push` lines minus the number of `pop` lines of a piece of assembly text. -/
def net_words (lines : List String) : Int :=
  (count_pushes lines : Int) - (count_pops lines : Int)

/-- The statement `f(1);`, parsed. -/
def call_statement_tree : ASTNode :=
  parsed_node (parse_statement 100 (parser_at "f(1);"))

/-- The expression `f(1, 2)`, parsed. -/
def call_expression_tree : ASTNode :=
  parsed_node (parse_expression 100 (parser_at "f(1, 2)"))

/-- An arithmetic expression as the specification reads it: an integer literal (its digits), a
unary minus, a parenthesised expression, or a binary operation of `+`, `-`, `*`, `/`. -/
inductive Arith
  | lit (digits : List Char)
  | neg (operand : Arith)
  | paren (inner : Arith)
  | bin (op : BinOpType) (left right : Arith)
  deriving DecidableEq, Repr

/-- The precedence level of a binary operator: 2 for `*` and `/`, 3 for `+` and `-`. -/
def op_level : BinOpType → Nat
  | .BINOP_MULT => 2
  | .BINOP_DIV => 2
  | .BINOP_PLUS => 3
  | .BINOP_MINUS => 3

/-- The token of a binary operator. -/
def op_token : BinOpType → TokenType
  | .BINOP_PLUS => .TOKEN_PLUS
  | .BINOP_MINUS => .TOKEN_MINUS
  | .BINOP_MULT => .TOKEN_STAR
  | .BINOP_DIV => .TOKEN_SLASH

namespace Arith

/-- The precedence level of an expression: 0 for a literal and a parenthesised expression, 1 for
a unary minus, the level of its operator for a binary operation. -/
def level : Arith → Nat
  | lit _ => 0
  | paren _ => 0
  | neg _ => 1
  | bin op _ _ => op_level op

/-- The expression is written as the usual precedence and left associativity read it: a literal
is a nonempty run of decimal digits, the operand of a unary minus is a literal, a parenthesised
expression or a unary minus, the left operand of a binary operator binds at least as tightly as
the operator and the right operand binds tighter. -/
def well_formed : Arith → Bool
  | lit digits => !digits.isEmpty && digits.all isdigit
  | neg operand => decide (operand.level ≤ 1) && operand.well_formed
  | paren inner => inner.well_formed
  | bin op left right =>
    decide (left.level ≤ op_level op) && decide (right.level < op_level op)
      && left.well_formed && right.well_formed

/-- The value of the expression over the integers, with truncating division. -/
def value : Arith → Int
  | lit digits => (decimal_value digits : Int)
  | neg operand => - operand.value
  | paren inner => inner.value
  | bin .BINOP_PLUS left right => left.value + right.value
  | bin .BINOP_MINUS left right => left.value - right.value
  | bin .BINOP_MULT left right => left.value * right.value
  | bin .BINOP_DIV left right => Int.tdiv left.value right.value

/-- No division by zero occurs and every intermediate value is within the 64-bit range. -/
def in_range : Arith → Bool
  | lit digits => decide ((decimal_value digits : Int) < 2 ^ 63)
  | neg operand =>
    operand.in_range && decide (-(2 : Int) ^ 63 ≤ - operand.value ∧ - operand.value < 2 ^ 63)
  | paren inner => inner.in_range
  | bin op left right =>
    left.in_range && right.in_range && decide (op = .BINOP_DIV → right.value ≠ 0)
      && decide (-(2 : Int) ^ 63 ≤ (bin op left right).value
          ∧ (bin op left right).value < 2 ^ 63)

/-- Every literal of the expression is at most `INT_MAX`. -/
def small_literals : Arith → Bool
  | lit digits => decide (decimal_value digits ≤ 2 ^ 31 - 1)
  | neg operand => operand.small_literals
  | paren inner => inner.small_literals
  | bin _ left right => left.small_literals && right.small_literals

/-- The tokens of the expression, in source order: kind and, for a literal, text. -/
def render : Arith → List (TokenType × Option String)
  | lit digits => [(.TOKEN_INT_LIT, some (String.mk digits))]
  | neg operand => (.TOKEN_MINUS, none) :: operand.render
  | paren inner => (.TOKEN_LPAREN, none) :: (inner.render ++ [(.TOKEN_RPAREN, none)])
  | bin op left right => left.render ++ (op_token op, none) :: right.render

/-- The tree the expression stands for: parentheses leave no node, and a unary minus is the
subtraction from the literal 0. -/
def tree : Arith → ASTNode
  | lit digits => int_tree (atoi (String.mk digits))
  | neg operand => binop_tree .BINOP_MINUS (int_tree 0) operand.tree
  | paren inner => inner.tree
  | bin op left right => binop_tree op left.tree right.tree

end Arith

/-- The parser state after `n` further tokens are fetched. -/
def advance_by : Nat → Parser → Parser
  | 0, p => p
  | n + 1, p => advance_by n p.advance

/-- The tokens the parser has ahead, its current token first, are of the given kinds, and the
literals among them have the given text. -/
def reads : List (TokenType × Option String) → Parser → Bool
  | [], _ => true
  | (type, text) :: rest, p =>
    decide (p.current_token.type = type)
      && decide (type = .TOKEN_INT_LIT → p.current_token.value = text)
      && reads rest p.advance

/-- The reading of an integer as a 64-bit two's-complement word. -/
def wrap64 (v : Int) : Int := (v + 2 ^ 63) % 2 ^ 64 - 2 ^ 63

/-- One step of the stack machine of the specification on the arithmetic instructions: PUSH
pushes its operand; ADD, SUB, MUL and DIV pop the right operand, then the left operand, and
push the 64-bit result of left-op-right, the division truncating and trapping on a zero divisor
and on a quotient out of range (as `idiv` does). Other instructions are not executed. -/
def ir_step (instr : IRInstruction) (stack : List Int) : Option (List Int) :=
  match instr.op, stack with
  | .IR_PUSH, _ => some (instr.operand :: stack)
  | .IR_ADD, right :: left :: rest => some (wrap64 (left + right) :: rest)
  | .IR_SUB, right :: left :: rest => some (wrap64 (left - right) :: rest)
  | .IR_MUL, right :: left :: rest => some (wrap64 (left * right) :: rest)
  | .IR_DIV, right :: left :: rest =>
    if right = 0 ∨ Int.tdiv left right ≥ 2 ^ 63 then none
    else some (Int.tdiv left right :: rest)
  | _, _ => none

/-- The run of the stack machine over a piece of IR, from a stack. -/
def run_ir : List IRInstruction → List Int → Option (List Int)
  | [], stack => some stack
  | instr :: rest, stack =>
    match ir_step instr stack with
    | some stack1 => run_ir rest stack1
    | none => none

/-- The expression `2 + 3 * 4`. -/
def sum_product_arith : Arith :=
  .bin .BINOP_PLUS (.lit "2".data) (.bin .BINOP_MULT (.lit "3".data) (.lit "4".data))

/-- The character of a binary operator. -/
def op_char : BinOpType → Char
  | .BINOP_PLUS => '+'
  | .BINOP_MINUS => '-'
  | .BINOP_MULT => '*'
  | .BINOP_DIV => '/'

/-- A source text of the expression: the digits of a literal, `-` before the operand of a
unary minus, parentheses around a parenthesised expression, and a binary operator between its
operands with one blank on either side. -/
def Arith.text : Arith → List Char
  | .lit digits => digits
  | .neg operand => '-' :: operand.text
  | .paren inner => '(' :: (inner.text ++ [')'])
  | .bin op left right => left.text ++ ' ' :: op_char op :: ' ' :: right.text

/-- The parser state with the first token of the text from a lexer state fetched. -/
def parser_on (lx : Lexer) : Parser :=
  { lexer := (next_token lx).2, current_token := (next_token lx).1,
    current_scope := create_scope .null }

/-! ### Frame set-up in the assembly text -/

/-- The characters of a file made of the given texts, written one after the other. -/
def file_text : List String → List Char
  | [] => []
  | text :: rest => text.data ++ file_text rest

/-- The lines of a text: the pieces between its newline characters. -/
def text_lines : List Char → List (List Char)
  | [] => [[]]
  | c :: rest =>
    if c = '\n' then [] :: text_lines rest
    else (c :: (text_lines rest).headD []) :: (text_lines rest).tail

/-- The lines of the file the backend writes: the lines of the texts of its `fprintf` calls put
together. -/
def file_lines (texts : List String) : List (List Char) :=
  text_lines (file_text texts)

/-- Whether a line is an instruction that saves the frame pointer (`push rbp`), establishes it
(`mov rbp, ...`) or reserves local storage (`sub rsp, ...`): its text after the blanks and tabs
before it begins with one of the three. -/
def frame_setup_line (line : List Char) : Bool :=
  "push rbp".data.isPrefixOf (line.dropWhile (fun c => c == ' ' || c == '\t'))
    || "mov rbp".data.isPrefixOf (line.dropWhile (fun c => c == ' ' || c == '\t'))
    || "sub rsp".data.isPrefixOf (line.dropWhile (fun c => c == ' ' || c == '\t'))

/-- A blank, a tab or a newline. -/
def white_space (c : Char) : Bool := c == ' ' || c == '\t' || c == '\n'

/-- An instruction whose label, if it has one, holds no white space and whose string payload,
if it has one, holds no newline. -/
def plain_instruction (instr : IRInstruction) : Bool :=
  (match instr.label with
    | some label => label.data.all (fun c => !white_space c)
    | none => true)
  && (match instr.str_value with
    | some payload => payload.data.all (fun c => c != '\n')
    | none => true)

/-- Every instruction of the program is plain. -/
def plain_program (program : List IRInstruction) : Bool :=
  program.all plain_instruction

/-- Whether a text ends with a newline and none of its lines is a frame set-up instruction. -/
def text_safe (text : String) : Bool :=
  text.data.getLast? == some '\n' && (text_lines text.data).all (fun line => !frame_setup_line line)

/-- A string literal over four lines, three of them `push rbp`, `mov rbp, rsp` and
`sub rsp, 16`, printed. -/
def frame_lines_source : String :=
  "print(\"a\n    push rbp\n    mov rbp, rsp\n    sub rsp, 16\n\");"

/-- The IR of `frame_lines_source`. -/
def frame_lines_ir : List IRInstruction :=
  [{ op := .IR_PUSH_STR, operand := 0, label := none,
     str_value := some "a\n    push rbp\n    mov rbp, rsp\n    sub rsp, 16\n" },
   ir .IR_PRINT 0]

/-! ## Part 2: theorems -/

/-! ### Symbol table -/

theorem find_symbol_none_iff (symbols : List Symbol) (name : String) :
    find_symbol symbols name = none ↔ ∀ sym ∈ symbols, sym.name ≠ name := by
  simp [find_symbol, List.find?_eq_none]

theorem find_symbol_some_name {symbols : List Symbol} {name : String} {sym : Symbol}
    (h : find_symbol symbols name = some sym) : sym.name = name ∧ sym ∈ symbols := by
  unfold find_symbol at h
  have h1 := List.find?_some h
  have h2 := List.mem_of_find?_eq_some h
  exact ⟨by simpa using h1, h2⟩

theorem declare_param_eq (symbols : List Symbol) (parent : Scope) (lc pc : Int) (name : String) :
    declare_param (.mk symbols parent lc pc) name
      = .ok (⟨name, .SYM_PARAM, 16 + 8 * pc⟩,
             .mk (⟨name, .SYM_PARAM, 16 + 8 * pc⟩ :: symbols) parent lc (pc + 1)) := by
  simp [declare_param, mul_comm]

theorem declare_param_seq_eq (names : List String) :
    ∀ (symbols : List Symbol) (parent : Scope) (lc pc : Int),
      declare_param_seq (.mk symbols parent lc pc) names
        = .ok ((List.range names.length).map
                  (fun i => (⟨names.getD i "", .SYM_PARAM, 16 + 8 * (pc + i)⟩ : Symbol)),
               .mk (((List.range names.length).map
                  (fun i => (⟨names.getD i "", .SYM_PARAM, 16 + 8 * (pc + i)⟩ : Symbol))).reverse
                    ++ symbols) parent lc (pc + names.length)) := by
  induction names with
  | nil => intro symbols parent lc pc; simp [declare_param_seq]
  | cons name rest ih =>
    intro symbols parent lc pc
    rw [declare_param_seq, declare_param_eq]
    simp only [ih]
    simp only [List.length_cons, List.range_succ_eq_map, List.map_cons, List.map_map,
      List.reverse_cons, List.append_assoc, List.singleton_append]
    have hf : ((fun i : Nat => (⟨(name :: rest).getD i "", .SYM_PARAM, 16 + 8 * (pc + i)⟩ : Symbol))
        ∘ Nat.succ) = fun i : Nat => (⟨rest.getD i "", .SYM_PARAM, 16 + 8 * (pc + 1 + i)⟩ : Symbol) := by
      funext i
      simp only [Function.comp, Nat.succ_eq_add_one, List.getD_cons_succ, Nat.cast_add, Nat.cast_one]
      congr 1
      ring
    rw [hf]
    simp only [List.getD_cons_zero, Nat.cast_zero, add_zero, Nat.cast_add, Nat.cast_one]
    congr 3
    ring


theorem declare_var_fresh (symbols : List Symbol) (parent : Scope) (lc pc : Int) (name : String)
    (ty : SymType) (h : ∀ sym ∈ symbols, sym.name ≠ name) :
    declare_var (.mk symbols parent lc pc) name ty
      = .ok (⟨name, ty, -8 * (1 + lc)⟩,
             .mk (⟨name, ty, -8 * (1 + lc)⟩ :: symbols) parent (lc + 1) pc) := by
  have h0 : find_symbol symbols name = none := (find_symbol_none_iff symbols name).2 h
  have h1 : -((lc + 1) * 8) = -8 * (1 + lc) := by ring
  simp [declare_var, h0, h1]

theorem declare_var_seq_eq (names : List String) :
    ∀ (symbols : List Symbol) (parent : Scope) (lc pc : Int),
      names.Nodup → (∀ name ∈ names, ∀ sym ∈ symbols, sym.name ≠ name) →
      ∃ scope, declare_var_seq (.mk symbols parent lc pc) names
        = .ok ((List.range names.length).map
                  (fun i => (⟨names.getD i "", .SYM_VAR, -8 * (lc + i + 1)⟩ : Symbol)), scope)
        ∧ scope.locals = lc + names.length ∧ scope.params = pc := by
  induction names with
  | nil =>
    intro symbols parent lc pc _ _
    exact ⟨.mk symbols parent lc pc, by simp [declare_var_seq], by simp [Scope.locals], rfl⟩
  | cons name rest ih =>
    intro symbols parent lc pc hnd hfresh
    have hhead : ∀ sym ∈ symbols, sym.name ≠ name := hfresh name (List.mem_cons_self _ _)
    rw [List.nodup_cons] at hnd
    have hrest : ∀ n ∈ rest, ∀ sym ∈ (⟨name, .SYM_VAR, -8 * (1 + lc)⟩ : Symbol) :: symbols,
        sym.name ≠ n := by
      intro n hn sym hsym
      rcases List.mem_cons.1 hsym with h | h
      · subst h
        intro heq
        have heq1 : name = n := heq
        exact hnd.1 (heq1 ▸ hn)
      · exact hfresh n (List.mem_cons_of_mem _ hn) sym h
    obtain ⟨scope, heq, hl, hp⟩ := ih _ parent (lc + 1) pc hnd.2 hrest
    refine ⟨scope, ?_, ?_, hp⟩
    · rw [declare_var_seq, declare_var_fresh _ _ _ _ _ _ hhead]
      simp only [heq]
      simp only [List.length_cons, List.range_succ_eq_map, List.map_cons, List.map_map]
      have hf : ((fun i : Nat => (⟨(name :: rest).getD i "", .SYM_VAR, -8 * (lc + i + 1)⟩ : Symbol))
          ∘ Nat.succ) = fun i : Nat => (⟨rest.getD i "", .SYM_VAR, -8 * (lc + 1 + i + 1)⟩ : Symbol) := by
        funext i
        simp only [Function.comp, Nat.succ_eq_add_one, List.getD_cons_succ, Nat.cast_add,
          Nat.cast_one]
        congr 1
        ring
      rw [hf]
      simp only [List.getD_cons_zero, Nat.cast_zero, add_zero]
      congr 3
      ring_nf
    · rw [hl]
      simp only [List.length_cons, Nat.cast_add, Nat.cast_one]
      ring

theorem lookup_eq_none_iff (scope : Scope) (name : String) :
    lookup scope name = none ↔ ∀ l ∈ scope_path scope, ∀ sym ∈ l, sym.name ≠ name := by
  induction scope with
  | null => simp [lookup, scope_path]
  | mk symbols parent lc pc ih =>
    cases hf : find_symbol symbols name with
    | some sym =>
      have hs := find_symbol_some_name hf
      simp only [lookup, hf, scope_path, List.mem_cons, forall_eq_or_imp]
      constructor
      · intro h
        cases h
      · rintro ⟨hall, _⟩
        exact absurd hs.1 (hall sym hs.2)
    | none =>
      simp only [lookup, hf, scope_path, List.mem_cons, forall_eq_or_imp, ih]
      have := (find_symbol_none_iff symbols name).1 hf
      tauto

theorem lookup_eq_some_iff (scope : Scope) (name : String) (sym : Symbol) :
    lookup scope name = some sym ↔
      ∃ pre syms post, scope_path scope = pre ++ syms :: post ∧
        (∀ l ∈ pre, ∀ s ∈ l, s.name ≠ name) ∧ find_symbol syms name = some sym := by
  induction scope with
  | null => simp [lookup, scope_path]
  | mk symbols parent lc pc ih =>
    cases hf : find_symbol symbols name with
    | some sym1 =>
      have hs := find_symbol_some_name hf
      simp only [lookup, hf, scope_path, Option.some.injEq]
      constructor
      · intro h
        subst h
        exact ⟨[], symbols, scope_path parent, rfl, by simp, hf⟩
      · rintro ⟨pre, syms, post, hp, hpre, hfound⟩
        cases pre with
        | nil =>
          simp only [List.nil_append, List.cons.injEq] at hp
          rw [← hp.1, hf] at hfound
          exact Option.some.inj hfound
        | cons p pre1 =>
          simp only [List.cons_append, List.cons.injEq] at hp
          have := hpre p (List.mem_cons_self _ _) sym1 (hp.1 ▸ hs.2)
          exact absurd hs.1 this
    | none =>
      have hn := (find_symbol_none_iff symbols name).1 hf
      simp only [lookup, hf, scope_path, ih]
      constructor
      · rintro ⟨pre, syms, post, hp, hpre, hfound⟩
        refine ⟨symbols :: pre, syms, post, by simp [hp], ?_, hfound⟩
        intro l hl
        rcases List.mem_cons.1 hl with h | h
        · subst h; exact hn
        · exact hpre l h
      · rintro ⟨pre, syms, post, hp, hpre, hfound⟩
        cases pre with
        | nil =>
          simp only [List.nil_append, List.cons.injEq] at hp
          rw [← hp.1, hf] at hfound
          exact absurd hfound (by simp)
        | cons p pre1 =>
          simp only [List.cons_append, List.cons.injEq] at hp
          exact ⟨pre1, syms, post, hp.2, fun l hl => hpre l (List.mem_cons_of_mem _ hl), hfound⟩

/-! ### Claims on the symbol table -/

/-- C7: in a scope whose parameter count is `c`, `declare_param` returns a new symbol of kind
parameter with offset `16 + 8 * c`, pushes it on the symbol list whatever names the list already
holds, and raises the parameter count by one; so declaring `N` names in a freshly created scope
yields the offsets `16, 24, ..., 16 + 8 * (N - 1)` in declaration order. -/
theorem C7_declare_param_offsets :
    (∀ (symbols : List Symbol) (parent : Scope) (lc : Int) (c : Nat) (name : String),
      declare_param (.mk symbols parent lc c) name
        = .ok (⟨name, .SYM_PARAM, 16 + 8 * c⟩,
               .mk (⟨name, .SYM_PARAM, 16 + 8 * c⟩ :: symbols) parent lc (c + 1)))
    ∧ (∀ (parent : Scope) (names : List String),
        ∃ syms scope, declare_param_seq (create_scope parent) names = .ok (syms, scope)
          ∧ syms.map (fun sym => sym.offset)
              = (List.range names.length).map (fun (i : Nat) => (16 : Int) + 8 * (i : Int))
          ∧ syms.map (fun sym => sym.name) = names
          ∧ (∀ sym ∈ syms, sym.type = .SYM_PARAM)
          ∧ scope.params = names.length) := by
  refine ⟨fun symbols parent lc c name => declare_param_eq symbols parent lc c name, ?_⟩
  intro parent names
  refine ⟨_, _, declare_param_seq_eq names [] parent 0 0, ?_, ?_, ?_, ?_⟩
  · simp [List.map_map, Function.comp]
  · apply List.ext_getElem
    · simp
    · intro i h1 h2
      simp [List.getD_eq_getElem?_getD, List.getElem?_eq_getElem h2]
  · intro sym hsym
    simp only [List.mem_map, List.mem_range] at hsym
    obtain ⟨i, _, rfl⟩ := hsym
    rfl
  · simp [Scope.params]

/-- C8: when no symbol of the scope carries the name, `declare_var` returns a new symbol with
offset `-8 * (1 + local count before the call)`, whatever the parameter count is, and raises the
local count by one; so declaring pairwise distinct names in a freshly created scope yields the
offsets `-8, -16, ..., -8 * M` in declaration order. -/
theorem C8_declare_var_offsets (symbols : List Symbol) (parent : Scope) (lc pc : Int)
    (name : String) (ty : SymType) (names : List String)
    (hfresh : ∀ sym ∈ symbols, sym.name ≠ name) (hdistinct : names.Nodup) :
    declare_var (.mk symbols parent lc pc) name ty
        = .ok (⟨name, ty, -8 * (1 + lc)⟩,
               .mk (⟨name, ty, -8 * (1 + lc)⟩ :: symbols) parent (lc + 1) pc)
    ∧ ∃ syms scope, declare_var_seq (create_scope parent) names = .ok (syms, scope)
        ∧ syms.map (fun sym => sym.offset)
            = (List.range names.length).map (fun (i : Nat) => (-8 : Int) * ((i : Int) + 1))
        ∧ syms.map (fun sym => sym.name) = names
        ∧ scope.locals = names.length := by
  refine ⟨declare_var_fresh symbols parent lc pc name ty hfresh, ?_⟩
  obtain ⟨scope, heq, hl, _⟩ := declare_var_seq_eq names [] parent 0 0 hdistinct (by simp)
  refine ⟨_, scope, heq, ?_, ?_, by simpa using hl⟩
  · simp [List.map_map, Function.comp]
  · apply List.ext_getElem
    · simp
    · intro i h1 h2
      simp [List.getD_eq_getElem?_getD, List.getElem?_eq_getElem h2]

/-- Witness of C8: `y` declared in a scope holding one parameter `x` and three earlier locals
gets offset `-32`; `a`, `b`, `c` declared in a fresh scope get `-8`, `-16`, `-24`. -/
theorem C8_declare_var_offsets_witness :
    declare_var (.mk [⟨"x", .SYM_PARAM, 16⟩] .null 3 1) "y" .SYM_VAR
        = .ok (⟨"y", .SYM_VAR, -8 * (1 + 3)⟩,
               .mk [⟨"y", .SYM_VAR, -8 * (1 + 3)⟩, ⟨"x", .SYM_PARAM, 16⟩] .null (3 + 1) 1)
    ∧ ∃ syms scope, declare_var_seq (create_scope .null) ["a", "b", "c"] = .ok (syms, scope)
        ∧ syms.map (fun sym => sym.offset)
            = (List.range ["a", "b", "c"].length).map (fun (i : Nat) => (-8 : Int) * ((i : Int) + 1))
        ∧ syms.map (fun sym => sym.name) = ["a", "b", "c"]
        ∧ scope.locals = ["a", "b", "c"].length :=
  C8_declare_var_offsets [⟨"x", .SYM_PARAM, 16⟩] .null 3 1 "y" .SYM_VAR ["a", "b", "c"]
    (by decide) (by decide)

/-- C10: `lookup` returns a symbol exactly when it is the first symbol with the name on the
symbol list of the nearest scope, on the walk from the given scope to the root, that holds the
name (every scope nearer than that one holds no symbol with the name), and returns not-found
exactly when no scope on the walk holds the name; `lookup` is a function of the scope chain and
the name alone and returns only the symbol, so it changes no scope. -/
theorem C10_lookup_nearest (scope : Scope) (name : String) :
    (∀ sym, lookup scope name = some sym ↔
      ∃ pre syms post, scope_path scope = pre ++ syms :: post ∧
        (∀ l ∈ pre, ∀ s ∈ l, s.name ≠ name) ∧ find_symbol syms name = some sym)
    ∧ (lookup scope name = none ↔ ∀ l ∈ scope_path scope, ∀ sym ∈ l, sym.name ≠ name) :=
  ⟨fun sym => lookup_eq_some_iff scope name sym, lookup_eq_none_iff scope name⟩


/-! ### Lexical errors -/

theorem bind_ok {α β : Type} {x : Except Fatal α} {f : α → Except Fatal β} {b : β}
    (h : (x >>= f) = .ok b) : ∃ a, x = .ok a ∧ f a = .ok b := by
  cases x with
  | error e => simp [bind, Except.bind] at h
  | ok a => exact ⟨a, rfl, h⟩

theorem emit_program (cg : CodeGen) (op : IROp) (operand : Int) (label : Option String) :
    (cg.emit op operand label).current_program
      = cg.current_program ++ [⟨op, operand, label, none⟩] := rfl

theorem emit_scope (cg : CodeGen) (op : IROp) (operand : Int) (label : Option String) :
    (cg.emit op operand label).current_scope = cg.current_scope := rfl

theorem emit_counter (cg : CodeGen) (op : IROp) (operand : Int) (label : Option String) :
    (cg.emit op operand label).label_counter = cg.label_counter := rfl

theorem gen_expression_node_spec (type : ASTNodeType)
    (gl gr : CodeGen → Except Fatal CodeGen) (ga : CodeGen → Except Fatal (Int × CodeGen))
    (ll lr la : (String → Int) → List IRInstruction) (n : Int)
    (cn vn : Option String) (iv : Int) (sv : Option String) (bo : BinOpType) (co : CompareOpType)
    (hl : ExprSpec gl ll) (hr : ExprSpec gr lr) (ha : ArgsSpec ga n la) :
    ExprSpec (gen_expression_node type gl gr ga cn vn iv sv bo co)
      (fun ρ => lower_expression_node ρ type (ll ρ) (lr ρ) (la ρ) n cn vn iv sv bo co) := by
  intro cg cg1 h
  cases type <;> simp only [gen_expression_node] at h
  case AST_INT_LIT =>
    cases h
    exact ⟨rfl, rfl, fun ρ _ => rfl⟩
  case AST_STRING_LIT =>
    cases h
    exact ⟨rfl, rfl, fun ρ _ => rfl⟩
  case AST_MALLOC =>
    obtain ⟨cg2, h1, h2⟩ := bind_ok h
    cases h2
    obtain ⟨hs, hc, hp⟩ := hl cg cg2 h1
    refine ⟨hs, hc, fun ρ hρ => ?_⟩
    simp [emit_program, hp ρ hρ, lower_expression_node, ir]
  case AST_VAR =>
    cases vn with
    | none => simp at h
    | some name =>
      simp only at h
      cases hlk : lookup cg.current_scope name with
      | none => simp [hlk] at h
      | some sym =>
        simp only [hlk] at h
        cases h
        refine ⟨rfl, rfl, fun ρ hρ => ?_⟩
        simp [emit_program, lower_expression_node, ir, hρ name sym hlk]
  case AST_BINOP =>
    obtain ⟨cg2, h1, h2⟩ := bind_ok h
    obtain ⟨cg3, h3, h4⟩ := bind_ok h2
    obtain ⟨hs, hc, hp⟩ := hl cg cg2 h1
    obtain ⟨hs2, hc2, hp2⟩ := hr cg2 cg3 h3
    cases bo <;> simp only at h4 <;> cases h4 <;>
      exact ⟨by rw [emit_scope, hs2, hs], by rw [emit_counter, hc2, hc], fun ρ hρ => by
        simp [emit_program, hp2 ρ (hs ▸ hρ), hp ρ hρ, lower_expression_node, binop_ir, ir]⟩
  case AST_COMPARE =>
    obtain ⟨cg2, h1, h2⟩ := bind_ok h
    obtain ⟨cg3, h3, h4⟩ := bind_ok h2
    obtain ⟨hs, hc, hp⟩ := hl cg cg2 h1
    obtain ⟨hs2, hc2, hp2⟩ := hr cg2 cg3 h3
    cases h4
    exact ⟨by rw [emit_scope, hs2, hs], by rw [emit_counter, hc2, hc], fun ρ hρ => by
        simp [emit_program, hp2 ρ (hs ▸ hρ), hp ρ hρ, lower_expression_node, ir]⟩
  case AST_CALL_EXPR =>
    obtain ⟨⟨c, cg2⟩, h1, h2⟩ := bind_ok h
    obtain ⟨hcnt, hs, hc, hp⟩ := ha cg c cg2 h1
    cases cn with
    | none => simp at h2
    | some name =>
      simp only at h2
      cases h2
      exact ⟨by rw [emit_scope, hs], by rw [emit_counter, hc], fun ρ hρ => by
        simp [emit_program, hp ρ hρ, lower_expression_node, ir_label, hcnt]⟩
  all_goals cases h

theorem gen_expression_spec (n : ASTNode) :
    ExprSpec (gen_expression n) (fun ρ => lower_expression ρ n)
    ∧ ∀ c0, ArgsSpec (gen_call_args n c0) (c0 + chain_length n) (fun ρ => lower_call_args ρ n) := by
  induction n with
  | null =>
    constructor
    · intro cg cg1 h
      simp only [gen_expression] at h
      cases h
      exact ⟨rfl, rfl, fun ρ _ => by simp [lower_expression]⟩
    · intro c0 cg c cg1 h
      simp only [gen_call_args] at h
      cases h
      exact ⟨by simp [chain_length], rfl, rfl, fun ρ _ => by simp [lower_call_args]⟩
  | node ty l r c tb eb b fnm ps bn cnm ar vn iv sv bo co st sc ihl ihr _ _ _ _ _ _ ihar _ =>
    have hnode := gen_expression_node_spec ty (gen_expression l) (gen_expression r)
      (gen_call_args ar 0) _ _ _ (chain_length ar) cnm vn iv sv bo co ihl.1 ihr.1
      (by simpa using ihar.2 0)
    constructor
    · intro cg cg1 h
      rw [gen_expression] at h
      have := hnode cg cg1 h
      simpa [lower_expression] using this
    · intro c0 cg c cg1 h
      rw [gen_call_args] at h
      obtain ⟨cg2, h1, h2⟩ := bind_ok h
      obtain ⟨hs, hc, hp⟩ := hnode cg cg2 h1
      obtain ⟨hcnt, hs2, hc2, hp2⟩ := ihr.2 (c0 + 1) cg2 c cg1 h2
      refine ⟨?_, by rw [hs2, hs], by rw [hc2, hc], fun ρ hρ => ?_⟩
      · rw [hcnt, chain_length]; ring
      · rw [hp2 ρ (hs ▸ hρ), hp ρ hρ]
        simp only [lower_call_args, List.append_assoc]

theorem allocate_locals_null (decls : List String) : allocate_locals .null decls = .null := by
  cases decls with
  | nil => rfl
  | cons name rest => simp [allocate_locals, lookup, declare_var]

theorem allocate_locals_append (d1 : List String) :
    ∀ (scope : Scope) (d2 : List String),
      allocate_locals scope (d1 ++ d2) = allocate_locals (allocate_locals scope d1) d2 := by
  induction d1 with
  | nil => intro scope d2; rfl
  | cons name rest ih =>
    intro scope d2
    cases scope with
    | null => simp [allocate_locals_null]
    | mk syms parent lc pc =>
      simp only [List.cons_append, allocate_locals]
      cases hlk : lookup (.mk syms parent lc pc) name with
      | some sym => exact ih _ _
      | none =>
        simp only
        cases hd : declare_var (.mk syms parent lc pc) name .SYM_VAR with
        | error e =>
          simp only [declare_var] at hd
          split at hd <;> cases hd
        | ok r => exact ih _ _

theorem lookup_cons_ne (sym : Symbol) (syms : List Symbol) (parent : Scope) (lc pc lc1 pc1 : Int)
    (name : String) (h : sym.name ≠ name) :
    lookup (.mk (sym :: syms) parent lc1 pc1) name = lookup (.mk syms parent lc pc) name := by
  simp [lookup, find_symbol, List.find?_cons, h]

theorem lookup_declare_var_stable (scope scope1 : Scope) (name other : String) (ty : SymType)
    (sym found : Symbol) (hnone : lookup scope name = none)
    (hd : declare_var scope name ty = .ok (sym, scope1))
    (hother : lookup scope other = some found) : lookup scope1 other = some found := by
  cases scope with
  | null => simp [declare_var] at hd
  | mk syms parent lc pc =>
    have hfs : find_symbol syms name = none := by
      simp only [lookup] at hnone
      split at hnone
      · cases hnone
      · assumption
    simp only [declare_var, hfs, Except.ok.injEq, Prod.mk.injEq] at hd
    obtain ⟨hsym, hsc⟩ := hd
    have hne : sym.name ≠ other := by
      intro heq
      rw [← hsym] at heq
      simp only at heq
      rw [heq, hother] at hnone
      cases hnone
    rw [← hsc, hsym, lookup_cons_ne sym syms parent lc pc _ _ other hne]
    exact hother

theorem lookup_allocate_locals_stable (decls : List String) :
    ∀ (scope : Scope) (name : String) (sym : Symbol), lookup scope name = some sym →
      lookup (allocate_locals scope decls) name = some sym := by
  induction decls with
  | nil => intro scope name sym h; exact h
  | cons d rest ih =>
    intro scope name sym h
    simp only [allocate_locals]
    cases hlk : lookup scope d with
    | some s => exact ih scope name sym h
    | none =>
      simp only
      cases hd : declare_var scope d .SYM_VAR with
      | error e => exact h
      | ok r =>
        obtain ⟨s1, scope1⟩ := r
        exact ih scope1 name sym (lookup_declare_var_stable scope scope1 d name _ s1 sym hlk hd h)

theorem agrees_of_allocate_locals {ρ : String → Int} {scope : Scope} {decls : List String}
    (h : agrees ρ (allocate_locals scope decls)) : agrees ρ scope :=
  fun name sym hl => h name sym (lookup_allocate_locals_stable decls scope name sym hl)

theorem declare_var_lookup_self (scope scope1 : Scope) (name : String) (ty : SymType)
    (sym : Symbol) (hd : declare_var scope name ty = .ok (sym, scope1)) :
    lookup scope1 name = some sym := by
  cases scope with
  | null => simp [declare_var] at hd
  | mk syms parent lc pc =>
    cases hf : find_symbol syms name with
    | some ex =>
      simp only [declare_var, hf, Except.ok.injEq, Prod.mk.injEq] at hd
      rw [← hd.2, ← hd.1]
      simp [lookup, hf]
    | none =>
      simp only [declare_var, hf, Except.ok.injEq, Prod.mk.injEq] at hd
      rw [← hd.2, ← hd.1]
      simp [lookup, find_symbol]

theorem gen_statement_node_spec (type : ASTNodeType)
    (gl gc : CodeGen → Except Fatal CodeGen) (ga : CodeGen → Except Fatal (Int × CodeGen))
    (gt ge gb gs : CodeGen → Except Fatal CodeGen)
    (ll lc la : (String → Int) → List IRInstruction) (n : Int)
    (lt le lb ls : (String → Int) → Nat → List IRInstruction)
    (dt de db ds : List String) (nt ne nb ns : Nat)
    (has_else : Bool) (cn vn : Option String)
    (hl : ExprSpec gl ll) (hc : ExprSpec gc lc) (ha : ArgsSpec ga n la)
    (ht : StmtSpec gt dt nt lt) (he : StmtSpec ge de ne le) (hb : StmtSpec gb db nb lb)
    (hs : StmtSpec gs ds ns ls) (hno : has_else = false → de = [] ∧ ne = 0) :
    StmtSpec (gen_statement_node type gl gc ga gt ge gb gs has_else cn vn)
      (declared_statement_node type dt de db ds vn)
      (label_count_statement_node type nt ne nb ns)
      (fun ρ k => lower_statement_node ρ type (ll ρ) (lc ρ) (la ρ) n (lt ρ) (le ρ) (lb ρ) (ls ρ)
        nt has_else cn vn k) := by
  intro cg cg1 h
  cases type <;> simp only [gen_statement_node] at h
  case AST_VAR_DECL =>
    obtain ⟨cg2, h1, h2⟩ := bind_ok h
    obtain ⟨hs1, hc1, hp1⟩ := hl cg cg2 h1
    cases vn with
    | none => simp at h2
    | some name =>
      simp only at h2
      cases hlk : lookup cg2.current_scope name with
      | some sym =>
        simp only [hlk] at h2
        cases h2
        have hsc : allocate_locals cg.current_scope [name] = cg.current_scope := by
          simp [allocate_locals, ← hs1, hlk]
        refine ⟨?_, by simp [emit_counter, hc1, label_count_statement_node], fun ρ hρ => ?_⟩
        · simp [declared_statement_node, emit_scope, hsc, hs1]
        · rw [emit_scope] at hρ
          have hρ2 : agrees ρ cg.current_scope := hs1 ▸ hρ
          simp [emit_program, hp1 ρ hρ2, lower_statement_node, ir, hρ name sym hlk]
      | none =>
        simp only [hlk] at h2
        obtain ⟨⟨sym, scope1⟩, h3, h4⟩ := bind_ok h2
        cases h4
        have hsc : allocate_locals cg.current_scope [name] = scope1 := by
          simp [allocate_locals, ← hs1, hlk, h3]
        refine ⟨?_, by simp [emit_counter, hc1, label_count_statement_node], fun ρ hρ => ?_⟩
        · simp [declared_statement_node, emit_scope, hsc]
        · rw [emit_scope] at hρ
          simp only at hρ
          have hρ2 : agrees ρ cg.current_scope := by
            rw [← hsc] at hρ
            exact agrees_of_allocate_locals hρ
          have hself := declare_var_lookup_self _ _ _ _ _ h3
          simp [emit_program, hp1 ρ hρ2, lower_statement_node, ir, hρ name sym hself]
  case AST_ASSIGN =>
    obtain ⟨cg2, h1, h2⟩ := bind_ok h
    obtain ⟨hs1, hc1, hp1⟩ := hl cg cg2 h1
    cases vn with
    | none => simp at h2
    | some name =>
      simp only at h2
      cases hlk : lookup cg2.current_scope name with
      | none => simp [hlk] at h2
      | some sym =>
        simp only [hlk] at h2
        cases h2
        refine ⟨by simp [declared_statement_node, emit_scope, hs1, allocate_locals],
          by simp [emit_counter, hc1, label_count_statement_node], fun ρ hρ => ?_⟩
        rw [emit_scope] at hρ
        have hρ2 : agrees ρ cg.current_scope := hs1 ▸ hρ
        simp [emit_program, hp1 ρ hρ2, lower_statement_node, ir, hρ name sym hlk]
  case AST_RETURN =>
    obtain ⟨cg2, h1, h2⟩ := bind_ok h
    obtain ⟨hs1, hc1, hp1⟩ := hl cg cg2 h1
    cases h2
    refine ⟨by simp [declared_statement_node, emit_scope, hs1, allocate_locals],
      by simp [emit_counter, hc1, label_count_statement_node], fun ρ hρ => ?_⟩
    rw [emit_scope] at hρ
    simp [emit_program, hp1 ρ (hs1 ▸ hρ), lower_statement_node, ir]
  case AST_PRINT =>
    obtain ⟨cg2, h1, h2⟩ := bind_ok h
    obtain ⟨hs1, hc1, hp1⟩ := hl cg cg2 h1
    cases h2
    refine ⟨by simp [declared_statement_node, emit_scope, hs1, allocate_locals],
      by simp [emit_counter, hc1, label_count_statement_node], fun ρ hρ => ?_⟩
    rw [emit_scope] at hρ
    simp [emit_program, hp1 ρ (hs1 ▸ hρ), lower_statement_node, ir]
  case AST_FREE =>
    obtain ⟨cg2, h1, h2⟩ := bind_ok h
    obtain ⟨hs1, hc1, hp1⟩ := hl cg cg2 h1
    cases h2
    refine ⟨by simp [declared_statement_node, emit_scope, hs1, allocate_locals],
      by simp [emit_counter, hc1, label_count_statement_node], fun ρ hρ => ?_⟩
    rw [emit_scope] at hρ
    simp [emit_program, hp1 ρ (hs1 ▸ hρ), lower_statement_node, ir]
  case AST_CALL_STMT =>
    obtain ⟨⟨c, cg2⟩, h1, h2⟩ := bind_ok h
    obtain ⟨hcnt, hs1, hc1, hp1⟩ := ha cg c cg2 h1
    cases cn with
    | none => simp at h2
    | some name =>
      simp only at h2
      cases h2
      refine ⟨by simp [declared_statement_node, emit_scope, hs1, allocate_locals],
        by simp [emit_counter, hc1, label_count_statement_node], fun ρ hρ => ?_⟩
      simp only [emit_scope] at hρ
      simp [emit_program, hp1 ρ (hs1 ▸ hρ), lower_statement_node, ir, ir_label, hcnt]
  case AST_BLOCK =>
    have := hs cg cg1 h
    simpa [declared_statement_node, label_count_statement_node, lower_statement_node] using this
  case AST_WHILE =>
    simp only [generate_label] at h
    obtain ⟨cg4, h1, h2⟩ := bind_ok h
    obtain ⟨cg6, h3, h4⟩ := bind_ok h2
    cases h4
    obtain ⟨hs1, hc1, hp1⟩ := hc _ cg4 h1
    obtain ⟨hs2, hc2, hp2⟩ := hb _ cg6 h3
    simp only [emit_scope, emit_counter, emit_program] at hs1 hc1 hp1 hs2 hc2 hp2
    refine ⟨by simp [declared_statement_node, emit_scope, hs2, hs1],
      by simp [emit_counter, hc2, hc1, label_count_statement_node]; omega, fun ρ hρ => ?_⟩
    simp only [emit_scope] at hρ
    have hρ1 : agrees ρ cg.current_scope := by
      rw [hs2, hs1] at hρ
      exact agrees_of_allocate_locals hρ
    simp [emit_program, hp2 ρ hρ, hp1 ρ hρ1, hc1, lower_statement_node, ir_label]
  case AST_IF =>
    simp only [generate_label] at h
    obtain ⟨cg3, h1, h2⟩ := bind_ok h
    obtain ⟨cg5, h3, h4⟩ := bind_ok h2
    obtain ⟨hs1, hc1, hp1⟩ := hc _ cg3 h1
    obtain ⟨hs2, hc2, hp2⟩ := ht _ cg5 h3
    simp only [emit_scope, emit_counter, emit_program] at hs1 hc1 hp1 hs2 hc2 hp2
    cases has_else with
    | false =>
      obtain ⟨hde, hne⟩ := hno rfl
      simp only [Bool.false_eq_true, if_false] at h4
      cases h4
      refine ⟨by simp [declared_statement_node, emit_scope, hs2, hs1, hde],
        by simp [emit_counter, hc2, hc1, label_count_statement_node, hne]; omega, fun ρ hρ => ?_⟩
      simp only [emit_scope] at hρ
      have hρ1 : agrees ρ cg.current_scope := by
        rw [hs2, hs1] at hρ
        exact agrees_of_allocate_locals hρ
      simp [emit_program, hp2 ρ hρ, hp1 ρ hρ1, hc1, lower_statement_node, ir_label]
    | true =>
      simp only [if_true] at h4
      obtain ⟨cg8, h5, h6⟩ := bind_ok h4
      cases h6
      obtain ⟨hs3, hc3, hp3⟩ := he _ cg8 h5
      simp only [emit_scope, emit_counter, emit_program] at hs3 hc3 hp3
      refine ⟨by simp [declared_statement_node, emit_scope, hs3, hs2, hs1, allocate_locals_append],
        by simp [emit_counter, hc3, hc2, hc1, label_count_statement_node]; omega, fun ρ hρ => ?_⟩
      simp only [emit_scope] at hρ
      have hρ2 : agrees ρ cg5.current_scope := by
        rw [hs3] at hρ
        exact agrees_of_allocate_locals hρ
      have hρ1 : agrees ρ cg.current_scope := by
        rw [hs2, hs1] at hρ2
        exact agrees_of_allocate_locals hρ2
      simp [emit_program, hp3 ρ hρ, hp2 ρ hρ2, hp1 ρ hρ1, hc1, hc2, lower_statement_node, ir_label]
  all_goals cases h

theorem gen_statement_spec (n : ASTNode) :
    StmtSpec (gen_statement n) (declared_statement n) (label_count_statement n)
        (fun ρ k => lower_statement ρ n k)
    ∧ StmtSpec (gen_block n) (declared_block n) (label_count_block n)
        (fun ρ k => lower_block ρ n k)
    ∧ StmtSpec (gen_statement_list n) (declared_statement_list n) (label_count_statement_list n)
        (fun ρ k => lower_statement_list ρ n k) := by
  induction n with
  | null =>
    refine ⟨?_, ?_, ?_⟩ <;> intro cg cg1 h
    · simp only [gen_statement] at h
      cases h
      exact ⟨rfl, rfl, fun ρ _ => by simp [lower_statement]⟩
    · simp only [gen_block] at h
      cases h
      exact ⟨rfl, rfl, fun ρ _ => by simp [lower_block]⟩
    · simp only [gen_statement_list] at h
      cases h
      exact ⟨rfl, rfl, fun ρ _ => by simp [lower_statement_list]⟩
  | node ty l r c tb eb b fnm ps bn cnm ar vn iv sv bo co st sc _ ihr _ ihtb iheb ihb _ _ _ ihst =>
    have hno : (!eb.is_null) = false → declared_block eb = [] ∧ label_count_block eb = 0 := by
      intro h
      cases eb with
      | null => exact ⟨rfl, rfl⟩
      | node => simp [ASTNode.is_null] at h
    have hnode := gen_statement_node_spec ty (gen_expression l) (gen_expression c)
      (gen_call_args ar 0) (gen_block tb) (gen_block eb) (gen_block b) (gen_statement_list st)
      _ _ _ (chain_length ar) _ _ _ _ _ _ _ _ _ _ _ _ (!eb.is_null) cnm vn
      (gen_expression_spec l).1 (gen_expression_spec c).1
      (by simpa using (gen_expression_spec ar).2 0)
      ihtb.2.1 iheb.2.1 ihb.2.1 ihst.2.2 hno
    refine ⟨?_, ?_, ?_⟩
    · intro cg cg1 h
      rw [gen_statement] at h
      have := hnode cg cg1 h
      simpa only [declared_statement, label_count_statement, lower_statement] using this
    · intro cg cg1 h
      rw [gen_block] at h
      by_cases hty : ty = .AST_BLOCK
      · simp only [hty, ne_eq, not_true_eq_false, if_false] at h
        have := ihst.2.2 cg cg1 h
        simpa [declared_block, label_count_block, lower_block, hty] using this
      · simp only [ne_eq, hty, not_false_eq_true, if_true] at h
        cases h
        exact ⟨by simp [declared_block, hty, allocate_locals],
          by simp [label_count_block, hty], fun ρ _ => by simp [lower_block, hty]⟩
    · intro cg cg1 h
      rw [gen_statement_list] at h
      obtain ⟨cg2, h1, h2⟩ := bind_ok h
      obtain ⟨hs1, hc1, hp1⟩ := hnode cg cg2 h1
      obtain ⟨hs2, hc2, hp2⟩ := ihr.2.2 cg2 cg1 h2
      refine ⟨?_, ?_, fun ρ hρ => ?_⟩
      · rw [hs2, hs1, declared_statement_list, allocate_locals_append]
      · rw [hc2, hc1, label_count_statement_list]; omega
      · have hρ1 : agrees ρ cg2.current_scope := by
          rw [hs2] at hρ
          exact agrees_of_allocate_locals hρ
        rw [hp2 ρ hρ, hp1 ρ hρ1, hc1]
        simp only [lower_statement_list, List.append_assoc]

/-! ### Function definitions: parameters, locals, undefined names -/

theorem gen_declare_params_lookup_other (n : ASTNode) :
    ∀ (scope scope1 : Scope) (name : String), gen_declare_params n scope = .ok scope1 →
      name ∉ param_names n → lookup scope1 name = lookup scope name := by
  induction n with
  | null =>
    intro scope scope1 name h _
    simp only [gen_declare_params] at h
    cases h
    rfl
  | node ty l r c tb eb b fnm ps bn cnm ar vn iv sv bo co st sc _ ihr _ _ _ _ _ _ _ _ =>
    intro scope scope1 name h hnot
    cases vn with
    | none => simp [gen_declare_params] at h
    | some pname =>
      simp only [gen_declare_params] at h
      obtain ⟨⟨sym, scope2⟩, h1, h2⟩ := bind_ok h
      simp only [param_names, Option.getD_some, List.mem_cons, not_or] at hnot
      rw [ihr scope2 scope1 name h2 hnot.2]
      cases scope with
      | null => simp [declare_param] at h1
      | mk syms parent lc pc =>
        rw [declare_param_eq] at h1
        simp only [Except.ok.injEq, Prod.mk.injEq] at h1
        rw [← h1.2]
        exact lookup_cons_ne _ syms parent lc pc _ _ name (fun heq => hnot.1 heq.symm)

theorem gen_declare_params_lookup (n : ASTNode) :
    ∀ (syms : List Symbol) (parent : Scope) (lc pc : Int) (scope1 : Scope),
      gen_declare_params n (.mk syms parent lc pc) = .ok scope1 → (param_names n).Nodup →
      ∀ (i : Nat) (name : String), (param_names n)[i]? = some name →
        lookup scope1 name = some ⟨name, .SYM_PARAM, 16 + 8 * (pc + i)⟩ := by
  induction n with
  | null =>
    intro syms parent lc pc scope1 _ _ i name h
    simp [param_names] at h
  | node ty l r c tb eb b fnm ps bn cnm ar vn iv sv bo co st sc _ ihr _ _ _ _ _ _ _ _ =>
    intro syms parent lc pc scope1 h hnd i name hi
    cases vn with
    | none => simp [gen_declare_params] at h
    | some pname =>
      simp only [gen_declare_params] at h
      obtain ⟨⟨sym, scope2⟩, h1, h2⟩ := bind_ok h
      rw [declare_param_eq] at h1
      simp only [Except.ok.injEq, Prod.mk.injEq] at h1
      simp only [param_names, Option.getD_some, List.nodup_cons] at hnd
      simp only [param_names, Option.getD_some] at hi
      cases i with
      | zero =>
        simp only [List.getElem?_cons_zero, Option.some.injEq] at hi
        subst hi
        rw [gen_declare_params_lookup_other r scope2 scope1 pname h2 hnd.1, ← h1.2]
        simp [lookup, find_symbol]
      | succ j =>
        simp only [List.getElem?_cons_succ] at hi
        rw [ihr _ parent lc (pc + 1) scope1 (h1.2 ▸ h2) hnd.2 j name hi]
        simp only [Nat.cast_add, Nat.cast_one, Option.some.injEq, Symbol.mk.injEq, true_and]
        ring

theorem gen_declare_params_visible (n : ASTNode) :
    ∀ (scope scope1 : Scope), gen_declare_params n scope = .ok scope1 →
      (∀ name, lookup scope name ≠ none → lookup scope1 name ≠ none)
      ∧ ∀ name ∈ param_names n, lookup scope1 name ≠ none := by
  induction n with
  | null =>
    intro scope scope1 h
    simp only [gen_declare_params] at h
    cases h
    exact ⟨fun _ h => h, by simp [param_names]⟩
  | node ty l r c tb eb b fnm ps bn cnm ar vn iv sv bo co st sc _ ihr _ _ _ _ _ _ _ _ =>
    intro scope scope1 h
    cases vn with
    | none => simp [gen_declare_params] at h
    | some pname =>
      simp only [gen_declare_params] at h
      obtain ⟨⟨sym, scope2⟩, h1, h2⟩ := bind_ok h
      obtain ⟨ih1, ih2⟩ := ihr scope2 scope1 h2
      cases scope with
      | null => simp [declare_param] at h1
      | mk syms parent lc pc =>
        rw [declare_param_eq] at h1
        simp only [Except.ok.injEq, Prod.mk.injEq] at h1
        have hstep : ∀ name, lookup (.mk syms parent lc pc) name ≠ none →
            lookup scope2 name ≠ none := by
          intro name hn
          rw [← h1.2]
          by_cases heq : pname = name
          · simp [lookup, find_symbol, heq]
          · rw [lookup_cons_ne _ syms parent lc pc _ _ name heq]
            exact hn
        refine ⟨fun name hn => ih1 name (hstep name hn), ?_⟩
        intro name hmem
        simp only [param_names, Option.getD_some, List.mem_cons] at hmem
        rcases hmem with heq | hmem
        · apply ih1
          rw [← h1.2, heq]
          simp [lookup, find_symbol]
        · exact ih2 name hmem

theorem gen_declare_params_shape (n : ASTNode) :
    ∀ (syms : List Symbol) (parent : Scope) (lc pc : Int) (scope1 : Scope),
      gen_declare_params n (.mk syms parent lc pc) = .ok scope1 →
      ∃ syms1 pc1, scope1 = .mk syms1 parent lc pc1 := by
  induction n with
  | null =>
    intro syms parent lc pc scope1 h
    simp only [gen_declare_params] at h
    cases h
    exact ⟨syms, pc, rfl⟩
  | node ty l r c tb eb b fnm ps bn cnm ar vn iv sv bo co st sc _ ihr _ _ _ _ _ _ _ _ =>
    intro syms parent lc pc scope1 h
    cases vn with
    | none => simp [gen_declare_params] at h
    | some pname =>
      simp only [gen_declare_params] at h
      obtain ⟨⟨sym, scope2⟩, h1, h2⟩ := bind_ok h
      rw [declare_param_eq] at h1
      simp only [Except.ok.injEq, Prod.mk.injEq] at h1
      exact ihr _ parent lc (pc + 1) scope1 (h1.2 ▸ h2)

theorem first_occurrences_filter (p : String → Bool) (l : List String) :
    first_occurrences (l.filter p) = (first_occurrences l).filter p := by
  induction l with
  | nil => rfl
  | cons x rest ih =>
    by_cases hp : p x = true
    · simp only [List.filter_cons, hp, if_true, first_occurrences, ih, List.filter_filter]
      congr 1
      apply List.filter_congr
      intro a _
      exact Bool.and_comm _ _
    · simp only [List.filter_cons, hp, Bool.false_eq_true, if_false, first_occurrences, ih,
        List.filter_filter]
      apply List.filter_congr
      intro a _
      by_cases ha : a = x
      · subst ha; simp [hp]
      · simp [ha]

theorem lookup_declare_var_none_iff (syms : List Symbol) (parent : Scope) (lc pc : Int)
    (name other : String) (sym : Symbol) (scope1 : Scope)
    (hd : declare_var (.mk syms parent lc pc) name .SYM_VAR = .ok (sym, scope1))
    (hnone : lookup (.mk syms parent lc pc) name = none) :
    (lookup scope1 other = none) ↔ (other ≠ name ∧ lookup (.mk syms parent lc pc) other = none) := by
  have hself := declare_var_lookup_self _ _ _ _ _ hd
  by_cases heq : other = name
  · subst heq
    simp [hself]
  · have hfs : find_symbol syms name = none := by
      simp only [lookup] at hnone
      split at hnone
      · cases hnone
      · assumption
    simp only [declare_var, hfs, Except.ok.injEq, Prod.mk.injEq] at hd
    rw [← hd.2, lookup_cons_ne _ syms parent lc pc _ _ other (fun h => heq h.symm)]
    simp [heq]

theorem allocate_locals_lookup (decls : List String) :
    ∀ (syms : List Symbol) (parent : Scope) (lc pc : Int) (k : Nat) (name : String),
      (first_occurrences
        (decls.filter (fun x => (lookup (.mk syms parent lc pc) x).isNone)))[k]? = some name →
      lookup (allocate_locals (.mk syms parent lc pc) decls) name
        = some ⟨name, .SYM_VAR, -8 * (lc + k + 1)⟩ := by
  induction decls with
  | nil => intro syms parent lc pc k name h; simp [first_occurrences] at h
  | cons d rest ih =>
    intro syms parent lc pc k name h
    cases hlk : lookup (.mk syms parent lc pc) d with
    | some s =>
      have hf : (d :: rest).filter (fun x => (lookup (.mk syms parent lc pc) x).isNone)
          = rest.filter (fun x => (lookup (.mk syms parent lc pc) x).isNone) := by
        simp [List.filter_cons, hlk]
      rw [hf] at h
      simp only [allocate_locals, hlk]
      exact ih syms parent lc pc k name h
    | none =>
      have hfr : ∀ sym ∈ syms, sym.name ≠ d := by
        simp only [lookup] at hlk
        split at hlk
        · cases hlk
        · rename_i hfs
          exact (find_symbol_none_iff syms d).1 hfs
      have hd := declare_var_fresh syms parent lc pc d .SYM_VAR hfr
      have hiff := fun other => lookup_declare_var_none_iff syms parent lc pc d other _ _ hd hlk
      have hf : (d :: rest).filter (fun x => (lookup (.mk syms parent lc pc) x).isNone)
          = d :: rest.filter (fun x => (lookup (.mk syms parent lc pc) x).isNone) := by
        simp [List.filter_cons, hlk]
      have hf2 : rest.filter (fun x => (lookup
            (.mk (⟨d, .SYM_VAR, -8 * (1 + lc)⟩ :: syms) parent (lc + 1) pc) x).isNone)
          = (rest.filter (fun x => (lookup (.mk syms parent lc pc) x).isNone)).filter
              (fun other => other != d) := by
        rw [List.filter_filter]
        apply List.filter_congr
        intro a _
        have := hiff a
        cases h1 : lookup (.mk (⟨d, .SYM_VAR, -8 * (1 + lc)⟩ :: syms) parent (lc + 1) pc) a with
        | none =>
          have h2 := this.1 h1
          simp [h2.1, h2.2]
        | some v =>
          have h2 : ¬ (a ≠ d ∧ lookup (.mk syms parent lc pc) a = none) :=
            fun hh => by rw [this.2 hh] at h1; cases h1
          cases hx : lookup (.mk syms parent lc pc) a with
          | none =>
            simp only [hx, not_and, not_true_eq_false, imp_false, not_not, ne_eq, and_true] at h2
            simp [h2]
          | some v => simp
      have hfo : first_occurrences
            ((d :: rest).filter (fun x => (lookup (.mk syms parent lc pc) x).isNone))
          = d :: first_occurrences (rest.filter (fun x => (lookup
              (.mk (⟨d, .SYM_VAR, -8 * (1 + lc)⟩ :: syms) parent (lc + 1) pc) x).isNone)) := by
        rw [hf, hf2, first_occurrences]
        simp only [first_occurrences_filter]
      rw [hfo] at h
      simp only [allocate_locals, hlk, hd]
      cases k with
      | zero =>
        simp only [List.getElem?_cons_zero, Option.some.injEq] at h
        subst h
        have := lookup_allocate_locals_stable rest _ d _
          (declare_var_lookup_self _ _ _ _ _ hd)
        rw [this]
        simp only [Nat.cast_zero, add_zero, Option.some.injEq, Symbol.mk.injEq, true_and]
        ring
      | succ j =>
        simp only [List.getElem?_cons_succ] at h
        have := ih (⟨d, .SYM_VAR, -8 * (1 + lc)⟩ :: syms) parent (lc + 1) pc j name h
        rw [this]
        simp only [Nat.cast_add, Nat.cast_one, Option.some.injEq, Symbol.mk.injEq, true_and]
        ring

theorem gen_function_lowering (fn_name : Option String) (params body : ASTNode)
    (cg cg1 : CodeGen) (h : gen_function fn_name params body cg = .ok cg1) :
    ∃ entry name, fn_name = some name
      ∧ gen_declare_params params (create_scope cg.current_scope) = .ok entry
      ∧ cg1.current_scope = cg.current_scope
      ∧ cg1.label_counter = cg.label_counter + label_count_block body
      ∧ ∀ ρ, agrees ρ (allocate_locals entry (declared_block body)) →
          cg1.current_program = cg.current_program ++ [ir_label .IR_LABEL 0 (mangle name)]
            ++ lower_block ρ body cg.label_counter ++ [ir .IR_RET 0] := by
  simp only [gen_function] at h
  obtain ⟨entry, h1, h2⟩ := bind_ok h
  cases fn_name with
  | none => simp at h2
  | some name =>
    simp only at h2
    obtain ⟨cg3, h3, h4⟩ := bind_ok h2
    cases h4
    refine ⟨entry, name, rfl, h1, rfl, ?_⟩
    have hblock : gen_block body ({ cg with current_scope := entry }.emit .IR_LABEL 0
        (some (mangle name))) = .ok cg3 := by
      cases body with
      | null =>
        simp only [ASTNode.is_null, if_true] at h3
        simpa [gen_block] using h3
      | node => simpa [ASTNode.is_null] using h3
    obtain ⟨hs, hc, hp⟩ := (gen_statement_spec body).2.1 _ cg3 hblock
    simp only [emit_scope, emit_counter, emit_program] at hs hc hp
    refine ⟨by simp [emit_counter, hc], fun ρ hρ => ?_⟩
    rw [← hs] at hρ
    simp [emit_program, hp ρ hρ, ir_label, ir]

theorem bind_error {α β : Type} {x : Except Fatal α} {f : α → Except Fatal β} {e : Fatal}
    (h : (x >>= f) = .error e) : x = .error e ∨ ∃ a, x = .ok a ∧ f a = .error e := by
  cases x with
  | error e1 =>
    left
    simpa [bind, Except.bind] using h
  | ok a => exact Or.inr ⟨a, rfl, h⟩

theorem lookup_none_of_allocate_locals {scope : Scope} {decls : List String} {name : String}
    (h : lookup (allocate_locals scope decls) name = none) : lookup scope name = none := by
  cases hl : lookup scope name with
  | none => rfl
  | some sym =>
    rw [lookup_allocate_locals_stable decls scope name sym hl] at h
    cases h

theorem gen_expression_node_undefined (type : ASTNodeType)
    (gl gr : CodeGen → Except Fatal CodeGen) (ga : CodeGen → Except Fatal (Int × CodeGen))
    (ll : (String → Int) → List IRInstruction)
    (cn vn : Option String) (iv : Int) (sv : Option String) (bo : BinOpType) (co : CompareOpType)
    (hl : ExprSpec gl ll)
    (ul : UndefSpec gl) (ur : UndefSpec gr) (ua : UndefArgsSpec ga) :
    UndefSpec (gen_expression_node type gl gr ga cn vn iv sv bo co) := by
  intro cg v h
  cases type <;> simp only [gen_expression_node] at h
  case AST_MALLOC =>
    rcases bind_error h with h1 | ⟨cg2, _, h2⟩
    · exact ul cg v h1
    · cases h2
  case AST_VAR =>
    cases vn with
    | none => simp at h
    | some name =>
      simp only at h
      cases hlk : lookup cg.current_scope name with
      | none =>
        simp only [hlk, Except.error.injEq, Fatal.undefined_variable.injEq] at h
        rw [← h]; exact hlk
      | some sym => simp [hlk] at h
  case AST_BINOP =>
    rcases bind_error h with h1 | ⟨cg2, h1, h2⟩
    · exact ul cg v h1
    · rcases bind_error h2 with h3 | ⟨cg3, _, h4⟩
      · rw [← (hl cg cg2 h1).1]; exact ur cg2 v h3
      · cases bo <;> cases h4
  case AST_COMPARE =>
    rcases bind_error h with h1 | ⟨cg2, h1, h2⟩
    · exact ul cg v h1
    · rcases bind_error h2 with h3 | ⟨cg3, _, h4⟩
      · rw [← (hl cg cg2 h1).1]; exact ur cg2 v h3
      · cases h4
  case AST_CALL_EXPR =>
    rcases bind_error h with h1 | ⟨⟨c, cg2⟩, _, h2⟩
    · exact ua cg v h1
    · cases cn with
      | none => simp at h2
      | some name => simp at h2
  all_goals cases h

theorem gen_expression_undefined (n : ASTNode) :
    UndefSpec (gen_expression n) ∧ ∀ c0, UndefArgsSpec (gen_call_args n c0) := by
  induction n with
  | null =>
    constructor
    · intro cg v h
      simp [gen_expression] at h
    · intro c0 cg v h
      simp [gen_call_args] at h
  | node ty l r c tb eb b fnm ps bn cnm ar vn iv sv bo co st sc ihl ihr _ _ _ _ _ _ ihar _ =>
    have hspec := gen_expression_node_spec ty (gen_expression l) (gen_expression r)
      (gen_call_args ar 0) _ _ _ (chain_length ar) cnm vn iv sv bo co (gen_expression_spec l).1
      (gen_expression_spec r).1 (by simpa using (gen_expression_spec ar).2 0)
    have hnode := gen_expression_node_undefined ty (gen_expression l) (gen_expression r)
      (gen_call_args ar 0) _ cnm vn iv sv bo co (gen_expression_spec l).1
      ihl.1 ihr.1 (ihar.2 0)
    constructor
    · intro cg v h
      rw [gen_expression] at h
      exact hnode cg v h
    · intro c0 cg v h
      rw [gen_call_args] at h
      rcases bind_error h with h1 | ⟨cg2, h1, h2⟩
      · exact hnode cg v h1
      · rw [← (hspec cg cg2 h1).1]
        exact ihr.2 (c0 + 1) cg2 v h2

theorem gen_statement_node_undefined (type : ASTNodeType)
    (gl gc : CodeGen → Except Fatal CodeGen) (ga : CodeGen → Except Fatal (Int × CodeGen))
    (gt ge gb gs : CodeGen → Except Fatal CodeGen)
    (ll lc : (String → Int) → List IRInstruction)
    (lt : (String → Int) → Nat → List IRInstruction) (dt : List String) (nt : Nat)
    (has_else : Bool) (cn vn : Option String)
    (hl : ExprSpec gl ll) (hc : ExprSpec gc lc) (ht : StmtSpec gt dt nt lt)
    (ul : UndefSpec gl) (uc : UndefSpec gc) (ua : UndefArgsSpec ga)
    (ut : UndefSpec gt) (ue : UndefSpec ge) (ub : UndefSpec gb) (us : UndefSpec gs) :
    UndefSpec (gen_statement_node type gl gc ga gt ge gb gs has_else cn vn) := by
  intro cg v h
  cases type <;> simp only [gen_statement_node] at h
  case AST_VAR_DECL =>
    rcases bind_error h with h1 | ⟨cg2, h1, h2⟩
    · exact ul cg v h1
    · cases vn with
      | none => simp at h2
      | some name =>
        simp only at h2
        cases hlk : lookup cg2.current_scope name with
        | some sym => simp [hlk] at h2
        | none =>
          simp only [hlk] at h2
          rcases bind_error h2 with h3 | ⟨r, _, h4⟩
          · simp only [declare_var] at h3
            split at h3
            · cases h3
            · split at h3 <;> cases h3
          · cases h4
  case AST_ASSIGN =>
    rcases bind_error h with h1 | ⟨cg2, h1, h2⟩
    · exact ul cg v h1
    · cases vn with
      | none => simp at h2
      | some name =>
        simp only at h2
        cases hlk : lookup cg2.current_scope name with
        | some sym => simp [hlk] at h2
        | none =>
          simp only [hlk, Except.error.injEq, Fatal.undefined_variable.injEq] at h2
          rw [← h2, ← (hl cg cg2 h1).1]
          exact hlk
  case AST_RETURN =>
    rcases bind_error h with h1 | ⟨cg2, _, h2⟩
    · exact ul cg v h1
    · cases h2
  case AST_PRINT =>
    rcases bind_error h with h1 | ⟨cg2, _, h2⟩
    · exact ul cg v h1
    · cases h2
  case AST_FREE =>
    rcases bind_error h with h1 | ⟨cg2, _, h2⟩
    · exact ul cg v h1
    · cases h2
  case AST_CALL_STMT =>
    rcases bind_error h with h1 | ⟨⟨c, cg2⟩, _, h2⟩
    · exact ua cg v h1
    · cases cn with
      | none => simp at h2
      | some name => simp at h2
  case AST_BLOCK => exact us cg v h
  case AST_WHILE =>
    simp only [generate_label] at h
    rcases bind_error h with h1 | ⟨cg4, h1, h2⟩
    · have := uc _ v h1
      exact this
    · rcases bind_error h2 with h3 | ⟨cg6, _, h4⟩
      · have := ub _ v h3
        rw [emit_scope, (hc _ cg4 h1).1] at this
        exact this
      · cases h4
  case AST_IF =>
    simp only [generate_label] at h
    rcases bind_error h with h1 | ⟨cg3, h1, h2⟩
    · have := uc _ v h1
      exact this
    · have hs1 := (hc _ cg3 h1).1
      simp only [emit_scope] at hs1
      rcases bind_error h2 with h3 | ⟨cg5, h3, h4⟩
      · have := ut _ v h3
        rw [emit_scope, hs1] at this
        exact this
      · have hs2 := (ht _ cg5 h3).1
        simp only [emit_scope] at hs2
        cases has_else with
        | false => simp at h4
        | true =>
          simp only [if_true] at h4
          rcases bind_error h4 with h5 | ⟨cg8, _, h6⟩
          · have := ue _ v h5
            simp only [emit_scope] at this
            rw [hs2, hs1] at this
            exact lookup_none_of_allocate_locals this
          · cases h6
  all_goals cases h

theorem gen_statement_undefined (n : ASTNode) :
    UndefSpec (gen_statement n) ∧ UndefSpec (gen_block n) ∧ UndefSpec (gen_statement_list n) := by
  induction n with
  | null =>
    refine ⟨?_, ?_, ?_⟩ <;> intro cg v h
    · simp [gen_statement] at h
    · simp [gen_block] at h
    · simp [gen_statement_list] at h
  | node ty l r c tb eb b fnm ps bn cnm ar vn iv sv bo co st sc _ ihr _ ihtb iheb ihb _ _ _ ihst =>
    have hno : (!eb.is_null) = false → declared_block eb = [] ∧ label_count_block eb = 0 := by
      intro h
      cases eb with
      | null => exact ⟨rfl, rfl⟩
      | node => simp [ASTNode.is_null] at h
    have hspec := gen_statement_node_spec ty (gen_expression l) (gen_expression c)
      (gen_call_args ar 0) (gen_block tb) (gen_block eb) (gen_block b) (gen_statement_list st)
      _ _ _ (chain_length ar) _ _ _ _ _ _ _ _ _ _ _ _ (!eb.is_null) cnm vn
      (gen_expression_spec l).1 (gen_expression_spec c).1
      (by simpa using (gen_expression_spec ar).2 0)
      (gen_statement_spec tb).2.1 (gen_statement_spec eb).2.1 (gen_statement_spec b).2.1
      (gen_statement_spec st).2.2 hno
    have hnode := gen_statement_node_undefined ty (gen_expression l) (gen_expression c)
      (gen_call_args ar 0) (gen_block tb) (gen_block eb) (gen_block b) (gen_statement_list st)
      _ _ _ _ _ (!eb.is_null) cnm vn
      (gen_expression_spec l).1 (gen_expression_spec c).1 (gen_statement_spec tb).2.1
      (gen_expression_undefined l).1 (gen_expression_undefined c).1
      ((gen_expression_undefined ar).2 0) ihtb.2.1 iheb.2.1 ihb.2.1 ihst.2.2
    refine ⟨?_, ?_, ?_⟩
    · intro cg v h
      rw [gen_statement] at h
      exact hnode cg v h
    · intro cg v h
      rw [gen_block] at h
      by_cases hty : ty = .AST_BLOCK
      · simp only [hty, ne_eq, not_true_eq_false, if_false] at h
        exact ihst.2.2 cg v h
      · simp [hty] at h
    · intro cg v h
      rw [gen_statement_list] at h
      rcases bind_error h with h1 | ⟨cg2, h1, h2⟩
      · exact hnode cg v h1
      · have := ihr.2.2 cg2 v h2
        rw [(hspec cg cg2 h1).1] at this
        exact lookup_none_of_allocate_locals this

theorem gen_declare_params_not_undefined (n : ASTNode) :
    ∀ (scope : Scope) (v : String),
      gen_declare_params n scope ≠ .error (.undefined_variable v) := by
  induction n with
  | null => intro scope v; simp [gen_declare_params]
  | node ty l r c tb eb b fnm ps bn cnm ar vn iv sv bo co st sc1 _ ihr _ _ _ _ _ _ _ _ =>
    intro scope v h1
    cases vn with
    | none => simp [gen_declare_params] at h1
    | some pname =>
      simp only [gen_declare_params] at h1
      rcases bind_error h1 with h3 | ⟨⟨sym, scope2⟩, _, h4⟩
      · simp only [declare_param] at h3
        split at h3 <;> cases h3
      · exact ihr scope2 v h4

theorem gen_function_undefined (fn_name : Option String) (params body : ASTNode)
    (cg : CodeGen) (v : String)
    (h : gen_function fn_name params body cg = .error (.undefined_variable v)) :
    v ∉ param_names params ∧ lookup cg.current_scope v = none := by
  simp only [gen_function] at h
  rcases bind_error h with h1 | ⟨entry, h1, h2⟩
  · exact absurd h1 (gen_declare_params_not_undefined params _ v)
  · cases fn_name with
    | none => simp at h2
    | some name =>
      simp only at h2
      rcases bind_error h2 with h3 | ⟨cg3, _, h4⟩
      · have hblock : gen_block body ({ cg with current_scope := entry }.emit .IR_LABEL 0
            (some (mangle name))) = .error (.undefined_variable v) := by
          cases body with
          | null => simp [ASTNode.is_null] at h3
          | node => simpa [ASTNode.is_null] using h3
        have hnone := (gen_statement_undefined body).2.1 _ v hblock
        simp only [emit_scope] at hnone
        obtain ⟨hvis1, hvis2⟩ := gen_declare_params_visible params _ entry h1
        constructor
        · intro hmem
          exact hvis2 v hmem hnone
        · cases hl : lookup cg.current_scope v with
          | none => rfl
          | some sym =>
            exfalso
            apply hvis1 v _ hnone
            simp [create_scope, lookup, find_symbol, hl]
      · cases h4

/-! ### The code generator fails exactly where the visibility check fails -/

theorem lookup_entry_none_iff (params : ASTNode) (outer entry : Scope) (name : String)
    (h : gen_declare_params params (create_scope outer) = .ok entry) :
    lookup entry name = none ↔ (name ∉ param_names params ∧ lookup outer name = none) := by
  obtain ⟨hvis1, hvis2⟩ := gen_declare_params_visible params _ entry h
  constructor
  · intro hn
    have hnot : name ∉ param_names params := fun hmem => hvis2 name hmem hn
    refine ⟨hnot, ?_⟩
    rw [gen_declare_params_lookup_other params _ entry name h hnot] at hn
    simpa [create_scope, lookup, find_symbol] using hn
  · rintro ⟨hnot, hout⟩
    rw [gen_declare_params_lookup_other params _ entry name h hnot]
    simp [create_scope, lookup, find_symbol, hout]

theorem agrees_scope_offsets (scope : Scope) : agrees (scope_offsets scope) scope := by
  intro name sym h
  simp [scope_offsets, h]

theorem matches_expr_bind {g1 : Except Fatal CodeGen} {s1 : Except Fatal Unit}
    {k : CodeGen → Except Fatal CodeGen} {j : Except Fatal Unit}
    (h1 : MatchesExpr g1 s1) (hk : ∀ cg2, g1 = .ok cg2 → MatchesExpr (k cg2) j) :
    MatchesExpr (g1 >>= k) (s1 >>= fun _ => j) := by
  cases g1 with
  | error e =>
    cases s1 with
    | error e2 => exact h1
    | ok u => exact h1.elim
  | ok cg2 =>
    cases s1 with
    | error e2 => exact h1.elim
    | ok u => exact hk cg2 rfl

theorem matches_args_bind {g1 : Except Fatal (Int × CodeGen)} {s1 : Except Fatal Unit}
    {k : Int × CodeGen → Except Fatal CodeGen} {j : Except Fatal Unit}
    (h1 : MatchesArgs g1 s1) (hk : ∀ r, g1 = .ok r → MatchesExpr (k r) j) :
    MatchesExpr (g1 >>= k) (s1 >>= fun _ => j) := by
  cases g1 with
  | error e =>
    cases s1 with
    | error e2 => exact h1
    | ok u => exact h1.elim
  | ok r =>
    cases s1 with
    | error e2 => exact h1.elim
    | ok u => exact hk r rfl

theorem matches_expr_bind_args {g1 : Except Fatal CodeGen} {s1 : Except Fatal Unit}
    {k : CodeGen → Except Fatal (Int × CodeGen)} {j : Except Fatal Unit}
    (h1 : MatchesExpr g1 s1) (hk : ∀ cg2, g1 = .ok cg2 → MatchesArgs (k cg2) j) :
    MatchesArgs (g1 >>= k) (s1 >>= fun _ => j) := by
  cases g1 with
  | error e =>
    cases s1 with
    | error e2 => exact h1
    | ok u => exact h1.elim
  | ok cg2 =>
    cases s1 with
    | error e2 => exact h1.elim
    | ok u => exact hk cg2 rfl

theorem matches_expr_bind_stmt {g1 : Except Fatal CodeGen} {s1 : Except Fatal Unit}
    {k : CodeGen → Except Fatal CodeGen} {j : Except Fatal (List String)}
    (h1 : MatchesExpr g1 s1) (hk : ∀ cg2, g1 = .ok cg2 → MatchesStmt (k cg2) j) :
    MatchesStmt (g1 >>= k) (s1 >>= fun _ => j) := by
  cases g1 with
  | error e =>
    cases s1 with
    | error e2 => exact h1
    | ok u => exact h1.elim
  | ok cg2 =>
    cases s1 with
    | error e2 => exact h1.elim
    | ok u => exact hk cg2 rfl

theorem matches_args_bind_stmt {g1 : Except Fatal (Int × CodeGen)} {s1 : Except Fatal Unit}
    {k : Int × CodeGen → Except Fatal CodeGen} {j : Except Fatal (List String)}
    (h1 : MatchesArgs g1 s1) (hk : ∀ r, g1 = .ok r → MatchesStmt (k r) j) :
    MatchesStmt (g1 >>= k) (s1 >>= fun _ => j) := by
  cases g1 with
  | error e =>
    cases s1 with
    | error e2 => exact h1
    | ok u => exact h1.elim
  | ok r =>
    cases s1 with
    | error e2 => exact h1.elim
    | ok u => exact hk r rfl

theorem matches_stmt_bind {g1 : Except Fatal CodeGen} {s1 : Except Fatal (List String)}
    {k : CodeGen → Except Fatal CodeGen} {j : List String → Except Fatal (List String)}
    (h1 : MatchesStmt g1 s1)
    (hk : ∀ cg2 vis, Visible cg2.current_scope vis → MatchesStmt (k cg2) (j vis)) :
    MatchesStmt (g1 >>= k) (s1 >>= j) := by
  cases g1 with
  | error e =>
    cases s1 with
    | error e2 => exact h1
    | ok u => exact h1.elim
  | ok cg2 =>
    cases s1 with
    | error e2 => exact h1.elim
    | ok vis => exact hk cg2 vis h1

theorem gen_expression_node_scan (type : ASTNodeType)
    (gl gr : CodeGen → Except Fatal CodeGen) (ga : CodeGen → Except Fatal (Int × CodeGen))
    (ll : (String → Int) → List IRInstruction)
    (sl sr sa : Except Fatal Unit) (visible : List String)
    (cn vn : Option String) (iv : Int) (sv : Option String) (bo : BinOpType) (co : CompareOpType)
    (hl : ExprSpec gl ll)
    (ml : ∀ cg, Visible cg.current_scope visible → MatchesExpr (gl cg) sl)
    (mr : ∀ cg, Visible cg.current_scope visible → MatchesExpr (gr cg) sr)
    (ma : ∀ cg, Visible cg.current_scope visible → MatchesArgs (ga cg) sa) :
    ∀ cg, Visible cg.current_scope visible →
      MatchesExpr (gen_expression_node type gl gr ga cn vn iv sv bo co cg)
        (scan_expression_node type sl sr sa cn vn visible) := by
  intro cg hv
  cases type <;> simp only [gen_expression_node, scan_expression_node]
  case AST_INT_LIT => trivial
  case AST_STRING_LIT => trivial
  case AST_MALLOC =>
    have h := matches_expr_bind (k := fun cg1 => .ok (cg1.emit .IR_MALLOC 0 none))
      (j := .ok ()) (ml cg hv) (fun _ _ => trivial)
    cases hsl : sl with
    | error e => rw [hsl] at h; exact h
    | ok u => rw [hsl] at h; exact h
  case AST_VAR =>
    cases vn with
    | none => simp [MatchesExpr]
    | some name =>
      simp only
      cases hlk : lookup cg.current_scope name with
      | none =>
        have : name ∉ visible := fun hm => ((hv.2 name).2 hm) hlk
        simp [this, MatchesExpr]
      | some sym =>
        have : name ∈ visible := (hv.2 name).1 (by simp [hlk])
        simp [this, MatchesExpr]
  case AST_BINOP =>
    refine matches_expr_bind (ml cg hv) (fun cg2 hg => ?_)
    have hv2 : Visible cg2.current_scope visible := by rw [(hl cg cg2 hg).1]; exact hv
    have h := matches_expr_bind (k := fun cg3 => match bo with
        | .BINOP_PLUS => .ok (cg3.emit .IR_ADD 0 none)
        | .BINOP_MINUS => .ok (cg3.emit .IR_SUB 0 none)
        | .BINOP_MULT => .ok (cg3.emit .IR_MUL 0 none)
        | .BINOP_DIV => .ok (cg3.emit .IR_DIV 0 none))
      (j := .ok ()) (mr cg2 hv2) (fun _ _ => by cases bo <;> trivial)
    cases hsr : sr with
    | error e => rw [hsr] at h; exact h
    | ok u => rw [hsr] at h; exact h
  case AST_COMPARE =>
    refine matches_expr_bind (ml cg hv) (fun cg2 hg => ?_)
    have hv2 : Visible cg2.current_scope visible := by rw [(hl cg cg2 hg).1]; exact hv
    have h := matches_expr_bind (k := fun cg3 => .ok (cg3.emit .IR_CMP co.toInt none))
      (j := .ok ()) (mr cg2 hv2) (fun _ _ => trivial)
    cases hsr : sr with
    | error e => rw [hsr] at h; exact h
    | ok u => rw [hsr] at h; exact h
  case AST_CALL_EXPR =>
    refine matches_args_bind (ma cg hv) (fun r _ => ?_)
    cases cn with
    | none => simp [MatchesExpr]
    | some name => simp [MatchesExpr]
  all_goals simp [MatchesExpr]

theorem gen_expression_scan (n : ASTNode) (visible : List String) :
    (∀ cg, Visible cg.current_scope visible →
      MatchesExpr (gen_expression n cg) (scan_expression visible n))
    ∧ ∀ c0 cg, Visible cg.current_scope visible →
      MatchesArgs (gen_call_args n c0 cg) (scan_call_args visible n) := by
  induction n with
  | null =>
    constructor
    · intro cg _; simp [gen_expression, scan_expression, MatchesExpr]
    · intro c0 cg _; simp [gen_call_args, scan_call_args, MatchesArgs]
  | node ty l r c tb eb b fnm ps bn cnm ar vn iv sv bo co st sc ihl ihr _ _ _ _ _ _ ihar _ =>
    have hspec := gen_expression_node_spec ty (gen_expression l) (gen_expression r)
      (gen_call_args ar 0) _ _ _ (chain_length ar) cnm vn iv sv bo co (gen_expression_spec l).1
      (gen_expression_spec r).1 (by simpa using (gen_expression_spec ar).2 0)
    have hnode := gen_expression_node_scan ty (gen_expression l) (gen_expression r)
      (gen_call_args ar 0) _ (scan_expression visible l) (scan_expression visible r)
      (scan_call_args visible ar) visible cnm vn iv sv bo co (gen_expression_spec l).1
      ihl.1 ihr.1 (ihar.2 0)
    constructor
    · intro cg hv
      rw [gen_expression, scan_expression]
      exact hnode cg hv
    · intro c0 cg hv
      rw [gen_call_args, scan_call_args]
      refine matches_expr_bind_args (hnode cg hv) (fun cg2 hg => ?_)
      have hv2 : Visible cg2.current_scope visible := by rw [(hspec cg cg2 hg).1]; exact hv
      exact ihr.2 (c0 + 1) cg2 hv2

theorem visible_declare_var (scope scope1 : Scope) (name : String) (sym : Symbol)
    (visible : List String) (hv : Visible scope visible) (hnone : lookup scope name = none)
    (hd : declare_var scope name .SYM_VAR = .ok (sym, scope1)) :
    Visible scope1 (name :: visible) := by
  cases scope with
  | null => exact absurd rfl hv.1
  | mk syms parent lc pc =>
    have hiff := fun other => lookup_declare_var_none_iff syms parent lc pc name other sym scope1
      hd hnone
    constructor
    · intro h
      rw [h] at hd
      have := declare_var_lookup_self _ _ _ _ _ hd
      simp [lookup] at this
    · intro other
      rw [Ne, hiff other, List.mem_cons, ← hv.2 other]
      tauto

theorem declare_var_ok_of_visible (scope : Scope) (name : String) (visible : List String)
    (hv : Visible scope visible) :
    ∃ sym scope1, declare_var scope name .SYM_VAR = .ok (sym, scope1) := by
  cases scope with
  | null => exact absurd rfl hv.1
  | mk syms parent lc pc =>
    simp only [declare_var]
    split
    · exact ⟨_, _, rfl⟩
    · exact ⟨_, _, rfl⟩

theorem gen_statement_node_scan (type : ASTNodeType)
    (gl gc : CodeGen → Except Fatal CodeGen) (ga : CodeGen → Except Fatal (Int × CodeGen))
    (gt ge gb gs : CodeGen → Except Fatal CodeGen)
    (ll lc : (String → Int) → List IRInstruction)
    (sl sc sa : Except Fatal Unit)
    (st se sb ss : List String → Except Fatal (List String))
    (has_else : Bool) (cn vn : Option String) (visible : List String)
    (la : (String → Int) → List IRInstruction) (n : Int)
    (hl : ExprSpec gl ll) (hc : ExprSpec gc lc) (ha : ArgsSpec ga n la)
    (ml : ∀ cg, Visible cg.current_scope visible → MatchesExpr (gl cg) sl)
    (mc : ∀ cg, Visible cg.current_scope visible → MatchesExpr (gc cg) sc)
    (ma : ∀ cg, Visible cg.current_scope visible → MatchesArgs (ga cg) sa)
    (mt : ∀ cg vis, Visible cg.current_scope vis → MatchesStmt (gt cg) (st vis))
    (me : ∀ cg vis, Visible cg.current_scope vis → MatchesStmt (ge cg) (se vis))
    (mb : ∀ cg vis, Visible cg.current_scope vis → MatchesStmt (gb cg) (sb vis))
    (ms : ∀ cg vis, Visible cg.current_scope vis → MatchesStmt (gs cg) (ss vis)) :
    ∀ cg, Visible cg.current_scope visible →
      MatchesStmt (gen_statement_node type gl gc ga gt ge gb gs has_else cn vn cg)
        (scan_statement_node type sl sc sa st se sb ss has_else cn vn visible) := by
  intro cg hv
  cases type <;> simp only [gen_statement_node, scan_statement_node]
  case AST_VAR_DECL =>
    refine matches_expr_bind_stmt (ml cg hv) (fun cg2 hg => ?_)
    have hv2 : Visible cg2.current_scope visible := by rw [(hl cg cg2 hg).1]; exact hv
    cases vn with
    | none => simp [MatchesStmt]
    | some name =>
      simp only
      cases hlk : lookup cg2.current_scope name with
      | some sym =>
        have : name ∈ visible := (hv2.2 name).1 (by simp [hlk])
        simpa [this, MatchesStmt, emit_scope] using hv2
      | none =>
        have hnot : name ∉ visible := fun hm => ((hv2.2 name).2 hm) hlk
        obtain ⟨sym, scope1, hd⟩ := declare_var_ok_of_visible cg2.current_scope name visible hv2
        simp only [hd, hnot, if_false, bind, Except.bind, MatchesStmt, emit_scope]
        exact visible_declare_var _ _ _ _ _ hv2 hlk hd
  case AST_ASSIGN =>
    refine matches_expr_bind_stmt (ml cg hv) (fun cg2 hg => ?_)
    have hv2 : Visible cg2.current_scope visible := by rw [(hl cg cg2 hg).1]; exact hv
    cases vn with
    | none => simp [MatchesStmt]
    | some name =>
      simp only
      cases hlk : lookup cg2.current_scope name with
      | some sym =>
        have : name ∈ visible := (hv2.2 name).1 (by simp [hlk])
        simpa [this, MatchesStmt, emit_scope] using hv2
      | none =>
        have hnot : name ∉ visible := fun hm => ((hv2.2 name).2 hm) hlk
        simp [hnot, MatchesStmt]
  case AST_RETURN =>
    refine matches_expr_bind_stmt (ml cg hv) (fun cg2 hg => ?_)
    have hv2 : Visible cg2.current_scope visible := by rw [(hl cg cg2 hg).1]; exact hv
    exact hv2
  case AST_PRINT =>
    refine matches_expr_bind_stmt (ml cg hv) (fun cg2 hg => ?_)
    have hv2 : Visible cg2.current_scope visible := by rw [(hl cg cg2 hg).1]; exact hv
    exact hv2
  case AST_FREE =>
    refine matches_expr_bind_stmt (ml cg hv) (fun cg2 hg => ?_)
    have hv2 : Visible cg2.current_scope visible := by rw [(hl cg cg2 hg).1]; exact hv
    exact hv2
  case AST_CALL_STMT =>
    refine matches_args_bind_stmt (ma cg hv) (fun r hg => ?_)
    obtain ⟨c, cg2⟩ := r
    have hsc := (ha cg c cg2 hg).2.1
    cases cn with
    | none => simp [MatchesStmt]
    | some name =>
      have hv2 : Visible cg2.current_scope visible := by rw [hsc]; exact hv
      exact hv2
  case AST_BLOCK => exact ms cg visible hv
  case AST_WHILE =>
    simp only [generate_label]
    have hv0 : Visible ({ cg with label_counter := cg.label_counter + 1 + 1 }.emit .IR_LABEL 0
        (some (label_text "loop" cg.label_counter))).current_scope visible := hv
    refine matches_expr_bind_stmt (mc _ hv0) (fun cg4 hg => ?_)
    have hs4 := (hc _ cg4 hg).1
    have hv4 : Visible (cg4.emit .IR_JZ 0
        (some (label_text "endloop" (cg.label_counter + 1)))).current_scope visible := by
      rw [emit_scope, hs4]; exact hv
    have h := matches_stmt_bind (k := fun cg6 => .ok ((cg6.emit .IR_JMP 0
        (some (label_text "loop" cg.label_counter))).emit .IR_LABEL 0
        (some (label_text "endloop" (cg.label_counter + 1)))))
      (j := fun vis => .ok vis) (mb _ visible hv4) (fun cg6 vis h6 => h6)
    cases hsb : sb visible with
    | error e => rw [hsb] at h; exact h
    | ok vis1 => rw [hsb] at h; exact h
  case AST_IF =>
    simp only [generate_label]
    have hv0 : Visible ({ cg with label_counter := cg.label_counter + 1 + 1 } :
        CodeGen).current_scope visible := hv
    refine matches_expr_bind_stmt (mc _ hv0) (fun cg3 hg => ?_)
    have hs3 := (hc _ cg3 hg).1
    have hv3 : Visible (cg3.emit .IR_JZ 0
        (some (label_text "else" cg.label_counter))).current_scope visible := by
      rw [emit_scope, hs3]; exact hv
    refine matches_stmt_bind (mt _ visible hv3) (fun cg5 vis1 h5 => ?_)
    cases has_else with
    | false => exact h5
    | true =>
      simp only [if_true]
      have hv5 : Visible ((cg5.emit .IR_JMP 0
          (some (label_text "endif" (cg.label_counter + 1)))).emit .IR_LABEL 0
          (some (label_text "else" cg.label_counter))).current_scope vis1 := h5
      have h := matches_stmt_bind (k := fun cg8 => .ok (cg8.emit .IR_LABEL 0
          (some (label_text "endif" (cg.label_counter + 1)))))
        (j := fun vis => .ok vis) (me _ vis1 hv5) (fun cg8 vis h8 => h8)
      cases hse : se vis1 with
      | error e => rw [hse] at h; exact h
      | ok vis2 => rw [hse] at h; exact h
  all_goals simp [MatchesStmt]

theorem gen_statement_scan (n : ASTNode) :
    (∀ cg vis, Visible cg.current_scope vis → MatchesStmt (gen_statement n cg) (scan_statement n vis))
    ∧ (∀ cg vis, Visible cg.current_scope vis → MatchesStmt (gen_block n cg) (scan_block n vis))
    ∧ (∀ cg vis, Visible cg.current_scope vis →
        MatchesStmt (gen_statement_list n cg) (scan_statement_list n vis)) := by
  induction n with
  | null =>
    refine ⟨?_, ?_, ?_⟩ <;> intro cg vis hv
    · simpa [gen_statement, scan_statement, MatchesStmt] using hv
    · simpa [gen_block, scan_block, MatchesStmt] using hv
    · simpa [gen_statement_list, scan_statement_list, MatchesStmt] using hv
  | node ty l r c tb eb b fnm ps bn cnm ar vn iv sv bo co st sc _ ihr _ ihtb iheb ihb _ _ _ ihst =>
    have hnode := fun vis => gen_statement_node_scan ty (gen_expression l) (gen_expression c)
      (gen_call_args ar 0) (gen_block tb) (gen_block eb) (gen_block b) (gen_statement_list st)
      _ _ (scan_expression vis l) (scan_expression vis c) (scan_call_args vis ar)
      (scan_block tb) (scan_block eb) (scan_block b) (scan_statement_list st)
      (!eb.is_null) cnm vn vis _ (chain_length ar)
      (gen_expression_spec l).1 (gen_expression_spec c).1
      (by simpa using (gen_expression_spec ar).2 0)
      (gen_expression_scan l vis).1 (gen_expression_scan c vis).1
      ((gen_expression_scan ar vis).2 0) ihtb.2.1 iheb.2.1 ihb.2.1 ihst.2.2
    refine ⟨?_, ?_, ?_⟩
    · intro cg vis hv
      rw [gen_statement, scan_statement]
      exact hnode vis cg hv
    · intro cg vis hv
      rw [gen_block, scan_block]
      by_cases hty : ty = .AST_BLOCK
      · simp only [hty, ne_eq, not_true_eq_false, if_false]
        exact ihst.2.2 cg vis hv
      · simpa [hty, MatchesStmt] using hv
    · intro cg vis hv
      rw [gen_statement_list, scan_statement_list]
      exact matches_stmt_bind (hnode vis cg hv) (fun cg2 vis1 h2 => ihr.2.2 cg2 vis1 h2)

theorem visible_declare_param (scope scope1 : Scope) (name : String) (sym : Symbol)
    (visible : List String) (hv : Visible scope visible)
    (hd : declare_param scope name = .ok (sym, scope1)) :
    Visible scope1 (name :: visible) := by
  cases scope with
  | null => exact absurd rfl hv.1
  | mk syms parent lc pc =>
    rw [declare_param_eq] at hd
    simp only [Except.ok.injEq, Prod.mk.injEq] at hd
    rw [← hd.2]
    refine ⟨by simp, fun other => ?_⟩
    by_cases heq : name = other
    · subst heq
      simp [lookup, find_symbol]
    · rw [lookup_cons_ne _ syms parent lc pc _ _ other heq, hv.2 other, List.mem_cons]
      constructor
      · exact Or.inr
      · rintro (h | h)
        · exact absurd h.symm heq
        · exact h

theorem gen_declare_params_scan (n : ASTNode) :
    ∀ scope vis, Visible scope vis →
      MatchesScope (gen_declare_params n scope) (scan_params n vis) := by
  induction n with
  | null =>
    intro scope vis hv
    simpa [gen_declare_params, scan_params, MatchesScope] using hv
  | node ty l r c tb eb b fnm ps bn cnm ar vn iv sv bo co st sc _ ihr _ _ _ _ _ _ _ _ =>
    intro scope vis hv
    cases vn with
    | none => simp [gen_declare_params, scan_params, MatchesScope]
    | some name =>
      simp only [gen_declare_params, scan_params]
      cases scope with
      | null => exact absurd rfl hv.1
      | mk syms parent lc pc =>
        have hd := declare_param_eq syms parent lc pc name
        simp only [hd, bind, Except.bind]
        exact ihr _ _ (visible_declare_param _ _ _ _ _ hv hd)

theorem visible_create_scope (scope : Scope) (visible : List String)
    (hv : Visible scope visible) : Visible (create_scope scope) visible := by
  refine ⟨by simp [create_scope], fun name => ?_⟩
  rw [← hv.2 name]
  simp [create_scope, lookup, find_symbol]

theorem gen_function_scan (fn_name : Option String) (params body : ASTNode) :
    ∀ cg vis, Visible cg.current_scope vis →
      MatchesStmt (gen_function fn_name params body cg) (scan_function fn_name params body vis) := by
  intro cg vis hv
  simp only [gen_function, scan_function]
  have h1 := gen_declare_params_scan params _ vis (visible_create_scope _ _ hv)
  cases hg : gen_declare_params params (create_scope cg.current_scope) with
  | error e =>
    rw [hg] at h1
    cases hs : scan_params params vis with
    | error e2 => rw [hs] at h1; exact h1
    | ok v => rw [hs] at h1; exact h1.elim
  | ok entry =>
    rw [hg] at h1
    cases hs : scan_params params vis with
    | error e2 => rw [hs] at h1; exact h1.elim
    | ok vis1 =>
      rw [hs] at h1
      simp only [bind, Except.bind]
      cases fn_name with
      | none => simp [MatchesStmt]
      | some name =>
        simp only
        have hv2 : Visible ({ cg with current_scope := entry }.emit .IR_LABEL 0
            (some (mangle name))).current_scope vis1 := h1
        have h2 := (gen_statement_scan body).2.1 _ vis1 hv2
        have hbody : (if body.is_null = true then
              Except.ok ({ cg with current_scope := entry }.emit .IR_LABEL 0 (some (mangle name)))
            else gen_block body ({ cg with current_scope := entry }.emit .IR_LABEL 0
              (some (mangle name))))
            = gen_block body ({ cg with current_scope := entry }.emit .IR_LABEL 0
              (some (mangle name))) := by
          cases body with
          | null => simp [ASTNode.is_null, gen_block]
          | node => simp [ASTNode.is_null]
        rw [hbody]
        cases hg2 : gen_block body ({ cg with current_scope := entry }.emit .IR_LABEL 0
            (some (mangle name))) with
        | error e =>
          rw [hg2] at h2
          cases hs2 : scan_block body vis1 with
          | error e2 => rw [hs2] at h2; exact h2
          | ok v => rw [hs2] at h2; exact h2.elim
        | ok cg3 =>
          rw [hg2] at h2
          cases hs2 : scan_block body vis1 with
          | error e2 => rw [hs2] at h2; exact h2.elim
          | ok v => exact hv

theorem gen_toplevel_scan (n : ASTNode) :
    ∀ cg vis, Visible cg.current_scope vis →
      MatchesStmt (gen_toplevel n cg) (scan_toplevel n vis) := by
  induction n with
  | null =>
    intro cg vis hv
    simpa [gen_toplevel, scan_toplevel, MatchesStmt] using hv
  | node ty l r c tb eb b fnm ps bn cnm ar vn iv sv bo co st sc _ ihr _ _ _ _ _ _ _ _ =>
    intro cg vis hv
    rw [gen_toplevel, scan_toplevel]
    refine matches_stmt_bind ?_ (fun cg2 vis1 h2 => ihr cg2 vis1 h2)
    by_cases hty : ty = .AST_FN_DEF
    · simp only [hty, if_true]
      exact gen_function_scan fnm ps bn cg vis hv
    · simp only [hty, if_false]
      exact (gen_statement_scan _).1 cg vis hv

theorem generate_code_scan (ast : ASTNode) (e : Fatal) :
    generate_code ast = .error e ↔ scan_program ast = .error e := by
  cases ast with
  | null => simp [generate_code, scan_program]
  | node ty l r c tb eb b fnm ps bn cnm ar vn iv sv bo co st sc =>
    simp only [generate_code, scan_program]
    by_cases hty : ty = .AST_PROGRAM
    · simp only [hty, ne_eq, not_true_eq_false, if_false]
      have hv : Visible CodeGen.init.current_scope [] := by
        refine ⟨by simp [CodeGen.init, create_scope], fun name => ?_⟩
        simp [CodeGen.init, create_scope, lookup, find_symbol]
      have h := gen_toplevel_scan st CodeGen.init [] hv
      cases hg : gen_toplevel st CodeGen.init with
      | error e1 =>
        rw [hg] at h
        cases hs : scan_toplevel st [] with
        | error e2 =>
          rw [hs] at h
          have h12 : e1 = e2 := h
          simp [bind, Except.bind, h12]
        | ok v => rw [hs] at h; exact h.elim
      | ok cg1 =>
        rw [hg] at h
        cases hs : scan_toplevel st [] with
        | error e2 => rw [hs] at h; exact h.elim
        | ok v => simp [bind, Except.bind]
    · simp [hty]

/-! ### Claims on the pipeline, settled by evaluation -/

/-- C1 (the code departs from the claim): the statement `f(1 + 2);` has the single argument
`1 + 2`, whose lowering is PUSH 1, PUSH 2, ADD, so the claim gives PUSH 1, PUSH 2, ADD,
CALL 1 "_f", POP. The parser links arguments through the `right` field that also holds the
right operand of a binary operation, and the generator follows it: it lowers the operand `2`
again as a second argument and emits CALL with operand 2. With two arguments, `g(1 + 2, 3)`, the
link overwrites the operand `2` by the argument `3`. -/
theorem C1_call_argument_chain :
    compile 100 "f(1 + 2);".toList
        = .ok [ir .IR_PUSH 1, ir .IR_PUSH 2, ir .IR_ADD 0, ir .IR_PUSH 2,
               ir_label .IR_CALL 2 "_f", ir .IR_POP 0]
    ∧ compile 100 "f(1 + 2);".toList
        ≠ .ok [ir .IR_PUSH 1, ir .IR_PUSH 2, ir .IR_ADD 0, ir_label .IR_CALL 1 "_f", ir .IR_POP 0]
    ∧ compile 100 "let y: int = g(1 + 2, 3);".toList
        = .ok [ir .IR_PUSH 1, ir .IR_PUSH 3, ir .IR_ADD 0, ir .IR_PUSH 3,
               ir_label .IR_CALL 2 "_g", ir .IR_STORE (-8)]
    ∧ compile 100 "let y: int = g(1 + 2, 3);".toList
        ≠ .ok [ir .IR_PUSH 1, ir .IR_PUSH 2, ir .IR_ADD 0, ir .IR_PUSH 3,
               ir_label .IR_CALL 2 "_g", ir .IR_STORE (-8)] := by
  decide

/-- C3 (the code departs from the claim): the whole program `x` and the function body `{ x }`
begin a statement with an identifier followed by neither `=` nor `(`. `parse_statement` has no
`else` for that case: it returns NULL without an error, `parse_program` returns a program node
(statement count 1, no statement), and the pipeline returns an IR program. -/
theorem C3_identifier_statement_accepted :
    parse_program 100 "x".toList
        = .ok ((create_ast_node .AST_PROGRAM).set_stmt_count 1)
    ∧ compile 100 "x".toList = .ok []
    ∧ compile 100 "fn f() -> int { x }".toList = .ok [ir_label .IR_LABEL 0 "_f", ir .IR_RET 0] := by
  decide

set_option maxRecDepth 20000 in
/-- C2: the sources `f(0 - x, 1);` and `fn f() -> int { x }` are accepted by the parser and
refer to `x`, which is declared nowhere, yet the compilation returns IR instead of failing with
the undefined-variable error naming `x`: in the first the link to the second argument has
overwritten the operand `x`, in the second the statement `x` is parsed to NULL. Where the
reference is in the tree the compilation fails as claimed (`f(x, 1);`, `print(x);`,
`x = 1;`). -/
theorem C2_undeclared_reference_compiles :
    compile 100 "f(0 - x, 1);".toList
      = .ok [ir .IR_PUSH 0, ir .IR_PUSH 1, ir .IR_SUB 0, ir .IR_PUSH 1,
             ir_label .IR_CALL 2 "_f", ir .IR_POP 0]
    ∧ compile 100 "fn f() -> int { x }".toList
      = .ok [ir_label .IR_LABEL 0 "_f", ir .IR_RET 0]
    ∧ compile 100 "f(x, 1);".toList = .error (.undefined_variable "x")
    ∧ compile 100 "print(x);".toList = .error (.undefined_variable "x")
    ∧ compile 100 "x = 1;".toList = .error (.undefined_variable "x") := by
  decide

/-- C5 (counterexample): in `fn f(a: int) -> int { let a: int = 1; let b: int = 2; return b; }`
the declared names are `a`, `b`, and the claim gives the stores -8 and -16 whatever the
parameter list is; the code stores `a` at the parameter's offset 16 and `b` at -8. -/
theorem C5_declaration_of_parameter_name :
    compile 100 "fn f(a: int) -> int { let a: int = 1; let b: int = 2; return b; }".toList
        = .ok [ir_label .IR_LABEL 0 "_f", ir .IR_PUSH 1, ir .IR_STORE 16, ir .IR_PUSH 2,
               ir .IR_STORE (-8), ir .IR_LOAD (-8), ir .IR_RET 0, ir .IR_RET 0]
    ∧ compile 100 "fn f(a: int) -> int { let a: int = 1; let b: int = 2; return b; }".toList
        ≠ .ok [ir_label .IR_LABEL 0 "_f", ir .IR_PUSH 1, ir .IR_STORE (-8), ir .IR_PUSH 2,
               ir .IR_STORE (-16), ir .IR_LOAD (-16), ir .IR_RET 0, ir .IR_RET 0] := by
  decide

/-- C5 (amended): for a function definition none of whose declared names is resolved in the
enclosing scope, when the lowering of the definition returns, its IR is the label, the lowering
of the body under one environment `ρ` (every declaration of `x` stores at `ρ x`), and the
implicit return, where the declared names that are not parameters of the function, taken in
first-declaration order of their distinct names, get `-8, -16, -24, ...` (the k-th, counted
from 0, gets `-8 * (k + 1)`), and a declared name that is a parameter gets the parameter's
offset (`16 + 8 * i` for the i-th of pairwise distinct parameters). -/
theorem C5_local_offsets (fn_name : Option String) (params body : ASTNode)
    (cg cg1 : CodeGen) (hgen : gen_function fn_name params body cg = .ok cg1)
    (houter : ∀ name ∈ declared_block body, lookup cg.current_scope name = none) :
    ∃ ρ : String → Int,
      (∀ (k : Nat) (name : String),
          (first_occurrences
            ((declared_block body).filter
              (fun x => !(param_names params).contains x)))[k]? = some name →
          ρ name = -8 * ((k : Int) + 1))
      ∧ ((param_names params).Nodup → ∀ (i : Nat) (p : String),
          (param_names params)[i]? = some p → ρ p = 16 + 8 * (i : Int))
      ∧ cg1.current_program = cg.current_program
          ++ [ir_label .IR_LABEL 0 (mangle (fn_name.getD ""))]
          ++ lower_block ρ body cg.label_counter ++ [ir .IR_RET 0] := by
  obtain ⟨entry, name, hname, hentry, _, _, hprog⟩ :=
    gen_function_lowering fn_name params body cg cg1 hgen
  obtain ⟨syms1, pc1, hshape⟩ := gen_declare_params_shape params [] cg.current_scope 0 0 entry hentry
  have hfilter : (declared_block body).filter (fun x => !(param_names params).contains x)
      = (declared_block body).filter (fun x => (lookup entry x).isNone) := by
    apply List.filter_congr
    intro x hx
    have hiff := lookup_entry_none_iff params cg.current_scope entry x hentry
    by_cases hmem : x ∈ param_names params
    · have hne : lookup entry x ≠ none := fun h => (hiff.1 h).1 hmem
      cases hl : lookup entry x with
      | none => exact absurd hl hne
      | some sym => simp [hmem]
    · have hnone : lookup entry x = none := hiff.2 ⟨hmem, houter x hx⟩
      simp [hmem, hnone]
  refine ⟨scope_offsets (allocate_locals entry (declared_block body)), ?_, ?_, ?_⟩
  · intro k n hk
    rw [hfilter] at hk
    subst hshape
    have h2 := allocate_locals_lookup (declared_block body) syms1 cg.current_scope 0 pc1 k n hk
    simp [scope_offsets, h2]
  · intro hdistinct i p hp
    have h1 := gen_declare_params_lookup params [] cg.current_scope 0 0 entry hentry hdistinct i p hp
    have h2 := lookup_allocate_locals_stable (declared_block body) entry p _ h1
    simp [scope_offsets, h2]
  · rw [hprog _ (agrees_scope_offsets _), hname]
    rfl

set_option maxRecDepth 20000 in
/-- Witness of C5 (amended): the function of `locals_function_source`, lowered first in a
program; its declarations of `x`, `y`, `x`, `p`, `z` store at -8, -16, -8, 16, -24. -/
theorem C5_local_offsets_witness :
    gen_function (first_statement locals_function_source).get_fn_name
        (first_statement locals_function_source).get_params
        (first_statement locals_function_source).get_body_nodes CodeGen.init
      = .ok { current_program :=
                [ir_label .IR_LABEL 0 "_f", ir .IR_PUSH 1, ir .IR_STORE (-8), ir .IR_LOAD 16,
                 ir_label .IR_JZ 0 "else_0", ir .IR_PUSH 2, ir .IR_STORE (-16), ir .IR_PUSH 3,
                 ir .IR_STORE (-8), ir .IR_PUSH 4, ir .IR_STORE 16,
                 ir_label .IR_LABEL 0 "else_0", ir .IR_LOAD (-16),
                 ir .IR_STORE (-24), ir .IR_LOAD (-24), ir .IR_RET 0, ir .IR_RET 0],
              current_scope := create_scope .null, label_counter := 2 }
    ∧ (∀ name ∈ declared_block (first_statement locals_function_source).get_body_nodes,
        lookup CodeGen.init.current_scope name = none)
    ∧ ∃ ρ : String → Int,
      (∀ (k : Nat) (name : String),
          (first_occurrences
            ((declared_block (first_statement locals_function_source).get_body_nodes).filter
              (fun x => !(param_names
                (first_statement locals_function_source).get_params).contains x)))[k]?
            = some name →
          ρ name = -8 * ((k : Int) + 1))
      ∧ ((param_names (first_statement locals_function_source).get_params).Nodup →
          ∀ (i : Nat) (p : String),
            (param_names (first_statement locals_function_source).get_params)[i]? = some p →
            ρ p = 16 + 8 * (i : Int))
      ∧ ({ current_program :=
                [ir_label .IR_LABEL 0 "_f", ir .IR_PUSH 1, ir .IR_STORE (-8), ir .IR_LOAD 16,
                 ir_label .IR_JZ 0 "else_0", ir .IR_PUSH 2, ir .IR_STORE (-16), ir .IR_PUSH 3,
                 ir .IR_STORE (-8), ir .IR_PUSH 4, ir .IR_STORE 16,
                 ir_label .IR_LABEL 0 "else_0", ir .IR_LOAD (-16),
                 ir .IR_STORE (-24), ir .IR_LOAD (-24), ir .IR_RET 0, ir .IR_RET 0],
              current_scope := create_scope .null, label_counter := 2 } : CodeGen).current_program
          = CodeGen.init.current_program
          ++ [ir_label .IR_LABEL 0
                (mangle ((first_statement locals_function_source).get_fn_name.getD ""))]
          ++ lower_block ρ (first_statement locals_function_source).get_body_nodes
                CodeGen.init.label_counter
          ++ [ir .IR_RET 0] :=
  ⟨by decide, fun _ _ => rfl,
   C5_local_offsets (first_statement locals_function_source).get_fn_name
     (first_statement locals_function_source).get_params
     (first_statement locals_function_source).get_body_nodes CodeGen.init _ (by decide)
     (fun _ _ => rfl)⟩

/-- C6: for a function definition with pairwise distinct parameter names, when the lowering of
the definition returns, its IR is the label, the lowering of the body under one environment `ρ`
with `ρ p_i = 16 + 8 * i` for the i-th parameter (every reference to a name `x`, at any depth of
blocks, `if` branches and `while` bodies, is the instruction LOAD `ρ x`), and the implicit
return; the lowering of the definition never fails with the undefined-variable error for a
parameter name; and `fn f(a: int, b: int) -> int { return a + b; }` lowers to LABEL _f, LOAD 16,
LOAD 24, ADD, RET, RET. -/
theorem C6_parameter_references (fn_name : Option String) (params body : ASTNode)
    (cg cg1 : CodeGen) (hdistinct : (param_names params).Nodup)
    (hgen : gen_function fn_name params body cg = .ok cg1) :
    (∃ ρ : String → Int,
        (∀ (i : Nat) (p : String), (param_names params)[i]? = some p → ρ p = 16 + 8 * (i : Int))
        ∧ cg1.current_program = cg.current_program
            ++ [ir_label .IR_LABEL 0 (mangle (fn_name.getD ""))]
            ++ lower_block ρ body cg.label_counter ++ [ir .IR_RET 0])
    ∧ (∀ (cg0 : CodeGen) (v : String),
        gen_function fn_name params body cg0 = .error (.undefined_variable v) →
          v ∉ param_names params)
    ∧ compile 100 "fn f(a: int, b: int) -> int { return a + b; }".toList
        = .ok [ir_label .IR_LABEL 0 "_f", ir .IR_LOAD 16, ir .IR_LOAD 24, ir .IR_ADD 0,
               ir .IR_RET 0, ir .IR_RET 0] := by
  refine ⟨?_, fun cg0 v h => (gen_function_undefined fn_name params body cg0 v h).1, by decide⟩
  obtain ⟨entry, name, hname, hentry, _, _, hprog⟩ :=
    gen_function_lowering fn_name params body cg cg1 hgen
  refine ⟨scope_offsets (allocate_locals entry (declared_block body)), ?_, ?_⟩
  · intro i p hp
    have h1 := gen_declare_params_lookup params [] cg.current_scope 0 0 entry hentry hdistinct i p hp
    have h2 := lookup_allocate_locals_stable (declared_block body) entry p _ h1
    simp [scope_offsets, h2]
  · rw [hprog _ (agrees_scope_offsets _), hname]
    rfl

/-- Witness of C6: the function of `loop_function_source`, lowered first in a program; the
references to `a` and `b` inside the `while` and the nested `if` are LOAD 16 and LOAD 24. -/
theorem C6_parameter_references_witness :
    (param_names (first_statement loop_function_source).get_params).Nodup
    ∧ gen_function (first_statement loop_function_source).get_fn_name
        (first_statement loop_function_source).get_params
        (first_statement loop_function_source).get_body_nodes CodeGen.init
      = .ok { current_program :=
                [ir_label .IR_LABEL 0 "_f", ir_label .IR_LABEL 0 "loop_0", ir .IR_LOAD 16,
                 ir .IR_LOAD 24, ir .IR_CMP 2, ir_label .IR_JZ 0 "endloop_1", ir .IR_LOAD 24,
                 ir_label .IR_JZ 0 "else_2", ir .IR_LOAD 16, ir .IR_LOAD 24, ir .IR_ADD 0,
                 ir .IR_STORE 16, ir_label .IR_LABEL 0 "else_2", ir_label .IR_JMP 0 "loop_0",
                 ir_label .IR_LABEL 0 "endloop_1", ir .IR_LOAD 16, ir .IR_RET 0, ir .IR_RET 0],
              current_scope := create_scope .null, label_counter := 4 }
    ∧ (∃ ρ : String → Int,
        (∀ (i : Nat) (p : String),
          (param_names (first_statement loop_function_source).get_params)[i]? = some p →
            ρ p = 16 + 8 * (i : Int))
        ∧ ({ current_program :=
                [ir_label .IR_LABEL 0 "_f", ir_label .IR_LABEL 0 "loop_0", ir .IR_LOAD 16,
                 ir .IR_LOAD 24, ir .IR_CMP 2, ir_label .IR_JZ 0 "endloop_1", ir .IR_LOAD 24,
                 ir_label .IR_JZ 0 "else_2", ir .IR_LOAD 16, ir .IR_LOAD 24, ir .IR_ADD 0,
                 ir .IR_STORE 16, ir_label .IR_LABEL 0 "else_2", ir_label .IR_JMP 0 "loop_0",
                 ir_label .IR_LABEL 0 "endloop_1", ir .IR_LOAD 16, ir .IR_RET 0, ir .IR_RET 0],
              current_scope := create_scope .null, label_counter := 4 } : CodeGen).current_program
            = CodeGen.init.current_program
            ++ [ir_label .IR_LABEL 0
                  (mangle ((first_statement loop_function_source).get_fn_name.getD ""))]
            ++ lower_block ρ (first_statement loop_function_source).get_body_nodes
                  CodeGen.init.label_counter
            ++ [ir .IR_RET 0])
    ∧ (∀ (cg0 : CodeGen) (v : String),
        gen_function (first_statement loop_function_source).get_fn_name
          (first_statement loop_function_source).get_params
          (first_statement loop_function_source).get_body_nodes cg0
            = .error (.undefined_variable v) →
          v ∉ param_names (first_statement loop_function_source).get_params)
    ∧ compile 100 "fn f(a: int, b: int) -> int { return a + b; }".toList
        = .ok [ir_label .IR_LABEL 0 "_f", ir .IR_LOAD 16, ir .IR_LOAD 24, ir .IR_ADD 0,
               ir .IR_RET 0, ir .IR_RET 0] :=
  ⟨by decide, by decide,
   C6_parameter_references (first_statement loop_function_source).get_fn_name
     (first_statement loop_function_source).get_params
     (first_statement loop_function_source).get_body_nodes CodeGen.init _ (by decide) (by decide)⟩

/-! ### Lowering of `if`, `while` and function definitions -/

theorem label_text_short (pfx : String) (k : Nat) (hp : pfx.length ≤ 20) (hk : k < 2 ^ 31) :
    label_text pfx k = pfx ++ "_" ++ Nat.repr k := by
  have hlen : (Nat.repr k).length ≤ 10 := Nat.repr_length k 10 (by decide) (by omega)
  have h31 : (pfx ++ "_" ++ Nat.repr k).data.length ≤ 31 := by
    simp only [String.data_append, List.length_append]
    have h1 : pfx.data.length = pfx.length := rfl
    have h2 : (Nat.repr k).data.length = (Nat.repr k).length := rfl
    simp only [List.length_cons, List.length_nil]
    omega
  rw [label_text, List.take_of_length_le h31]

/-- C12: when the lowering of an `if` node entered with label counter `k` returns, the IR it
has appended is, with an else branch, lowering(cond), JZ `else_k`, lowering(then),
JMP `endif_(k+1)`, LABEL `else_k`, lowering(else), LABEL `endif_(k+1)`, and without an else
branch lowering(cond), JZ `else_k`, lowering(then), LABEL `else_k` (no `endif` label, no JMP);
the branches are lowered with the counters that follow `k + 1`; the label texts are the prefix,
an underscore and the decimal counter while the counter is in the range of `int`; and
`if (1 == 1) { print(1); } else { print(0); }` lowers to PUSH 1, PUSH 1, CMP 0, JZ else_0,
PUSH 1, PRINT, JMP endif_1, LABEL else_0, PUSH 0, PRINT, LABEL endif_1. -/
theorem C12_if_lowering (n : ASTNode) (cg cg1 : CodeGen)
    (htype : n.get_type = some .AST_IF) (hgen : gen_statement n cg = .ok cg1) :
    (n.get_else_block.is_null = false →
      cg1.current_program = cg.current_program
        ++ lower_expression (scope_offsets cg1.current_scope) n.get_condition
        ++ [ir_label .IR_JZ 0 (label_text "else" cg.label_counter)]
        ++ lower_block (scope_offsets cg1.current_scope) n.get_then_block (cg.label_counter + 2)
        ++ [ir_label .IR_JMP 0 (label_text "endif" (cg.label_counter + 1)),
            ir_label .IR_LABEL 0 (label_text "else" cg.label_counter)]
        ++ lower_block (scope_offsets cg1.current_scope) n.get_else_block
            (cg.label_counter + 2 + label_count_block n.get_then_block)
        ++ [ir_label .IR_LABEL 0 (label_text "endif" (cg.label_counter + 1))])
    ∧ (n.get_else_block.is_null = true →
      cg1.current_program = cg.current_program
        ++ lower_expression (scope_offsets cg1.current_scope) n.get_condition
        ++ [ir_label .IR_JZ 0 (label_text "else" cg.label_counter)]
        ++ lower_block (scope_offsets cg1.current_scope) n.get_then_block (cg.label_counter + 2)
        ++ [ir_label .IR_LABEL 0 (label_text "else" cg.label_counter)])
    ∧ cg1.label_counter = cg.label_counter + 2 + label_count_block n.get_then_block
        + label_count_block n.get_else_block
    ∧ (cg.label_counter + 1 < 2 ^ 31 →
        label_text "else" cg.label_counter = "else_" ++ Nat.repr cg.label_counter
        ∧ label_text "endif" (cg.label_counter + 1) = "endif_" ++ Nat.repr (cg.label_counter + 1))
    ∧ compile 100 "if (1 == 1) { print(1); } else { print(0); }".toList
        = .ok [ir .IR_PUSH 1, ir .IR_PUSH 1, ir .IR_CMP 0, ir_label .IR_JZ 0 "else_0",
               ir .IR_PUSH 1, ir .IR_PRINT 0, ir_label .IR_JMP 0 "endif_1",
               ir_label .IR_LABEL 0 "else_0", ir .IR_PUSH 0, ir .IR_PRINT 0,
               ir_label .IR_LABEL 0 "endif_1"] := by
  cases n with
  | null => simp [ASTNode.get_type] at htype
  | node ty l r c tb eb b fnm ps bn cnm ar vn iv sv bo co st sc =>
    simp only [ASTNode.get_type, Option.some.injEq] at htype
    subst htype
    obtain ⟨_, hc, hp⟩ := (gen_statement_spec _).1 cg cg1 hgen
    have hp := hp _ (agrees_scope_offsets _)
    simp only [lower_statement, lower_statement_node] at hp
    simp only [label_count_statement, label_count_statement_node] at hc
    refine ⟨fun h => ?_, fun h => ?_, ?_, fun hk => ⟨?_, ?_⟩, by decide⟩
    · simp only [ASTNode.get_else_block] at h
      simp only [h, Bool.not_false, if_true] at hp
      simp only [hp, ASTNode.get_condition, ASTNode.get_then_block, ASTNode.get_else_block,
        List.append_assoc]
    · simp only [ASTNode.get_else_block] at h
      simp only [h, Bool.not_true, Bool.false_eq_true, if_false] at hp
      simp only [hp, ASTNode.get_condition, ASTNode.get_then_block, List.append_assoc]
    · simp only [hc, ASTNode.get_then_block, ASTNode.get_else_block]; omega
    · exact label_text_short "else" _ (by decide) (by omega)
    · exact label_text_short "endif" _ (by decide) (by omega)

/-- Witness of C12: the statement of `if_else_source`, lowered first in a program. -/
theorem C12_if_lowering_witness :
    (first_statement if_else_source).get_type = some .AST_IF
    ∧ gen_statement (first_statement if_else_source) CodeGen.init
        = .ok { current_program :=
                  [ir .IR_PUSH 1, ir .IR_PUSH 1, ir .IR_CMP 0, ir_label .IR_JZ 0 "else_0",
                   ir .IR_PUSH 1, ir .IR_PRINT 0, ir_label .IR_JMP 0 "endif_1",
                   ir_label .IR_LABEL 0 "else_0", ir .IR_PUSH 0, ir .IR_PRINT 0,
                   ir_label .IR_LABEL 0 "endif_1"],
                current_scope := create_scope .null, label_counter := 2 }
    ∧ (first_statement if_else_source).get_else_block.is_null = false
    ∧ [ir .IR_PUSH 1, ir .IR_PUSH 1, ir .IR_CMP 0, ir_label .IR_JZ 0 "else_0",
       ir .IR_PUSH 1, ir .IR_PRINT 0, ir_label .IR_JMP 0 "endif_1",
       ir_label .IR_LABEL 0 "else_0", ir .IR_PUSH 0, ir .IR_PRINT 0,
       ir_label .IR_LABEL 0 "endif_1"]
      = CodeGen.init.current_program
        ++ lower_expression (scope_offsets (create_scope .null))
            (first_statement if_else_source).get_condition
        ++ [ir_label .IR_JZ 0 (label_text "else" CodeGen.init.label_counter)]
        ++ lower_block (scope_offsets (create_scope .null))
            (first_statement if_else_source).get_then_block (CodeGen.init.label_counter + 2)
        ++ [ir_label .IR_JMP 0 (label_text "endif" (CodeGen.init.label_counter + 1)),
            ir_label .IR_LABEL 0 (label_text "else" CodeGen.init.label_counter)]
        ++ lower_block (scope_offsets (create_scope .null))
            (first_statement if_else_source).get_else_block
            (CodeGen.init.label_counter + 2
              + label_count_block (first_statement if_else_source).get_then_block)
        ++ [ir_label .IR_LABEL 0 (label_text "endif" (CodeGen.init.label_counter + 1))] :=
  ⟨by decide, by decide, by decide,
   (C12_if_lowering (first_statement if_else_source) CodeGen.init
      { current_program :=
          [ir .IR_PUSH 1, ir .IR_PUSH 1, ir .IR_CMP 0, ir_label .IR_JZ 0 "else_0",
           ir .IR_PUSH 1, ir .IR_PRINT 0, ir_label .IR_JMP 0 "endif_1",
           ir_label .IR_LABEL 0 "else_0", ir .IR_PUSH 0, ir .IR_PRINT 0,
           ir_label .IR_LABEL 0 "endif_1"],
        current_scope := create_scope .null, label_counter := 2 }
      (by decide) (by decide)).1 (by decide)⟩

/-- C13: when the lowering of a `while` node entered with label counter `k` returns, the IR it
has appended is LABEL `loop_k`, lowering(cond), JZ `endloop_(k+1)`, lowering(body),
JMP `loop_k`, LABEL `endloop_(k+1)`: the condition is re-evaluated at the head of every
iteration, and control leaves to the end label when it is zero; the label texts are the prefix,
an underscore and the decimal counter while the counter is in the range of `int`; and
`let i: int = 0; while (i < 3) { i = i + 1; }` lowers to PUSH 0, STORE -8, LABEL loop_0,
LOAD -8, PUSH 3, CMP 2, JZ endloop_1, LOAD -8, PUSH 1, ADD, STORE -8, JMP loop_0,
LABEL endloop_1. -/
theorem C13_while_lowering (n : ASTNode) (cg cg1 : CodeGen)
    (htype : n.get_type = some .AST_WHILE) (hgen : gen_statement n cg = .ok cg1) :
    cg1.current_program = cg.current_program
        ++ [ir_label .IR_LABEL 0 (label_text "loop" cg.label_counter)]
        ++ lower_expression (scope_offsets cg1.current_scope) n.get_condition
        ++ [ir_label .IR_JZ 0 (label_text "endloop" (cg.label_counter + 1))]
        ++ lower_block (scope_offsets cg1.current_scope) n.get_body (cg.label_counter + 2)
        ++ [ir_label .IR_JMP 0 (label_text "loop" cg.label_counter),
            ir_label .IR_LABEL 0 (label_text "endloop" (cg.label_counter + 1))]
    ∧ cg1.label_counter = cg.label_counter + 2 + label_count_block n.get_body
    ∧ (cg.label_counter + 1 < 2 ^ 31 →
        label_text "loop" cg.label_counter = "loop_" ++ Nat.repr cg.label_counter
        ∧ label_text "endloop" (cg.label_counter + 1)
            = "endloop_" ++ Nat.repr (cg.label_counter + 1))
    ∧ compile 100 "let i: int = 0; while (i < 3) { i = i + 1; }".toList
        = .ok [ir .IR_PUSH 0, ir .IR_STORE (-8), ir_label .IR_LABEL 0 "loop_0",
               ir .IR_LOAD (-8), ir .IR_PUSH 3, ir .IR_CMP 2, ir_label .IR_JZ 0 "endloop_1",
               ir .IR_LOAD (-8), ir .IR_PUSH 1, ir .IR_ADD 0, ir .IR_STORE (-8),
               ir_label .IR_JMP 0 "loop_0", ir_label .IR_LABEL 0 "endloop_1"] := by
  cases n with
  | null => simp [ASTNode.get_type] at htype
  | node ty l r c tb eb b fnm ps bn cnm ar vn iv sv bo co st sc =>
    simp only [ASTNode.get_type, Option.some.injEq] at htype
    subst htype
    obtain ⟨_, hc, hp⟩ := (gen_statement_spec _).1 cg cg1 hgen
    have hp := hp _ (agrees_scope_offsets _)
    simp only [lower_statement, lower_statement_node] at hp
    simp only [label_count_statement, label_count_statement_node] at hc
    refine ⟨?_, ?_, fun hk => ⟨?_, ?_⟩, by decide⟩
    · simp only [hp, ASTNode.get_condition, ASTNode.get_body, List.append_assoc]
    · simp only [hc, ASTNode.get_body]; omega
    · exact label_text_short "loop" _ (by decide) (by omega)
    · exact label_text_short "endloop" _ (by decide) (by omega)

/-- Witness of C13: the statement of `while_source`, lowered first in a program. -/
theorem C13_while_lowering_witness :
    (first_statement while_source).get_type = some .AST_WHILE
    ∧ gen_statement (first_statement while_source) CodeGen.init
        = .ok { current_program :=
                  [ir_label .IR_LABEL 0 "loop_0", ir .IR_PUSH 1, ir .IR_PUSH 2, ir .IR_CMP 2,
                   ir_label .IR_JZ 0 "endloop_1", ir .IR_PUSH 3, ir .IR_PRINT 0,
                   ir_label .IR_JMP 0 "loop_0", ir_label .IR_LABEL 0 "endloop_1"],
                current_scope := create_scope .null, label_counter := 2 }
    ∧ [ir_label .IR_LABEL 0 "loop_0", ir .IR_PUSH 1, ir .IR_PUSH 2, ir .IR_CMP 2,
       ir_label .IR_JZ 0 "endloop_1", ir .IR_PUSH 3, ir .IR_PRINT 0,
       ir_label .IR_JMP 0 "loop_0", ir_label .IR_LABEL 0 "endloop_1"]
      = CodeGen.init.current_program
        ++ [ir_label .IR_LABEL 0 (label_text "loop" CodeGen.init.label_counter)]
        ++ lower_expression (scope_offsets (create_scope .null))
            (first_statement while_source).get_condition
        ++ [ir_label .IR_JZ 0 (label_text "endloop" (CodeGen.init.label_counter + 1))]
        ++ lower_block (scope_offsets (create_scope .null))
            (first_statement while_source).get_body (CodeGen.init.label_counter + 2)
        ++ [ir_label .IR_JMP 0 (label_text "loop" CodeGen.init.label_counter),
            ir_label .IR_LABEL 0 (label_text "endloop" (CodeGen.init.label_counter + 1))] :=
  ⟨by decide, by decide,
   (C13_while_lowering (first_statement while_source) CodeGen.init
      { current_program :=
          [ir_label .IR_LABEL 0 "loop_0", ir .IR_PUSH 1, ir .IR_PUSH 2, ir .IR_CMP 2,
           ir_label .IR_JZ 0 "endloop_1", ir .IR_PUSH 3, ir .IR_PRINT 0,
           ir_label .IR_JMP 0 "loop_0", ir_label .IR_LABEL 0 "endloop_1"],
        current_scope := create_scope .null, label_counter := 2 }
      (by decide) (by decide)).1⟩

theorem lower_statement_list_ends_in_return (ρ : String → Int) (n : ASTNode) :
    ∀ k, chain_ends_in_return n = true →
      ∃ front, lower_statement_list ρ n k = front ++ [ir .IR_RET 0] := by
  induction n with
  | null => intro k h; simp [chain_ends_in_return] at h
  | node ty l r c tb eb b fnm ps bn cnm ar vn iv sv bo co st sc _ ihr _ _ _ _ _ _ _ _ =>
    intro k h
    rw [chain_ends_in_return] at h
    by_cases hr : r.is_null = true
    · simp only [hr, if_true, decide_eq_true_eq] at h
      subst h
      cases r with
      | null =>
        exact ⟨lower_expression ρ l, by
          simp [lower_statement_list, lower_statement_node]⟩
      | node => simp [ASTNode.is_null] at hr
    · simp only [hr, Bool.false_eq_true, if_false] at h
      obtain ⟨front, hfront⟩ := ihr _ h
      rw [lower_statement_list, hfront]
      exact ⟨_, (List.append_assoc _ _ _).symm⟩

/-- C14: when the lowering of a function definition returns, the IR it has appended is
LABEL `_name` (the function name with an underscore before it), the lowering of the body, and
RET; the RET is appended whatever the body is, so when the last statement of the body is a
`return` the IR of the definition ends in two RET instructions, as in
`fn f() -> int { return 7; }` (LABEL _f, PUSH 7, RET, RET), while
`fn g() -> int { print(7); }` lowers to LABEL _g, PUSH 7, PRINT, RET. -/
theorem C14_function_lowering (fn_name : Option String) (params body : ASTNode)
    (cg cg1 : CodeGen) (hgen : gen_function fn_name params body cg = .ok cg1) :
    (∃ (name : String) (ρ : String → Int), fn_name = some name
        ∧ mangle name = "_" ++ name
        ∧ cg1.current_program = cg.current_program
            ++ [ir_label .IR_LABEL 0 (mangle name)]
            ++ lower_block ρ body cg.label_counter ++ [ir .IR_RET 0])
    ∧ (body.get_type = some .AST_BLOCK → chain_ends_in_return body.get_statements = true →
        ∃ front, cg1.current_program = front ++ [ir .IR_RET 0, ir .IR_RET 0])
    ∧ compile 100 "fn f() -> int { return 7; }".toList
        = .ok [ir_label .IR_LABEL 0 "_f", ir .IR_PUSH 7, ir .IR_RET 0, ir .IR_RET 0]
    ∧ compile 100 "fn g() -> int { print(7); }".toList
        = .ok [ir_label .IR_LABEL 0 "_g", ir .IR_PUSH 7, ir .IR_PRINT 0, ir .IR_RET 0] := by
  obtain ⟨entry, name, hname, hentry, _, _, hprog⟩ :=
    gen_function_lowering fn_name params body cg cg1 hgen
  have hp := hprog _ (agrees_scope_offsets _)
  refine ⟨⟨name, _, hname, rfl, hp⟩, fun hty hret => ?_, by decide, by decide⟩
  cases body with
  | null => simp [ASTNode.get_type] at hty
  | node ty l r c tb eb b fnm ps bn cnm ar vn iv sv bo co st sc =>
    simp only [ASTNode.get_type, Option.some.injEq] at hty
    subst hty
    simp only [ASTNode.get_statements] at hret
    obtain ⟨front, hfront⟩ := lower_statement_list_ends_in_return
      (scope_offsets (allocate_locals entry (declared_block
        (.node .AST_BLOCK l r c tb eb b fnm ps bn cnm ar vn iv sv bo co st sc)))) st
      cg.label_counter hret
    refine ⟨cg.current_program ++ [ir_label .IR_LABEL 0 (mangle name)] ++ front, ?_⟩
    rw [hp]
    simp [lower_block, hfront]

/-- Witness of C14: the function of `return_function_source`, lowered first in a program. -/
theorem C14_function_lowering_witness :
    gen_function (first_statement return_function_source).get_fn_name
        (first_statement return_function_source).get_params
        (first_statement return_function_source).get_body_nodes CodeGen.init
      = .ok { current_program :=
                [ir_label .IR_LABEL 0 "_f", ir .IR_LOAD 16, ir .IR_PRINT 0, ir .IR_LOAD 16,
                 ir .IR_PUSH 1, ir .IR_ADD 0, ir .IR_RET 0, ir .IR_RET 0],
              current_scope := create_scope .null, label_counter := 0 }
    ∧ (first_statement return_function_source).get_body_nodes.get_type = some .AST_BLOCK
    ∧ chain_ends_in_return
        (first_statement return_function_source).get_body_nodes.get_statements = true
    ∧ ∃ front,
        [ir_label .IR_LABEL 0 "_f", ir .IR_LOAD 16, ir .IR_PRINT 0, ir .IR_LOAD 16,
         ir .IR_PUSH 1, ir .IR_ADD 0, ir .IR_RET 0, ir .IR_RET 0]
          = front ++ [ir .IR_RET 0, ir .IR_RET 0] :=
  ⟨by decide, by decide, by decide,
   (C14_function_lowering (first_statement return_function_source).get_fn_name
      (first_statement return_function_source).get_params
      (first_statement return_function_source).get_body_nodes CodeGen.init
      { current_program :=
          [ir_label .IR_LABEL 0 "_f", ir .IR_LOAD 16, ir .IR_PRINT 0, ir .IR_LOAD 16,
           ir .IR_PUSH 1, ir .IR_ADD 0, ir .IR_RET 0, ir .IR_RET 0],
        current_scope := create_scope .null, label_counter := 0 }
      (by decide)).2.1 (by decide) (by decide)⟩

/-! ### Claims on the assembly backend -/

/-- C17: the program `let p: int = malloc(8); free(p);` lowers to exactly PUSH 8, MALLOC,
STORE -8, LOAD -8, FREE; for both platforms the backend translates MALLOC to `pop rdi`, a call
of the platform's allocate routine, `push rax`, and FREE to `pop rdi`, a call of the platform's
free routine; in the assembly of the five instructions the allocate call comes before the free
call, and the lines that push are as many as the lines that pop (net stack change 0). -/
theorem C17_malloc_free_roundtrip :
    compile 100 "let p: int = malloc(8); free(p);".toList = .ok malloc_free_ir
    ∧ (∀ (macos : Bool) (program : List IRInstruction) (instruction_num : Nat) (operand : Int)
        (label str_value : Option String),
        asm_instruction macos program instruction_num
            { op := .IR_MALLOC, operand := operand, label := label, str_value := str_value }
          = ["    pop rdi\n", if macos then "    call _malloc\n" else "    call malloc\n",
             "    push rax\n"]
        ∧ asm_instruction macos program instruction_num
            { op := .IR_FREE, operand := operand, label := label, str_value := str_value }
          = ["    pop rdi\n", if macos then "    call _free\n" else "    call free\n"])
    ∧ (∀ macos : Bool,
        asm_code_loop macos malloc_free_ir 0 malloc_free_ir
          = ["    push 8\n",
             "    pop rdi\n", if macos then "    call _malloc\n" else "    call malloc\n",
             "    push rax\n",
             "    pop rax\n", "    mov [rbp -8], rax\n",
             "    mov rax, [rbp -8]\n", "    push rax\n",
             "    pop rdi\n", if macos then "    call _free\n" else "    call free\n"]
        ∧ (asm_code_loop macos malloc_free_ir 0 malloc_free_ir).indexOf
              (if macos then "    call _malloc\n" else "    call malloc\n")
            < (asm_code_loop macos malloc_free_ir 0 malloc_free_ir).indexOf
              (if macos then "    call _free\n" else "    call free\n")
        ∧ count_pushes (asm_code_loop macos malloc_free_ir 0 malloc_free_ir)
            = count_pops (asm_code_loop macos malloc_free_ir 0 malloc_free_ir)) := by
  refine ⟨by decide, fun macos program n operand label str_value => ⟨rfl, rfl⟩, fun macos => ?_⟩
  cases macos <;> decide

theorem data_entries_loop_eq (program : List IRInstruction) :
    ∀ str_idx, data_entries_loop str_idx program
      = ((string_payloads program).enumFrom str_idx).map (fun e => data_entry e.1 e.2) := by
  induction program with
  | nil => intro k; rfl
  | cons instr rest ih =>
    intro k
    rw [data_entries_loop]
    by_cases hop : instr.op = .IR_PUSH_STR
    · cases hs : instr.str_value with
      | none => simp [hop, hs, string_payloads, ih]
      | some s => simp [hop, hs, string_payloads, ih, data_entry, List.enumFrom_cons]
    · simp [hop, string_payloads, ih]

theorem count_strings_eq (program : List IRInstruction) :
    count_strings program = (string_payloads program).length := by
  induction program with
  | nil => rfl
  | cons instr rest ih =>
    rw [count_strings, ih]
    by_cases hop : instr.op = .IR_PUSH_STR
    · cases hs : instr.str_value with
      | none => simp [is_string_entry, hop, hs, string_payloads]
      | some s => simp [is_string_entry, hop, hs, string_payloads]; omega
    · simp [is_string_entry, hop, string_payloads]

theorem asm_data_section_eq (program : List IRInstruction) :
    asm_data_section program = ["section .data\n"]
      ++ (string_payloads program).enum.map (fun e => data_entry e.1 e.2)
      ++ ["fmt_int: db \"%d\", 10, 0\n", "fmt_str: db \"%s\", 0\n", "\n"] := by
  rw [asm_data_section, count_strings_eq, data_entries_loop_eq]
  cases h : string_payloads program with
  | nil => simp [List.enum]
  | cons s rest => simp [List.enum]

theorem string_index_eq (program : List IRInstruction) :
    ∀ n, string_index program n = (string_payloads (program.take n)).length := by
  induction program with
  | nil => intro n; simp [string_index, string_payloads]
  | cons instr rest ih =>
    intro n
    cases n with
    | zero => simp [string_index, string_payloads]
    | succ n =>
      rw [string_index, ih]
      by_cases hop : instr.op = .IR_PUSH_STR
      · cases hs : instr.str_value with
        | none => simp [is_string_entry, hop, hs, string_payloads]
        | some s => simp [is_string_entry, hop, hs, string_payloads]; omega
      · simp [is_string_entry, hop, string_payloads]

theorem string_payloads_at (program : List IRInstruction) (n : Nat) (instr : IRInstruction)
    (hn : program[n]? = some instr) (hop : instr.op = .IR_PUSH_STR) (payload : String)
    (hs : instr.str_value = some payload) :
    (string_payloads program)[(string_payloads (program.take n)).length]? = some payload := by
  have hsplit : program = program.take n ++ instr :: program.drop (n + 1) := by
    have hlt : n < program.length := by
      rcases Nat.lt_or_ge n program.length with h | h
      · exact h
      · rw [List.getElem?_eq_none h] at hn; cases hn
    have hget : program[n] = instr := by
      rw [List.getElem?_eq_getElem hlt] at hn
      exact Option.some.inj hn
    rw [← hget]
    simp
  have hp : string_payloads program
      = string_payloads (program.take n) ++ payload :: string_payloads (program.drop (n + 1)) := by
    conv_lhs => rw [hsplit]
    simp [string_payloads, List.filterMap_append, hop, hs]
  rw [hp, List.getElem?_append_right (Nat.le_refl _)]
  simp

theorem string_payloads_length (program : List IRInstruction)
    (hpay : ∀ instr ∈ program, instr.op = .IR_PUSH_STR → instr.str_value.isSome = true) :
    (string_payloads program).length
      = (program.filter (fun instr => instr.op = .IR_PUSH_STR)).length := by
  induction program with
  | nil => rfl
  | cons instr rest ih =>
    have ih := ih (fun i hi => hpay i (List.mem_cons_of_mem _ hi))
    by_cases hop : instr.op = .IR_PUSH_STR
    · have h1 := hpay instr (List.mem_cons_self _ _) hop
      obtain ⟨s, hs⟩ := Option.isSome_iff_exists.1 h1
      simp [string_payloads, hop, hs] at ih ⊢
      exact ih
    · simp [string_payloads, hop] at ih ⊢
      exact ih

/-- C18: for every IR program whose PUSH_STR instructions all carry a payload, K of them say,
the data section holds after its header exactly the K entries `str_0` ... `str_(K-1)` in program
order, the entry `str_i` holding the payload of the i-th PUSH_STR (equal payloads are not
merged), followed by the two format strings; and the code for the PUSH_STR that has `i` PUSH_STR
instructions before it is `lea rax, [rel str_i]` then `push rax`, the index at which the table
holds its payload. -/
theorem C18_string_table (macos : Bool) (program : List IRInstruction)
    (hpay : ∀ instr ∈ program, instr.op = .IR_PUSH_STR → instr.str_value.isSome = true) :
    (string_payloads program).length
        = (program.filter (fun instr => instr.op = .IR_PUSH_STR)).length
    ∧ asm_data_section program = ["section .data\n"]
        ++ (string_payloads program).enum.map (fun e => data_entry e.1 e.2)
        ++ ["fmt_int: db \"%d\", 10, 0\n", "fmt_str: db \"%s\", 0\n", "\n"]
    ∧ (∀ (n : Nat) (instr : IRInstruction), program[n]? = some instr →
        instr.op = .IR_PUSH_STR →
        asm_instruction macos program n instr
          = ["    lea rax, [rel str_"
               ++ Nat.repr ((program.take n).filter (fun i => i.op = .IR_PUSH_STR)).length
               ++ "]\n",
             "    push rax\n"]
        ∧ (string_payloads program)[
            ((program.take n).filter (fun i => i.op = .IR_PUSH_STR)).length]?
          = instr.str_value) := by
  refine ⟨string_payloads_length program hpay, asm_data_section_eq program, ?_⟩
  intro n instr hn hop
  have htake : ∀ i ∈ program.take n, i.op = .IR_PUSH_STR → i.str_value.isSome = true :=
    fun i hi => hpay i (List.mem_of_mem_take hi)
  have hlen := string_payloads_length (program.take n) htake
  have hmem : instr ∈ program := List.getElem?_mem hn
  obtain ⟨s, hs⟩ := Option.isSome_iff_exists.1 (hpay instr hmem hop)
  refine ⟨?_, ?_⟩
  · simp only [asm_instruction, hop, string_index_eq, hlen]
  · rw [← hlen, hs]
    exact string_payloads_at program n instr hn hop s hs

/-- Witness of C18: the IR of `print("a"); print("b"); print("a");`, whose third string is the
entry `str_2`. -/
theorem C18_string_table_witness :
    (∀ instr ∈ three_strings_ir, instr.op = .IR_PUSH_STR → instr.str_value.isSome = true)
    ∧ asm_data_section three_strings_ir
        = ["section .data\n", "str_0: db \"a\", 0\n", "str_1: db \"b\", 0\n",
           "str_2: db \"a\", 0\n", "fmt_int: db \"%d\", 10, 0\n", "fmt_str: db \"%s\", 0\n",
           "\n"]
    ∧ three_strings_ir[4]?
        = some { op := .IR_PUSH_STR, operand := 0, label := none, str_value := some "a" }
    ∧ asm_instruction false three_strings_ir 4
          { op := .IR_PUSH_STR, operand := 0, label := none, str_value := some "a" }
        = ["    lea rax, [rel str_2]\n", "    push rax\n"]
    ∧ asm_data_section three_strings_ir = ["section .data\n"]
        ++ (string_payloads three_strings_ir).enum.map (fun e => data_entry e.1 e.2)
        ++ ["fmt_int: db \"%d\", 10, 0\n", "fmt_str: db \"%s\", 0\n", "\n"] :=
  ⟨by decide, by decide, by decide, by decide,
   (C18_string_table false three_strings_ir (by decide)).2.1⟩

theorem has_main_iff (program : List IRInstruction) :
    has_main program = true
      ↔ ∃ instr ∈ program, instr.op = .IR_LABEL ∧ instr.label = some "_main" := by
  induction program with
  | nil => simp [has_main]
  | cons instr rest ih =>
    rw [has_main]
    by_cases h : instr.op = .IR_LABEL ∧ instr.label = some "_main"
    · simp [h]
    · simp only [h, if_false, ih, List.mem_cons, exists_eq_or_imp, false_or]

/-- C19: `has_main` holds exactly when the IR contains a LABEL instruction named `_main`; for
both platforms the output is the data section, the directives of the platform, on Linux the
`_start:` trampoline (call `_main`, then exit) exactly when `has_main` holds, the code of the
instructions, and at the end the process-exit sequence (`mov rax, <exit number>`, `mov rdi, 0`,
`syscall`) exactly when `has_main` does not hold; so on Linux exactly one of the trampoline and
the trailing exit sequence appears. -/
theorem C19_exit_or_trampoline (macos : Bool) (program : List IRInstruction) :
    (has_main program = true
        ↔ ∃ instr ∈ program, instr.op = .IR_LABEL ∧ instr.label = some "_main")
    ∧ generate_assembly macos program
        = asm_data_section program
          ++ (if macos then
                ["section .text\n", "global _main\n", "extern _printf\n", "extern _malloc\n",
                 "extern _free\n\n"]
              else
                ["section .text\n", "global _start\n", "extern printf\n", "extern malloc\n",
                 "extern free\n\n"])
          ++ (if !macos && has_main program then
                ["_start:\n", "    call _main\n", "    mov rax, 60\n", "    mov rdi, 0\n",
                 "    syscall\n\n"]
              else [])
          ++ asm_code_loop macos program 0 program
          ++ (if !has_main program then
                [if macos then "\n    mov rax, 0x2000001  ; exit syscall\n"
                 else "\n    mov rax, 60  ; exit syscall\n",
                 "    mov rdi, 0\n", "    syscall\n"]
              else []) := by
  refine ⟨has_main_iff program, ?_⟩
  cases macos <;> cases h : has_main program <;>
    simp [generate_assembly, asm_text_header, asm_exit, exit_sequence, start_trampoline, h]

/-- C20 (counterexample): `start` and `printf` are identifiers of the lexer; the function name
`start` is mangled to `_start`, the entry label of the Linux output, and in the Linux output of
a program with the functions `start` and `main` the label `_start:` is defined twice; the
function name `printf` is mangled to `_printf`, which the macOS output declares `extern` and
then defines. -/
theorem C20_mangled_label_collides :
    (first_token "start").type = .TOKEN_IDENT ∧ (first_token "start").value = some "start"
    ∧ mangle "start" = "_start"
    ∧ (generate_assembly false start_main_ir).count "_start:\n" = 2
    ∧ (first_token "printf").type = .TOKEN_IDENT ∧ (first_token "printf").value = some "printf"
    ∧ mangle "printf" = "_printf"
    ∧ "extern _printf\n" ∈ generate_assembly true printf_ir
    ∧ "_printf:\n" ∈ generate_assembly true printf_ir := by
  decide

theorem mangle_eq_iff (name other : String) : mangle name = "_" ++ other ↔ name = other := by
  rw [mangle, String.ext_iff, String.ext_iff]
  simp [String.data_append]

theorem mangle_ne_of_head (name text : String) (h : text.data.head? ≠ some '_') :
    mangle name ≠ text := by
  intro he
  apply h
  rw [← he, mangle]
  simp [String.data_append]

/-- C20 (amended): for every function name the mangled label `_<name>` differs from the data
labels `fmt_int`, `fmt_str` and `str_i`, from the local labels of the compare and print
sequences, and from the symbols `printf`, `malloc`, `free` of the Linux output; it is the entry
label `_start` exactly for the name `start`, and the symbols `_printf`, `_malloc`, `_free` of the
macOS output exactly for the names `printf`, `malloc`, `free`, of which the lexer reads `malloc`
and `free` as keywords, never as identifiers. -/
theorem C20_mangled_label_reserved (name : String) :
    mangle name ≠ "fmt_int" ∧ mangle name ≠ "fmt_str"
    ∧ (∀ i : Nat, mangle name ≠ "str_" ++ Nat.repr i)
    ∧ (∀ n : Nat, mangle name ≠ ".cmp_true_" ++ Nat.repr n
        ∧ mangle name ≠ ".cmp_end_" ++ Nat.repr n
        ∧ mangle name ≠ ".print_str_" ++ Nat.repr n
        ∧ mangle name ≠ ".print_end_" ++ Nat.repr n)
    ∧ mangle name ≠ "printf" ∧ mangle name ≠ "malloc" ∧ mangle name ≠ "free"
    ∧ (mangle name = "_start" ↔ name = "start")
    ∧ (mangle name = "_printf" ↔ name = "printf")
    ∧ (mangle name = "_malloc" ↔ name = "malloc")
    ∧ (mangle name = "_free" ↔ name = "free")
    ∧ (first_token "malloc").type = .TOKEN_MALLOC
    ∧ (first_token "free").type = .TOKEN_FREE := by
  refine ⟨mangle_ne_of_head _ _ (by decide), mangle_ne_of_head _ _ (by decide),
    fun i => mangle_ne_of_head _ _ (by simp [String.data_append]),
    fun n => ⟨mangle_ne_of_head _ _ (by simp [String.data_append]),
      mangle_ne_of_head _ _ (by simp [String.data_append]),
      mangle_ne_of_head _ _ (by simp [String.data_append]),
      mangle_ne_of_head _ _ (by simp [String.data_append])⟩,
    mangle_ne_of_head _ _ (by decide), mangle_ne_of_head _ _ (by decide),
    mangle_ne_of_head _ _ (by decide),
    mangle_eq_iff name "start", mangle_eq_iff name "printf", mangle_eq_iff name "malloc",
    mangle_eq_iff name "free", by decide, by decide⟩

/-! ### Labels of the generated IR -/

theorem digit_value_digitChar (m : Nat) (h : m < 10) : digit_value (Nat.digitChar m) = m := by
  interval_cases m <;> rfl

theorem decimal_value_toDigitsCore (fuel : Nat) :
    ∀ (n : Nat) (ds : List Char), n < fuel →
      (Nat.toDigitsCore 10 fuel n ds).foldl (fun acc c => 10 * acc + digit_value c) 0
        = ds.foldl (fun acc c => 10 * acc + digit_value c) n := by
  induction fuel with
  | zero => intro n ds h; omega
  | succ fuel ih =>
    intro n ds h
    rw [Nat.toDigitsCore]
    by_cases hq : n / 10 = 0
    · have hn : n % 10 = n := Nat.mod_eq_of_lt (by omega)
      simp only [hq, if_true, List.foldl_cons, Nat.mul_zero, Nat.zero_add]
      rw [digit_value_digitChar _ (Nat.mod_lt _ (by decide)), hn]
    · simp only [hq, if_false]
      rw [ih (n / 10) _ (by omega)]
      simp only [List.foldl_cons]
      rw [digit_value_digitChar _ (Nat.mod_lt _ (by decide))]
      congr 1
      omega

theorem decimal_value_repr (n : Nat) : decimal_value (Nat.repr n).data = n := by
  have h := decimal_value_toDigitsCore (n + 1) n [] (by omega)
  simpa [decimal_value, Nat.repr, Nat.toDigits, List.asString] using h

theorem repr_injective (a b : Nat) (h : Nat.repr a = Nat.repr b) : a = b := by
  rw [← decimal_value_repr a, ← decimal_value_repr b, h]

theorem label_text_injective (p q : String) (hp : p ∈ label_prefixes) (hq : q ∈ label_prefixes)
    (i j : Nat) (hi : i < 2 ^ 31) (hj : j < 2 ^ 31) (h : label_text p i = label_text q j) :
    p = q ∧ i = j := by
  simp only [label_prefixes, List.mem_cons, List.mem_singleton, List.mem_nil_iff, or_false] at hp hq
  have e1 : label_text "else" i = "else" ++ "_" ++ Nat.repr i := label_text_short _ _ (by decide) hi
  have e2 : label_text "endif" i = "endif" ++ "_" ++ Nat.repr i := label_text_short _ _ (by decide) hi
  have e3 : label_text "loop" i = "loop" ++ "_" ++ Nat.repr i := label_text_short _ _ (by decide) hi
  have e4 : label_text "endloop" i = "endloop" ++ "_" ++ Nat.repr i :=
    label_text_short _ _ (by decide) hi
  have f1 : label_text "else" j = "else" ++ "_" ++ Nat.repr j := label_text_short _ _ (by decide) hj
  have f2 : label_text "endif" j = "endif" ++ "_" ++ Nat.repr j := label_text_short _ _ (by decide) hj
  have f3 : label_text "loop" j = "loop" ++ "_" ++ Nat.repr j := label_text_short _ _ (by decide) hj
  have f4 : label_text "endloop" j = "endloop" ++ "_" ++ Nat.repr j :=
    label_text_short _ _ (by decide) hj
  rcases hp with rfl | rfl | rfl | rfl <;> rcases hq with rfl | rfl | rfl | rfl <;>
    simp only [e1, e2, e3, e4, f1, f2, f3, f4, String.ext_iff, String.data_append] at h <;>
    first
      | exact ⟨rfl, repr_injective _ _ (String.ext (by simpa using h))⟩
      | (exfalso; revert h; simp)

theorem label_defs_append (a b : List IRInstruction) :
    label_defs (a ++ b) = label_defs a ++ label_defs b := by
  simp [label_defs, List.filterMap_append]

theorem jump_targets_append (a b : List IRInstruction) :
    jump_targets (a ++ b) = jump_targets a ++ jump_targets b := by
  simp [jump_targets, List.filterMap_append]

theorem lower_expression_node_labels (ρ : String → Int) (type : ASTNodeType)
    (ll lr la : List IRInstruction) (n : Int) (cn vn : Option String) (iv : Int)
    (sv : Option String) (bo : BinOpType) (co : CompareOpType)
    (hl : label_defs ll = [] ∧ jump_targets ll = [])
    (hr : label_defs lr = [] ∧ jump_targets lr = [])
    (ha : label_defs la = [] ∧ jump_targets la = []) :
    label_defs (lower_expression_node ρ type ll lr la n cn vn iv sv bo co) = []
    ∧ jump_targets (lower_expression_node ρ type ll lr la n cn vn iv sv bo co) = [] := by
  cases type <;> (try cases bo) <;>
    simp [lower_expression_node, label_defs_append, jump_targets_append, hl.1, hl.2, hr.1, hr.2,
      ha.1, ha.2, binop_ir] <;>
    simp [label_defs, jump_targets, ir, ir_label]

theorem lower_expression_labels (ρ : String → Int) (n : ASTNode) :
    (label_defs (lower_expression ρ n) = [] ∧ jump_targets (lower_expression ρ n) = [])
    ∧ (label_defs (lower_call_args ρ n) = [] ∧ jump_targets (lower_call_args ρ n) = []) := by
  induction n with
  | null => simp [lower_expression, lower_call_args, label_defs, jump_targets]
  | node ty l r c tb eb b fnm ps bn cnm ar vn iv sv bo co st sc ihl ihr _ _ _ _ _ _ iha _ =>
    have hnode := lower_expression_node_labels ρ ty (lower_expression ρ l) (lower_expression ρ r)
      (lower_call_args ρ ar) (chain_length ar) cnm vn iv sv bo co ihl.1 ihr.1 iha.2
    refine ⟨?_, ?_⟩
    · rw [lower_expression]; exact hnode
    · rw [lower_call_args, label_defs_append, jump_targets_append, hnode.1, hnode.2, ihr.2.1,
        ihr.2.2]
      exact ⟨rfl, rfl⟩

theorem label_index_in_mono {l : String} {a b c d : Nat} (h : label_index_in l a b)
    (h1 : c ≤ a) (h2 : b ≤ d) : label_index_in l c d := by
  obtain ⟨p, hp, j, hj1, hj2, he⟩ := h
  exact ⟨p, hp, j, by omega, by omega, he⟩

theorem label_index_in_self (p : String) (hp : p ∈ label_prefixes) (j : Nat) :
    label_index_in (label_text p j) j (j + 1) :=
  ⟨p, hp, j, Nat.le_refl _, Nat.lt_succ_self _, rfl⟩

theorem label_index_disjoint {l : String} {a b c d : Nat} (h1 : label_index_in l a b)
    (h2 : label_index_in l c d) (hb : b ≤ 2 ^ 31) (hd : d ≤ 2 ^ 31) (h : b ≤ c ∨ d ≤ a) :
    False := by
  obtain ⟨p, hp, i, hi1, hi2, he1⟩ := h1
  obtain ⟨q, hq, j, hj1, hj2, he2⟩ := h2
  have := (label_text_injective p q hp hq i j (by omega) (by omega) (he1 ▸ he2)).2
  omega

theorem labelled_nil (k : Nat) : LabelledWithin [] k k :=
  ⟨fun l h => by simp [label_defs] at h, by simp [label_defs],
   fun l h => by simp [jump_targets] at h⟩

theorem labelled_of_labelless (code : List IRInstruction) (k : Nat)
    (h : label_defs code = [] ∧ jump_targets code = []) : LabelledWithin code k k :=
  ⟨fun l hl => by simp [h.1] at hl, by simp [h.1], fun l hl => by simp [h.2] at hl⟩

theorem labelled_append {c1 c2 : List IRInstruction} {k k1 k2 : Nat}
    (h1 : LabelledWithin c1 k k1) (h2 : LabelledWithin c2 k1 k2) (hk : k ≤ k1) (hk1 : k1 ≤ k2)
    (hb : k2 ≤ 2 ^ 31) : LabelledWithin (c1 ++ c2) k k2 := by
  obtain ⟨r1, n1, j1⟩ := h1
  obtain ⟨r2, n2, j2⟩ := h2
  refine ⟨?_, ?_, ?_⟩
  · intro l hl
    rw [label_defs_append, List.mem_append] at hl
    rcases hl with hl | hl
    · exact label_index_in_mono (r1 l hl) (Nat.le_refl _) hk1
    · exact label_index_in_mono (r2 l hl) hk (Nat.le_refl _)
  · rw [label_defs_append, List.nodup_append]
    refine ⟨n1, n2, ?_⟩
    intro l ha hb2
    exact label_index_disjoint (r1 l ha) (r2 l hb2) (by omega) hb (Or.inl (Nat.le_refl _))
  · intro l hl
    rw [jump_targets_append, List.mem_append] at hl
    rw [label_defs_append, List.mem_append]
    rcases hl with hl | hl
    · exact Or.inl (j1 l hl)
    · exact Or.inr (j2 l hl)

theorem label_defs_label (o : Int) (l : String) (rest : List IRInstruction) :
    label_defs (ir_label .IR_LABEL o l :: rest) = l :: label_defs rest := by
  simp [label_defs, ir_label]

theorem label_defs_jz (o : Int) (l : String) (rest : List IRInstruction) :
    label_defs (ir_label .IR_JZ o l :: rest) = label_defs rest := by
  simp [label_defs, ir_label]

theorem label_defs_jmp (o : Int) (l : String) (rest : List IRInstruction) :
    label_defs (ir_label .IR_JMP o l :: rest) = label_defs rest := by
  simp [label_defs, ir_label]

theorem jump_targets_label (o : Int) (l : String) (rest : List IRInstruction) :
    jump_targets (ir_label .IR_LABEL o l :: rest) = jump_targets rest := by
  simp [jump_targets, ir_label]

theorem jump_targets_jz (o : Int) (l : String) (rest : List IRInstruction) :
    jump_targets (ir_label .IR_JZ o l :: rest) = l :: jump_targets rest := by
  simp [jump_targets, ir_label]

theorem jump_targets_jmp (o : Int) (l : String) (rest : List IRInstruction) :
    jump_targets (ir_label .IR_JMP o l :: rest) = l :: jump_targets rest := by
  simp [jump_targets, ir_label]

theorem label_defs_nil : label_defs [] = [] := rfl

theorem jump_targets_nil : jump_targets [] = [] := rfl

theorem label_text_ne_of_index {l p : String} {j a b : Nat} (h : label_index_in l a b)
    (hp : p ∈ label_prefixes) (hout : j < a ∨ b ≤ j) (hb : b ≤ 2 ^ 31) (hj : j < 2 ^ 31) :
    l ≠ label_text p j := by
  intro he
  have h2 : label_index_in l j (j + 1) := he ▸ label_index_in_self p hp j
  rcases hout with h3 | h3
  · exact label_index_disjoint h2 h hj hb (Or.inl h3)
  · exact label_index_disjoint h h2 hb hj (Or.inl h3)

theorem label_text_ne {p q : String} {i j : Nat} (hp : p ∈ label_prefixes)
    (hq : q ∈ label_prefixes) (hi : i < 2 ^ 31) (hj : j < 2 ^ 31) (hne : i ≠ j) :
    label_text p i ≠ label_text q j :=
  fun h => hne (label_text_injective p q hp hq i j hi hj h).2

theorem lower_statement_node_labelled (ρ : String → Int) (type : ASTNodeType)
    (ll lc la : List IRInstruction) (n : Int) (lt le lb ls : Nat → List IRInstruction)
    (nt ne nb ns : Nat) (has_else : Bool) (cn vn : Option String) (k : Nat)
    (hl : label_defs ll = [] ∧ jump_targets ll = [])
    (hc : label_defs lc = [] ∧ jump_targets lc = [])
    (ha : label_defs la = [] ∧ jump_targets la = [])
    (ht : ∀ j, j + nt ≤ 2 ^ 31 → LabelledWithin (lt j) j (j + nt))
    (he : ∀ j, j + ne ≤ 2 ^ 31 → LabelledWithin (le j) j (j + ne))
    (hb : ∀ j, j + nb ≤ 2 ^ 31 → LabelledWithin (lb j) j (j + nb))
    (hs : ∀ j, j + ns ≤ 2 ^ 31 → LabelledWithin (ls j) j (j + ns))
    (hbound : k + label_count_statement_node type nt ne nb ns ≤ 2 ^ 31) :
    LabelledWithin (lower_statement_node ρ type ll lc la n lt le lb ls nt has_else cn vn k)
      k (k + label_count_statement_node type nt ne nb ns) := by
  have h_else : "else" ∈ label_prefixes := by decide
  have h_endif : "endif" ∈ label_prefixes := by decide
  have h_loop : "loop" ∈ label_prefixes := by decide
  have h_endloop : "endloop" ∈ label_prefixes := by decide
  cases type
  case AST_IF =>
    simp only [label_count_statement_node] at hbound ⊢
    obtain ⟨rt, nt1, jt⟩ := ht (k + 2) (by omega)
    obtain ⟨re, ne1, je⟩ := he (k + 2 + nt) (by omega)
    cases has_else
    · simp only [lower_statement_node, Bool.false_eq_true, if_false]
      refine ⟨?_, ?_, ?_⟩
      · intro l hl
        simp only [label_defs_append, hc.1, label_defs_jz, label_defs_label, label_defs_nil,
          List.nil_append, List.mem_append, List.mem_singleton] at hl
        rcases hl with hl | rfl
        · exact label_index_in_mono (rt l hl) (by omega) (by omega)
        · exact ⟨"else", h_else, k, by omega, by omega, rfl⟩
      · simp only [label_defs_append, hc.1, label_defs_jz, label_defs_label, label_defs_nil,
          List.nil_append]
        rw [List.nodup_append]
        refine ⟨nt1, List.nodup_singleton _, ?_⟩
        intro l h1 h2
        rw [List.mem_singleton] at h2
        exact label_text_ne_of_index (rt l h1) h_else (Or.inl (by omega)) (by omega) (by omega) h2
      · intro l hl
        simp only [jump_targets_append, hc.2, jump_targets_jz, jump_targets_label,
          jump_targets_nil, List.nil_append, List.mem_append, List.mem_singleton,
          List.mem_cons, List.not_mem_nil, or_false, List.append_nil] at hl
        simp only [label_defs_append, hc.1, label_defs_jz, label_defs_label, label_defs_nil,
          List.nil_append, List.mem_append, List.mem_singleton]
        rcases hl with rfl | hl
        · exact Or.inr rfl
        · exact Or.inl (jt l hl)
    · simp only [lower_statement_node, if_true]
      refine ⟨?_, ?_, ?_⟩
      · intro l hl
        simp only [label_defs_append, hc.1, label_defs_jz, label_defs_jmp, label_defs_label,
          label_defs_nil, List.nil_append, List.mem_append, List.mem_singleton,
          List.mem_cons, List.not_mem_nil, or_false] at hl
        rcases hl with ((hl | rfl) | hl) | rfl
        · exact label_index_in_mono (rt l hl) (by omega) (by omega)
        · exact ⟨"else", h_else, k, by omega, by omega, rfl⟩
        · exact label_index_in_mono (re l hl) (by omega) (by omega)
        · exact ⟨"endif", h_endif, k + 1, by omega, by omega, rfl⟩
      · simp only [label_defs_append, hc.1, label_defs_jz, label_defs_jmp, label_defs_label,
          label_defs_nil, List.nil_append]
        rw [List.nodup_append, List.nodup_append, List.nodup_append]
        refine ⟨⟨⟨nt1, List.nodup_singleton _, ?_⟩, ne1, ?_⟩, List.nodup_singleton _, ?_⟩
        · intro l h1 h2
          rw [List.mem_singleton] at h2
          exact label_text_ne_of_index (rt l h1) h_else (Or.inl (by omega)) (by omega)
            (by omega) h2
        · intro l h1 h2
          rw [List.mem_append, List.mem_singleton] at h1
          rcases h1 with h1 | rfl
          · exact label_index_disjoint (rt l h1) (re l h2) (by omega) (by omega)
              (Or.inl (Nat.le_refl _))
          · exact label_text_ne_of_index (re _ h2) h_else (Or.inl (by omega)) (by omega)
              (by omega) rfl
        · intro l h1 h2
          rw [List.mem_singleton] at h2
          rw [List.mem_append, List.mem_append, List.mem_singleton] at h1
          rcases h1 with (h1 | rfl) | h1
          · exact label_text_ne_of_index (rt l h1) h_endif (Or.inl (by omega)) (by omega)
              (by omega) h2
          · exact label_text_ne h_else h_endif (by omega) (by omega) (by omega) h2
          · exact label_text_ne_of_index (re l h1) h_endif (Or.inl (by omega)) (by omega)
              (by omega) h2
      · intro l hl
        simp only [jump_targets_append, hc.2, jump_targets_jz, jump_targets_jmp,
          jump_targets_label, jump_targets_nil, List.nil_append, List.mem_append,
          List.mem_singleton, List.mem_cons, List.not_mem_nil, or_false,
          List.append_nil] at hl
        simp only [label_defs_append, hc.1, label_defs_jz, label_defs_jmp, label_defs_label,
          label_defs_nil, List.nil_append, List.mem_append, List.mem_singleton]
        rcases hl with ((rfl | hl) | rfl) | hl
        · exact Or.inl (Or.inl (Or.inr rfl))
        · exact Or.inl (Or.inl (Or.inl (jt l hl)))
        · exact Or.inr rfl
        · exact Or.inl (Or.inr (je l hl))
  case AST_WHILE =>
    simp only [label_count_statement_node] at hbound ⊢
    obtain ⟨rb, nb1, jb⟩ := hb (k + 2) (by omega)
    simp only [lower_statement_node]
    refine ⟨?_, ?_, ?_⟩
    · intro l hl
      simp only [label_defs_append, hc.1, label_defs_jz, label_defs_jmp, label_defs_label,
        label_defs_nil, List.nil_append, List.mem_append, List.mem_singleton,
        List.mem_cons, List.not_mem_nil, or_false, List.append_nil] at hl
      rcases hl with (rfl | hl) | rfl
      · exact ⟨"loop", h_loop, k, by omega, by omega, rfl⟩
      · exact label_index_in_mono (rb l hl) (by omega) (by omega)
      · exact ⟨"endloop", h_endloop, k + 1, by omega, by omega, rfl⟩
    · simp only [label_defs_append, hc.1, label_defs_jz, label_defs_jmp, label_defs_label,
        label_defs_nil, List.nil_append, List.append_nil]
      rw [List.nodup_append, List.nodup_append]
      refine ⟨⟨List.nodup_singleton _, nb1, ?_⟩, List.nodup_singleton _, ?_⟩
      · intro l h1 h2
        rw [List.mem_singleton] at h1
        exact label_text_ne_of_index (rb l h2) h_loop (Or.inl (by omega)) (by omega)
          (by omega) h1
      · intro l h1 h2
        rw [List.mem_singleton] at h2
        rw [List.mem_append, List.mem_singleton] at h1
        rcases h1 with rfl | h1
        · exact label_text_ne h_loop h_endloop (by omega) (by omega) (by omega) h2
        · exact label_text_ne_of_index (rb l h1) h_endloop (Or.inl (by omega)) (by omega)
            (by omega) h2
    · intro l hl
      simp only [jump_targets_append, hc.2, jump_targets_jz, jump_targets_jmp,
        jump_targets_label, jump_targets_nil, List.nil_append, List.mem_append,
        List.mem_singleton, List.mem_cons, List.not_mem_nil, or_false,
        List.append_nil] at hl
      simp only [label_defs_append, hc.1, label_defs_jz, label_defs_jmp, label_defs_label,
        label_defs_nil, List.nil_append, List.mem_append, List.mem_singleton,
        List.append_nil]
      rcases hl with (rfl | hl) | rfl
      · exact Or.inr rfl
      · exact Or.inl (Or.inr (jb l hl))
      · exact Or.inl (Or.inl rfl)
  case AST_BLOCK =>
    simp only [label_count_statement_node] at hbound ⊢
    exact hs k hbound
  all_goals
    simp only [label_count_statement_node, Nat.add_zero]
    apply labelled_of_labelless
    simp only [lower_statement_node, label_defs_append, jump_targets_append, hl.1, hl.2, ha.1,
      ha.2, List.nil_append]
    simp [label_defs, jump_targets, ir, ir_label]

theorem lower_statement_labelled (ρ : String → Int) (n : ASTNode) :
    (∀ k, k + label_count_statement n ≤ 2 ^ 31 →
      LabelledWithin (lower_statement ρ n k) k (k + label_count_statement n))
    ∧ (∀ k, k + label_count_block n ≤ 2 ^ 31 →
      LabelledWithin (lower_block ρ n k) k (k + label_count_block n))
    ∧ (∀ k, k + label_count_statement_list n ≤ 2 ^ 31 →
      LabelledWithin (lower_statement_list ρ n k) k (k + label_count_statement_list n)) := by
  induction n with
  | null =>
    refine ⟨fun k _ => ?_, fun k _ => ?_, fun k _ => ?_⟩
    · simpa [lower_statement, label_count_statement] using labelled_nil k
    · simpa [lower_block, label_count_block] using labelled_nil k
    · simpa [lower_statement_list, label_count_statement_list] using labelled_nil k
  | node ty l r c tb eb b fnm ps bn cnm ar vn iv sv bo co st sc _ ihr _ ihtb iheb ihb _ _ _ ihst =>
    have hnode := fun k => lower_statement_node_labelled ρ ty (lower_expression ρ l)
      (lower_expression ρ c) (lower_call_args ρ ar) (chain_length ar) (lower_block ρ tb)
      (lower_block ρ eb) (lower_block ρ b) (lower_statement_list ρ st) (label_count_block tb)
      (label_count_block eb) (label_count_block b) (label_count_statement_list st)
      (!eb.is_null) cnm vn k (lower_expression_labels ρ l).1 (lower_expression_labels ρ c).1
      (lower_expression_labels ρ ar).2 ihtb.2.1 iheb.2.1 ihb.2.1 ihst.2.2
    refine ⟨fun k hk => ?_, fun k hk => ?_, fun k hk => ?_⟩
    · rw [label_count_statement] at hk ⊢
      rw [lower_statement]
      exact hnode k hk
    · rw [label_count_block] at hk ⊢
      rw [lower_block]
      by_cases hty : ty = .AST_BLOCK
      · simp only [hty, ne_eq, not_true_eq_false, if_false] at hk ⊢
        exact ihst.2.2 k hk
      · simp only [ne_eq, hty, not_false_eq_true, if_true] at hk ⊢
        exact labelled_nil k
    · rw [label_count_statement_list] at hk ⊢
      rw [lower_statement_list]
      have h1 := hnode k (by omega)
      have h2 := ihr.2.2 (k + label_count_statement_node ty (label_count_block tb)
        (label_count_block eb) (label_count_block b) (label_count_statement_list st))
        (by omega)
      have := labelled_append h1 h2 (by omega) (by omega) (by omega)
      rw [Nat.add_assoc] at this
      exact this

theorem generated_not_function {l : String} {a b : Nat} (h : label_index_in l a b)
    (hb : b ≤ 2 ^ 31) : ¬ ∃ name, l = mangle name := by
  rintro ⟨name, hname⟩
  obtain ⟨p, hp, j, _, hj, he⟩ := h
  have hshort : ∀ q, q.length ≤ 20 → label_text q j = q ++ "_" ++ Nat.repr j :=
    fun q hq => label_text_short q j hq (by omega)
  simp only [label_prefixes, List.mem_cons, List.mem_singleton, List.mem_nil_iff, or_false] at hp
  rw [he] at hname
  rcases hp with rfl | rfl | rfl | rfl <;>
    (rw [hshort _ (by decide), mangle, String.ext_iff] at hname
     simp [String.data_append] at hname)

theorem top_labelled_of_labelled {code : List IRInstruction} {k k1 : Nat}
    (h : LabelledWithin code k k1) : TopLabelled code k k1 :=
  ⟨fun l hl => Or.inr (h.1 l hl), fun l _ => List.nodup_iff_count_le_one.1 h.2.1 l,
   fun l hl => ⟨h.2.2 l hl, h.1 l (h.2.2 l hl)⟩⟩

theorem top_labelled_nil (k : Nat) : TopLabelled [] k k :=
  top_labelled_of_labelled (labelled_nil k)

theorem top_labelled_function {body : List IRInstruction} {k k1 : Nat} (name : String)
    (h : LabelledWithin body k k1) :
    TopLabelled ([ir_label .IR_LABEL 0 (mangle name)] ++ body ++ [ir .IR_RET 0]) k k1 := by
  have hd : label_defs ([ir_label .IR_LABEL 0 (mangle name)] ++ body ++ [ir .IR_RET 0])
      = mangle name :: label_defs body := by
    simp [label_defs_append, label_defs, ir_label, ir]
  have hj : jump_targets ([ir_label .IR_LABEL 0 (mangle name)] ++ body ++ [ir .IR_RET 0])
      = jump_targets body := by
    simp [jump_targets_append, jump_targets, ir_label, ir]
  refine ⟨?_, ?_, ?_⟩
  · intro l hl
    rw [hd, List.mem_cons] at hl
    rcases hl with rfl | hl
    · exact Or.inl ⟨name, rfl⟩
    · exact Or.inr (h.1 l hl)
  · intro l hl
    rw [hd, List.count_cons]
    have hne : ¬ (mangle name == l) = true := by
      intro he
      exact hl ⟨name, (beq_iff_eq.1 he).symm⟩
    simp only [hne, if_false, Nat.add_zero]
    exact List.nodup_iff_count_le_one.1 h.2.1 l
  · intro l hl
    rw [hj] at hl
    rw [hd]
    exact ⟨List.mem_cons_of_mem _ (h.2.2 l hl), h.1 l (h.2.2 l hl)⟩

theorem top_labelled_append {c1 c2 : List IRInstruction} {k k1 k2 : Nat}
    (h1 : TopLabelled c1 k k1) (h2 : TopLabelled c2 k1 k2) (hk : k ≤ k1) (hk1 : k1 ≤ k2)
    (hb : k2 ≤ 2 ^ 31) : TopLabelled (c1 ++ c2) k k2 := by
  obtain ⟨r1, n1, j1⟩ := h1
  obtain ⟨r2, n2, j2⟩ := h2
  refine ⟨?_, ?_, ?_⟩
  · intro l hl
    rw [label_defs_append, List.mem_append] at hl
    rcases hl with hl | hl
    · exact (r1 l hl).imp id (fun h => label_index_in_mono h (Nat.le_refl _) hk1)
    · exact (r2 l hl).imp id (fun h => label_index_in_mono h hk (Nat.le_refl _))
  · intro l hl
    rw [label_defs_append, List.count_append]
    have c1le := n1 l hl
    have c2le := n2 l hl
    by_cases hm1 : l ∈ label_defs c1
    · by_cases hm2 : l ∈ label_defs c2
      · exfalso
        have i1 := (r1 l hm1).resolve_left hl
        have i2 := (r2 l hm2).resolve_left hl
        exact label_index_disjoint i1 i2 (by omega) hb (Or.inl (Nat.le_refl _))
      · rw [List.count_eq_zero_of_not_mem hm2]
        omega
    · rw [List.count_eq_zero_of_not_mem hm1]
      omega
  · intro l hl
    rw [jump_targets_append, List.mem_append] at hl
    rw [label_defs_append, List.mem_append]
    rcases hl with hl | hl
    · exact ⟨Or.inl (j1 l hl).1, label_index_in_mono (j1 l hl).2 (Nat.le_refl _) hk1⟩
    · exact ⟨Or.inr (j2 l hl).1, label_index_in_mono (j2 l hl).2 hk (Nat.le_refl _)⟩

theorem gen_toplevel_labelled (n : ASTNode) :
    ∀ cg cg1, gen_toplevel n cg = .ok cg1 →
      cg1.label_counter = cg.label_counter + label_count_toplevel n
      ∧ (cg1.label_counter ≤ 2 ^ 31 →
          ∃ code, cg1.current_program = cg.current_program ++ code
            ∧ TopLabelled code cg.label_counter cg1.label_counter) := by
  induction n with
  | null =>
    intro cg cg1 h
    simp only [gen_toplevel] at h
    cases h
    exact ⟨rfl, fun _ => ⟨[], by simp, top_labelled_nil _⟩⟩
  | node ty l r c tb eb b fnm ps bn cnm ar vn iv sv bo co st sc _ ihr _ _ _ _ _ _ _ _ =>
    intro cg cg1 h
    rw [gen_toplevel] at h
    obtain ⟨cg2, h1, h2⟩ := bind_ok h
    obtain ⟨hc2, hcode2⟩ := ihr cg2 cg1 h2
    by_cases hty : ty = .AST_FN_DEF
    · simp only [hty, if_true] at h1
      obtain ⟨entry, name, hname, _, _, hc1, hp1⟩ := gen_function_lowering fnm ps bn cg cg2 h1
      have hp1 := hp1 _ (agrees_scope_offsets _)
      refine ⟨by rw [hc2, hc1, label_count_toplevel]; simp only [hty, if_true]; omega, ?_⟩
      intro hb
      obtain ⟨code2, hprog2, hl2⟩ := hcode2 hb
      have hbody := (lower_statement_labelled
        (scope_offsets (allocate_locals entry (declared_block bn))) bn).2.1 cg.label_counter
        (by omega)
      rw [← hc1] at hbody
      refine ⟨_, by rw [hprog2, hp1, List.append_assoc, List.append_assoc, List.append_assoc], ?_⟩
      have := top_labelled_append (top_labelled_function name hbody) hl2 (by omega) (by omega) hb
      simpa [List.append_assoc] using this
    · simp only [hty, if_false] at h1
      obtain ⟨_, hc1, hp1⟩ := (gen_statement_spec _).1 cg cg2 h1
      have hp1 := hp1 _ (agrees_scope_offsets _)
      simp only [label_count_statement] at hc1
      refine ⟨by rw [hc2, hc1, label_count_toplevel]; simp only [hty, if_false]; omega, ?_⟩
      intro hb
      obtain ⟨code2, hprog2, hl2⟩ := hcode2 hb
      have hstmt := (lower_statement_labelled (scope_offsets cg2.current_scope)
        (.node ty l r c tb eb b fnm ps bn cnm ar vn iv sv bo co st sc)).1 cg.label_counter
        (by simp only [label_count_statement]; omega)
      simp only [label_count_statement] at hstmt
      rw [← hc1] at hstmt
      refine ⟨_, by rw [hprog2, hp1, List.append_assoc], ?_⟩
      exact top_labelled_append (top_labelled_of_labelled hstmt) hl2 (by omega) (by omega) hb

/-- C11: for every tree `generate_code` lowers to an IR program, the label counter staying in
the range of `int`: every label a JZ or JMP instruction names is defined by exactly one LABEL
instruction; every label a LABEL instruction defines is a function label (`_name`) or is the
text `generate_label` gives one of the prefixes `else`, `endif`, `loop`, `endloop` at a counter
value the run has taken, and such a label is defined exactly once; a generated label never
equals a function label; and two generated labels are equal only for the same prefix and the
same counter value, so the labels of distinct `if`/`while` constructs, which take distinct
counter values, are pairwise distinct. -/
theorem C11_labels_unique (ast : ASTNode) (program : List IRInstruction)
    (hgen : generate_code ast = .ok program)
    (hint : label_count_toplevel ast.get_statements ≤ 2 ^ 31) :
    (∀ l ∈ jump_targets program, (label_defs program).count l = 1)
    ∧ (∀ l ∈ label_defs program, (∃ name, l = mangle name)
        ∨ (label_index_in l 0 (label_count_toplevel ast.get_statements)
            ∧ (label_defs program).count l = 1))
    ∧ (∀ p ∈ label_prefixes, ∀ j < 2 ^ 31, ∀ name, label_text p j ≠ mangle name)
    ∧ (∀ p ∈ label_prefixes, ∀ q ∈ label_prefixes, ∀ i < 2 ^ 31, ∀ j < 2 ^ 31,
        label_text p i = label_text q j → p = q ∧ i = j) := by
  have hfun : ∀ p ∈ label_prefixes, ∀ j < 2 ^ 31, ∀ name, label_text p j ≠ mangle name :=
    fun p hp j hj name he =>
      generated_not_function ⟨p, hp, j, Nat.le_refl j, Nat.lt_succ_self j, rfl⟩ (by omega)
        ⟨name, he⟩
  have hinj : ∀ p ∈ label_prefixes, ∀ q ∈ label_prefixes, ∀ i < 2 ^ 31, ∀ j < 2 ^ 31,
      label_text p i = label_text q j → p = q ∧ i = j :=
    fun p hp q hq i hi j hj h => label_text_injective p q hp hq i j hi hj h
  have hmain : ∃ k, k ≤ 2 ^ 31 ∧ k = label_count_toplevel ast.get_statements
      ∧ TopLabelled program 0 k := by
    cases ast with
    | null =>
      simp only [generate_code, CodeGen.init, Except.ok.injEq] at hgen
      subst hgen
      exact ⟨0, by omega, rfl, top_labelled_nil 0⟩
    | node ty l r c tb eb b fnm ps bn cnm ar vn iv sv bo co st sc =>
      rw [generate_code] at hgen
      simp only [ASTNode.get_statements] at hint ⊢
      by_cases hty : ty = .AST_PROGRAM
      · simp only [hty, ne_eq, not_true_eq_false, if_false] at hgen
        obtain ⟨cg, h1, h2⟩ := bind_ok hgen
        cases h2
        obtain ⟨hc, hcode⟩ := gen_toplevel_labelled st CodeGen.init cg h1
        have hc0 : cg.label_counter = label_count_toplevel st := by
          rw [hc]; simp [CodeGen.init]
        obtain ⟨code, hprog, hl⟩ := hcode (by omega)
        refine ⟨cg.label_counter, by omega, hc0, ?_⟩
        rw [hprog]
        simpa [CodeGen.init] using hl
      · simp only [ne_eq, hty, not_false_eq_true, if_true, CodeGen.init,
          Except.ok.injEq] at hgen
        subst hgen
        exact ⟨_, hint, rfl, ⟨fun l hl => by simp [label_defs] at hl,
          fun l _ => by simp [label_defs], fun l hl => by simp [jump_targets] at hl⟩⟩
  obtain ⟨k, hk, hk0, h1, h2, h3⟩ := hmain
  subst hk0
  refine ⟨?_, ?_, hfun, hinj⟩
  · intro l hl
    obtain ⟨hm, hi⟩ := h3 l hl
    have := h2 l (generated_not_function hi hk)
    have := List.count_pos_iff.2 hm
    omega
  · intro l hl
    rcases h1 l hl with hf | hi
    · exact Or.inl hf
    · refine Or.inr ⟨hi, ?_⟩
      have := h2 l (generated_not_function hi hk)
      have := List.count_pos_iff.2 hl
      omega

set_option maxRecDepth 20000 in
/-- Witness of C11: the program of `labels_source`; its jumps name `else_0`, `endloop_3` and
`loop_2`, each defined once. -/
theorem C11_labels_unique_witness :
    generate_code (program_tree labels_source) = .ok (ir_of_source labels_source)
    ∧ label_count_toplevel (program_tree labels_source).get_statements ≤ 2 ^ 31
    ∧ jump_targets (ir_of_source labels_source)
        = ["else_0", "endloop_3", "loop_2"]
    ∧ label_defs (ir_of_source labels_source)
        = ["_f", "else_0", "loop_2", "endloop_3"]
    ∧ ∀ l ∈ jump_targets (ir_of_source labels_source),
        (label_defs (ir_of_source labels_source)).count l = 1 :=
  ⟨by decide, by decide, by decide, by decide,
   (C11_labels_unique (program_tree labels_source) (ir_of_source labels_source)
      (by decide) (by decide)).1⟩

/-! ### Fuel of the parser, precedence of the arithmetic operators -/

theorem mono_refl {α : Type} (x : Except Fatal α) : Mono x x := fun _ h => h

theorem mono_bind {α β : Type} {x y : Except Fatal α} {k j : α → Except Fatal β}
    (h1 : Mono x y) (h2 : ∀ a, Mono (k a) (j a)) : Mono (x >>= k) (y >>= j) := by
  intro r h
  obtain ⟨a, ha, hk⟩ := bind_ok h
  rw [h1 a ha]
  exact h2 a r hk

theorem mono_ite {α : Type} {c : Prop} [Decidable c] {a b a1 b1 : Except Fatal α}
    (h1 : Mono a a1) (h2 : Mono b b1) :
    Mono (if c then a else b) (if c then a1 else b1) := by
  by_cases hc : c
  · simpa [hc] using h1
  · simpa [hc] using h2

theorem mono_of_step {α : Type} (F : Nat → Except Fatal α) (hstep : ∀ n, Mono (F n) (F (n + 1)))
    (f g : Nat) (h : f ≤ g) : Mono (F f) (F g) := by
  induction g with
  | zero =>
    have : f = 0 := by omega
    subst this
    exact mono_refl _
  | succ g ih =>
    by_cases hfg : f = g + 1
    · subst hfg
      exact mono_refl _
    · exact fun r hr => hstep g r (ih (by omega) r hr)

theorem parse_fuel_succ (fuel : Nat) :
    (∀ p, Mono (parse_primary fuel p) (parse_primary (fuel + 1) p))
    ∧ (∀ p, Mono (parse_arguments fuel p) (parse_arguments (fuel + 1) p))
    ∧ (∀ ch p, Mono (parse_arguments_loop fuel ch p) (parse_arguments_loop (fuel + 1) ch p))
    ∧ (∀ p, Mono (parse_unary fuel p) (parse_unary (fuel + 1) p))
    ∧ (∀ p, Mono (parse_multiplicative fuel p) (parse_multiplicative (fuel + 1) p))
    ∧ (∀ l p, Mono (parse_multiplicative_loop fuel l p) (parse_multiplicative_loop (fuel + 1) l p))
    ∧ (∀ p, Mono (parse_additive fuel p) (parse_additive (fuel + 1) p))
    ∧ (∀ l p, Mono (parse_additive_loop fuel l p) (parse_additive_loop (fuel + 1) l p))
    ∧ (∀ p, Mono (parse_comparison fuel p) (parse_comparison (fuel + 1) p))
    ∧ (∀ p, Mono (parse_expression fuel p) (parse_expression (fuel + 1) p))
    ∧ (∀ p, Mono (parse_block fuel p) (parse_block (fuel + 1) p))
    ∧ (∀ ch c p, Mono (parse_block_loop fuel ch c p) (parse_block_loop (fuel + 1) ch c p))
    ∧ (∀ p, Mono (parse_statement fuel p) (parse_statement (fuel + 1) p)) := by
  induction fuel with
  | zero =>
    refine ⟨?_, ?_, ?_, ?_, ?_, ?_, ?_, ?_, ?_, ?_, ?_, ?_, ?_⟩ <;> intros <;> intro r h
    · simp [parse_primary] at h
    · simp [parse_arguments] at h
    · simp [parse_arguments_loop] at h
    · simp [parse_unary] at h
    · simp [parse_multiplicative] at h
    · simp [parse_multiplicative_loop] at h
    · simp [parse_additive] at h
    · simp [parse_additive_loop] at h
    · simp [parse_comparison] at h
    · simp [parse_expression] at h
    · simp [parse_block] at h
    · simp [parse_block_loop] at h
    · simp [parse_statement] at h
  | succ n ih =>
    obtain ⟨ih1, ih2, ih3, ih4, ih5, ih6, ih7, ih8, ih9, ih10, ih11, ih12, ih13⟩ := ih
    refine ⟨?_, ?_, ?_, ?_, ?_, ?_, ?_, ?_, ?_, ?_, ?_, ?_, ?_⟩
    all_goals
      intros
      first
        | rw [parse_primary, parse_primary]
        | rw [parse_arguments, parse_arguments]
        | rw [parse_arguments_loop, parse_arguments_loop]
        | rw [parse_unary, parse_unary]
        | rw [parse_multiplicative, parse_multiplicative]
        | rw [parse_multiplicative_loop, parse_multiplicative_loop]
        | rw [parse_additive, parse_additive]
        | rw [parse_additive_loop, parse_additive_loop]
        | rw [parse_comparison, parse_comparison]
        | rw [parse_expression, parse_expression]
        | rw [parse_block, parse_block]
        | rw [parse_block_loop, parse_block_loop]
        | rw [parse_statement, parse_statement]
      repeat' first
        | with_reducible exact mono_refl _
        | with_reducible exact ih1 _
        | with_reducible exact ih2 _
        | with_reducible exact ih3 _ _
        | with_reducible exact ih4 _
        | with_reducible exact ih5 _
        | with_reducible exact ih6 _ _
        | with_reducible exact ih7 _
        | with_reducible exact ih8 _ _
        | with_reducible exact ih9 _
        | with_reducible exact ih10 _
        | with_reducible exact ih11 _
        | with_reducible exact ih12 _ _ _
        | with_reducible exact ih13 _
        | with_reducible apply mono_bind
        | with_reducible apply mono_ite
        | intro _

theorem parse_unary_fuel {f g : Nat} (h : f ≤ g) {p : Parser} {r : ASTNode × Parser}
    (hr : parse_unary f p = .ok r) : parse_unary g p = .ok r :=
  mono_of_step (fun n => parse_unary n p) (fun n => (parse_fuel_succ n).2.2.2.1 p) f g h r hr

theorem parse_additive_fuel {f g : Nat} (h : f ≤ g) {p : Parser} {r : ASTNode × Parser}
    (hr : parse_additive f p = .ok r) : parse_additive g p = .ok r :=
  mono_of_step (fun n => parse_additive n p)
    (fun n => (parse_fuel_succ n).2.2.2.2.2.2.1 p) f g h r hr

theorem parse_multiplicative_loop_stop (f : Nat) (l : ASTNode) (p : Parser)
    (h : multiplicative_op p.current_token.type = none) :
    parse_multiplicative_loop (f + 1) l p = .ok (l, p) := by
  rw [parse_multiplicative_loop]
  have h1 : ¬ (p.current_token.type = .TOKEN_STAR ∨ p.current_token.type = .TOKEN_SLASH) := by
    rintro (h2 | h2) <;> simp [h2, multiplicative_op] at h
  simp only [h1, if_false]

theorem parse_additive_loop_stop (f : Nat) (l : ASTNode) (p : Parser)
    (h : additive_op p.current_token.type = none) :
    parse_additive_loop (f + 1) l p = .ok (l, p) := by
  rw [parse_additive_loop]
  have h1 : ¬ (p.current_token.type = .TOKEN_PLUS ∨ p.current_token.type = .TOKEN_MINUS) := by
    rintro (h2 | h2) <;> simp [h2, additive_op] at h
  simp only [h1, if_false]

theorem parse_multiplicative_loop_step (f : Nat) (l : ASTNode) (p : Parser) (op : BinOpType)
    (h : multiplicative_op p.current_token.type = some op) :
    parse_multiplicative_loop (f + 1) l p
      = (parse_unary f p.advance >>= fun x =>
          parse_multiplicative_loop f (binop_tree op l x.1) x.2) := by
  rw [parse_multiplicative_loop]
  cases ht : p.current_token.type <;> simp [ht, multiplicative_op] at h <;> subst h <;>
    simp [ht, expect_token, binop_tree, bind, Except.bind]

theorem parse_additive_loop_step (f : Nat) (l : ASTNode) (p : Parser) (op : BinOpType)
    (h : additive_op p.current_token.type = some op) :
    parse_additive_loop (f + 1) l p
      = (parse_multiplicative f p.advance >>= fun x =>
          parse_additive_loop f (binop_tree op l x.1) x.2) := by
  rw [parse_additive_loop]
  cases ht : p.current_token.type <;> simp [ht, additive_op] at h <;> subst h <;>
    simp [ht, expect_token, binop_tree, bind, Except.bind]

theorem additive_not_multiplicative {t : TokenType} {op : BinOpType}
    (h : additive_op t = some op) : multiplicative_op t = none := by
  cases t <;> simp [additive_op] at h <;> rfl

theorem lower_binop_tree (ρ : String → Int) (op : BinOpType) (l r : ASTNode) :
    lower_expression ρ (binop_tree op l r)
      = lower_expression ρ l ++ lower_expression ρ r ++ [binop_ir op] := by
  simp [binop_tree, create_ast_node, ASTNode.set_binop, ASTNode.set_left, ASTNode.set_right,
    lower_expression, lower_expression_node]

/-- C15: when an operand `a` is parsed (by `parse_unary`, which a primary expression goes
through) up to an additive operator, an operand `b` after it up to a multiplicative operator,
and an operand `c` after that up to a token that is neither, then with enough fuel
`parse_additive` returns the tree `a op1 (b op2 c)`; its lowering is lowering(a), lowering(b),
lowering(c), the instruction of `op2`, the instruction of `op1` (MUL, ADD for `a + b * c`); and
`let x: int = 2 + 3 * 4;` lowers to PUSH 2, PUSH 3, PUSH 4, MUL, ADD, STORE -8. -/
theorem C15_precedence (p p1 p2 p3 : Parser) (a b c : ASTNode) (op1 op2 : BinOpType)
    (fa fb fc : Nat)
    (ha : parse_unary fa p = .ok (a, p1))
    (hop1 : additive_op p1.current_token.type = some op1)
    (hb : parse_unary fb p1.advance = .ok (b, p2))
    (hop2 : multiplicative_op p2.current_token.type = some op2)
    (hc : parse_unary fc p2.advance = .ok (c, p3))
    (hend1 : multiplicative_op p3.current_token.type = none)
    (hend2 : additive_op p3.current_token.type = none) :
    (∃ fuel, ∀ f, fuel ≤ f →
        parse_additive f p = .ok (binop_tree op1 a (binop_tree op2 b c), p3))
    ∧ (∀ ρ, lower_expression ρ (binop_tree op1 a (binop_tree op2 b c))
        = lower_expression ρ a ++ lower_expression ρ b ++ lower_expression ρ c
          ++ [binop_ir op2, binop_ir op1])
    ∧ (∀ cg cg1, gen_expression (binop_tree op1 a (binop_tree op2 b c)) cg = .ok cg1 →
        cg1.current_program = cg.current_program
          ++ lower_expression (scope_offsets cg.current_scope) a
          ++ lower_expression (scope_offsets cg.current_scope) b
          ++ lower_expression (scope_offsets cg.current_scope) c
          ++ [binop_ir op2, binop_ir op1])
    ∧ compile 100 "let x: int = 2 + 3 * 4;".toList
        = .ok [ir .IR_PUSH 2, ir .IR_PUSH 3, ir .IR_PUSH 4, ir .IR_MUL 0, ir .IR_ADD 0,
               ir .IR_STORE (-8)] := by
  have hlow : ∀ ρ, lower_expression ρ (binop_tree op1 a (binop_tree op2 b c))
      = lower_expression ρ a ++ lower_expression ρ b ++ lower_expression ρ c
        ++ [binop_ir op2, binop_ir op1] := by
    intro ρ
    simp [lower_binop_tree]
  refine ⟨⟨fa + fb + fc + 5, ?_⟩, hlow, ?_, by decide⟩
  · intro f hf
    obtain ⟨g, rfl⟩ : ∃ g, f = g + 5 := ⟨f - 5, by omega⟩
    have ha1 : parse_unary (g + 3) p = .ok (a, p1) := parse_unary_fuel (by omega) ha
    have hb1 : parse_unary (g + 2) p1.advance = .ok (b, p2) := parse_unary_fuel (by omega) hb
    have hc1 : parse_unary (g + 1) p2.advance = .ok (c, p3) := parse_unary_fuel (by omega) hc
    have hm1 : parse_multiplicative (g + 4) p = .ok (a, p1) := by
      rw [parse_multiplicative, ha1]
      exact parse_multiplicative_loop_stop _ _ _ (additive_not_multiplicative hop1)
    have hm2 : parse_multiplicative (g + 3) p1.advance = .ok (binop_tree op2 b c, p3) := by
      rw [parse_multiplicative, hb1]
      show parse_multiplicative_loop (g + 2) b p2 = _
      rw [parse_multiplicative_loop_step _ _ _ _ hop2, hc1]
      exact parse_multiplicative_loop_stop _ _ _ hend1
    rw [parse_additive, hm1]
    show parse_additive_loop (g + 4) a p1 = _
    rw [parse_additive_loop_step _ _ _ _ hop1, hm2]
    exact parse_additive_loop_stop _ _ _ hend2
  · intro cg cg1 h
    obtain ⟨_, _, hp⟩ := (gen_expression_spec _).1 cg cg1 h
    have hp1 := hp _ (agrees_scope_offsets _)
    simp only [hlow] at hp1
    rw [hp1]
    simp only [List.append_assoc]

/-- Witness of C15: the text `2 + 3 * 4;`, whose operands are the literals 2, 3 and 4. -/
theorem C15_precedence_witness :
    parse_unary 5 (parser_at sum_product_source)
        = .ok ((create_ast_node .AST_INT_LIT).set_int_value 2,
               after_operand (parser_at sum_product_source))
    ∧ additive_op (after_operand (parser_at sum_product_source)).current_token.type
        = some .BINOP_PLUS
    ∧ parse_unary 5 (after_operand (parser_at sum_product_source)).advance
        = .ok ((create_ast_node .AST_INT_LIT).set_int_value 3,
               after_operand (after_operand (parser_at sum_product_source)).advance)
    ∧ multiplicative_op
        (after_operand (after_operand (parser_at sum_product_source)).advance).current_token.type
        = some .BINOP_MULT
    ∧ parse_unary 5 (after_operand (after_operand (parser_at sum_product_source)).advance).advance
        = .ok ((create_ast_node .AST_INT_LIT).set_int_value 4,
               after_operand
                 (after_operand (after_operand (parser_at sum_product_source)).advance).advance)
    ∧ (after_operand
        (after_operand (after_operand (parser_at sum_product_source)).advance).advance
        ).current_token.type = .TOKEN_SEMICOLON
    ∧ ∃ fuel, ∀ f, fuel ≤ f →
        parse_additive f (parser_at sum_product_source)
          = .ok (binop_tree .BINOP_PLUS ((create_ast_node .AST_INT_LIT).set_int_value 2)
                  (binop_tree .BINOP_MULT ((create_ast_node .AST_INT_LIT).set_int_value 3)
                    ((create_ast_node .AST_INT_LIT).set_int_value 4)),
                 after_operand
                   (after_operand (after_operand (parser_at sum_product_source)).advance).advance) :=
  ⟨by decide, by decide, by decide, by decide, by decide, by decide,
   (C15_precedence (parser_at sum_product_source)
      (after_operand (parser_at sum_product_source))
      (after_operand (after_operand (parser_at sum_product_source)).advance)
      (after_operand
        (after_operand (after_operand (parser_at sum_product_source)).advance).advance)
      ((create_ast_node .AST_INT_LIT).set_int_value 2)
      ((create_ast_node .AST_INT_LIT).set_int_value 3)
      ((create_ast_node .AST_INT_LIT).set_int_value 4) .BINOP_PLUS .BINOP_MULT 5 5 5
      (by decide) (by decide) (by decide) (by decide) (by decide) (by decide) (by decide)).1⟩

/-! ### Comparisons: parsing, lowering, and the compare sequence of the backend -/

theorem decode_indented (mnemonic operand : String) (hm : ' ' ∉ mnemonic.data) :
    decode_line ("    " ++ mnemonic ++ " " ++ operand ++ "\n")
      = decode_instruction mnemonic operand := by
  have hdata : ("    " ++ mnemonic ++ " " ++ operand ++ "\n").data
      = ' ' :: ' ' :: ' ' :: ' ' :: (mnemonic.data ++ ' ' :: (operand.data ++ ['\n'])) := by
    simp [String.data_append]
  have htake : List.takeWhile (fun c => c != ' ')
      (mnemonic.data ++ ' ' :: (operand.data ++ ['\n'])) = mnemonic.data := by
    rw [List.takeWhile_append_of_pos]
    · simp
    · intro c hc
      simp only [bne_iff_ne, ne_eq]
      rintro rfl
      exact hm hc
  have hdrop : List.dropWhile (fun c => c != ' ')
      (mnemonic.data ++ ' ' :: (operand.data ++ ['\n'])) = ' ' :: (operand.data ++ ['\n']) := by
    rw [List.dropWhile_append_of_pos]
    · simp
    · intro c hc
      simp only [bne_iff_ne, ne_eq]
      rintro rfl
      exact hm hc
  rw [decode_line, hdata]
  simp only [List.take, if_true, List.drop, htake, hdrop]
  simp

theorem decode_label (name : String) (h : name.data.head? = some '.') :
    decode_line (name ++ ":\n") = .label name := by
  obtain ⟨data⟩ := name
  cases data with
  | nil => simp at h
  | cons c cs =>
    simp only [List.head?_cons, Option.some.injEq] at h
    subst h
    have hdata : (String.mk ('.' :: cs) ++ ":\n").data = '.' :: (cs ++ [':', '\n']) := by
      simp [String.data_append]
    have hne : ¬ List.take 4 ('.' :: (cs ++ [':', '\n'])) = [' ', ' ', ' ', ' '] := by
      simp [List.take]
    have hrev : (List.reverse ('.' :: (cs ++ [':', '\n']))).take 2 = ['\n', ':'] := by
      simp
    rw [decode_line, hdata]
    simp only [hne, if_false, hrev, if_true]
    congr 1
    apply String.ext
    simp [List.dropLast]

theorem local_label_head (name : String) (n : Nat) (h : name.data.head? = some '.') :
    (name ++ Nat.repr n).data.head? = some '.' := by
  obtain ⟨data⟩ := name
  cases data with
  | nil => simp at h
  | cons c cs => simpa [String.data_append] using h

theorem cmp_labels_ne (n : Nat) : ".cmp_true_" ++ Nat.repr n ≠ ".cmp_end_" ++ Nat.repr n := by
  intro h
  rw [String.ext_iff] at h
  simp [String.data_append] at h

theorem run_compare_lines (c : JumpCondition) (t e : String) (hte : t ≠ e)
    (rax rbx cl cr left right : Int) (rest : List Int) :
    run_lines 9
        [.pop_rbx, .pop_rax, .cmp_rax_rbx, .jump_if c t, .push_imm 0, .jmp e, .label t,
         .push_imm 1, .label e] 0
        { rax := rax, rbx := rbx, cmp_left := cl, cmp_right := cr,
          stack := right :: left :: rest }
      = some { rax := left, rbx := right, cmp_left := left, cmp_right := right,
               stack := (if condition_holds c left right then 1 else 0) :: rest } := by
  have hne : ¬ (AsmLine.label t = AsmLine.label e) := fun h => hte (AsmLine.label.inj h)
  have hne2 : ¬ (AsmLine.label e = AsmLine.label t) := fun h => hte (AsmLine.label.inj h).symm
  by_cases hc : condition_holds c left right = true
  · simp [run_lines, step_line, find_label, hc, List.indexOf_cons, hne, hne2]
  · simp [run_lines, step_line, find_label, hc, List.indexOf_cons, hne, hne2]

theorem asm_compare_lines (macos : Bool) (program : List IRInstruction) (n : Nat)
    (op : CompareOpType) :
    asm_instruction macos program n (ir .IR_CMP op.toInt)
      = ["    pop rbx\n", "    pop rax\n", "    cmp rax, rbx\n",
         "    " ++ jump_mnemonic op ++ " " ++ (".cmp_true_" ++ Nat.repr n) ++ "\n",
         "    push 0\n", "    jmp " ++ (".cmp_end_" ++ Nat.repr n) ++ "\n",
         (".cmp_true_" ++ Nat.repr n) ++ ":\n", "    push 1\n",
         (".cmp_end_" ++ Nat.repr n) ++ ":\n"] := by
  cases op <;> simp [asm_instruction, ir, CompareOpType.toInt, jump_mnemonic, String.append_assoc]

theorem decode_compare_lines (macos : Bool) (program : List IRInstruction) (n : Nat)
    (op : CompareOpType) :
    (asm_instruction macos program n (ir .IR_CMP op.toInt)).map decode_line
      = [.pop_rbx, .pop_rax, .cmp_rax_rbx,
         .jump_if (jump_condition op) (".cmp_true_" ++ Nat.repr n), .push_imm 0,
         .jmp (".cmp_end_" ++ Nat.repr n), .label (".cmp_true_" ++ Nat.repr n), .push_imm 1,
         .label (".cmp_end_" ++ Nat.repr n)] := by
  rw [asm_compare_lines]
  have h1 : decode_line "    pop rbx\n" = .pop_rbx := by decide
  have h2 : decode_line "    pop rax\n" = .pop_rax := by decide
  have h3 : decode_line "    cmp rax, rbx\n" = .cmp_rax_rbx := by decide
  have h4 : decode_line "    push 0\n" = .push_imm 0 := by decide
  have h5 : decode_line "    push 1\n" = .push_imm 1 := by decide
  have h6 : decode_line ("    " ++ jump_mnemonic op ++ " " ++ (".cmp_true_" ++ Nat.repr n) ++ "\n")
      = .jump_if (jump_condition op) (".cmp_true_" ++ Nat.repr n) := by
    rw [decode_indented _ _ (by cases op <;> decide)]
    cases op <;> rfl
  have h7 : decode_line ("    jmp " ++ (".cmp_end_" ++ Nat.repr n) ++ "\n")
      = .jmp (".cmp_end_" ++ Nat.repr n) := by
    have h := decode_indented "jmp" (".cmp_end_" ++ Nat.repr n) (by decide)
    have he : "    " ++ "jmp" ++ " " = "    jmp " := by decide
    rw [he] at h
    rw [h]
    rfl
  have h8 : decode_line ((".cmp_true_" ++ Nat.repr n) ++ ":\n")
      = .label (".cmp_true_" ++ Nat.repr n) :=
    decode_label _ (local_label_head _ _ (by decide))
  have h9 : decode_line ((".cmp_end_" ++ Nat.repr n) ++ ":\n")
      = .label (".cmp_end_" ++ Nat.repr n) :=
    decode_label _ (local_label_head _ _ (by decide))
  simp only [List.map, h1, h2, h3, h4, h5, h6, h7, h8, h9]

theorem condition_of_compare (op : CompareOpType) (left right : Int) :
    condition_holds (jump_condition op) left right = compare_holds op left right := by
  cases op <;> rfl

theorem parse_comparison_step (f : Nat) (p p1 p2 : Parser) (l r : ASTNode) (op : CompareOpType)
    (hl : parse_additive f p = .ok (l, p1))
    (hop : comparison_op p1.current_token.type = some op)
    (hr : parse_additive f p1.advance = .ok (r, p2)) :
    parse_comparison (f + 1) p = .ok (compare_tree op l r, p2) := by
  rw [parse_comparison, hl]
  cases ht : p1.current_token.type <;> simp [ht, comparison_op] at hop <;> subst hop <;>
    simp [ht, expect_token, compare_tree, bind, Except.bind, hr]

theorem lower_compare_tree (ρ : String → Int) (op : CompareOpType) (l r : ASTNode) :
    lower_expression ρ (compare_tree op l r)
      = lower_expression ρ l ++ lower_expression ρ r ++ [ir .IR_CMP op.toInt] := by
  simp [compare_tree, create_ast_node, ASTNode.set_compare_op, ASTNode.set_left,
    ASTNode.set_right, lower_expression, lower_expression_node]

/-- C16: when an operand `l` is parsed (by `parse_additive`) up to a relational operator and
an operand `r` after it, then with enough fuel `parse_comparison` returns the comparison node of
`l`, the operator and `r`; its lowering is lowering(l), lowering(r), CMP k with k = 0 for `==`,
1 for `!=`, 2 for `<`, 3 for `>`, 4 for `<=`, 5 for `>=`; for both platforms the backend
translates CMP k to `pop rbx`, `pop rax`, `cmp rax, rbx`, then `je`, `jne`, `jl`, `jg`, `jle`,
`jge` respectively to a label before `push 1`, the fall-through path being `push 0` and a jump
past the `push 1`; and run on the machine with the right operand on top of the left one, the
sequence pops both and pushes exactly one value, 1 when the relation holds between the left and
the right operand as signed integers and 0 when it does not. -/
theorem C16_comparison (p p1 p2 : Parser) (l r : ASTNode) (op : CompareOpType) (fl fr : Nat)
    (hl : parse_additive fl p = .ok (l, p1))
    (hop : comparison_op p1.current_token.type = some op)
    (hr : parse_additive fr p1.advance = .ok (r, p2)) :
    (∃ fuel, ∀ f, fuel ≤ f → parse_comparison f p = .ok (compare_tree op l r, p2))
    ∧ (∀ cg cg1, gen_expression (compare_tree op l r) cg = .ok cg1 →
        cg1.current_program = cg.current_program
          ++ lower_expression (scope_offsets cg.current_scope) l
          ++ lower_expression (scope_offsets cg.current_scope) r
          ++ [ir .IR_CMP op.toInt])
    ∧ ((comparison_op .TOKEN_EQ).map CompareOpType.toInt = some 0
        ∧ (comparison_op .TOKEN_NE).map CompareOpType.toInt = some 1
        ∧ (comparison_op .TOKEN_LT).map CompareOpType.toInt = some 2
        ∧ (comparison_op .TOKEN_GT).map CompareOpType.toInt = some 3
        ∧ (comparison_op .TOKEN_LE).map CompareOpType.toInt = some 4
        ∧ (comparison_op .TOKEN_GE).map CompareOpType.toInt = some 5)
    ∧ (∀ (macos : Bool) (program : List IRInstruction) (n : Nat),
        asm_instruction macos program n (ir .IR_CMP op.toInt)
          = ["    pop rbx\n", "    pop rax\n", "    cmp rax, rbx\n",
             "    " ++ jump_mnemonic op ++ " " ++ (".cmp_true_" ++ Nat.repr n) ++ "\n",
             "    push 0\n", "    jmp " ++ (".cmp_end_" ++ Nat.repr n) ++ "\n",
             (".cmp_true_" ++ Nat.repr n) ++ ":\n", "    push 1\n",
             (".cmp_end_" ++ Nat.repr n) ++ ":\n"])
    ∧ (∀ (macos : Bool) (program : List IRInstruction) (n : Nat)
        (rax rbx cl cr left right : Int) (rest : List Int),
        run_lines 9 ((asm_instruction macos program n (ir .IR_CMP op.toInt)).map decode_line) 0
            { rax := rax, rbx := rbx, cmp_left := cl, cmp_right := cr,
              stack := right :: left :: rest }
          = some { rax := left, rbx := right, cmp_left := left, cmp_right := right,
                   stack := (if compare_holds op left right then 1 else 0) :: rest }) := by
  refine ⟨⟨fl + fr + 1, ?_⟩, ?_, by decide, fun macos program n => asm_compare_lines macos program n op, ?_⟩
  · intro f hf
    obtain ⟨g, rfl⟩ : ∃ g, f = g + 1 := ⟨f - 1, by omega⟩
    exact parse_comparison_step g p p1 p2 l r op (parse_additive_fuel (by omega) hl) hop
      (parse_additive_fuel (by omega) hr)
  · intro cg cg1 h
    obtain ⟨_, _, hp⟩ := (gen_expression_spec _).1 cg cg1 h
    have hp1 := hp _ (agrees_scope_offsets _)
    simp only [lower_compare_tree] at hp1
    rw [hp1]
    simp only [List.append_assoc]
  · intro macos program n rax rbx cl cr left right rest
    rw [decode_compare_lines, run_compare_lines _ _ _ (cmp_labels_ne n), condition_of_compare]

/-- Witness of C16: the text `1 + 2 <= 3 * 4;`, whose operands lower to PUSH 1, PUSH 2, ADD
and PUSH 3, PUSH 4, MUL. -/
theorem C16_comparison_witness :
    parse_additive 7 (parser_at comparison_source)
        = .ok (additive_at (parser_at comparison_source),
               after_additive (parser_at comparison_source))
    ∧ comparison_op (after_additive (parser_at comparison_source)).current_token.type
        = some .COMPARE_LE
    ∧ parse_additive 7 (after_additive (parser_at comparison_source)).advance
        = .ok (additive_at (after_additive (parser_at comparison_source)).advance,
               after_additive (after_additive (parser_at comparison_source)).advance)
    ∧ lower_expression (fun _ => 0) (additive_at (parser_at comparison_source))
        = [ir .IR_PUSH 1, ir .IR_PUSH 2, ir .IR_ADD 0]
    ∧ lower_expression (fun _ => 0)
          (additive_at (after_additive (parser_at comparison_source)).advance)
        = [ir .IR_PUSH 3, ir .IR_PUSH 4, ir .IR_MUL 0]
    ∧ ∃ fuel, ∀ f, fuel ≤ f →
        parse_comparison f (parser_at comparison_source)
          = .ok (compare_tree .COMPARE_LE (additive_at (parser_at comparison_source))
                  (additive_at (after_additive (parser_at comparison_source)).advance),
                 after_additive (after_additive (parser_at comparison_source)).advance) :=
  ⟨by decide, by decide, by decide, by decide, by decide,
   (C16_comparison (parser_at comparison_source)
      (after_additive (parser_at comparison_source))
      (after_additive (after_additive (parser_at comparison_source)).advance)
      (additive_at (parser_at comparison_source))
      (additive_at (after_additive (parser_at comparison_source)).advance)
      .COMPARE_LE 7 7 (by decide) (by decide) (by decide)).1⟩

/-! ### The lexer: whitespace, positions, end of stream -/

theorem char_at_remaining (lx : Lexer) (k : Nat) :
    lx.char_at (lx.pos + k) = lx.remaining.getD k NUL := by
  simp [Lexer.char_at, Lexer.remaining, List.getD_eq_getElem?_getD, List.getElem?_drop]

theorem char_at_cursor (lx : Lexer) : lx.char_at lx.pos = lx.remaining.getD 0 NUL := by
  simpa using char_at_remaining lx 0

theorem remaining_length (lx : Lexer) : lx.remaining.length = lx.source.length - lx.pos := by
  simp [Lexer.remaining]

theorem remaining_ne_nil_of_char {lx : Lexer} (h : lx.char_at lx.pos ≠ NUL) :
    0 < lx.source.length - lx.pos := by
  rw [← remaining_length]
  rw [char_at_cursor] at h
  cases hr : lx.remaining with
  | nil => simp [hr] at h
  | cons c rest => simp

theorem comment_length_pos {lx : Lexer} (h : (lx.char_at lx.pos == '/') = true) :
    1 ≤ comment_length (lx.source.drop lx.pos) := by
  rw [char_at_cursor, Lexer.remaining] at h
  cases hr : lx.source.drop lx.pos with
  | nil => simp [hr, NUL] at h
  | cons c rest =>
    simp only [hr, List.getD_cons_zero, beq_iff_eq] at h
    subst h
    simp [comment_length, List.takeWhile, NUL]

theorem comment_length_le (rest : List Char) : comment_length rest ≤ rest.length := by
  rw [comment_length]
  exact (List.takeWhile_sublist _).length_le

theorem skip_whitespace_loop_fuel (f1 : Nat) :
    ∀ (f2 : Nat) (lx : Lexer), lx.source.length - lx.pos ≤ f1 → lx.source.length - lx.pos ≤ f2 →
      skip_whitespace_loop f1 lx = skip_whitespace_loop f2 lx := by
  induction f1 with
  | zero =>
    intro f2 lx h1 _
    have hc : lx.char_at lx.pos = NUL := by
      by_contra hne
      have := remaining_ne_nil_of_char hne
      omega
    cases f2 with
    | zero => rfl
    | succ f2 =>
      simp only [skip_whitespace_loop, hc]
      simp [NUL]
  | succ f1 ih =>
    intro f2 lx h1 h2
    cases f2 with
    | zero =>
      have hc : lx.char_at lx.pos = NUL := by
        by_contra hne
        have := remaining_ne_nil_of_char hne
        omega
      simp only [skip_whitespace_loop, hc]
      simp [NUL]
    | succ f2 =>
      by_cases hc : lx.char_at lx.pos = NUL
      · simp only [skip_whitespace_loop, hc]
        simp [NUL]
      · have hpos := remaining_ne_nil_of_char hc
        simp only [skip_whitespace_loop]
        split_ifs
        · exact ih _ _ (by simp only; omega) (by simp only; omega)
        · exact ih _ _ (by simp only; omega) (by simp only; omega)
        · exact ih _ _ (by simp only; omega) (by simp only; omega)
        · rename_i hcom _
          have hs : (lx.char_at lx.pos == '/') = true := by
            simp only [Bool.and_eq_true] at hcom
            exact hcom.1
          have := comment_length_pos hs
          exact ih _ _ (by simp only; omega) (by simp only; omega)
        · rfl

theorem skip_whitespace_eq (lx : Lexer) :
    skip_whitespace lx =
      if lx.char_at lx.pos == ' ' || lx.char_at lx.pos == '\t' then
        skip_whitespace { lx with pos := lx.pos + 1, col := lx.col + 1 }
      else if lx.char_at lx.pos == '\n' then
        skip_whitespace { lx with pos := lx.pos + 1, line := lx.line + 1, col := 1 }
      else if lx.char_at lx.pos == '/' && lx.char_at (lx.pos + 1) == '/' then
        if lx.char_at (lx.pos + comment_length (lx.source.drop lx.pos)) == '\n' then
          skip_whitespace
            { lx with pos := lx.pos + comment_length (lx.source.drop lx.pos) + 1,
                      line := lx.line + 1, col := 1 }
        else
          skip_whitespace { lx with pos := lx.pos + comment_length (lx.source.drop lx.pos) }
      else lx := by
  by_cases hc : lx.char_at lx.pos = NUL
  · have h0 : skip_whitespace lx = lx := by
      rw [skip_whitespace]
      cases lx.source.length - lx.pos with
      | zero => rfl
      | succ n =>
        simp only [skip_whitespace_loop, hc]
        simp [NUL]
    rw [h0, hc]
    simp [NUL]
  · have hpos := remaining_ne_nil_of_char hc
    obtain ⟨n, hn⟩ : ∃ n, lx.source.length - lx.pos = n + 1 := ⟨_, (Nat.succ_pred_eq_of_pos hpos).symm⟩
    have hcl : (lx.char_at lx.pos == '/') = true →
        1 ≤ comment_length (lx.source.drop lx.pos) := comment_length_pos
    have hle := comment_length_le (lx.source.drop lx.pos)
    rw [List.length_drop] at hle
    conv_lhs => rw [skip_whitespace, hn, skip_whitespace_loop]
    simp only [skip_whitespace, Lexer.char_at] at hcl ⊢
    split_ifs with h1 h2 h3 h4
    · exact skip_whitespace_loop_fuel _ _ _ (by simp only; omega) (by simp only; omega)
    · exact skip_whitespace_loop_fuel _ _ _ (by simp only; omega) (by simp only; omega)
    · have := hcl (by simp only [Bool.and_eq_true] at h3; exact h3.1)
      exact skip_whitespace_loop_fuel _ _ _ (by simp only; omega) (by simp only; omega)
    · have := hcl (by simp only [Bool.and_eq_true] at h3; exact h3.1)
      exact skip_whitespace_loop_fuel _ _ _ (by simp only; omega) (by simp only; omega)
    · rfl

theorem skip_whitespace_fixed (lx : Lexer)
    (h1 : lx.char_at lx.pos ≠ ' ') (h2 : lx.char_at lx.pos ≠ '\t')
    (h3 : lx.char_at lx.pos ≠ '\n')
    (h4 : ¬ (lx.char_at lx.pos = '/' ∧ lx.char_at (lx.pos + 1) = '/')) :
    skip_whitespace lx = lx := by
  rw [skip_whitespace_eq]
  simp [h1, h2, h3]
  intro h5 h6
  exact absurd ⟨h5, h6⟩ h4

theorem skip_whitespace_loop_mono (fuel : Nat) :
    ∀ lx : Lexer, (skip_whitespace_loop fuel lx).source = lx.source
      ∧ lx.pos ≤ (skip_whitespace_loop fuel lx).pos
      ∧ (lx.line < (skip_whitespace_loop fuel lx).line
          ∨ (lx.line = (skip_whitespace_loop fuel lx).line
              ∧ lx.col ≤ (skip_whitespace_loop fuel lx).col)) := by
  induction fuel with
  | zero => intro lx; exact ⟨rfl, Nat.le_refl _, Or.inr ⟨rfl, Int.le_refl _⟩⟩
  | succ fuel ih =>
    intro lx
    rw [skip_whitespace_loop]
    simp only
    split_ifs
    · obtain ⟨h1, h2, h3⟩ := ih { lx with pos := lx.pos + 1, col := lx.col + 1 }
      simp only at h1 h2 h3
      exact ⟨h1, by omega, by omega⟩
    · obtain ⟨h1, h2, h3⟩ := ih { lx with pos := lx.pos + 1, line := lx.line + 1, col := 1 }
      simp only at h1 h2 h3
      exact ⟨h1, by omega, by omega⟩
    · obtain ⟨h1, h2, h3⟩ := ih
        { lx with pos := lx.pos + comment_length (lx.source.drop lx.pos) + 1,
                  line := lx.line + 1, col := 1 }
      simp only at h1 h2 h3
      exact ⟨h1, by omega, by omega⟩
    · obtain ⟨h1, h2, h3⟩ := ih
        { lx with pos := lx.pos + comment_length (lx.source.drop lx.pos) }
      simp only at h1 h2 h3
      exact ⟨h1, by omega, by omega⟩
    · exact ⟨rfl, Nat.le_refl _, Or.inr ⟨rfl, Int.le_refl _⟩⟩

theorem ite_prop {α : Type} (P : α → Prop) {c : Prop} [Decidable c] {a b : α}
    (ha : P a) (hb : P b) : P (if c then a else b) := by
  split <;> assumption

theorem operator_token_cases (lx : Lexer) (ch : Char) :
    ∃ t, (operator_token lx ch = ({ type := t, value := none, line := lx.line, col := lx.col }, lx))
      ∨ (operator_token lx ch
          = ({ type := t, value := none, line := lx.line, col := lx.col + 1 },
             { lx with pos := lx.pos + 1, col := lx.col + 1 })) := by
  unfold operator_token
  dsimp only
  repeat' first
    | exact ⟨_, Or.inl rfl⟩
    | exact ⟨_, Or.inr rfl⟩
    | refine ite_prop (fun (r : Token × Lexer) => ∃ t : TokenType,
        (r = (({ type := t, value := none, line := lx.line, col := lx.col } : Token), lx))
        ∨ (r = (({ type := t, value := none, line := lx.line, col := lx.col + 1 } : Token),
             ({ lx with pos := lx.pos + 1, col := lx.col + 1 } : Lexer)))) ?_ ?_

theorem next_token_cases (lx : Lexer) :
    ∃ (t : TokenType) (v : Option String) (n : Nat),
      next_token lx
        = ({ type := t, value := v, line := (skip_whitespace lx).line,
             col := (skip_whitespace lx).col + n },
           { skip_whitespace lx with pos := (skip_whitespace lx).pos + n,
                                     col := (skip_whitespace lx).col + n }) := by
  unfold next_token
  dsimp only [make_token]
  split_ifs
  · exact ⟨.TOKEN_EOF, none, 0, by simp⟩
  · refine ⟨.TOKEN_EOF, none, 1 + string_body_length
      ((skip_whitespace lx).source.drop ((skip_whitespace lx).pos + 1)), ?_⟩
    simp only [Nat.cast_add, Nat.cast_one, Prod.mk.injEq, Token.mk.injEq, true_and,
      Lexer.mk.injEq]
    exact ⟨by omega, by omega, by omega⟩
  · refine ⟨.TOKEN_STRING_LIT,
      some (copy_string (skip_whitespace lx).source ((skip_whitespace lx).pos + 1)
        (string_body_length ((skip_whitespace lx).source.drop ((skip_whitespace lx).pos + 1)))),
      1 + string_body_length
      ((skip_whitespace lx).source.drop ((skip_whitespace lx).pos + 1)) + 1, ?_⟩
    simp only [Nat.cast_add, Nat.cast_one, Prod.mk.injEq, Token.mk.injEq, true_and,
      Lexer.mk.injEq]
    exact ⟨by omega, by omega, by omega⟩
  · exact ⟨_, _, _, rfl⟩
  · split
    · exact ⟨_, _, _, rfl⟩
    · exact ⟨_, _, _, rfl⟩
  · obtain ⟨t, h | h⟩ := operator_token_cases
      { skip_whitespace lx with pos := (skip_whitespace lx).pos + 1,
                                col := (skip_whitespace lx).col + 1 }
      ((skip_whitespace lx).char_at (skip_whitespace lx).pos)
    · exact ⟨t, none, 1, by rw [h]; simp⟩
    · refine ⟨t, none, 2, ?_⟩
      rw [h]
      simp only [Nat.cast_ofNat, Prod.mk.injEq, Token.mk.injEq, true_and, Lexer.mk.injEq]
      omega

theorem skip_whitespace_mono (lx : Lexer) :
    (skip_whitespace lx).source = lx.source ∧ lx.pos ≤ (skip_whitespace lx).pos
      ∧ (lx.line < (skip_whitespace lx).line
          ∨ (lx.line = (skip_whitespace lx).line ∧ lx.col ≤ (skip_whitespace lx).col)) :=
  skip_whitespace_loop_mono _ lx

theorem lexer_after_succ (n : Nat) : ∀ lx : Lexer,
    lexer_after (n + 1) lx = (next_token (lexer_after n lx)).2 := by
  induction n with
  | zero => intro lx; rfl
  | succ n ih =>
    intro lx
    rw [lexer_after, ih]
    rfl

/-- C21 (the code departs from the claim): `make_token` stamps every token with the `line` and
`col` the lexer has when the token is built, which is after the cursor has passed the token:
the position a token carries is that of the character after its last one. For the source `abc`
the first character of the identifier is at line 1, column 1, and the token carries column 4;
likewise `ab` on the second line after two spaces (column 3) carries column 5, and a keyword, an
integer, a string literal, a two-character operator and a punctuation mark at column 1 carry
the columns 4, 3, 5, 3 and 2. -/
theorem C21_token_position_after_token :
    (∀ lx : Lexer, (next_token lx).1.line = (next_token lx).2.line
        ∧ (next_token lx).1.col = (next_token lx).2.col)
    ∧ line_col_at "abc".toList 0 = (1, 1)
    ∧ (next_token (init_lexer "abc".toList)).1
        = { type := .TOKEN_IDENT, value := some "abc", line := 1, col := 4 }
    ∧ line_col_at "\n  ab".toList 3 = (2, 3)
    ∧ (next_token (init_lexer "\n  ab".toList)).1
        = { type := .TOKEN_IDENT, value := some "ab", line := 2, col := 5 }
    ∧ (next_token (init_lexer "let".toList)).1
        = { type := .TOKEN_LET, value := none, line := 1, col := 4 }
    ∧ (next_token (init_lexer "12".toList)).1
        = { type := .TOKEN_INT_LIT, value := some "12", line := 1, col := 3 }
    ∧ (next_token (init_lexer "\"hi\"".toList)).1
        = { type := .TOKEN_STRING_LIT, value := some "hi", line := 1, col := 5 }
    ∧ (next_token (init_lexer "<=".toList)).1
        = { type := .TOKEN_LE, value := none, line := 1, col := 3 }
    ∧ (next_token (init_lexer ";".toList)).1
        = { type := .TOKEN_SEMICOLON, value := none, line := 1, col := 2 } := by
  refine ⟨fun lx => ?_, by decide, by decide, by decide, by decide, by decide, by decide,
    by decide, by decide, by decide⟩
  obtain ⟨t, v, n, h⟩ := next_token_cases lx
  rw [h]
  exact ⟨rfl, rfl⟩

/-- C22: from every lexer state, the positions two successive calls of `next_token` stamp on
their tokens are non-decreasing in line, then column; in particular for every source and every
`n` the tokens number `n` and `n + 1` of the source are so ordered. -/
theorem C22_token_positions_monotone :
    (∀ lx : Lexer,
        (next_token lx).1.line < (next_token (next_token lx).2).1.line
        ∨ ((next_token lx).1.line = (next_token (next_token lx).2).1.line
            ∧ (next_token lx).1.col ≤ (next_token (next_token lx).2).1.col))
    ∧ (∀ (source : List Char) (n : Nat),
        (nth_token n (init_lexer source)).line < (nth_token (n + 1) (init_lexer source)).line
        ∨ ((nth_token n (init_lexer source)).line = (nth_token (n + 1) (init_lexer source)).line
            ∧ (nth_token n (init_lexer source)).col
                ≤ (nth_token (n + 1) (init_lexer source)).col)) := by
  have key : ∀ lx : Lexer,
      (next_token lx).1.line < (next_token (next_token lx).2).1.line
      ∨ ((next_token lx).1.line = (next_token (next_token lx).2).1.line
          ∧ (next_token lx).1.col ≤ (next_token (next_token lx).2).1.col) := by
    intro lx
    obtain ⟨t, v, n, h⟩ := next_token_cases lx
    obtain ⟨t1, v1, n1, h1⟩ := next_token_cases (next_token lx).2
    obtain ⟨_, _, hm⟩ := skip_whitespace_mono (next_token lx).2
    rw [h1]
    rw [h] at hm ⊢
    simp only at hm ⊢
    omega
  refine ⟨key, fun source n => ?_⟩
  rw [nth_token, nth_token, lexer_after_succ]
  exact key _

theorem next_token_at_end (lx : Lexer) (h : lx.char_at lx.pos = NUL) :
    next_token lx = ({ type := .TOKEN_EOF, value := none, line := lx.line, col := lx.col }, lx) := by
  have hs : skip_whitespace lx = lx :=
    skip_whitespace_fixed lx (by rw [h]; decide) (by rw [h]; decide) (by rw [h]; decide)
      (by rw [h]; intro h2; exact absurd h2.1 (by decide))
  unfold next_token
  simp only [hs, h, beq_self_eq_true, if_true, make_token]

/-- C23: when the cursor of the lexer is at the end of the source (the character there is the
terminating NUL, as it is at every position from the length of the text on), every further call
of `next_token` returns the end-of-stream token and leaves the lexer state, the cursor with it,
unchanged. -/
theorem C23_end_of_stream_repeats (lx : Lexer) (h : lx.char_at lx.pos = NUL) :
    (∀ n : Nat, nth_token n lx
        = { type := .TOKEN_EOF, value := none, line := lx.line, col := lx.col }
      ∧ lexer_after (n + 1) lx = lx)
    ∧ (∀ other : Lexer, other.source.length ≤ other.pos → other.char_at other.pos = NUL) := by
  have hstate : ∀ n : Nat, lexer_after n lx = lx := by
    intro n
    induction n with
    | zero => rfl
    | succ n ih => rw [lexer_after_succ, ih, next_token_at_end lx h]
  refine ⟨fun n => ⟨?_, hstate _⟩, fun other ho => ?_⟩
  · rw [nth_token, hstate, next_token_at_end lx h]
  · simp [Lexer.char_at, List.getD_eq_getElem?_getD, List.getElem?_eq_none ho]

/-- Witness of C23: the lexer after the only token of the source `x`. -/
theorem C23_end_of_stream_repeats_witness :
    (next_token (init_lexer "x".toList)).2.char_at (next_token (init_lexer "x".toList)).2.pos = NUL
    ∧ (nth_token 3 (init_lexer "x".toList)).type = .TOKEN_EOF
    ∧ nth_token 2 (next_token (init_lexer "x".toList)).2
        = { type := .TOKEN_EOF, value := none, line := 1, col := 2 } :=
  ⟨by decide, by decide,
   ((C23_end_of_stream_repeats (next_token (init_lexer "x".toList)).2 (by decide)).1 2).1⟩

/-! ### String literals -/

theorem escaped_cons_of_ne (c : Char) (rest : List Char) (h : c ≠ '\\') :
    ∀ i, escaped (c :: rest) (i + 1) = escaped rest i := by
  intro i
  induction i with
  | zero => simp [escaped, h]
  | succ i ih =>
    rw [escaped, ih]
    simp [escaped]

theorem escaped_cons_cons (d : Char) (rest : List Char) :
    ∀ i, escaped ('\\' :: d :: rest) (i + 2) = escaped rest i := by
  intro i
  induction i with
  | zero => simp [escaped]
  | succ i ih =>
    rw [escaped, ih]
    simp [escaped]

theorem string_body_length_closing (n : Nat) :
    ∀ (body : List Char) (j : Nat), body.length ≤ n →
      (∀ i, i < j → body.getD i NUL ≠ NUL) → closing_quote_at body j →
      string_body_length body = j := by
  induction n using Nat.strong_induction_on with
  | _ n ih =>
    intro body j hlen hnul ⟨hq, hesc, hfirst⟩
    match body, hlen, hnul, hq, hesc, hfirst with
    | [], _, _, hq, _, _ => simp [NUL] at hq
    | [c], _, hnul, hq, hesc, hfirst =>
      cases j with
      | zero =>
        simp only [List.getD_cons_zero] at hq
        simp [string_body_length, hq]
      | succ j => simp [NUL] at hq
    | c :: d :: rest, hlen, hnul, hq, hesc, hfirst =>
      rw [string_body_length]
      by_cases hc : c = '"'
      · cases j with
        | zero => simp [hc]
        | succ j =>
          have := hfirst 0 (Nat.succ_pos _) (by simp [hc])
          simp [escaped] at this
      · cases j with
        | zero => simp at hq; exact absurd hq hc
        | succ j =>
          have hc0 : c ≠ NUL := by simpa using hnul 0 (Nat.succ_pos _)
          by_cases hb : c = '\\'
          · subst hb
            cases j with
            | zero => simp [escaped] at hesc
            | succ j =>
              have hd : d ≠ NUL := by simpa using hnul 1 (by omega)
              have hrec := ih (rest.length) (by simp only [List.length_cons] at hlen; omega)
                rest j (Nat.le_refl _)
                (fun i hi => by simpa using hnul (i + 2) (by omega))
                ⟨by simpa using hq, by rw [← escaped_cons_cons d rest j]; exact hesc,
                 fun i hi hqi => by
                  rw [← escaped_cons_cons d rest i]
                  exact hfirst (i + 2) (by omega) (by simpa using hqi)⟩
              have hd1 : ¬ d = Char.ofNat 0 := hd
              have hc1 : ¬ '\\' = Char.ofNat 0 := hc0
              simp [hd1, hrec, NUL]
              omega
          · have hrec := ih ((d :: rest).length) (by simp only [List.length_cons] at hlen ⊢; omega)
              (d :: rest) j (Nat.le_refl _)
              (fun i hi => by simpa using hnul (i + 1) (by omega))
              ⟨by simpa using hq, by rw [← escaped_cons_of_ne c (d :: rest) hb j]; exact hesc,
               fun i hi hqi => by
                rw [← escaped_cons_of_ne c (d :: rest) hb i]
                exact hfirst (i + 1) (by omega) (by simpa using hqi)⟩
            have hc1 : ¬ c = Char.ofNat 0 := hc0
            simp [hc, hc1, hb, hrec, NUL]
            omega

theorem string_body_length_open (n : Nat) :
    ∀ (body : List Char), body.length ≤ n → NUL ∉ body →
      (∀ j, body.getD j NUL = '"' → escaped body j = true) →
      string_body_length body = body.length := by
  induction n using Nat.strong_induction_on with
  | _ n ih =>
    intro body hlen hnul hopen
    match body, hlen, hnul, hopen with
    | [], _, _, _ => rfl
    | [c], _, hnul, hopen =>
      have hc0 : ¬ c = Char.ofNat 0 := fun h => hnul (by simp [NUL, h])
      have hc : c ≠ '"' := by
        intro h
        have := hopen 0 (by simp [h])
        simp [escaped] at this
      simp [string_body_length, hc0, hc, NUL]
    | c :: d :: rest, hlen, hnul, hopen =>
      have hc0 : ¬ c = Char.ofNat 0 := fun h => hnul (by simp [NUL, h])
      have hd0 : ¬ d = Char.ofNat 0 := fun h => hnul (by simp [NUL, h])
      have hc : c ≠ '"' := by
        intro h
        have := hopen 0 (by simp [h])
        simp [escaped] at this
      rw [string_body_length]
      by_cases hb : c = '\\'
      · subst hb
        have hrec := ih rest.length (by simp only [List.length_cons] at hlen; omega) rest
          (Nat.le_refl _) (fun h => hnul (by simp [h]))
          (fun j hj => by
            rw [← escaped_cons_cons d rest j]
            exact hopen (j + 2) (by simpa using hj))
        simp [hd0, hrec, NUL]
        omega
      · have hrec := ih (d :: rest).length
          (by simp only [List.length_cons] at hlen ⊢; omega) (d :: rest)
          (Nat.le_refl _) (fun h => hnul (List.mem_cons_of_mem _ h))
          (fun j hj => by
            rw [← escaped_cons_of_ne c (d :: rest) hb j]
            exact hopen (j + 1) (by simpa using hj))
        simp [hc, hc0, hb, hrec, NUL]
        omega

theorem next_token_quote (lx : Lexer)
    (hq : (skip_whitespace lx).char_at (skip_whitespace lx).pos = '"') :
    next_token lx =
      if (skip_whitespace lx).char_at ((skip_whitespace lx).pos + 1
          + string_body_length ((skip_whitespace lx).remaining.drop 1)) = NUL then
        ({ type := .TOKEN_EOF, value := none, line := (skip_whitespace lx).line,
           col := (skip_whitespace lx).col + 1
             + string_body_length ((skip_whitespace lx).remaining.drop 1) },
         { skip_whitespace lx with
           pos := (skip_whitespace lx).pos + 1
             + string_body_length ((skip_whitespace lx).remaining.drop 1),
           col := (skip_whitespace lx).col + 1
             + string_body_length ((skip_whitespace lx).remaining.drop 1) })
      else
        ({ type := .TOKEN_STRING_LIT,
           value := some (String.mk (((skip_whitespace lx).remaining.drop 1).take
             (string_body_length ((skip_whitespace lx).remaining.drop 1)))),
           line := (skip_whitespace lx).line,
           col := (skip_whitespace lx).col + 1
             + string_body_length ((skip_whitespace lx).remaining.drop 1) + 1 },
         { skip_whitespace lx with
           pos := (skip_whitespace lx).pos + 1
             + string_body_length ((skip_whitespace lx).remaining.drop 1) + 1,
           col := (skip_whitespace lx).col + 1
             + string_body_length ((skip_whitespace lx).remaining.drop 1) + 1 }) := by
  have hd : (skip_whitespace lx).remaining.drop 1
      = (skip_whitespace lx).source.drop ((skip_whitespace lx).pos + 1) := by
    simp [Lexer.remaining, List.drop_drop, Nat.add_comm]
  have h0 : ((skip_whitespace lx).char_at (skip_whitespace lx).pos == NUL) = false := by
    rw [hq]; decide
  unfold next_token
  simp only [h0, hq, beq_self_eq_true, if_true, Bool.false_eq_true, if_false, make_token,
    copy_string, hd]
  have hqn : ¬ ('"' = NUL) := by decide
  simp only [Lexer.char_at, beq_iff_eq, hqn, if_false]

theorem not_nul_getD (l : List Char) (hnul : NUL ∉ l) (i : Nat) (hi : i < l.length) :
    l.getD i NUL ≠ NUL := by
  intro h
  apply hnul
  rw [List.getD_eq_getElem _ _ hi] at h
  rw [← h]
  exact List.getElem_mem _

theorem getD_lt_of_ne (l : List Char) (i : Nat) (h : l.getD i NUL ≠ NUL) : i < l.length := by
  by_contra hlt
  apply h
  simp [List.getD_eq_getElem?_getD, List.getElem?_eq_none (Nat.le_of_not_lt hlt)]

/-- C24: when, after whitespace, the cursor is on a double quote and the text after it has a
closing quote at index `j` (the first quote that is not escaped by a backslash), `next_token`
returns a string-literal token whose value is the `j` raw characters between the two quotes, with
escape sequences left undecoded, and the cursor is just past the closing quote; the source text
`"a\"b\n"` gives the six-character value `a\"b\n`. -/
theorem C24_string_literal (lx : Lexer) (j : Nat) (hnul : NUL ∉ lx.source)
    (hq : (skip_whitespace lx).char_at (skip_whitespace lx).pos = '"')
    (hclose : closing_quote_at ((skip_whitespace lx).remaining.drop 1) j) :
    next_token lx
        = ({ type := .TOKEN_STRING_LIT,
             value := some (String.mk (((skip_whitespace lx).remaining.drop 1).take j)),
             line := (skip_whitespace lx).line,
             col := (skip_whitespace lx).col + 1 + j + 1 },
           { skip_whitespace lx with
             pos := (skip_whitespace lx).pos + 1 + j + 1,
             col := (skip_whitespace lx).col + 1 + j + 1 })
    ∧ (next_token (init_lexer "\"a\\\"b\\n\"".toList)).1.value = some "a\\\"b\\n"
    ∧ "a\\\"b\\n".length = 6 := by
  refine ⟨?_, by decide, by decide⟩
  have hsrc := (skip_whitespace_mono lx).1
  have hbody_nul : NUL ∉ (skip_whitespace lx).remaining.drop 1 := by
    intro h
    apply hnul
    rw [← hsrc]
    exact List.mem_of_mem_drop (List.mem_of_mem_drop h)
  have hj : j < ((skip_whitespace lx).remaining.drop 1).length :=
    getD_lt_of_ne _ _ (by rw [hclose.1]; decide)
  have hlen : string_body_length ((skip_whitespace lx).remaining.drop 1) = j :=
    string_body_length_closing _ _ j (Nat.le_refl _)
      (fun i hi => not_nul_getD _ hbody_nul i (by omega)) hclose
  have hchar : (skip_whitespace lx).char_at ((skip_whitespace lx).pos + 1 + j) ≠ NUL := by
    rw [Nat.add_assoc, char_at_remaining]
    have : ((skip_whitespace lx).remaining.drop 1).getD j NUL = '"' := hclose.1
    simp only [List.getD_eq_getElem?_getD, List.getElem?_drop] at this ⊢
    rw [this]
    decide
  rw [next_token_quote lx hq, hlen]
  simp only [hchar, if_false]

theorem lexer_after_at_end (lx : Lexer) (h : lx.char_at lx.pos = NUL) (n : Nat) :
    lexer_after n lx = lx ∧ (nth_token n lx).type = .TOKEN_EOF := by
  have hstate : ∀ n : Nat, lexer_after n lx = lx := by
    intro n
    induction n with
    | zero => rfl
    | succ n ih => rw [lexer_after_succ, ih, next_token_at_end lx h]
  exact ⟨hstate n, by rw [nth_token, hstate, next_token_at_end lx h]⟩

theorem C24_string_literal_witness :
    NUL ∉ (init_lexer string_literal_source.toList).source
    ∧ (skip_whitespace (init_lexer string_literal_source.toList)).char_at
        (skip_whitespace (init_lexer string_literal_source.toList)).pos = '"'
    ∧ closing_quote_at
        ((skip_whitespace (init_lexer string_literal_source.toList)).remaining.drop 1) 6
    ∧ next_token (init_lexer string_literal_source.toList)
        = ({ type := .TOKEN_STRING_LIT, value := some "a\\\"b\\n", line := 1, col := 11 },
           { source := string_literal_source.toList, pos := 10, line := 1, col := 11 }) :=
  ⟨by decide, by decide,
   ⟨by decide, by decide, by
      intro i hi
      have : i = 0 ∨ i = 1 ∨ i = 2 ∨ i = 3 ∨ i = 4 ∨ i = 5 := by omega
      rcases this with rfl | rfl | rfl | rfl | rfl | rfl <;> decide⟩,
   (C24_string_literal (init_lexer string_literal_source.toList) 6 (by decide) (by decide)
      ⟨by decide, by decide, by
        intro i hi
        have : i = 0 ∨ i = 1 ∨ i = 2 ∨ i = 3 ∨ i = 4 ∨ i = 5 := by omega
        rcases this with rfl | rfl | rfl | rfl | rfl | rfl <;> decide⟩).1⟩

/-- C25: when, after whitespace, the cursor is on a double quote and every later quote is escaped,
`next_token` returns the end-of-input token without a value (not a string literal), leaves the
cursor at the end of the source, and every later call returns the end-of-input token again
without moving the cursor. The diagnostic written to the error stream is not modelled. -/
theorem C25_unterminated_string (lx : Lexer) (hnul : NUL ∉ lx.source)
    (hq : (skip_whitespace lx).char_at (skip_whitespace lx).pos = '"')
    (hopen : ∀ j, ((skip_whitespace lx).remaining.drop 1).getD j NUL = '"' →
      escaped ((skip_whitespace lx).remaining.drop 1) j = true) :
    (next_token lx).1.type = .TOKEN_EOF
    ∧ (next_token lx).1.value = none
    ∧ (next_token lx).2.pos = lx.source.length
    ∧ ∀ n : Nat, (nth_token n (next_token lx).2).type = .TOKEN_EOF
        ∧ lexer_after n (next_token lx).2 = (next_token lx).2 := by
  have hsrc := (skip_whitespace_mono lx).1
  have hbody_nul : NUL ∉ (skip_whitespace lx).remaining.drop 1 := by
    intro h
    apply hnul
    rw [← hsrc]
    exact List.mem_of_mem_drop (List.mem_of_mem_drop h)
  have hlen : string_body_length ((skip_whitespace lx).remaining.drop 1)
      = ((skip_whitespace lx).remaining.drop 1).length :=
    string_body_length_open _ _ (Nat.le_refl _) hbody_nul hopen
  have hpos : (skip_whitespace lx).pos < (skip_whitespace lx).source.length := by
    have hne : (skip_whitespace lx).char_at (skip_whitespace lx).pos ≠ NUL := by
      rw [hq]; decide
    have := remaining_ne_nil_of_char hne
    omega
  have hend : (skip_whitespace lx).pos + 1
      + string_body_length ((skip_whitespace lx).remaining.drop 1) = lx.source.length := by
    rw [hlen, List.length_drop, remaining_length, ← hsrc]
    omega
  have hchar : (skip_whitespace lx).char_at ((skip_whitespace lx).pos + 1
      + string_body_length ((skip_whitespace lx).remaining.drop 1)) = NUL := by
    rw [hend, Lexer.char_at, hsrc]
    simp [List.getD_eq_getElem?_getD]
  have hnext := next_token_quote lx hq
  simp only [hchar, if_true] at hnext
  have hat : (next_token lx).2.char_at (next_token lx).2.pos = NUL := by
    rw [hnext]
    exact hchar
  refine ⟨by rw [hnext], by rw [hnext], by rw [hnext]; exact hend, fun n => ?_⟩
  exact ⟨(lexer_after_at_end _ hat n).2, (lexer_after_at_end _ hat n).1⟩

theorem open_string_body_open (j : Nat)
    (h : ((skip_whitespace (init_lexer open_string_source.toList)).remaining.drop 1).getD j NUL
      = '"') :
    escaped ((skip_whitespace (init_lexer open_string_source.toList)).remaining.drop 1) j
      = true := by
  have hbody : (skip_whitespace (init_lexer open_string_source.toList)).remaining.drop 1
      = ['a', 'b', '\\', '"', 'c'] := by decide
  rw [hbody] at h ⊢
  by_cases hj : j < 5
  · have : j = 0 ∨ j = 1 ∨ j = 2 ∨ j = 3 ∨ j = 4 := by omega
    rcases this with rfl | rfl | rfl | rfl | rfl
    · exact absurd h (by decide)
    · exact absurd h (by decide)
    · exact absurd h (by decide)
    · decide
    · exact absurd h (by decide)
  · rw [List.getD_eq_default _ _ (by simpa using hj)] at h
    exact absurd h (by decide)

theorem C25_unterminated_string_witness :
    (next_token (init_lexer open_string_source.toList)).1.type = .TOKEN_EOF
    ∧ (next_token (init_lexer open_string_source.toList)).2.pos = 6 :=
  ⟨(C25_unterminated_string (init_lexer open_string_source.toList) (by decide) (by decide)
      open_string_body_open).1,
   (C25_unterminated_string (init_lexer open_string_source.toList) (by decide) (by decide)
      open_string_body_open).2.2.1⟩

/-! ### Words, operators and numbers -/

theorem takeWhile_maximal_run (p : Char → Bool) (w text : List Char)
    (h : maximal_run p w text) : text.takeWhile p = w := by
  obtain ⟨rest, rfl, hall, hnext⟩ := h
  induction w with
  | nil =>
    cases rest with
    | nil => rfl
    | cons c r =>
      have := hnext c (by simp)
      simp [List.takeWhile_cons, this]
  | cons c w ih =>
    have hc := hall c (by simp)
    simp only [List.cons_append, List.takeWhile_cons, hc, if_true]
    rw [ih (fun d hd => hall d (by simp [hd]))]

theorem word_start_alpha (c : Char) : word_start c = (isalpha c || c == '_') := by
  simp only [word_start, isalpha, Char.isAlpha, Char.isUpper, Char.isLower]
  rfl

theorem word_char_alnum (c : Char) : word_char c = (isalnum c || c == '_') := by
  have h : word_char c = ((c.isAlpha || c == '_') || c.isDigit) := rfl
  rw [h, isalnum, Char.isAlphanum, Bool.or_right_comm]

theorem word_start_not_digit (c : Char) (h : word_start c = true) : isdigit c = false := by
  have h1 : ∀ a b : Char, (a ≤ b) = (a.val.toNat ≤ b.val.toNat) := fun a b => rfl
  have h2 : ∀ a b : UInt32, (a ≤ b) = (a.toNat ≤ b.toNat) := fun a b => rfl
  have h3 : ∀ a b : UInt32, (a ≥ b) = (b.toNat ≤ a.toNat) := fun a b => rfl
  have h4 : c = '_' → c.val.toNat = 95 := fun e => by rw [e]; rfl
  simp only [word_start, isdigit, Char.isDigit, h1, h2, h3, Bool.or_eq_true, Bool.and_eq_true,
    decide_eq_true_eq, beq_iff_eq] at h ⊢
  have e1 : 'A'.val.toNat = 65 := rfl
  have e2 : 'Z'.val.toNat = 90 := rfl
  have e3 : 'a'.val.toNat = 97 := rfl
  have e4 : 'z'.val.toNat = 122 := rfl
  have e5 : (48 : UInt32).toNat = 48 := rfl
  have e6 : (57 : UInt32).toNat = 57 := rfl
  rw [e1, e2, e3, e4] at h
  rw [e5, e6]
  rcases h with (h | h) | h
  · simp only [Bool.and_eq_false_iff, decide_eq_false_iff_not]; omega
  · simp only [Bool.and_eq_false_iff, decide_eq_false_iff_not]; omega
  · have := h4 h
    simp only [Bool.and_eq_false_iff, decide_eq_false_iff_not]; omega

theorem word_start_not_nul (c : Char) (h : word_start c = true) : c ≠ NUL := by
  intro e
  rw [e] at h
  revert h
  decide

theorem word_start_not_quote (c : Char) (h : word_start c = true) : c ≠ '"' := by
  intro e
  rw [e] at h
  revert h
  decide

theorem keyword_chain_some (v : String) (K : TokenType) :
    ∀ table : List (String × TokenType), (table.map Prod.fst).Nodup →
      (table.foldr (fun e acc => if v == e.1 then some e.2 else acc) none = some K
        ↔ (v, K) ∈ table) := by
  intro table
  induction table with
  | nil => simp
  | cons e rest ih =>
    intro hnd
    obtain ⟨k, t⟩ := e
    simp only [List.map_cons, List.nodup_cons] at hnd
    have ih1 := ih hnd.2
    simp only [List.foldr_cons, List.mem_cons, Prod.mk.injEq, beq_iff_eq]
    by_cases hk : v = k
    · subst hk
      simp only [if_true, Option.some.injEq, true_and]
      constructor
      · intro h; exact Or.inl h.symm
      · rintro (h | h)
        · exact h.symm
        · exact absurd (List.mem_map_of_mem Prod.fst h) hnd.1
    · simp only [hk, if_false, false_and, false_or]
      simpa only [beq_iff_eq] using ih1

theorem keyword_type_chain (v : String) :
    keyword_type v
      = reserved_words.foldr (fun e acc => if v == e.1 then some e.2 else acc) none := rfl

theorem reserved_words_nodup : (reserved_words.map Prod.fst).Nodup := by decide

theorem keyword_type_some (v : String) (K : TokenType) :
    keyword_type v = some K ↔ (v, K) ∈ reserved_words := by
  rw [keyword_type_chain]
  exact keyword_chain_some v K reserved_words reserved_words_nodup

theorem keyword_type_none (v : String) :
    keyword_type v = none ↔ ∀ K, (v, K) ∉ reserved_words := by
  constructor
  · intro h K hK
    rw [← keyword_type_some, h] at hK
    exact absurd hK (by simp)
  · intro h
    cases hk : keyword_type v with
    | none => rfl
    | some K => exact absurd ((keyword_type_some v K).1 hk) (h K)
theorem maximal_run_cursor (p : Char → Bool) (lx : Lexer) (c : Char) (w : List Char)
    (hrun : maximal_run p (c :: w) lx.remaining) : lx.char_at lx.pos = c := by
  obtain ⟨rest, hrem, _, _⟩ := hrun
  rw [char_at_cursor, hrem]
  rfl

theorem maximal_run_take (p : Char → Bool) (w text : List Char)
    (hrun : maximal_run p w text) : text.take w.length = w := by
  obtain ⟨rest, rfl, _, _⟩ := hrun
  simp

theorem next_token_word (lx : Lexer) (c : Char) (w : List Char)
    (hrun : maximal_run word_char (c :: w) (skip_whitespace lx).remaining)
    (hstart : word_start c = true) :
    next_token lx =
      match keyword_type (String.mk (c :: w)) with
      | some t =>
        ({ type := t, value := none, line := (skip_whitespace lx).line,
           col := (skip_whitespace lx).col + ((c :: w).length : Nat) },
         { skip_whitespace lx with
           pos := (skip_whitespace lx).pos + (c :: w).length,
           col := (skip_whitespace lx).col + ((c :: w).length : Nat) })
      | none =>
        ({ type := .TOKEN_IDENT, value := some (String.mk (c :: w)),
           line := (skip_whitespace lx).line,
           col := (skip_whitespace lx).col + ((c :: w).length : Nat) },
         { skip_whitespace lx with
           pos := (skip_whitespace lx).pos + (c :: w).length,
           col := (skip_whitespace lx).col + ((c :: w).length : Nat) }) := by
  have hc := maximal_run_cursor _ _ _ _ hrun
  have h0 : (c == NUL) = false := by
    simpa using word_start_not_nul c hstart
  have h1 : (c == '"') = false := by
    simpa using word_start_not_quote c hstart
  have h2 := word_start_not_digit c hstart
  have h3 : (isalpha c || c == '_') = true := by rw [← word_start_alpha]; exact hstart
  have hfun : (fun d => isalnum d || d == '_') = word_char := by
    funext d; rw [word_char_alnum]
  have htw : ((skip_whitespace lx).source.drop (skip_whitespace lx).pos).takeWhile
      (fun d => isalnum d || d == '_') = c :: w := by
    rw [hfun]; exact takeWhile_maximal_run _ _ _ hrun
  have htk : ((skip_whitespace lx).source.drop (skip_whitespace lx).pos).take (c :: w).length
      = c :: w := maximal_run_take _ _ _ hrun
  unfold next_token
  simp only [hc, h0, h1, h2, h3, if_true, Bool.false_eq_true, if_false, make_token,
    copy_string, htw, htk]

/-- C26: when, after whitespace, the text at the cursor starts with a maximal run `c :: w` that
matches `[A-Za-z_][A-Za-z0-9_]*`, the token `next_token` returns has kind `K` and no value
exactly when the run, paired with `K`, is one of the twelve entries of the table of reserved
words; when the run is not in the table the token is an identifier whose value is the run; the
cursor moves past the run. The words `iffy`, `If` and `int_` are identifiers. -/
theorem C26_keyword_or_identifier (lx : Lexer) (c : Char) (w : List Char)
    (hstart : word_start c = true)
    (hrun : maximal_run word_char (c :: w) (skip_whitespace lx).remaining) :
    (∀ K : TokenType, ((next_token lx).1.type = K ∧ (next_token lx).1.value = none)
        ↔ (String.mk (c :: w), K) ∈ reserved_words)
    ∧ ((∀ K : TokenType, (String.mk (c :: w), K) ∉ reserved_words) →
        (next_token lx).1.type = .TOKEN_IDENT
          ∧ (next_token lx).1.value = some (String.mk (c :: w)))
    ∧ (next_token lx).2
        = { skip_whitespace lx with
            pos := (skip_whitespace lx).pos + (c :: w).length,
            col := (skip_whitespace lx).col + ((c :: w).length : Nat) }
    ∧ reserved_words.map Prod.fst
        = ["fn", "return", "let", "call", "if", "else", "while", "int", "string", "print",
           "malloc", "free"]
    ∧ (next_token (init_lexer "iffy".toList)).1
        = { type := .TOKEN_IDENT, value := some "iffy", line := 1, col := 5 }
    ∧ (next_token (init_lexer "If".toList)).1
        = { type := .TOKEN_IDENT, value := some "If", line := 1, col := 3 }
    ∧ (next_token (init_lexer "int_".toList)).1
        = { type := .TOKEN_IDENT, value := some "int_", line := 1, col := 5 } := by
  have hnext := next_token_word lx c w hrun hstart
  refine ⟨fun K => ?_, fun hno => ?_, ?_, by decide, by decide, by decide, by decide⟩
  · rw [← keyword_type_some]
    cases hk : keyword_type (String.mk (c :: w)) with
    | none =>
      rw [hk] at hnext
      rw [hnext]
      simp
    | some t =>
      rw [hk] at hnext
      rw [hnext]
      simp
  · have hk := (keyword_type_none _).2 hno
    rw [hk] at hnext
    rw [hnext]
    exact ⟨rfl, rfl⟩
  · cases hk : keyword_type (String.mk (c :: w)) with
    | none => rw [hk] at hnext; rw [hnext]
    | some t => rw [hk] at hnext; rw [hnext]

/-- Witness of C26: the text ` while whilst` gives the keyword `while`, then the identifier
`whilst`. -/
theorem C26_keyword_or_identifier_witness :
    (next_token (init_lexer words_source.toList)).1.type = .TOKEN_WHILE
    ∧ (next_token (init_lexer words_source.toList)).1.value = none
    ∧ (next_token (next_token (init_lexer words_source.toList)).2).1.type = .TOKEN_IDENT
    ∧ (next_token (next_token (init_lexer words_source.toList)).2).1.value = some "whilst" :=
  ⟨((C26_keyword_or_identifier (init_lexer words_source.toList) 'w' "hile".toList (by decide)
      ⟨" whilst".toList, by decide, by decide, by decide⟩).1 .TOKEN_WHILE).2 (by decide) |>.1,
   ((C26_keyword_or_identifier (init_lexer words_source.toList) 'w' "hile".toList (by decide)
      ⟨" whilst".toList, by decide, by decide, by decide⟩).1 .TOKEN_WHILE).2 (by decide) |>.2,
   ((C26_keyword_or_identifier (next_token (init_lexer words_source.toList)).2 'w'
      "hilst".toList (by decide) ⟨[], by decide, by decide, by decide⟩).2.1
        (fun K => by cases K <;> decide)).1,
   ((C26_keyword_or_identifier (next_token (init_lexer words_source.toList)).2 'w'
      "hilst".toList (by decide) ⟨[], by decide, by decide, by decide⟩).2.1
        (fun K => by cases K <;> decide)).2⟩

theorem next_token_operator (lx : Lexer) (c : Char) (hc : lx.char_at lx.pos = c)
    (hop : c = '-' ∨ c = '=' ∨ c = '!' ∨ c = '<' ∨ c = '>') :
    next_token lx = operator_token { lx with pos := lx.pos + 1, col := lx.col + 1 } c := by
  have hfix : skip_whitespace lx = lx := by
    apply skip_whitespace_fixed
    · rw [hc]; rcases hop with h | h | h | h | h <;> rw [h] <;> decide
    · rw [hc]; rcases hop with h | h | h | h | h <;> rw [h] <;> decide
    · rw [hc]; rcases hop with h | h | h | h | h <;> rw [h] <;> decide
    · rw [hc]; rintro ⟨h1, _⟩
      rcases hop with h | h | h | h | h <;> rw [h] at h1 <;> exact absurd h1 (by decide)
  have h0 : (c == NUL) = false := by
    rcases hop with h | h | h | h | h <;> rw [h] <;> decide
  have h1 : (c == '"') = false := by
    rcases hop with h | h | h | h | h <;> rw [h] <;> decide
  have h2 : isdigit c = false := by
    rcases hop with h | h | h | h | h <;> rw [h] <;> decide
  have h3 : (isalpha c || c == '_') = false := by
    rcases hop with h | h | h | h | h <;> rw [h] <;> decide
  unfold next_token
  simp only [hfix, hc, h0, h1, h2, h3, Bool.false_eq_true, if_false]

/-- C27: with the cursor on `-`, `=`, `!`, `<` or `>`, `next_token` returns the two-character
operator (`->`, `==`, `!=`, `<=`, `>=`) and moves the cursor by two when the next character
completes it; otherwise it moves the cursor by one and returns minus, assignment, less-than or
greater-than, and for a lone `!` the end-of-input token that stands for the error. -/
theorem C27_two_char_operators (lx : Lexer) (second : Char) (long short : TokenType)
    (hop : two_char_operator (lx.char_at lx.pos) = some (second, long, short)) :
    next_token lx =
      if lx.char_at (lx.pos + 1) = second then
        ({ type := long, value := none, line := lx.line, col := lx.col + 2 },
         { lx with pos := lx.pos + 2, col := lx.col + 2 })
      else
        ({ type := short, value := none, line := lx.line, col := lx.col + 1 },
         { lx with pos := lx.pos + 1, col := lx.col + 1 }) := by
  have hcol : lx.col + 1 + 1 = lx.col + 2 := by ring
  unfold two_char_operator at hop
  split_ifs at hop with h1 h2 h3 h4 h5
  all_goals
    simp only [Option.some.injEq, Prod.mk.injEq] at hop
    obtain ⟨rfl, rfl, rfl⟩ := hop
  · rw [next_token_operator lx '-' h1 (by simp), operator_token]
    simp only [make_token, Lexer.char_at, beq_iff_eq, hcol]
    rfl
  · rw [next_token_operator lx '=' h2 (by simp), operator_token]
    simp only [make_token, Lexer.char_at, beq_iff_eq, hcol]
    rfl
  · rw [next_token_operator lx '!' h3 (by simp), operator_token]
    simp only [make_token, Lexer.char_at, beq_iff_eq, hcol]
    rfl
  · rw [next_token_operator lx '<' h4 (by simp), operator_token]
    simp only [make_token, Lexer.char_at, beq_iff_eq, hcol]
    rfl
  · rw [next_token_operator lx '>' h5 (by simp), operator_token]
    simp only [make_token, Lexer.char_at, beq_iff_eq, hcol]
    rfl

/-- Witness of C27: the text `->` gives the arrow, and the text `!x` the error token after one
character. -/
theorem C27_two_char_operators_witness :
    two_char_operator ((init_lexer "->".toList).char_at 0) = some ('>', .TOKEN_ARROW, .TOKEN_MINUS)
    ∧ next_token (init_lexer "->".toList)
        = ({ type := .TOKEN_ARROW, value := none, line := 1, col := 3 },
           { source := "->".toList, pos := 2, line := 1, col := 3 })
    ∧ next_token (init_lexer "!x".toList)
        = ({ type := .TOKEN_EOF, value := none, line := 1, col := 2 },
           { source := "!x".toList, pos := 1, line := 1, col := 2 }) :=
  ⟨by decide,
   C27_two_char_operators (init_lexer "->".toList) '>' .TOKEN_ARROW .TOKEN_MINUS (by decide),
   C27_two_char_operators (init_lexer "!x".toList) '=' .TOKEN_NE .TOKEN_EOF (by decide)⟩

theorem digit_not_nul (c : Char) (h : isdigit c = true) : c ≠ NUL := by
  intro e
  rw [e] at h
  revert h
  decide

theorem digit_not_quote (c : Char) (h : isdigit c = true) : c ≠ '"' := by
  intro e
  rw [e] at h
  revert h
  decide

theorem next_token_digits (lx : Lexer) (c : Char) (w : List Char)
    (hrun : maximal_run isdigit (c :: w) (skip_whitespace lx).remaining) :
    next_token lx =
      ({ type := .TOKEN_INT_LIT, value := some (String.mk (c :: w)),
         line := (skip_whitespace lx).line,
         col := (skip_whitespace lx).col + ((c :: w).length : Nat) },
       { skip_whitespace lx with
         pos := (skip_whitespace lx).pos + (c :: w).length,
         col := (skip_whitespace lx).col + ((c :: w).length : Nat) }) := by
  have hc := maximal_run_cursor _ _ _ _ hrun
  have hd : isdigit c = true := hrun.choose_spec.2.1 c (by simp)
  have h0 : (c == NUL) = false := by
    simpa using digit_not_nul c hd
  have h1 : (c == '"') = false := by
    simpa using digit_not_quote c hd
  have htw : ((skip_whitespace lx).source.drop (skip_whitespace lx).pos).takeWhile isdigit
      = c :: w := takeWhile_maximal_run _ _ _ hrun
  have htk : ((skip_whitespace lx).source.drop (skip_whitespace lx).pos).take (c :: w).length
      = c :: w := maximal_run_take _ _ _ hrun
  unfold next_token
  simp only [hc, h0, h1, hd, if_true, Bool.false_eq_true, if_false, make_token,
    copy_string, htw, htk]

theorem atoi_digits (digits : List Char) (hall : ∀ c ∈ digits, isdigit c = true)
    (hsmall : decimal_value digits ≤ 2 ^ 31 - 1) :
    atoi (String.mk digits) = (decimal_value digits : Int) := by
  have htw : digits.takeWhile isdigit = digits := by
    rw [List.takeWhile_eq_self_iff]
    exact hall
  simp only [atoi, htw]
  have h1 : min (decimal_value digits) (2 ^ 63 - 1) = decimal_value digits := by
    apply Nat.min_eq_left
    omega
  have h2 : decimal_value digits % 2 ^ 32 = decimal_value digits := by
    apply Nat.mod_eq_of_lt
    omega
  rw [h1, h2]
  have h3 : decimal_value digits < 2 ^ 31 := by omega
  simp only [h3, if_true]

/-- C28: when, after whitespace, the text at the cursor starts with a maximal run of digits,
`next_token` returns an integer-literal token whose value is the run as text; when the run
denotes a number `n` of at most `2 ^ 31 - 1`, `parse_primary` on that token returns an
integer-literal node that carries `n`, and `gen_expression` lowers the node to one `PUSH n`. -/
theorem C28_integer_literal (lx : Lexer) (c : Char) (w : List Char)
    (hrun : maximal_run isdigit (c :: w) (skip_whitespace lx).remaining) :
    next_token lx =
      ({ type := .TOKEN_INT_LIT, value := some (String.mk (c :: w)),
         line := (skip_whitespace lx).line,
         col := (skip_whitespace lx).col + ((c :: w).length : Nat) },
       { skip_whitespace lx with
         pos := (skip_whitespace lx).pos + (c :: w).length,
         col := (skip_whitespace lx).col + ((c :: w).length : Nat) })
    ∧ (decimal_value (c :: w) ≤ 2 ^ 31 - 1 →
        ∀ (p : Parser) (fuel : Nat) (cg : CodeGen), p.current_token = (next_token lx).1 →
          parse_primary (fuel + 1) p
              = .ok ((create_ast_node .AST_INT_LIT).set_int_value (decimal_value (c :: w)),
                     p.advance)
          ∧ gen_expression
                ((create_ast_node .AST_INT_LIT).set_int_value (decimal_value (c :: w))) cg
              = .ok (cg.emit .IR_PUSH (decimal_value (c :: w)) none)) := by
  have hnext := next_token_digits lx c w hrun
  refine ⟨hnext, fun hsmall p fuel cg hp => ⟨?_, rfl⟩⟩
  have hall := hrun.choose_spec.2.1
  have hat := atoi_digits (c :: w) hall hsmall
  rw [hnext] at hp
  simp only at hp
  rw [parse_primary]
  simp only [hp, if_true, strdup]
  rw [← hat]
  rfl

/-- Witness of C28: the text ` 2147483647;`, whose digit run denotes `2 ^ 31 - 1`. -/
theorem C28_integer_literal_witness :
    next_token (init_lexer " 2147483647;".toList)
      = ({ type := .TOKEN_INT_LIT, value := some "2147483647", line := 1, col := 12 },
         { source := " 2147483647;".toList, pos := 11, line := 1, col := 12 })
    ∧ decimal_value "2147483647".toList = 2 ^ 31 - 1
    ∧ parse_primary 1 (parser_at " 2147483647;")
        = .ok ((create_ast_node .AST_INT_LIT).set_int_value 2147483647,
               (parser_at " 2147483647;").advance) :=
  ⟨(C28_integer_literal (init_lexer " 2147483647;".toList) '2' "147483647".toList
      ⟨";".toList, by decide, by decide, by decide⟩).1,
   by decide,
   ((C28_integer_literal (init_lexer " 2147483647;".toList) '2' "147483647".toList
      ⟨";".toList, by decide, by decide, by decide⟩).2 (by decide)
      (parser_at " 2147483647;") 0 CodeGen.init rfl).1⟩

/-! ### Comments and the stream of tokens -/

theorem ite_prop2 {α β : Type} (P : α → β → Prop) {c : Prop} [Decidable c] {a b : α} {a1 b1 : β}
    (ha : P a a1) (hb : P b b1) : P (if c then a else b) (if c then a1 else b1) := by
  split <;> assumption

theorem operator_token_text (a b : Lexer) (ch : Char) (h : a.char_at a.pos = b.char_at b.pos) :
    (operator_token a ch).1.type = (operator_token b ch).1.type
    ∧ (operator_token a ch).1.value = (operator_token b ch).1.value
    ∧ ∃ n : Nat, (operator_token a ch).2 = { a with pos := a.pos + n, col := a.col + n }
        ∧ (operator_token b ch).2 = { b with pos := b.pos + n, col := b.col + n } := by
  unfold operator_token
  dsimp only
  rw [h]
  repeat' first
    | (refine ⟨rfl, rfl, 0, ?_, ?_⟩ <;> (simp; done))
    | (refine ⟨rfl, rfl, 1, ?_, ?_⟩ <;> simp)
    | refine ite_prop2 (fun (x y : Token × Lexer) => x.1.type = y.1.type
        ∧ x.1.value = y.1.value
        ∧ ∃ n : Nat, x.2 = ({ a with pos := a.pos + n, col := a.col + n } : Lexer)
          ∧ y.2 = ({ b with pos := b.pos + n, col := b.col + n } : Lexer)) ?_ ?_

theorem remaining_advance (lx : Lexer) (k : Nat) (l c : Int) :
    ({ source := lx.source, pos := lx.pos + k, line := l, col := c } : Lexer).remaining
      = lx.remaining.drop k := by
  simp [Lexer.remaining, List.drop_drop, Nat.add_comm]

theorem char_at_text (a b : Lexer) (h : a.remaining = b.remaining) (k : Nat) :
    a.source.getD (a.pos + k) NUL = b.source.getD (b.pos + k) NUL := by
  have ha := char_at_remaining a k
  have hb := char_at_remaining b k
  rw [Lexer.char_at] at ha hb
  rw [ha, hb, h]

theorem skip_whitespace_text (n : Nat) :
    ∀ a b : Lexer, a.remaining.length < n → a.remaining = b.remaining →
      (skip_whitespace a).remaining = (skip_whitespace b).remaining := by
  induction n with
  | zero => intro a b h; omega
  | succ n ih =>
    intro a b hlen h
    have hc0 : a.source.getD a.pos NUL = b.source.getD b.pos NUL := by
      simpa using char_at_text a b h 0
    have hd0 : a.source.drop a.pos = b.source.drop b.pos := h
    have hk := char_at_text a b h
    have hpos : a.source.getD a.pos NUL ≠ NUL → 1 ≤ a.remaining.length := by
      intro hne
      have := @remaining_ne_nil_of_char a hne
      rw [remaining_length]
      omega
    have hcl : (a.source.getD a.pos NUL == '/') = true →
        1 ≤ comment_length (a.source.drop a.pos) := comment_length_pos
    rw [skip_whitespace_eq a, skip_whitespace_eq b]
    simp only [Lexer.char_at, hk, hd0, hc0] at hpos hcl ⊢
    split_ifs with h1 h2 h3 h4
    · have h5 : 1 ≤ a.remaining.length := hpos (by
        intro e; rw [e] at h1; revert h1; decide)
      apply ih
      · rw [remaining_advance, List.length_drop]; omega
      · rw [remaining_advance, remaining_advance, h]
    · have h5 : 1 ≤ a.remaining.length := hpos (by
        intro e; rw [e] at h2; revert h2; decide)
      apply ih
      · rw [remaining_advance, List.length_drop]; omega
      · rw [remaining_advance, remaining_advance, h]
    · have h31 := ((Bool.and_eq_true _ _).mp h3).1
      have h5 : 1 ≤ a.remaining.length := hpos (by
        intro e; rw [e] at h31; revert h31; decide)
      have h6 := hcl h31
      apply ih
      · rw [Nat.add_assoc, remaining_advance, List.length_drop]; omega
      · rw [Nat.add_assoc, Nat.add_assoc, remaining_advance, remaining_advance, h]
    · have h31 := ((Bool.and_eq_true _ _).mp h3).1
      have h5 : 1 ≤ a.remaining.length := hpos (by
        intro e; rw [e] at h31; revert h31; decide)
      have h6 := hcl h31
      apply ih
      · rw [remaining_advance, List.length_drop]; omega
      · rw [remaining_advance, remaining_advance, h]
    · exact h

theorem next_token_text (a b : Lexer) (h : a.remaining = b.remaining) :
    (next_token a).1.type = (next_token b).1.type
    ∧ (next_token a).1.value = (next_token b).1.value
    ∧ (next_token a).2.remaining = (next_token b).2.remaining := by
  have hst := skip_whitespace_text _ a b (Nat.lt_succ_self _) h
  unfold next_token
  dsimp only [make_token, copy_string]
  generalize skip_whitespace a = s at hst ⊢
  generalize skip_whitespace b = t at hst ⊢
  have hc0 : s.source.getD s.pos NUL = t.source.getD t.pos NUL := by
    simpa using char_at_text s t hst 0
  have hd0 : s.source.drop s.pos = t.source.drop t.pos := hst
  have hd1 : s.source.drop (s.pos + 1) = t.source.drop (t.pos + 1) := by
    have := congrArg (List.drop 1) hd0
    simpa [List.drop_drop, Nat.add_comm] using this
  have hk : ∀ k, s.source.getD (s.pos + 1 + k) NUL = t.source.getD (t.pos + 1 + k) NUL := by
    intro k
    rw [Nat.add_assoc, Nat.add_assoc]
    exact char_at_text s t hst (1 + k)
  simp only [Lexer.char_at, hk, hd0, hd1, hc0]
  refine ite_prop2 (fun (x y : Token × Lexer) => x.1.type = y.1.type
    ∧ x.1.value = y.1.value ∧ x.2.remaining = y.2.remaining) ?_ ?_
  · exact ⟨rfl, rfl, hst⟩
  refine ite_prop2 (fun (x y : Token × Lexer) => x.1.type = y.1.type
    ∧ x.1.value = y.1.value ∧ x.2.remaining = y.2.remaining) ?_ ?_
  · refine ite_prop2 (fun (x y : Token × Lexer) => x.1.type = y.1.type
      ∧ x.1.value = y.1.value ∧ x.2.remaining = y.2.remaining) ?_ ?_
    · refine ⟨rfl, rfl, ?_⟩
      simp only [Nat.add_assoc]
      rw [remaining_advance, remaining_advance, hst]
    · refine ⟨rfl, rfl, ?_⟩
      simp only [Nat.add_assoc]
      rw [remaining_advance, remaining_advance, hst]
  refine ite_prop2 (fun (x y : Token × Lexer) => x.1.type = y.1.type
    ∧ x.1.value = y.1.value ∧ x.2.remaining = y.2.remaining) ?_ ?_
  · refine ⟨rfl, rfl, ?_⟩
    rw [remaining_advance, remaining_advance, hst]
  refine ite_prop2 (fun (x y : Token × Lexer) => x.1.type = y.1.type
    ∧ x.1.value = y.1.value ∧ x.2.remaining = y.2.remaining) ?_ ?_
  · cases keyword_type _ with
    | none =>
      refine ⟨rfl, rfl, ?_⟩
      simp only
      rw [remaining_advance, remaining_advance, hst]
    | some k =>
      refine ⟨rfl, rfl, ?_⟩
      simp only
      rw [remaining_advance, remaining_advance, hst]
  · have hop := operator_token_text
      { s with pos := s.pos + 1, col := s.col + 1 } { t with pos := t.pos + 1, col := t.col + 1 }
      (t.source.getD t.pos NUL) (by
        simp only [Lexer.char_at]
        simpa using hk 0)
    obtain ⟨h1, h2, n, h3, h4⟩ := hop
    refine ⟨h1, h2, ?_⟩
    rw [h3, h4]
    simp only [Nat.add_assoc]
    rw [remaining_advance, remaining_advance, hst]

theorem tokens_text (n : Nat) :
    ∀ a b : Lexer, a.remaining = b.remaining →
      (nth_token n a).type = (nth_token n b).type
      ∧ (nth_token n a).value = (nth_token n b).value
      ∧ (lexer_after n a).remaining = (lexer_after n b).remaining := by
  induction n with
  | zero =>
    intro a b h
    exact ⟨(next_token_text a b h).1, (next_token_text a b h).2.1, h⟩
  | succ n ih =>
    intro a b h
    have h1 := (next_token_text a b h).2.2
    exact ih _ _ h1

theorem token_stream_text (a b : Lexer) (h : a.remaining = b.remaining) (n : Nat) :
    token_stream n a = token_stream n b := by
  unfold token_stream
  apply List.map_congr_left
  intro i _
  rw [(tokens_text i a b h).1, (tokens_text i a b h).2.1]

theorem token_stream_skip (a b : Lexer) (h : skip_whitespace a = skip_whitespace b) (n : Nat) :
    token_stream n a = token_stream n b := by
  have h0 : next_token a = next_token b := by
    unfold next_token
    rw [h]
  unfold token_stream
  apply List.map_congr_left
  intro i _
  cases i with
  | zero => simp only [nth_token, lexer_after, h0]
  | succ i => simp only [nth_token, lexer_after, h0]

theorem skip_blanks (ws : List Char) (hws : ∀ x ∈ ws, x = ' ' ∨ x = '\t' ∨ x = '\n') :
    ∀ (lx : Lexer) (tail : List Char), lx.remaining = ws ++ tail →
      ∃ lx1 : Lexer, skip_whitespace lx = skip_whitespace lx1 ∧ lx1.remaining = tail := by
  induction ws with
  | nil => intro lx tail h; exact ⟨lx, rfl, h⟩
  | cons x ws ih =>
    intro lx tail h
    have hx : lx.char_at lx.pos = x := by rw [char_at_cursor, h]; rfl
    have ih1 := ih (fun y hy => hws y (by simp [hy]))
    rw [skip_whitespace_eq, hx]
    rcases hws x (by simp) with rfl | rfl | rfl
    · simp only [beq_self_eq_true, Bool.true_or, if_true]
      exact ih1 _ tail (by rw [remaining_advance, h]; rfl)
    · simp only [beq_self_eq_true, Bool.or_true, if_true]
      exact ih1 _ tail (by rw [remaining_advance, h]; rfl)
    · have e1 : ('\n' == ' ' || '\n' == '\t') = false := by decide
      simp only [e1, Bool.false_eq_true, if_false, beq_self_eq_true, if_true]
      exact ih1 _ tail (by rw [remaining_advance, h]; rfl)

theorem comment_length_line (c rest : List Char) (hc : '\n' ∉ c) (hnul : NUL ∉ c) :
    comment_length ('/' :: '/' :: (c ++ '\n' :: rest)) = 2 + c.length := by
  have hrun : (c ++ '\n' :: rest).takeWhile (fun x => x != NUL && x != '\n') = c := by
    induction c with
    | nil => simp [List.takeWhile_cons]
    | cons x c ih =>
      have hx1 : x ≠ NUL := fun e => hnul (by simp [e])
      have hx2 : x ≠ '\n' := fun e => hc (by simp [e])
      have ih1 := ih (fun hm => hc (by simp [hm])) (fun hm => hnul (by simp [hm]))
      simp only [List.cons_append, List.takeWhile_cons, bne_iff_ne, ne_eq, hx1, hx2,
        not_false_eq_true, decide_True, Bool.and_self, if_true, ih1, Bool.and_eq_true,
        and_self]
  have e1 : ('/' != NUL && '/' != '\n') = true := by decide
  simp only [comment_length, List.takeWhile_cons, e1, if_true, hrun, List.length_cons]
  omega

theorem getD_append_length (c rest : List Char) (x d : Char) :
    (c ++ x :: rest).getD c.length d = x := by
  induction c with
  | nil => rfl
  | cons y c ih => simpa using ih

theorem skip_comment (c rest : List Char) (hc : '\n' ∉ c) (hnul : NUL ∉ c)
    (lx : Lexer) (h : lx.remaining = '/' :: '/' :: (c ++ '\n' :: rest)) :
    ∃ lx1 : Lexer, skip_whitespace lx = skip_whitespace lx1 ∧ lx1.remaining = rest := by
  have h0 : lx.char_at lx.pos = '/' := by rw [char_at_cursor, h]; rfl
  have h1 : lx.char_at (lx.pos + 1) = '/' := by rw [char_at_remaining, h]; rfl
  have hlen : comment_length (lx.source.drop lx.pos) = 2 + c.length := by
    have : lx.source.drop lx.pos = lx.remaining := rfl
    rw [this, h]
    exact comment_length_line c rest hc hnul
  have h2 : lx.char_at (lx.pos + (2 + c.length)) = '\n' := by
    rw [char_at_remaining, h, Nat.add_comm 2]
    exact getD_append_length c rest _ _
  rw [skip_whitespace_eq, h0, h1, hlen, h2]
  have e1 : ('/' == ' ' || '/' == '\t') = false := by decide
  have e2 : ('/' == '\n') = false := by decide
  simp only [e1, e2, Bool.false_eq_true, if_false, beq_self_eq_true, Bool.and_self, if_true]
  refine ⟨_, rfl, ?_⟩
  rw [Nat.add_assoc, remaining_advance, h]
  simp [Nat.add_comm 2]

theorem next_token_slash (lx : Lexer) (h0 : lx.char_at lx.pos = '/')
    (h1 : lx.char_at (lx.pos + 1) ≠ '/') :
    next_token lx = ({ type := .TOKEN_SLASH, value := none, line := lx.line, col := lx.col + 1 },
                     { lx with pos := lx.pos + 1, col := lx.col + 1 }) := by
  have hfix : skip_whitespace lx = lx := by
    apply skip_whitespace_fixed
    · rw [h0]; decide
    · rw [h0]; decide
    · rw [h0]; decide
    · rintro ⟨_, h⟩; exact h1 h
  have e0 : ('/' == NUL) = false := by decide
  have e1 : ('/' == '"') = false := by decide
  have e2 : isdigit '/' = false := by decide
  have e3 : (isalpha '/' || '/' == '_') = false := by decide
  unfold next_token
  simp only [hfix, h0, e0, e1, e2, e3, Bool.false_eq_true, if_false]
  rfl

/-- C29: for a run `ws` of spaces, tabs and newlines and a comment text `c` without a newline,
the tokens lexed from `ws ++ "//" ++ c ++ "\n" ++ rest` have the same kinds and payloads, in the
same order, as the tokens lexed from `rest`; and with the cursor on a `/` that is not followed
by a second `/`, `next_token` returns the slash token. -/
theorem C29_comment_skipped (ws c rest : List Char)
    (hws : ∀ x ∈ ws, x = ' ' ∨ x = '\t' ∨ x = '\n') (hc : '\n' ∉ c) (hnul : NUL ∉ c) :
    (∀ n : Nat, token_stream n (init_lexer (ws ++ "//".toList ++ c ++ "\n".toList ++ rest))
        = token_stream n (init_lexer rest))
    ∧ ∀ lx : Lexer, lx.char_at lx.pos = '/' → lx.char_at (lx.pos + 1) ≠ '/' →
        next_token lx
          = ({ type := .TOKEN_SLASH, value := none, line := lx.line, col := lx.col + 1 },
             { lx with pos := lx.pos + 1, col := lx.col + 1 }) := by
  refine ⟨fun n => ?_, next_token_slash⟩
  have h0 : (init_lexer (ws ++ "//".toList ++ c ++ "\n".toList ++ rest)).remaining
      = ws ++ ('/' :: '/' :: (c ++ '\n' :: rest)) := by
    simp [init_lexer, Lexer.remaining]
  obtain ⟨lx1, hs1, hr1⟩ := skip_blanks ws hws _ _ h0
  obtain ⟨lx2, hs2, hr2⟩ := skip_comment c rest hc hnul lx1 hr1
  rw [token_stream_skip _ lx2 (hs1.trans hs2) n]
  exact token_stream_text _ _ (by rw [hr2]; rfl) n

/-- Witness of C29: blanks and the comment line `// a / b` before the text `x / y`. -/
theorem C29_comment_skipped_witness :
    token_stream 4 (init_lexer comment_source) = token_stream 4 (init_lexer "x / y".toList)
    ∧ token_stream 4 (init_lexer "x / y".toList)
        = [(.TOKEN_IDENT, some "x"), (.TOKEN_SLASH, none), (.TOKEN_IDENT, some "y"),
           (.TOKEN_EOF, none)] :=
  ⟨(C29_comment_skipped " \t\n".toList " a / b".toList "x / y".toList (by decide) (by decide)
      (by decide)).1 4, by decide⟩

/-! ### If statements and `else if` -/

theorem parse_expression_fuel {f g : Nat} (h : f ≤ g) {p : Parser} {r : ASTNode × Parser}
    (hr : parse_expression f p = .ok r) : parse_expression g p = .ok r :=
  mono_of_step (fun n => parse_expression n p)
    (fun n => (parse_fuel_succ n).2.2.2.2.2.2.2.2.2.1 p) f g h r hr

theorem parse_block_fuel {f g : Nat} (h : f ≤ g) {p : Parser} {r : ASTNode × Parser}
    (hr : parse_block f p = .ok r) : parse_block g p = .ok r :=
  mono_of_step (fun n => parse_block n p)
    (fun n => (parse_fuel_succ n).2.2.2.2.2.2.2.2.2.2.1 p) f g h r hr

theorem parse_statement_fuel {f g : Nat} (h : f ≤ g) {p : Parser} {r : ASTNode × Parser}
    (hr : parse_statement f p = .ok r) : parse_statement g p = .ok r :=
  mono_of_step (fun n => parse_statement n p)
    (fun n => (parse_fuel_succ n).2.2.2.2.2.2.2.2.2.2.2.2 p) f g h r hr

theorem expect_token_ok (t : TokenType) (p : Parser) (h : p.current_token.type = t) :
    expect_token t p = .ok p.advance := by
  simp [expect_token, h]

theorem parse_statement_if (f : Nat) (p q : Parser) (n : ASTNode)
    (hif : p.current_token.type = .TOKEN_IF) (h : parse_statement f p = .ok (n, q)) :
    ∃ c tb eb, n = if_tree c tb eb := by
  cases f with
  | zero => simp [parse_statement] at h
  | succ g =>
    rw [parse_statement] at h
    have e1 : ¬ (TokenType.TOKEN_IF = TokenType.TOKEN_LET) := by decide
    have e2 : ¬ (TokenType.TOKEN_IF = TokenType.TOKEN_RETURN) := by decide
    simp only [hif, e1, e2, if_false, if_true] at h
    obtain ⟨p1, _, h⟩ := bind_ok h
    obtain ⟨p2, _, h⟩ := bind_ok h
    obtain ⟨⟨c, p3⟩, _, h⟩ := bind_ok h
    obtain ⟨p4, _, h⟩ := bind_ok h
    obtain ⟨⟨tb, p5⟩, _, h⟩ := bind_ok h
    simp only at h
    split_ifs at h with h1
    · obtain ⟨p6, _, h⟩ := bind_ok h
      split_ifs at h with h2
      · obtain ⟨⟨nested, p7⟩, _, h⟩ := bind_ok h
        simp only [Except.ok.injEq, Prod.mk.injEq] at h
        exact ⟨c, tb, _, h.1.symm⟩
      · obtain ⟨⟨eb, p7⟩, _, h⟩ := bind_ok h
        simp only [Except.ok.injEq, Prod.mk.injEq] at h
        exact ⟨c, tb, _, h.1.symm⟩
    · simp only [Except.ok.injEq, Prod.mk.injEq] at h
      exact ⟨c, tb, .null, h.1.symm⟩

/-- C30: when the parser is on `if`, then `(`, a condition `c1` up to `)`, a block `B1` up to
`else`, then `if` again, and the statement parsed from that second `if` is `nested`, then with
enough fuel `parse_statement` returns the `AST_IF` node with condition `c1` and then-block `B1`
whose else-block is an `AST_BLOCK` node with statement count 1 whose statement chain is the
single node `nested`, itself an `AST_IF` node; no other node stands for the chain. -/
theorem C30_else_if_nesting (p p3 p5 p7 : Parser) (c1 B1 nested : ASTNode) (fc fb fn : Nat)
    (hif : p.current_token.type = .TOKEN_IF)
    (hlp : p.advance.current_token.type = .TOKEN_LPAREN)
    (hc : parse_expression fc p.advance.advance = .ok (c1, p3))
    (hrp : p3.current_token.type = .TOKEN_RPAREN)
    (hb : parse_block fb p3.advance = .ok (B1, p5))
    (helse : p5.current_token.type = .TOKEN_ELSE)
    (hif2 : p5.advance.current_token.type = .TOKEN_IF)
    (hn : parse_statement fn p5.advance = .ok (nested, p7)) :
    (∃ fuel, ∀ f, fuel ≤ f →
        parse_statement f p = .ok (if_tree c1 B1 (single_statement_block nested), p7))
    ∧ (if_tree c1 B1 (single_statement_block nested)).get_type = some .AST_IF
    ∧ (if_tree c1 B1 (single_statement_block nested)).get_condition = c1
    ∧ (if_tree c1 B1 (single_statement_block nested)).get_then_block = B1
    ∧ (if_tree c1 B1 (single_statement_block nested)).get_else_block
        = single_statement_block nested
    ∧ (single_statement_block nested).get_type = some .AST_BLOCK
    ∧ (single_statement_block nested).get_stmt_count = 1
    ∧ (single_statement_block nested).get_statements = nested
    ∧ nested.get_type = some .AST_IF
    ∧ nested.get_right = .null := by
  obtain ⟨c2, B2, eb, hshape⟩ := parse_statement_if fn _ _ _ hif2 hn
  refine ⟨⟨fc + fb + fn + 1, ?_⟩, rfl, rfl, rfl, rfl, rfl, rfl, rfl, by rw [hshape]; rfl,
    by rw [hshape]; rfl⟩
  intro f hf
  obtain ⟨g, rfl⟩ : ∃ g, f = g + 1 := ⟨f - 1, by omega⟩
  have hc1 : parse_expression g p.advance.advance = .ok (c1, p3) :=
    parse_expression_fuel (by omega) hc
  have hb1 : parse_block g p3.advance = .ok (B1, p5) := parse_block_fuel (by omega) hb
  have hn1 : parse_statement g p5.advance = .ok (nested, p7) :=
    parse_statement_fuel (by omega) hn
  have e1 : ¬ (TokenType.TOKEN_IF = TokenType.TOKEN_LET) := by decide
  have e2 : ¬ (TokenType.TOKEN_IF = TokenType.TOKEN_RETURN) := by decide
  rw [parse_statement]
  simp only [hif, e1, e2, if_false, if_true]
  rw [expect_token_ok _ p hif]
  show (do
    let p2 ← expect_token .TOKEN_LPAREN p.advance
    _) = _
  rw [expect_token_ok _ p.advance hlp]
  show (do
    let r ← parse_expression g p.advance.advance
    _) = _
  rw [hc1]
  show (do
    let p4 ← expect_token .TOKEN_RPAREN p3
    _) = _
  rw [expect_token_ok _ p3 hrp]
  show (do
    let r ← parse_block g p3.advance
    _) = _
  rw [hb1]
  simp only [bind, Except.bind, helse, if_true, expect_token_ok _ p5 helse, hif2, hn1]
  rfl

/-- Witness of C30: the text `if (1) { } else if (2) { } else { }`. -/
theorem C30_else_if_nesting_witness :
    else_if_nested
      = if_tree ((create_ast_node .AST_INT_LIT).set_int_value 2) (create_ast_node .AST_BLOCK)
          (create_ast_node .AST_BLOCK)
    ∧ else_if_end.current_token.type = .TOKEN_EOF
    ∧ ∃ fuel, ∀ f, fuel ≤ f →
        parse_statement f (parser_at else_if_source)
          = .ok (if_tree ((create_ast_node .AST_INT_LIT).set_int_value 1)
                   (create_ast_node .AST_BLOCK) (single_statement_block else_if_nested),
                 else_if_end) :=
  ⟨by decide, by decide,
   (C30_else_if_nesting (parser_at else_if_source) else_if_condition_end else_if_then_end
      else_if_end ((create_ast_node .AST_INT_LIT).set_int_value 1) (create_ast_node .AST_BLOCK)
      else_if_nested 8 3 12
      (by decide) (by decide) (by decide) (by decide) (by decide) (by decide) (by decide)
      (by decide)).1⟩

/-! ### Every text has a maximal run -/

theorem maximal_run_exists (p : Char → Bool) (text : List Char) :
    maximal_run p (text.takeWhile p) text := by
  refine ⟨text.dropWhile p, (List.takeWhile_append_dropWhile p text).symm,
    fun c hc => List.mem_takeWhile_imp hc, ?_⟩
  intro c hc
  induction text with
  | nil => simp at hc
  | cons x xs ih =>
    by_cases hx : p x = true
    · rw [List.dropWhile_cons_of_pos hx] at hc
      exact ih hc
    · rw [List.dropWhile_cons_of_neg hx] at hc
      simp only [List.head?_cons, Option.mem_def, Option.some.injEq] at hc
      rw [← hc]
      simpa using hx

theorem maximal_run_nonempty (p : Char → Bool) (lx : Lexer) (h : p (lx.char_at lx.pos) = true)
    (hnul : p NUL = false) :
    ∃ c w, lx.remaining.takeWhile p = c :: w := by
  rw [char_at_cursor] at h
  cases hr : lx.remaining with
  | nil =>
    rw [hr] at h
    have : p NUL = true := h
    rw [hnul] at this
    exact absurd this (by decide)
  | cons c rest =>
    rw [hr] at h
    have hc : p c = true := h
    exact ⟨c, rest.takeWhile p, by simp [List.takeWhile_cons, hc]⟩

/-! ### Scopes across function definitions -/

theorem gen_toplevel_scope (n : ASTNode) :
    ∀ cg cg1, gen_toplevel n cg = .ok cg1 →
      cg1.current_scope = allocate_locals cg.current_scope (declared_toplevel n) := by
  induction n with
  | null =>
    intro cg cg1 h
    simp only [gen_toplevel, Except.ok.injEq] at h
    rw [← h]
    rfl
  | node type left right condition then_block else_block body fn_name params body_nodes
      call_name args var_name int_value string_value binop compare_op statements stmt_count
      _ ihr _ _ _ _ _ _ _ _ =>
    intro cg cg1 h
    rw [gen_toplevel] at h
    obtain ⟨cg2, h1, h2⟩ := bind_ok h
    have hr := ihr cg2 cg1 h2
    rw [declared_toplevel, allocate_locals_append, hr]
    congr 1
    split_ifs at h1 with ht
    · obtain ⟨_, _, _, _, hs, _⟩ := gen_function_lowering _ _ _ _ _ h1
      simp only [ht, if_true]
      rw [hs]
      rfl
    · have hs := ((gen_statement_spec _).1 cg cg2 h1).1
      simp only [ht, if_false]
      rw [hs]
      rfl

theorem parse_function_scope (fuel : Nat) (p p1 : Parser) (node : ASTNode)
    (h : parse_function fuel p = .ok (node, p1)) : p1.current_scope = p.current_scope := by
  rw [parse_function] at h
  obtain ⟨q1, h1, h⟩ := bind_ok h
  obtain ⟨fn_name, _, h⟩ := bind_ok h
  obtain ⟨q2, h2, h⟩ := bind_ok h
  obtain ⟨q3, h3, h⟩ := bind_ok h
  obtain ⟨⟨stmt, q5⟩, _, h⟩ := bind_ok h
  obtain ⟨q6, _, h⟩ := bind_ok h
  obtain ⟨q7, _, h⟩ := bind_ok h
  obtain ⟨q8, _, h⟩ := bind_ok h
  obtain ⟨⟨body, q9⟩, _, h⟩ := bind_ok h
  simp only [Except.ok.injEq, Prod.mk.injEq] at h
  have e : ∀ (t : TokenType) (a b : Parser), expect_token t a = .ok b →
      b.current_scope = a.current_scope := by
    intro t a b hab
    simp only [expect_token] at hab
    split_ifs at hab
    simp only [Except.ok.injEq] at hab
    rw [← hab]
    rfl
  rw [← h.2]
  simp only
  rw [e _ _ _ h3, e _ _ _ h2, e _ _ _ h1]

/-- C31: when the loop of `generate_code` over the top-level statements returns, the current
scope is the scope at entry extended by the names the statements outside function definitions
declare, and nothing else: `gen_function` returns in the scope it was entered with, so a name
that scope does not resolve is not resolved after the definition, a reference to it fails as
undefined at top level and in every later function that has no parameter of that name; the
parser restores its scope after a definition in the same way. -/
theorem C31_scope_restored (n : ASTNode) (cg cg1 : CodeGen) (h : gen_toplevel n cg = .ok cg1) :
    cg1.current_scope = allocate_locals cg.current_scope (declared_toplevel n)
    ∧ (∀ (fn_name : Option String) (params body : ASTNode) (c c1 : CodeGen),
        gen_function fn_name params body c = .ok c1 →
          c1.current_scope = c.current_scope
          ∧ ∀ name, lookup c.current_scope name = none →
              lookup c1.current_scope name = none
              ∧ gen_expression ((create_ast_node .AST_VAR).set_var_name (some name)) c1
                  = .error (.undefined_variable name)
              ∧ ∀ (params2 : ASTNode) (entry : Scope),
                  gen_declare_params params2 (create_scope c1.current_scope) = .ok entry →
                  name ∉ param_names params2 →
                  gen_expression ((create_ast_node .AST_VAR).set_var_name (some name))
                      { c1 with current_scope := entry }
                    = .error (.undefined_variable name))
    ∧ (∀ (fuel : Nat) (p p1 : Parser) (node : ASTNode),
        parse_function fuel p = .ok (node, p1) → p1.current_scope = p.current_scope)
    ∧ compile 100 "fn f(a: int) -> int { let x: int = 1; return a; } print(x);".toList
        = .error (.undefined_variable "x")
    ∧ compile 100 "fn f(a: int) -> int { return a; } print(a);".toList
        = .error (.undefined_variable "a")
    ∧ compile 100 "fn f(a: int) -> int { let x: int = 1; return a; } fn g() -> int { return x; }".toList
        = .error (.undefined_variable "x")
    ∧ compile 100 "fn f(a: int) -> int { return a; } fn g() -> int { return a; }".toList
        = .error (.undefined_variable "a") := by
  refine ⟨gen_toplevel_scope n cg cg1 h, ?_, parse_function_scope, by decide, by decide,
    by decide, by decide⟩
  intro fn_name params body c c1 hf
  obtain ⟨_, _, _, _, hs, _⟩ := gen_function_lowering _ _ _ _ _ hf
  refine ⟨hs, fun name hnone => ?_⟩
  have h1 : lookup c1.current_scope name = none := by rw [hs]; exact hnone
  refine ⟨h1, ?_, ?_⟩
  · simp [gen_expression, create_ast_node, ASTNode.set_var_name, gen_expression_node, h1]
  · intro params2 entry hentry hnot
    have h2 : lookup entry name = none :=
      (lookup_entry_none_iff params2 c1.current_scope entry name hentry).2 ⟨hnot, h1⟩
    simp [gen_expression, create_ast_node, ASTNode.set_var_name, gen_expression_node, h2]

/-- Witness of C31: after the function `f` of `scoped_source` and the declaration of `y`, the
global scope resolves `y` and neither the parameter `a` nor the local variable `x` of `f`. -/
theorem C31_scope_restored_witness :
    gen_toplevel (program_tree scoped_source).get_statements CodeGen.init = .ok scoped_result
    ∧ declared_toplevel (program_tree scoped_source).get_statements = ["y"]
    ∧ scoped_result.current_scope = allocate_locals (create_scope .null) ["y"]
    ∧ lookup scoped_result.current_scope "a" = none
    ∧ lookup scoped_result.current_scope "x" = none
    ∧ lookup scoped_result.current_scope "y" = some ⟨"y", .SYM_VAR, -8⟩ :=
  ⟨by decide, by decide,
   (C31_scope_restored (program_tree scoped_source).get_statements CodeGen.init scoped_result
      (by decide)).1,
   by decide, by decide, by decide⟩

/-! ### Digits of the numbers in the assembly text -/

theorem toDigitsCore_digits (fuel : Nat) :
    ∀ (n : Nat) (ds : List Char), (∀ c ∈ ds, c.isDigit = true) →
      ∀ c ∈ Nat.toDigitsCore 10 fuel n ds, c.isDigit = true := by
  induction fuel with
  | zero => intro n ds h c hc; exact h c hc
  | succ fuel ih =>
    intro n ds h
    have hd : (Nat.digitChar (n % 10)).isDigit = true := by
      have : n % 10 < 10 := Nat.mod_lt _ (by decide)
      interval_cases n % 10 <;> rfl
    rw [Nat.toDigitsCore]
    split_ifs
    · intro c hc
      rcases List.mem_cons.1 hc with rfl | hc
      · exact hd
      · exact h c hc
    · apply ih
      intro c hc
      rcases List.mem_cons.1 hc with rfl | hc
      · exact hd
      · exact h c hc

theorem repr_digits (n : Nat) : ∀ c ∈ (Nat.repr n).data, c.isDigit = true := by
  have h := toDigitsCore_digits (n + 1) n [] (by simp)
  simpa [Nat.repr, Nat.toDigits, List.asString] using h

theorem format_int_head (n : Int) : ∀ c ∈ (format_int n).data.head?, c ≠ 'r' := by
  intro c hc
  cases n with
  | ofNat m =>
    simp only [format_int] at hc
    have hm : c ∈ (Nat.repr m).data := List.mem_of_mem_head? hc
    have hd := repr_digits m c hm
    intro e
    rw [e] at hd
    exact absurd hd (by decide)
  | negSucc m =>
    simp [format_int, String.data_append] at hc
    rw [← hc]
    decide

/-! ### Progress of the lexer -/

theorem ite_prop_cond {α : Type} (P : α → Prop) {c : Prop} [Decidable c] {a b : α}
    (ha : c → P a) (hb : ¬ c → P b) : P (if c then a else b) := by
  split
  · exact ha ‹_›
  · exact hb ‹_›

theorem operator_token_bound (lx : Lexer) (ch : Char) :
    ∃ t, (operator_token lx ch = ({ type := t, value := none, line := lx.line, col := lx.col }, lx))
      ∨ (operator_token lx ch
          = ({ type := t, value := none, line := lx.line, col := lx.col + 1 },
             { lx with pos := lx.pos + 1, col := lx.col + 1 })
          ∧ lx.char_at lx.pos ≠ NUL) := by
  unfold operator_token
  dsimp only
  repeat' first
    | exact ⟨_, Or.inl rfl⟩
    | (refine ⟨_, Or.inr ⟨rfl, ?_⟩⟩
       intro e
       rename_i hc
       rw [e] at hc
       exact absurd hc (by decide))
    | refine ite_prop_cond (fun (r : Token × Lexer) => ∃ t : TokenType,
        (r = (({ type := t, value := none, line := lx.line, col := lx.col } : Token), lx))
        ∨ (r = (({ type := t, value := none, line := lx.line, col := lx.col + 1 } : Token),
             ({ lx with pos := lx.pos + 1, col := lx.col + 1 } : Lexer))
           ∧ lx.char_at lx.pos ≠ NUL)) (fun _ => ?_) (fun _ => ?_)

theorem string_body_length_le : ∀ (n : Nat) (body : List Char), body.length ≤ n →
    string_body_length body ≤ body.length := by
  intro n
  induction n with
  | zero =>
    intro body h
    cases body with
    | nil => simp [string_body_length]
    | cons c rest => simp at h
  | succ n ih =>
    intro body h
    match body with
    | [] => simp [string_body_length]
    | [c] =>
      simp only [string_body_length, List.length_singleton]
      split_ifs <;> omega
    | c :: d :: rest =>
      simp only [string_body_length, List.length_cons]
      simp only [List.length_cons] at h
      have h1 := ih rest (by omega)
      have h2 := ih (d :: rest) (by simp only [List.length_cons]; omega)
      simp only [List.length_cons] at h2
      split_ifs <;> omega

theorem char_at_lt (lx : Lexer) (i : Nat) (h : lx.char_at i ≠ NUL) : i < lx.source.length :=
  getD_lt_of_ne lx.source i h

theorem drop_cursor (lx : Lexer) (h : lx.pos < lx.source.length) :
    lx.source.drop lx.pos = lx.char_at lx.pos :: lx.source.drop (lx.pos + 1) := by
  rw [List.drop_eq_getElem_cons h]
  simp [Lexer.char_at, List.getD_eq_getElem?_getD, List.getElem?_eq_getElem h]

theorem takeWhile_cursor (p : Char → Bool) (lx : Lexer) (h : lx.pos < lx.source.length)
    (hp : p (lx.char_at lx.pos) = true) :
    1 ≤ ((lx.source.drop lx.pos).takeWhile p).length
    ∧ lx.pos + ((lx.source.drop lx.pos).takeWhile p).length ≤ lx.source.length := by
  have hle := (List.takeWhile_prefix p (l := lx.source.drop lx.pos)).length_le
  rw [List.length_drop] at hle
  refine ⟨?_, by omega⟩
  rw [drop_cursor lx h, List.takeWhile_cons, hp]
  simp

theorem next_token_progress (lx : Lexer)
    (hne : (skip_whitespace lx).char_at (skip_whitespace lx).pos ≠ NUL) :
    ∃ n : Nat, 1 ≤ n
      ∧ (next_token lx).2
          = { skip_whitespace lx with pos := (skip_whitespace lx).pos + n,
                                      col := (skip_whitespace lx).col + n }
      ∧ (skip_whitespace lx).pos + n ≤ (skip_whitespace lx).source.length := by
  have hpos := char_at_lt _ _ hne
  have hbody := string_body_length_le _
    ((skip_whitespace lx).source.drop ((skip_whitespace lx).pos + 1)) (Nat.le_refl _)
  rw [List.length_drop] at hbody
  unfold next_token
  dsimp only [make_token]
  split_ifs with h0 h1 h2 h3 h4
  · exact absurd (by simpa using h0) hne
  · refine ⟨1 + string_body_length
      ((skip_whitespace lx).source.drop ((skip_whitespace lx).pos + 1)), by omega, ?_, by omega⟩
    simp only [Nat.cast_add, Nat.cast_one, Lexer.mk.injEq, true_and]
    exact ⟨by omega, by omega⟩
  · have hq : (skip_whitespace lx).pos + 1 + string_body_length
        ((skip_whitespace lx).source.drop ((skip_whitespace lx).pos + 1))
        < (skip_whitespace lx).source.length := by
      apply getD_lt_of_ne
      intro e
      apply h2
      simp only [Lexer.char_at, beq_iff_eq]
      exact e
    refine ⟨1 + string_body_length
      ((skip_whitespace lx).source.drop ((skip_whitespace lx).pos + 1)) + 1, by omega, ?_,
      by omega⟩
    simp only [Nat.cast_add, Nat.cast_one, Lexer.mk.injEq, true_and]
    exact ⟨by omega, by omega⟩
  · have htw := takeWhile_cursor isdigit _ hpos h3
    exact ⟨_, htw.1, rfl, htw.2⟩
  · have hp : (fun d => isalnum d || d == '_')
        ((skip_whitespace lx).char_at (skip_whitespace lx).pos) = true := by
      have := word_start_alpha ((skip_whitespace lx).char_at (skip_whitespace lx).pos)
      have hw : word_start ((skip_whitespace lx).char_at (skip_whitespace lx).pos) = true := by
        rw [this]; exact h4
      have hc : word_char ((skip_whitespace lx).char_at (skip_whitespace lx).pos) = true := by
        simp [word_char, hw]
      rw [word_char_alnum] at hc
      exact hc
    have htw := takeWhile_cursor (fun d => isalnum d || d == '_') _ hpos hp
    split
    · exact ⟨_, htw.1, rfl, htw.2⟩
    · exact ⟨_, htw.1, rfl, htw.2⟩
  · obtain ⟨t, h | ⟨h, hc⟩⟩ := operator_token_bound
      { skip_whitespace lx with pos := (skip_whitespace lx).pos + 1,
                                col := (skip_whitespace lx).col + 1 }
      ((skip_whitespace lx).char_at (skip_whitespace lx).pos)
    · exact ⟨1, Nat.le_refl _, by rw [h]; simp, by omega⟩
    · have hq := char_at_lt _ _ hc
      simp only at hq
      refine ⟨2, by omega, ?_, by omega⟩
      rw [h]
      simp only [Nat.cast_ofNat, Lexer.mk.injEq, true_and]
      omega

theorem skip_whitespace_bound (n : Nat) :
    ∀ lx : Lexer, lx.source.length - lx.pos < n → lx.pos ≤ lx.source.length →
      (skip_whitespace lx).pos ≤ lx.source.length := by
  induction n with
  | zero => intro lx h; omega
  | succ n ih =>
    intro lx hlen hin
    have hcl := comment_length_le (lx.source.drop lx.pos)
    rw [List.length_drop] at hcl
    have hlt : lx.char_at lx.pos ≠ NUL → lx.pos < lx.source.length := char_at_lt lx lx.pos
    rw [skip_whitespace_eq]
    split_ifs with h1 h2 h3 h4
    · have hp := hlt (by intro e; rw [e] at h1; exact absurd h1 (by decide))
      exact ih _ (by simp only; omega) (by simp only; omega)
    · have hp := hlt (by intro e; rw [e] at h2; exact absurd h2 (by decide))
      exact ih _ (by simp only; omega) (by simp only; omega)
    · have hq := char_at_lt lx _ (by intro e; rw [e] at h4; exact absurd h4 (by decide))
      exact ih _ (by simp only; omega) (by simp only; omega)
    · have h31 := ((Bool.and_eq_true _ _).mp h3).1
      have hp := hlt (by intro e; rw [e] at h31; exact absurd h31 (by decide))
      have hc := comment_length_pos h31
      exact ih _ (by simp only; omega) (by simp only; omega)
    · exact hin

theorem next_token_advances (lx : Lexer) :
    (lx.pos < (next_token lx).2.pos
      ∨ (lx.char_at lx.pos = NUL ∧ (next_token lx).1.type = .TOKEN_EOF
          ∧ (next_token lx).2 = lx))
    ∧ (next_token lx).2.source = lx.source
    ∧ (lx.pos ≤ lx.source.length → (next_token lx).2.pos ≤ lx.source.length) := by
  obtain ⟨hsrc, hmono, _⟩ := skip_whitespace_mono lx
  by_cases hend : lx.char_at lx.pos = NUL
  · have h := next_token_at_end lx hend
    rw [h]
    exact ⟨Or.inr ⟨hend, rfl, rfl⟩, rfl, fun hin => hin⟩
  · by_cases hs : (skip_whitespace lx).char_at (skip_whitespace lx).pos = NUL
    · have hnext : next_token lx
          = ({ type := .TOKEN_EOF, value := none, line := (skip_whitespace lx).line,
               col := (skip_whitespace lx).col }, skip_whitespace lx) := by
        unfold next_token
        simp [hs, make_token]
      rw [hnext]
      refine ⟨Or.inl ?_, hsrc, fun hin => skip_whitespace_bound _ lx (Nat.lt_succ_self _) hin⟩
      rcases Nat.lt_or_ge lx.pos (skip_whitespace lx).pos with hlt | hge
      · exact hlt
      · exfalso
        have hpe : (skip_whitespace lx).pos = lx.pos := by omega
        apply hend
        rw [Lexer.char_at, hsrc, hpe] at hs
        exact hs
    · obtain ⟨n, hn, hnext, hbound⟩ := next_token_progress lx hs
      rw [hnext]
      refine ⟨Or.inl (by simp only; omega), hsrc, fun _ => ?_⟩
      simp only
      rw [← hsrc]
      exact hbound

theorem lexer_after_bound (n : Nat) :
    ∀ lx : Lexer, lx.pos ≤ lx.source.length →
      (lexer_after n lx).source = lx.source ∧ (lexer_after n lx).pos ≤ lx.source.length
      ∧ ((lexer_after n lx).char_at (lexer_after n lx).pos = NUL
          ∨ lx.pos + n ≤ (lexer_after n lx).pos) := by
  induction n with
  | zero => intro lx hin; exact ⟨rfl, hin, Or.inr (Nat.le_refl _)⟩
  | succ n ih =>
    intro lx hin
    obtain ⟨hadv, hsrc, hb⟩ := next_token_advances lx
    have hb1 := hb hin
    have ih1 := ih (next_token lx).2 (by rw [hsrc]; exact hb1)
    rw [hsrc] at ih1
    rw [lexer_after]
    refine ⟨ih1.1, ih1.2.1, ?_⟩
    rcases hadv with hlt | ⟨hend, _, hsame⟩
    · rcases ih1.2.2 with h | h
      · exact Or.inl h
      · exact Or.inr (by omega)
    · rw [hsame, (lexer_after_at_end lx hend n).1]
      exact Or.inl hend

theorem lexer_after_add (a : Nat) :
    ∀ (b : Nat) (lx : Lexer), lexer_after (a + b) lx = lexer_after b (lexer_after a lx) := by
  induction a with
  | zero => intro b lx; simp [lexer_after]
  | succ a ih =>
    intro b lx
    rw [Nat.add_right_comm, lexer_after, ih, lexer_after]

/-- C39: from a lexer state whose cursor is not past the end of the source, a call of
`next_token` either moves the cursor strictly forward, or the cursor is at the end (on the
terminating NUL) and the call returns the end-of-input token and leaves the state as it is; the
cursor never moves past the end of the source; and after as many calls as there are characters
from the cursor to the end, the cursor is at the end and every later call returns the
end-of-input token. -/
theorem C39_lexer_progress (lx : Lexer) (hin : lx.pos ≤ lx.source.length) :
    (lx.pos < (next_token lx).2.pos
      ∨ (lx.char_at lx.pos = NUL ∧ (next_token lx).1.type = .TOKEN_EOF
          ∧ (next_token lx).2 = lx))
    ∧ (∀ n : Nat, (lexer_after n lx).source = lx.source
        ∧ (lexer_after n lx).pos ≤ lx.source.length)
    ∧ (∀ n : Nat, lx.source.length - lx.pos ≤ n →
        (lexer_after n lx).char_at (lexer_after n lx).pos = NUL
        ∧ (nth_token n lx).type = .TOKEN_EOF) := by
  refine ⟨(next_token_advances lx).1,
    fun n => ⟨(lexer_after_bound n lx hin).1, (lexer_after_bound n lx hin).2.1⟩, ?_⟩
  intro n hn
  obtain ⟨k, rfl⟩ : ∃ k, n = (lx.source.length - lx.pos) + k := ⟨n - (lx.source.length - lx.pos),
    by omega⟩
  obtain ⟨hsrc, hb, hor⟩ := lexer_after_bound (lx.source.length - lx.pos) lx hin
  have hend : (lexer_after (lx.source.length - lx.pos) lx).char_at
      (lexer_after (lx.source.length - lx.pos) lx).pos = NUL := by
    rcases hor with h | h
    · exact h
    · have hp : (lexer_after (lx.source.length - lx.pos) lx).pos = lx.source.length := by omega
      rw [Lexer.char_at, hsrc, hp]
      simp [List.getD_eq_getElem?_getD]
  have hk := lexer_after_at_end _ hend k
  rw [nth_token, lexer_after_add, hk.1]
  exact ⟨hend, by rw [next_token_at_end _ hend]⟩

/-- Witness of C39: the text `a b`, three characters, from its beginning. -/
theorem C39_lexer_progress_witness :
    (init_lexer "a b".toList).pos < (next_token (init_lexer "a b".toList)).2.pos
    ∧ (lexer_after 2 (init_lexer "a b".toList)).pos = 3
    ∧ (nth_token 3 (init_lexer "a b".toList)).type = .TOKEN_EOF :=
  ⟨by decide, by decide,
   ((C39_lexer_progress (init_lexer "a b".toList) (by decide)).2.2 3 (by decide)).2⟩

/-! ### The `call` statement -/

/-- C38 (the code departs from the claim): in the `call` branch of `parse_statement` the callee
name is read from the current token after `expect_token(TOKEN_IDENT)` has already replaced the
identifier by the token that follows it. For `call f(args);` that token is `(`, which carries no
text, and `strdup` is applied to NULL: the statement is not accepted and no node is returned.
The branch returns a call-statement node only when a token with text stands between the
identifier and `(`, and the callee is then that text: `call f g(1);` is a call of `g`. The form
without the keyword, `f(1);`, is a call of `f`. -/
theorem C38_call_statement_reads_name_late (fuel : Nat) (p : Parser)
    (hcall : p.current_token.type = .TOKEN_CALL)
    (hident : p.advance.current_token.type = .TOKEN_IDENT)
    (hvalue : p.advance.advance.current_token.value = none) :
    parse_statement (fuel + 1) p = .error .null_deref
    ∧ parse_program 100 "call f(1);".toList = .error .null_deref
    ∧ compile 100 "call f g(1);".toList
        = .ok [ir .IR_PUSH 1, ir_label .IR_CALL 1 "_g", ir .IR_POP 0]
    ∧ compile 100 "f(1);".toList
        = .ok [ir .IR_PUSH 1, ir_label .IR_CALL 1 "_f", ir .IR_POP 0] := by
  refine ⟨?_, by decide, by decide, by decide⟩
  have e1 : ¬ (TokenType.TOKEN_CALL = TokenType.TOKEN_LET) := by decide
  have e2 : ¬ (TokenType.TOKEN_CALL = TokenType.TOKEN_IDENT) := by decide
  rw [parse_statement]
  simp only [hcall, e1, e2, if_false, if_true]
  rw [expect_token_ok _ p hcall]
  show (do
    let p2 ← expect_token .TOKEN_IDENT p.advance
    _) = _
  rw [expect_token_ok _ p.advance hident]
  simp only [bind, Except.bind, hvalue, strdup]

/-- Witness of C38: the statement `call f(1);`, where the token after the identifier `f` is
the parenthesis. -/
theorem C38_call_statement_reads_name_late_witness :
    (parser_at "call f(1);").current_token.type = .TOKEN_CALL
    ∧ (parser_at "call f(1);").advance.current_token
        = { type := .TOKEN_IDENT, value := some "f", line := 1, col := 7 }
    ∧ (parser_at "call f(1);").advance.advance.current_token
        = { type := .TOKEN_LPAREN, value := none, line := 1, col := 8 }
    ∧ parse_statement (0 + 1) (parser_at "call f(1);") = .error .null_deref :=
  ⟨by decide, by decide, by decide,
   (C38_call_statement_reads_name_late 0 (parser_at "call f(1);") (by decide) (by decide)
      (by decide)).1⟩

/-! ### Parsing with enough fuel -/

theorem returns_of_ok {α : Type} (F : Nat → Except Fatal α)
    (hstep : ∀ n, Mono (F n) (F (n + 1))) {f : Nat} {r : α} (h : F f = .ok r) : Returns F r :=
  ⟨f, fun g hg => mono_of_step F hstep f g hg r h⟩

theorem returns_unary {f : Nat} {p : Parser} {r : ASTNode × Parser}
    (h : parse_unary f p = .ok r) : Returns (fun n => parse_unary n p) r :=
  returns_of_ok _ (fun n => (parse_fuel_succ n).2.2.2.1 p) h

theorem returns_additive {f : Nat} {p : Parser} {r : ASTNode × Parser}
    (h : parse_additive f p = .ok r) : Returns (fun n => parse_additive n p) r :=
  returns_of_ok _ (fun n => (parse_fuel_succ n).2.2.2.2.2.2.1 p) h

theorem returns_expression {f : Nat} {p : Parser} {r : ASTNode × Parser}
    (h : parse_expression f p = .ok r) : Returns (fun n => parse_expression n p) r :=
  returns_of_ok _ (fun n => (parse_fuel_succ n).2.2.2.2.2.2.2.2.2.1 p) h

theorem returns_step {α β : Type} {F : Nat → Except Fatal α} {G : Nat → Except Fatal β}
    {r : α} {s : β} (h : Returns F r) (hstep : ∀ f, F f = .ok r → G (f + 1) = .ok s) :
    Returns G s := by
  obtain ⟨fuel, hf⟩ := h
  refine ⟨fuel + 1, fun g hg => ?_⟩
  obtain ⟨k, rfl⟩ : ∃ k, g = k + 1 := ⟨g - 1, by omega⟩
  exact hstep k (hf k (by omega))

theorem returns_step2 {α β γ : Type} {F : Nat → Except Fatal α} {G : Nat → Except Fatal β}
    {H : Nat → Except Fatal γ} {r : α} {s : β} {t : γ} (h1 : Returns F r) (h2 : Returns G s)
    (hstep : ∀ f, F f = .ok r → G f = .ok s → H (f + 1) = .ok t) : Returns H t := by
  obtain ⟨fuel1, hf1⟩ := h1
  obtain ⟨fuel2, hf2⟩ := h2
  refine ⟨fuel1 + fuel2 + 1, fun g hg => ?_⟩
  obtain ⟨k, rfl⟩ : ∃ k, g = k + 1 := ⟨g - 1, by omega⟩
  exact hstep k (hf1 k (by omega)) (hf2 k (by omega))

theorem returns_unary_minus {p p1 : Parser} {e : ASTNode}
    (hminus : p.current_token.type = .TOKEN_MINUS)
    (he : Returns (fun n => parse_unary n p.advance) (e, p1)) :
    Returns (fun n => parse_unary n p) (binop_tree .BINOP_MINUS (int_tree 0) e, p1) := by
  refine returns_step he (fun f hf => ?_)
  simp only at hf
  show parse_unary (f + 1) p = _
  rw [parse_unary]
  simp only [hminus, if_true, expect_token_ok _ p hminus]
  show (do
    let r ← parse_unary f p.advance
    _) = _
  rw [hf]
  rfl

theorem returns_unary_primary {p : Parser} {r : ASTNode × Parser}
    (hminus : p.current_token.type ≠ .TOKEN_MINUS)
    (he : Returns (fun n => parse_primary n p) r) :
    Returns (fun n => parse_unary n p) r := by
  refine returns_step he (fun f hf => ?_)
  simp only at hf
  show parse_unary (f + 1) p = _
  rw [parse_unary]
  simp only [hminus, if_false, hf]

theorem returns_primary_int {p : Parser} {text : String}
    (htype : p.current_token.type = .TOKEN_INT_LIT)
    (hvalue : p.current_token.value = some text) :
    Returns (fun n => parse_primary n p) (int_tree (atoi text), p.advance) := by
  refine ⟨1, fun g hg => ?_⟩
  obtain ⟨k, rfl⟩ : ∃ k, g = k + 1 := ⟨g - 1, by omega⟩
  show parse_primary (k + 1) p = _
  rw [parse_primary]
  simp only [htype, if_true, hvalue, strdup]
  rfl

theorem returns_primary_paren {p p1 : Parser} {e : ASTNode}
    (hopen : p.current_token.type = .TOKEN_LPAREN)
    (he : Returns (fun n => parse_expression n p.advance) (e, p1))
    (hnull : e.is_null = false)
    (hclose : p1.current_token.type = .TOKEN_RPAREN) :
    Returns (fun n => parse_primary n p) (e, p1.advance) := by
  refine returns_step he (fun f hf => ?_)
  simp only at hf
  show parse_primary (f + 1) p = _
  have e1 : ¬ (TokenType.TOKEN_LPAREN = TokenType.TOKEN_INT_LIT) := by decide
  have e2 : ¬ (TokenType.TOKEN_LPAREN = TokenType.TOKEN_STRING_LIT) := by decide
  have e3 : ¬ (TokenType.TOKEN_LPAREN = TokenType.TOKEN_IDENT) := by decide
  have e4 : ¬ (TokenType.TOKEN_LPAREN = TokenType.TOKEN_MALLOC) := by decide
  rw [parse_primary]
  simp only [hopen, e1, e2, e3, e4, if_false, if_true, expect_token_ok _ p hopen]
  simp only [bind, Except.bind, hf, expect_token_ok _ p1 hclose, hnull]
  rfl

theorem returns_multiplicative {p p1 : Parser} {l : ASTNode} {r : ASTNode × Parser}
    (hl : Returns (fun n => parse_unary n p) (l, p1))
    (hloop : Returns (fun n => parse_multiplicative_loop n l p1) r) :
    Returns (fun n => parse_multiplicative n p) r := by
  refine returns_step2 hl hloop (fun f h1 h2 => ?_)
  simp only at h1 h2
  show parse_multiplicative (f + 1) p = _
  rw [parse_multiplicative, h1]
  exact h2

theorem returns_multiplicative_stop (l : ASTNode) (p : Parser)
    (h : multiplicative_op p.current_token.type = none) :
    Returns (fun n => parse_multiplicative_loop n l p) (l, p) := by
  refine ⟨1, fun g hg => ?_⟩
  obtain ⟨k, rfl⟩ : ∃ k, g = k + 1 := ⟨g - 1, by omega⟩
  exact parse_multiplicative_loop_stop k l p h

theorem returns_multiplicative_step {p p1 : Parser} {l x : ASTNode} {op : BinOpType}
    {r : ASTNode × Parser}
    (hop : multiplicative_op p.current_token.type = some op)
    (hx : Returns (fun n => parse_unary n p.advance) (x, p1))
    (hloop : Returns (fun n => parse_multiplicative_loop n (binop_tree op l x) p1) r) :
    Returns (fun n => parse_multiplicative_loop n l p) r := by
  refine returns_step2 hx hloop (fun f h1 h2 => ?_)
  simp only at h1 h2
  show parse_multiplicative_loop (f + 1) l p = _
  rw [parse_multiplicative_loop_step f l p op hop, h1]
  exact h2

theorem returns_additive_of {p p1 : Parser} {l : ASTNode} {r : ASTNode × Parser}
    (hl : Returns (fun n => parse_multiplicative n p) (l, p1))
    (hloop : Returns (fun n => parse_additive_loop n l p1) r) :
    Returns (fun n => parse_additive n p) r := by
  refine returns_step2 hl hloop (fun f h1 h2 => ?_)
  simp only at h1 h2
  show parse_additive (f + 1) p = _
  rw [parse_additive, h1]
  exact h2

theorem returns_additive_stop (l : ASTNode) (p : Parser)
    (h : additive_op p.current_token.type = none) :
    Returns (fun n => parse_additive_loop n l p) (l, p) := by
  refine ⟨1, fun g hg => ?_⟩
  obtain ⟨k, rfl⟩ : ∃ k, g = k + 1 := ⟨g - 1, by omega⟩
  exact parse_additive_loop_stop k l p h

theorem returns_additive_step {p p1 : Parser} {l x : ASTNode} {op : BinOpType}
    {r : ASTNode × Parser}
    (hop : additive_op p.current_token.type = some op)
    (hx : Returns (fun n => parse_multiplicative n p.advance) (x, p1))
    (hloop : Returns (fun n => parse_additive_loop n (binop_tree op l x) p1) r) :
    Returns (fun n => parse_additive_loop n l p) r := by
  refine returns_step2 hx hloop (fun f h1 h2 => ?_)
  simp only at h1 h2
  show parse_additive_loop (f + 1) l p = _
  rw [parse_additive_loop_step f l p op hop, h1]
  exact h2

theorem returns_comparison_none {p p1 : Parser} {l : ASTNode}
    (hl : Returns (fun n => parse_additive n p) (l, p1))
    (hop : comparison_op p1.current_token.type = none) :
    Returns (fun n => parse_comparison n p) (l, p1) := by
  refine returns_step hl (fun f hf => ?_)
  simp only at hf
  show parse_comparison (f + 1) p = _
  rw [parse_comparison, hf]
  have hno : ¬ (p1.current_token.type = .TOKEN_EQ ∨ p1.current_token.type = .TOKEN_NE
      ∨ p1.current_token.type = .TOKEN_LT ∨ p1.current_token.type = .TOKEN_GT
      ∨ p1.current_token.type = .TOKEN_LE ∨ p1.current_token.type = .TOKEN_GE) := by
    rintro (h | h | h | h | h | h) <;> simp [h, comparison_op] at hop
  simp [bind, Except.bind, hno]

theorem returns_comparison_step {p p1 p2 : Parser} {l r : ASTNode} {op : CompareOpType}
    (hl : Returns (fun n => parse_additive n p) (l, p1))
    (hop : comparison_op p1.current_token.type = some op)
    (hr : Returns (fun n => parse_additive n p1.advance) (r, p2)) :
    Returns (fun n => parse_comparison n p) (compare_tree op l r, p2) :=
  returns_step2 hl hr (fun f h1 h2 => parse_comparison_step f p p1 p2 l r op h1 hop h2)

theorem returns_expression_of {p : Parser} {r : ASTNode × Parser}
    (h : Returns (fun n => parse_comparison n p) r) :
    Returns (fun n => parse_expression n p) r :=
  returns_step h (fun f hf => by
    show parse_expression (f + 1) p = _
    rw [parse_expression, hf])

/-! ### Unary minus and associativity -/

theorem binop_tree_not_null (op : BinOpType) (l r : ASTNode) :
    (binop_tree op l r).is_null = false := rfl

theorem lower_int_tree (ρ : String → Int) (value : Int) :
    lower_expression ρ (int_tree value) = [ir .IR_PUSH value] := rfl

theorem gen_expression_program (n : ASTNode) (cg cg1 : CodeGen)
    (h : gen_expression n cg = .ok cg1) :
    cg1.current_program
      = cg.current_program ++ lower_expression (scope_offsets cg.current_scope) n := by
  obtain ⟨_, _, hp⟩ := (gen_expression_spec n).1 cg cg1 h
  exact hp _ (agrees_scope_offsets _)

/-- C36: when the parser is on `-` and the operand `e` is parsed after it (by `parse_unary`),
then with enough fuel `parse_unary` returns the binary-minus node whose left operand is the
integer literal 0 and whose right operand is `e`; its lowering is PUSH 0, lowering(e), SUB; and
the minus sign binds tighter than the binary operators: followed by a multiplicative operator
and an operand `b` the text parses as `(0 - e) op b`, and likewise followed by an additive
operator. -/
theorem C36_unary_minus (p p1 : Parser) (e : ASTNode) (fe : Nat)
    (hminus : p.current_token.type = .TOKEN_MINUS)
    (he : parse_unary fe p.advance = .ok (e, p1)) :
    (∃ fuel, ∀ f, fuel ≤ f →
        parse_unary f p = .ok (binop_tree .BINOP_MINUS (int_tree 0) e, p1))
    ∧ (∀ ρ, lower_expression ρ (binop_tree .BINOP_MINUS (int_tree 0) e)
        = [ir .IR_PUSH 0] ++ lower_expression ρ e ++ [ir .IR_SUB 0])
    ∧ (∀ cg cg1, gen_expression (binop_tree .BINOP_MINUS (int_tree 0) e) cg = .ok cg1 →
        cg1.current_program = cg.current_program ++ [ir .IR_PUSH 0]
          ++ lower_expression (scope_offsets cg.current_scope) e ++ [ir .IR_SUB 0])
    ∧ (∀ (op : BinOpType) (b : ASTNode) (p2 : Parser) (fb : Nat),
        multiplicative_op p1.current_token.type = some op →
        parse_unary fb p1.advance = .ok (b, p2) →
        multiplicative_op p2.current_token.type = none →
        ∃ fuel, ∀ f, fuel ≤ f →
          parse_multiplicative f p
            = .ok (binop_tree op (binop_tree .BINOP_MINUS (int_tree 0) e) b, p2))
    ∧ (∀ (op : BinOpType) (b : ASTNode) (p2 : Parser) (fb : Nat),
        additive_op p1.current_token.type = some op →
        parse_unary fb p1.advance = .ok (b, p2) →
        multiplicative_op p2.current_token.type = none →
        additive_op p2.current_token.type = none →
        ∃ fuel, ∀ f, fuel ≤ f →
          parse_additive f p
            = .ok (binop_tree op (binop_tree .BINOP_MINUS (int_tree 0) e) b, p2))
    ∧ compile 100 "let x: int = -2 * 3;".toList
        = .ok [ir .IR_PUSH 0, ir .IR_PUSH 2, ir .IR_SUB 0, ir .IR_PUSH 3, ir .IR_MUL 0,
               ir .IR_STORE (-8)]
    ∧ compile 100 "print(- -5);".toList
        = .ok [ir .IR_PUSH 0, ir .IR_PUSH 0, ir .IR_PUSH 5, ir .IR_SUB 0, ir .IR_SUB 0,
               ir .IR_PRINT 0] := by
  have hu := returns_unary_minus hminus (returns_unary he)
  have hlow : ∀ ρ, lower_expression ρ (binop_tree .BINOP_MINUS (int_tree 0) e)
      = [ir .IR_PUSH 0] ++ lower_expression ρ e ++ [ir .IR_SUB 0] := by
    intro ρ
    rw [lower_binop_tree, lower_int_tree]
    rfl
  refine ⟨hu, hlow, ?_, ?_, ?_, by decide, by decide⟩
  · intro cg cg1 h
    rw [gen_expression_program _ _ _ h, hlow]
    simp only [List.append_assoc]
  · intro op b p2 fb hop hb hend
    exact returns_multiplicative hu
      (returns_multiplicative_step hop (returns_unary hb) (returns_multiplicative_stop _ _ hend))
  · intro op b p2 fb hop hb hend1 hend2
    exact returns_additive_of
      (returns_multiplicative hu
        (returns_multiplicative_stop _ _ (additive_not_multiplicative hop)))
      (returns_additive_step hop
        (returns_multiplicative (returns_unary hb) (returns_multiplicative_stop _ _ hend1))
        (returns_additive_stop _ _ hend2))

/-- Witness of C36: the text `-2 * 3;`. -/
theorem C36_unary_minus_witness :
    (parser_at "-2 * 3;").current_token.type = .TOKEN_MINUS
    ∧ parse_unary 3 (parser_at "-2 * 3;").advance
        = .ok (int_tree 2, (parser_at "-2 * 3;").advance.advance)
    ∧ (∃ fuel, ∀ f, fuel ≤ f →
        parse_unary f (parser_at "-2 * 3;")
          = .ok (binop_tree .BINOP_MINUS (int_tree 0) (int_tree 2),
                 (parser_at "-2 * 3;").advance.advance))
    ∧ ∃ fuel, ∀ f, fuel ≤ f →
        parse_multiplicative f (parser_at "-2 * 3;")
          = .ok (binop_tree .BINOP_MULT (binop_tree .BINOP_MINUS (int_tree 0) (int_tree 2))
                   (int_tree 3),
                 (parser_at "-2 * 3;").advance.advance.advance.advance) :=
  ⟨by decide, by decide,
   (C36_unary_minus (parser_at "-2 * 3;") (parser_at "-2 * 3;").advance.advance (int_tree 2) 3
      (by decide) (by decide)).1,
   (C36_unary_minus (parser_at "-2 * 3;") (parser_at "-2 * 3;").advance.advance (int_tree 2) 3
      (by decide) (by decide)).2.2.2.1 .BINOP_MULT (int_tree 3)
        (parser_at "-2 * 3;").advance.advance.advance.advance 3 (by decide) (by decide)
        (by decide)⟩

theorem multiplicative_not_additive {t : TokenType} {op : BinOpType}
    (h : multiplicative_op t = some op) : additive_op t = none := by
  cases t <;> simp [multiplicative_op] at h <;> rfl

theorem rparen_not_operator {t : TokenType} (h : t = .TOKEN_RPAREN) :
    multiplicative_op t = none ∧ additive_op t = none ∧ comparison_op t = none := by
  subst h
  exact ⟨rfl, rfl, rfl⟩

/-- C35: when operands `a`, `b` and `c` are parsed (by `parse_unary`, which a primary
expression goes through) with an additive operator after `a` and after `b`, then with enough
fuel `parse_additive` returns the tree `(a op1 b) op2 c`, whose lowering is lowering(a),
lowering(b), the instruction of `op1`, lowering(c), the instruction of `op2` (SUB, SUB for
`a - b - c`); the same holds of `parse_multiplicative` for two multiplicative operators (DIV, DIV
for `a / b / c`); and when the second operand stands in parentheses, `a op1 (b op2 c)`, the
tree has the parenthesised expression as right operand and its lowering is lowering(a),
lowering(b), lowering(c), the instruction of `op2`, the instruction of `op1`. -/
theorem C35_left_associative (p p1 p2 p3 : Parser) (a b c : ASTNode) (op1 op2 : BinOpType)
    (fa fb fc : Nat)
    (ha : parse_unary fa p = .ok (a, p1))
    (hop1 : additive_op p1.current_token.type = some op1)
    (hb : parse_unary fb p1.advance = .ok (b, p2))
    (hop2 : additive_op p2.current_token.type = some op2)
    (hc : parse_unary fc p2.advance = .ok (c, p3))
    (hend1 : multiplicative_op p3.current_token.type = none)
    (hend2 : additive_op p3.current_token.type = none) :
    (∃ fuel, ∀ f, fuel ≤ f →
        parse_additive f p = .ok (binop_tree op2 (binop_tree op1 a b) c, p3))
    ∧ (∀ (ρ : String → Int) (x y z : ASTNode) (o1 o2 : BinOpType),
        lower_expression ρ (binop_tree o2 (binop_tree o1 x y) z)
          = lower_expression ρ x ++ lower_expression ρ y ++ [binop_ir o1]
            ++ lower_expression ρ z ++ [binop_ir o2]
        ∧ lower_expression ρ (binop_tree o1 x (binop_tree o2 y z))
          = lower_expression ρ x ++ lower_expression ρ y ++ lower_expression ρ z
            ++ [binop_ir o2, binop_ir o1])
    ∧ binop_ir .BINOP_MINUS = ir .IR_SUB 0
    ∧ binop_ir .BINOP_DIV = ir .IR_DIV 0
    ∧ (∀ (q q1 q2 q3 : Parser) (x y z : ASTNode) (o1 o2 : BinOpType) (fx fy fz : Nat),
        parse_unary fx q = .ok (x, q1) →
        multiplicative_op q1.current_token.type = some o1 →
        parse_unary fy q1.advance = .ok (y, q2) →
        multiplicative_op q2.current_token.type = some o2 →
        parse_unary fz q2.advance = .ok (z, q3) →
        multiplicative_op q3.current_token.type = none →
        ∃ fuel, ∀ f, fuel ≤ f →
          parse_multiplicative f q = .ok (binop_tree o2 (binop_tree o1 x y) z, q3))
    ∧ (∀ (q q1 q2 q3 : Parser) (x y z : ASTNode) (o1 o2 : BinOpType) (fx fy fz : Nat),
        parse_unary fx q = .ok (x, q1) →
        additive_op q1.current_token.type = some o1 →
        q1.advance.current_token.type = .TOKEN_LPAREN →
        parse_unary fy q1.advance.advance = .ok (y, q2) →
        additive_op q2.current_token.type = some o2 →
        parse_unary fz q2.advance = .ok (z, q3) →
        q3.current_token.type = .TOKEN_RPAREN →
        multiplicative_op q3.advance.current_token.type = none →
        additive_op q3.advance.current_token.type = none →
        ∃ fuel, ∀ f, fuel ≤ f →
          parse_additive f q = .ok (binop_tree o1 x (binop_tree o2 y z), q3.advance))
    ∧ compile 100 "print(7 - 2 - 1);".toList
        = .ok [ir .IR_PUSH 7, ir .IR_PUSH 2, ir .IR_SUB 0, ir .IR_PUSH 1, ir .IR_SUB 0,
               ir .IR_PRINT 0]
    ∧ compile 100 "print(8 / 4 / 2);".toList
        = .ok [ir .IR_PUSH 8, ir .IR_PUSH 4, ir .IR_DIV 0, ir .IR_PUSH 2, ir .IR_DIV 0,
               ir .IR_PRINT 0]
    ∧ compile 100 "print(7 - (2 - 1));".toList
        = .ok [ir .IR_PUSH 7, ir .IR_PUSH 2, ir .IR_PUSH 1, ir .IR_SUB 0, ir .IR_SUB 0,
               ir .IR_PRINT 0] := by
  refine ⟨?_, ?_, rfl, rfl, ?_, ?_, by decide, by decide, by decide⟩
  · exact returns_additive_of
      (returns_multiplicative (returns_unary ha)
        (returns_multiplicative_stop _ _ (additive_not_multiplicative hop1)))
      (returns_additive_step hop1
        (returns_multiplicative (returns_unary hb)
          (returns_multiplicative_stop _ _ (additive_not_multiplicative hop2)))
        (returns_additive_step hop2
          (returns_multiplicative (returns_unary hc) (returns_multiplicative_stop _ _ hend1))
          (returns_additive_stop _ _ hend2)))
  · intro ρ x y z o1 o2
    simp [lower_binop_tree]
  · intro q q1 q2 q3 x y z o1 o2 fx fy fz hx ho1 hy ho2 hz hend
    exact returns_multiplicative (returns_unary hx)
      (returns_multiplicative_step ho1 (returns_unary hy)
        (returns_multiplicative_step ho2 (returns_unary hz)
          (returns_multiplicative_stop _ _ hend)))
  · intro q q1 q2 q3 x y z o1 o2 fx fy fz hx ho1 hopen hy ho2 hz hclose hend1 hend2
    have hr := rparen_not_operator hclose
    have hinner : Returns (fun n => parse_expression n q1.advance.advance)
        (binop_tree o2 y z, q3) :=
      returns_expression_of (returns_comparison_none
        (returns_additive_of
          (returns_multiplicative (returns_unary hy)
            (returns_multiplicative_stop _ _ (additive_not_multiplicative ho2)))
          (returns_additive_step ho2
            (returns_multiplicative (returns_unary hz)
              (returns_multiplicative_stop _ _ hr.1))
            (returns_additive_stop _ _ hr.2.1)))
        hr.2.2)
    have hparen : Returns (fun n => parse_unary n q1.advance) (binop_tree o2 y z, q3.advance) :=
      returns_unary_primary (by rw [hopen]; decide)
        (returns_primary_paren hopen hinner (binop_tree_not_null _ _ _) hclose)
    exact returns_additive_of
      (returns_multiplicative (returns_unary hx)
        (returns_multiplicative_stop _ _ (additive_not_multiplicative ho1)))
      (returns_additive_step ho1
        (returns_multiplicative hparen (returns_multiplicative_stop _ _ hend1))
        (returns_additive_stop _ _ hend2))

/-- Witness of C35: the text `7 - 2 - 1;`. -/
theorem C35_left_associative_witness :
    parse_unary 3 (parser_at "7 - 2 - 1;")
        = .ok (int_tree 7, (parser_at "7 - 2 - 1;").advance)
    ∧ additive_op (parser_at "7 - 2 - 1;").advance.current_token.type = some .BINOP_MINUS
    ∧ ∃ fuel, ∀ f, fuel ≤ f →
        parse_additive f (parser_at "7 - 2 - 1;")
          = .ok (binop_tree .BINOP_MINUS (binop_tree .BINOP_MINUS (int_tree 7) (int_tree 2))
                   (int_tree 1),
                 (parser_at "7 - 2 - 1;").advance.advance.advance.advance.advance) :=
  ⟨by decide, by decide,
   (C35_left_associative (parser_at "7 - 2 - 1;") (parser_at "7 - 2 - 1;").advance
      (parser_at "7 - 2 - 1;").advance.advance.advance
      (parser_at "7 - 2 - 1;").advance.advance.advance.advance.advance
      (int_tree 7) (int_tree 2) (int_tree 1) .BINOP_MINUS .BINOP_MINUS 3 3 3
      (by decide) (by decide) (by decide) (by decide) (by decide) (by decide) (by decide)).1⟩

/-! ### Comparisons do not chain -/

theorem fails_step {α β : Type} {F : Nat → Except Fatal α} {G : Nat → Except Fatal β}
    {r : α} {e : Fatal} (h : Returns F r) (hstep : ∀ f, F f = .ok r → G (f + 1) = .error e) :
    Fails G e := by
  obtain ⟨fuel, hf⟩ := h
  refine ⟨fuel + 1, fun g hg => ?_⟩
  obtain ⟨k, rfl⟩ : ∃ k, g = k + 1 := ⟨g - 1, by omega⟩
  exact hstep k (hf k (by omega))

theorem expect_token_error (t : TokenType) (p : Parser) (h : p.current_token.type ≠ t) :
    expect_token t p = .error (.expected_token t p.current_token.type) := by
  simp [expect_token, h]

theorem comparison_not_arithmetic {t : TokenType} {op : CompareOpType}
    (h : comparison_op t = some op) :
    multiplicative_op t = none ∧ additive_op t = none := by
  cases t <;> simp [comparison_op] at h <;> exact ⟨rfl, rfl⟩

theorem comparison_token_ne {t expected : TokenType} {op : CompareOpType}
    (h : comparison_op t = some op) (hexp : comparison_op expected = none) : t ≠ expected := by
  intro e
  rw [e, hexp] at h
  exact absurd h (by simp)

theorem fails_return {q p p2 : Parser} {e : ASTNode}
    (hq : q.current_token.type = .TOKEN_RETURN) (hadv : q.advance = p)
    (he : Returns (fun n => parse_expression n p) (e, p2))
    (hne : p2.current_token.type ≠ .TOKEN_SEMICOLON) :
    Fails (fun n => parse_statement n q)
      (.expected_token .TOKEN_SEMICOLON p2.current_token.type) := by
  refine fails_step he (fun f hf => ?_)
  show parse_statement (f + 1) q = _
  rw [parse_statement]
  simp only [hq, expect_token_ok _ q hq, hadv]
  simp [bind, Except.bind, hf, expect_token_error _ p2 hne]

theorem fails_condition {q p p2 : Parser} {e : ASTNode}
    (hq : q.current_token.type = .TOKEN_IF ∨ q.current_token.type = .TOKEN_WHILE)
    (hopen : q.advance.current_token.type = .TOKEN_LPAREN) (hadv : q.advance.advance = p)
    (he : Returns (fun n => parse_expression n p) (e, p2))
    (hne : p2.current_token.type ≠ .TOKEN_RPAREN) :
    Fails (fun n => parse_statement n q)
      (.expected_token .TOKEN_RPAREN p2.current_token.type) := by
  refine fails_step he (fun f hf => ?_)
  show parse_statement (f + 1) q = _
  rw [parse_statement]
  rcases hq with hq | hq
  · simp only [hq, expect_token_ok _ q hq]
    simp [bind, Except.bind, expect_token_ok _ q.advance hopen, hadv, hf,
      expect_token_error _ p2 hne]
  · simp only [hq, expect_token_ok _ q hq]
    simp [bind, Except.bind, expect_token_ok _ q.advance hopen, hadv, hf,
      expect_token_error _ p2 hne]

theorem fails_initializer {q p p2 : Parser} {e : ASTNode} {name : String}
    (hq : q.current_token.type = .TOKEN_LET)
    (hident : q.advance.current_token.type = .TOKEN_IDENT)
    (hname : q.advance.current_token.value = some name)
    (hcolon : q.advance.advance.current_token.type = .TOKEN_COLON)
    (htype : q.advance.advance.advance.current_token.type = .TOKEN_INT
      ∨ q.advance.advance.advance.current_token.type = .TOKEN_STRING)
    (hassign : q.advance.advance.advance.advance.current_token.type = .TOKEN_ASSIGN)
    (hadv : q.advance.advance.advance.advance.advance = p)
    (he : Returns (fun n => parse_expression n p) (e, p2))
    (hne : p2.current_token.type ≠ .TOKEN_SEMICOLON) :
    Fails (fun n => parse_statement n q)
      (.expected_token .TOKEN_SEMICOLON p2.current_token.type) := by
  refine fails_step he (fun f hf => ?_)
  show parse_statement (f + 1) q = _
  rw [parse_statement]
  rcases htype with htype | htype
  · simp only [hq, if_true, expect_token_ok _ q hq]
    simp [bind, Except.bind, hname, strdup, expect_token_ok _ _ hident,
      expect_token_ok _ _ hcolon, htype, expect_token_ok _ _ htype,
      expect_token_ok _ _ hassign, hadv, hf, expect_token_error _ p2 hne]
  · simp only [hq, if_true, expect_token_ok _ q hq]
    simp [bind, Except.bind, hname, strdup, expect_token_ok _ _ hident,
      expect_token_ok _ _ hcolon, htype, expect_token_ok _ _ htype,
      expect_token_ok _ _ hassign, hadv, hf, expect_token_error _ p2 hne]

theorem parse_primary_rparen (f : Nat) (p : Parser) (r : ASTNode × Parser)
    (h : p.current_token.type = .TOKEN_RPAREN) : parse_primary f p ≠ .ok r := by
  cases f with
  | zero => simp [parse_primary]
  | succ f =>
    rw [parse_primary]
    simp [h, bind, Except.bind, ASTNode.is_null]

theorem parse_additive_rparen (f : Nat) (p : Parser) (r : ASTNode × Parser)
    (h : p.current_token.type = .TOKEN_RPAREN) : parse_additive f p ≠ .ok r := by
  intro hr
  cases f with
  | zero => simp [parse_additive] at hr
  | succ f =>
    rw [parse_additive] at hr
    obtain ⟨⟨l, p1⟩, hm, _⟩ := bind_ok hr
    cases f with
    | zero => simp [parse_multiplicative] at hm
    | succ f =>
      rw [parse_multiplicative] at hm
      obtain ⟨⟨l1, p2⟩, hu, _⟩ := bind_ok hm
      cases f with
      | zero => simp [parse_unary] at hu
      | succ f =>
        rw [parse_unary] at hu
        simp only [h] at hu
        exact parse_primary_rparen f p _ h (by simpa using hu)

theorem returns_arguments_single {p p2 : Parser} {e : ASTNode}
    (hp : p.current_token.type ≠ .TOKEN_RPAREN)
    (he : Returns (fun n => parse_expression n p) (e, p2))
    (hne : p2.current_token.type ≠ .TOKEN_COMMA) :
    Returns (fun n => parse_arguments n p) (e, p2) := by
  have hloop : Returns (fun n => parse_arguments_loop n (NodeChain.first e) p2)
      (NodeChain.first e, p2) := by
    refine ⟨1, fun g hg => ?_⟩
    obtain ⟨k, rfl⟩ : ∃ k, g = k + 1 := ⟨g - 1, by omega⟩
    show parse_arguments_loop (k + 1) _ _ = _
    rw [parse_arguments_loop]
    simp only [hne, if_false]
  refine returns_step2 he hloop (fun f h1 h2 => ?_)
  simp only at h1 h2
  show parse_arguments (f + 1) p = _
  rw [parse_arguments]
  simp only [hp, ne_eq, not_false_eq_true, if_true, h1]
  have hlink : link_right (NodeChain.first e).nodes = e := by
    cases e <;> rfl
  simp [bind, Except.bind, h2, hlink]

theorem fails_call_statement {q p p2 : Parser} {e : ASTNode} {name : String}
    (hq : q.current_token.type = .TOKEN_IDENT) (hname : q.current_token.value = some name)
    (hopen : q.advance.current_token.type = .TOKEN_LPAREN) (hadv : q.advance.advance = p)
    (he : Returns (fun n => parse_arguments n p) (e, p2))
    (hne : p2.current_token.type ≠ .TOKEN_RPAREN) :
    Fails (fun n => parse_statement n q)
      (.expected_token .TOKEN_RPAREN p2.current_token.type) := by
  refine fails_step he (fun f hf => ?_)
  show parse_statement (f + 1) q = _
  rw [parse_statement]
  simp only [hq]
  simp [bind, Except.bind, hname, strdup, hopen, expect_token_ok _ q.advance hopen, hadv, hf,
    expect_token_error _ p2 hne]

theorem fails_call_expression {q p p2 : Parser} {e : ASTNode} {name : String}
    (hq : q.current_token.type = .TOKEN_IDENT) (hname : q.current_token.value = some name)
    (hopen : q.advance.current_token.type = .TOKEN_LPAREN) (hadv : q.advance.advance = p)
    (he : Returns (fun n => parse_arguments n p) (e, p2))
    (hne : p2.current_token.type ≠ .TOKEN_RPAREN) :
    Fails (fun n => parse_primary n q)
      (.expected_token .TOKEN_RPAREN p2.current_token.type) := by
  refine fails_step he (fun f hf => ?_)
  show parse_primary (f + 1) q = _
  have hopen1 : (next_token q.lexer).1.type = .TOKEN_LPAREN := hopen
  have hadv1 : ({ q with lexer := (next_token q.lexer).2,
                         current_token := (next_token q.lexer).1 } : Parser) = q.advance := rfl
  rw [parse_primary]
  simp only [hq]
  simp [bind, Except.bind, hname, strdup, hopen1, hadv1, expect_token_ok _ q.advance hopen,
    hadv, hf, expect_token_error _ p2 hne]

theorem compare_tree_not_null (op : CompareOpType) (l r : ASTNode) :
    (compare_tree op l r).is_null = false := rfl

/-- C37: when an operand `a` is parsed (by `parse_additive`) up to a relational operator, an
operand `b` after it, and a second relational operator follows `b`, then with enough fuel
`parse_expression` returns the comparison of `a` and `b` and stops on the second operator, and
every token the callers of `parse_expression` expect next (none of them a relational operator)
is refused with the fatal error of `expect_token`: the statement fails where the expression is a
return value, the condition of an `if` or a `while`, the initializer of a declaration, or an
argument of a call statement or a call expression. With the first comparison in parentheses,
`(a op1 b) op2 c`, `parse_expression` returns the comparison of the parenthesised comparison and
`c`. -/
theorem C37_comparison_not_chained (p p1 p2 : Parser) (a b : ASTNode) (op1 op2 : CompareOpType)
    (fa fb : Nat)
    (ha : parse_additive fa p = .ok (a, p1))
    (hop1 : comparison_op p1.current_token.type = some op1)
    (hb : parse_additive fb p1.advance = .ok (b, p2))
    (hop2 : comparison_op p2.current_token.type = some op2) :
    (∃ fuel, ∀ f, fuel ≤ f → parse_expression f p = .ok (compare_tree op1 a b, p2))
    ∧ (∀ expected : TokenType, comparison_op expected = none →
        expect_token expected p2 = .error (.expected_token expected p2.current_token.type))
    ∧ (∀ q : Parser, q.current_token.type = .TOKEN_RETURN → q.advance = p →
        ∃ fuel, ∀ f, fuel ≤ f → parse_statement f q
          = .error (.expected_token .TOKEN_SEMICOLON p2.current_token.type))
    ∧ (∀ q : Parser,
        q.current_token.type = .TOKEN_IF ∨ q.current_token.type = .TOKEN_WHILE →
        q.advance.current_token.type = .TOKEN_LPAREN → q.advance.advance = p →
        ∃ fuel, ∀ f, fuel ≤ f → parse_statement f q
          = .error (.expected_token .TOKEN_RPAREN p2.current_token.type))
    ∧ (∀ (q : Parser) (name : String), q.current_token.type = .TOKEN_LET →
        q.advance.current_token.type = .TOKEN_IDENT →
        q.advance.current_token.value = some name →
        q.advance.advance.current_token.type = .TOKEN_COLON →
        (q.advance.advance.advance.current_token.type = .TOKEN_INT
          ∨ q.advance.advance.advance.current_token.type = .TOKEN_STRING) →
        q.advance.advance.advance.advance.current_token.type = .TOKEN_ASSIGN →
        q.advance.advance.advance.advance.advance = p →
        ∃ fuel, ∀ f, fuel ≤ f → parse_statement f q
          = .error (.expected_token .TOKEN_SEMICOLON p2.current_token.type))
    ∧ (∀ (q : Parser) (name : String), q.current_token.type = .TOKEN_IDENT →
        q.current_token.value = some name →
        q.advance.current_token.type = .TOKEN_LPAREN → q.advance.advance = p →
        (∃ fuel, ∀ f, fuel ≤ f → parse_statement f q
          = .error (.expected_token .TOKEN_RPAREN p2.current_token.type))
        ∧ ∃ fuel, ∀ f, fuel ≤ f → parse_primary f q
          = .error (.expected_token .TOKEN_RPAREN p2.current_token.type))
    ∧ (∀ (q q1 q2 q3 : Parser) (x y z : ASTNode) (o1 o2 : CompareOpType) (fx fy fz : Nat),
        q.current_token.type = .TOKEN_LPAREN →
        parse_additive fx q.advance = .ok (x, q1) →
        comparison_op q1.current_token.type = some o1 →
        parse_additive fy q1.advance = .ok (y, q2) →
        q2.current_token.type = .TOKEN_RPAREN →
        comparison_op q2.advance.current_token.type = some o2 →
        parse_additive fz q2.advance.advance = .ok (z, q3) →
        ∃ fuel, ∀ f, fuel ≤ f →
          parse_expression f q = .ok (compare_tree o2 (compare_tree o1 x y) z, q3))
    ∧ compile 100 "let x: int = 1 < 2 < 3;".toList
        = .error (.expected_token .TOKEN_SEMICOLON .TOKEN_LT)
    ∧ compile 100 "if (1 < 2 < 3) { }".toList
        = .error (.expected_token .TOKEN_RPAREN .TOKEN_LT)
    ∧ compile 100 "print(g(1 == 2 == 3));".toList
        = .error (.expected_token .TOKEN_RPAREN .TOKEN_EQ)
    ∧ compile 100 "fn f() -> int { return 1 < 2 < 3; }".toList
        = .error (.expected_token .TOKEN_SEMICOLON .TOKEN_LT)
    ∧ compile 100 "let x: int = (1 < 2) < 3;".toList
        = .ok [ir .IR_PUSH 1, ir .IR_PUSH 2, ir .IR_CMP 2, ir .IR_PUSH 3, ir .IR_CMP 2,
               ir .IR_STORE (-8)] := by
  have hcmp : Returns (fun n => parse_comparison n p) (compare_tree op1 a b, p2) :=
    returns_comparison_step (returns_additive ha) hop1 (returns_additive hb)
  have hexpr := returns_expression_of hcmp
  have hne : ∀ expected : TokenType, comparison_op expected = none →
      p2.current_token.type ≠ expected := fun expected h => comparison_token_ne hop2 h
  have hstart : p.current_token.type ≠ .TOKEN_RPAREN :=
    fun h => parse_additive_rparen fa p _ h ha
  have hargs := returns_arguments_single hstart hexpr (hne .TOKEN_COMMA rfl)
  refine ⟨hexpr, fun expected h => expect_token_error _ _ (hne expected h), ?_, ?_, ?_, ?_, ?_,
    by decide, by decide, by decide, by decide, by decide⟩
  · intro q hq hadv
    exact fails_return hq hadv hexpr (hne _ rfl)
  · intro q hq hopen hadv
    exact fails_condition hq hopen hadv hexpr (hne _ rfl)
  · intro q name hq hident hname hcolon htype hassign hadv
    exact fails_initializer hq hident hname hcolon htype hassign hadv hexpr (hne _ rfl)
  · intro q name hq hname hopen hadv
    exact ⟨fails_call_statement hq hname hopen hadv hargs (hne _ rfl),
      fails_call_expression hq hname hopen hadv hargs (hne _ rfl)⟩
  · intro q q1 q2 q3 x y z o1 o2 fx fy fz hopen hx ho1 hy hclose ho2 hz
    have hr := rparen_not_operator hclose
    have hinner : Returns (fun n => parse_expression n q.advance) (compare_tree o1 x y, q2) :=
      returns_expression_of
        (returns_comparison_step (returns_additive hx) ho1 (returns_additive hy))
    have hparen : Returns (fun n => parse_unary n q) (compare_tree o1 x y, q2.advance) :=
      returns_unary_primary (by rw [hopen]; decide)
        (returns_primary_paren hopen hinner (compare_tree_not_null _ _ _) hclose)
    have hno := comparison_not_arithmetic ho2
    exact returns_expression_of (returns_comparison_step
      (returns_additive_of
        (returns_multiplicative hparen (returns_multiplicative_stop _ _ hno.1))
        (returns_additive_stop _ _ hno.2))
      ho2 (returns_additive hz))

/-- Witness of C37: the text `1 < 2 < 3;`. -/
theorem C37_comparison_not_chained_witness :
    parse_additive 5 (parser_at "1 < 2 < 3;")
        = .ok (int_tree 1, (parser_at "1 < 2 < 3;").advance)
    ∧ comparison_op (parser_at "1 < 2 < 3;").advance.advance.advance.current_token.type
        = some .COMPARE_LT
    ∧ ∃ fuel, ∀ f, fuel ≤ f →
        parse_expression f (parser_at "1 < 2 < 3;")
          = .ok (compare_tree .COMPARE_LT (int_tree 1) (int_tree 2),
                 (parser_at "1 < 2 < 3;").advance.advance.advance) :=
  ⟨by decide, by decide,
   (C37_comparison_not_chained (parser_at "1 < 2 < 3;") (parser_at "1 < 2 < 3;").advance
      (parser_at "1 < 2 < 3;").advance.advance.advance (int_tree 1) (int_tree 2)
      .COMPARE_LT .COMPARE_LT 5 5 (by decide) (by decide) (by decide) (by decide)).1⟩

/-! ### The trees the parser builds -/

theorem yields_ok {α : Type} {P : α → Prop} {a : α} (h : P a) :
    Yields P (Except.ok a : Except Fatal α) := by
  intro r hr
  cases hr
  exact h

theorem yields_error {α : Type} {P : α → Prop} {e : Fatal} :
    Yields P (Except.error e : Except Fatal α) := by
  intro r hr
  cases hr

theorem yields_bind {α β : Type} {Q : α → Prop} {P : β → Prop} {x : Except Fatal α}
    {k : α → Except Fatal β} (hx : Yields Q x) (hk : ∀ a, Q a → Yields P (k a)) :
    Yields P (x >>= k) := by
  intro r h
  obtain ⟨a, ha, hr⟩ := bind_ok h
  exact hk a (hx a ha) r hr

theorem yields_bind_any {α β : Type} {P : β → Prop} {x : Except Fatal α}
    {k : α → Except Fatal β} (hk : ∀ a, Yields P (k a)) : Yields P (x >>= k) := by
  intro r h
  obtain ⟨a, _, hr⟩ := bind_ok h
  exact hk a r hr

theorem yields_ite {α : Type} {P : α → Prop} {c : Prop} [Decidable c] {a b : Except Fatal α}
    (ha : c → Yields P a) (hb : ¬ c → Yields P b) : Yields P (if c then a else b) := by
  by_cases hc : c
  · simpa [hc] using ha hc
  · simpa [hc] using hb hc

theorem expression_tree_set_right {n x : ASTNode} (hn : expression_tree n = true)
    (hx : x.is_null = false) (hxt : expression_tree x = true) :
    expression_tree (n.set_right x) = true := by
  cases n with
  | null => rfl
  | node ty l r c tb eb b fnm ps bn cnm ar vn iv sv bo co st sc =>
    simp only [ASTNode.set_right, expression_tree, Bool.and_eq_true] at hn ⊢
    refine ⟨⟨⟨?_, hn.1.1.2⟩, hxt⟩, hn.2⟩
    have h := hn.1.1.1
    cases ty <;> simp_all [expression_node_ok]

theorem set_right_not_null {n x : ASTNode} (hn : n.is_null = false) :
    (n.set_right x).is_null = false := by
  cases n with
  | null => simp [ASTNode.is_null] at hn
  | node ty l r c tb eb b fnm ps bn cnm ar vn iv sv bo co st sc => rfl

theorem expression_tree_link_right (nodes : List ASTNode)
    (h : ∀ n ∈ nodes, n.is_null = false ∧ expression_tree n = true) :
    expression_tree (link_right nodes) = true
    ∧ (nodes ≠ [] → (link_right nodes).is_null = false) := by
  induction nodes with
  | nil => exact ⟨rfl, fun h => absurd rfl h⟩
  | cons n rest ih =>
    cases rest with
    | nil => exact ⟨(h n (by simp)).2, fun _ => (h n (by simp)).1⟩
    | cons m rest =>
      have ih1 := ih (fun k hk => h k (List.mem_cons_of_mem _ hk))
      rw [link_right]
      exact ⟨expression_tree_set_right (h n (by simp)).2 (ih1.2 (by simp)) ih1.1,
        fun _ => set_right_not_null (h n (by simp)).1⟩

theorem expr_chain_first {n : ASTNode} (h : n.is_null = false ∧ expression_tree n = true) :
    ExprChain (NodeChain.first n) := by
  intro k hk
  simp only [NodeChain.first, h.1, Bool.false_eq_true, if_false, List.mem_singleton] at hk
  subst hk
  exact h

theorem expr_chain_link_after {ch : NodeChain} {n : ASTNode} (hch : ExprChain ch)
    (h : n.is_null = false ∧ expression_tree n = true) :
    Yields ExprChain (ch.link_after n) := by
  intro ch1 h1
  simp only [NodeChain.link_after, h.1, Bool.false_eq_true, if_false] at h1
  split_ifs at h1
  cases h1
  intro k hk
  rcases List.mem_append.1 hk with hk | hk
  · exact hch k hk
  · simp only [List.mem_singleton] at hk
    subst hk
    exact h

theorem parse_expression_trees (fuel : Nat) :
    (∀ p, Yields ExprResult (parse_primary fuel p))
    ∧ (∀ p, Yields (fun r => expression_tree r.1 = true) (parse_arguments fuel p))
    ∧ (∀ ch p, ExprChain ch → Yields (fun r => ExprChain r.1) (parse_arguments_loop fuel ch p))
    ∧ (∀ p, Yields ExprResult (parse_unary fuel p))
    ∧ (∀ p, Yields ExprResult (parse_multiplicative fuel p))
    ∧ (∀ l p, l.is_null = false ∧ expression_tree l = true →
        Yields ExprResult (parse_multiplicative_loop fuel l p))
    ∧ (∀ p, Yields ExprResult (parse_additive fuel p))
    ∧ (∀ l p, l.is_null = false ∧ expression_tree l = true →
        Yields ExprResult (parse_additive_loop fuel l p))
    ∧ (∀ p, Yields ExprResult (parse_comparison fuel p))
    ∧ (∀ p, Yields ExprResult (parse_expression fuel p)) := by
  induction fuel with
  | zero =>
    refine ⟨?_, ?_, ?_, ?_, ?_, ?_, ?_, ?_, ?_, ?_⟩ <;> intros <;> intro r h
    · simp [parse_primary] at h
    · simp [parse_arguments] at h
    · simp [parse_arguments_loop] at h
    · simp [parse_unary] at h
    · simp [parse_multiplicative] at h
    · simp [parse_multiplicative_loop] at h
    · simp [parse_additive] at h
    · simp [parse_additive_loop] at h
    · simp [parse_comparison] at h
    · simp [parse_expression] at h
  | succ n ih =>
    obtain ⟨ih1, ih2, ih3, ih4, ih5, ih6, ih7, ih8, ih9, ih10⟩ := ih
    refine ⟨?_, ?_, ?_, ?_, ?_, ?_, ?_, ?_, ?_, ?_⟩
    · intro p
      rw [parse_primary]
      refine yields_bind (Q := fun r => expression_tree r.1 = true) ?_ ?_
      · repeat' first
          | exact yields_error
          | refine yields_bind (ih2 _) ?_
          | refine yields_bind (ih10 _) ?_
          | refine yields_bind_any ?_
          | refine yields_ite ?_ ?_
          | refine yields_ok ?_
          | intro _
        all_goals
          simp_all [ExprResult, expression_tree, expression_node_ok, create_ast_node,
            ASTNode.set_left, ASTNode.set_int_value, ASTNode.set_string_value,
            ASTNode.set_call_name, ASTNode.set_args, ASTNode.set_var_name]
      · intro a ha
        refine yields_ite (fun _ => yields_error) (fun hnull => yields_ok ?_)
        exact ⟨by simpa using hnull, ha⟩
    · intro p
      rw [parse_arguments]
      refine yields_ite (fun _ => ?_) (fun _ => yields_ok rfl)
      refine yields_bind (ih10 _) (fun a ha => ?_)
      refine yields_bind (ih3 _ _ (expr_chain_first ha)) (fun b hb => yields_ok ?_)
      exact (expression_tree_link_right _ hb).1
    · intro ch p hch
      rw [parse_arguments_loop]
      refine yields_ite (fun _ => ?_) (fun _ => yields_ok hch)
      refine yields_bind_any (fun p1 => ?_)
      refine yields_bind (ih10 _) (fun a ha => ?_)
      refine yields_bind (expr_chain_link_after hch ha) (fun ch1 hch1 => ?_)
      exact ih3 _ _ hch1
    · intro p
      rw [parse_unary]
      refine yields_ite (fun _ => ?_) (fun _ => ih1 _)
      refine yields_bind_any (fun p1 => ?_)
      refine yields_bind (ih4 _) (fun a ha => yields_ok ?_)
      simp_all [ExprResult, expression_tree, expression_node_ok, create_ast_node,
        ASTNode.set_left, ASTNode.set_right, ASTNode.set_int_value, ASTNode.set_binop,
        ASTNode.is_null]
    · intro p
      rw [parse_multiplicative]
      exact yields_bind (ih4 _) (fun a ha => ih6 _ _ ha)
    · intro l p hl
      rw [parse_multiplicative_loop]
      refine yields_ite (fun _ => ?_) (fun _ => yields_ok hl)
      refine yields_bind (Q := fun r => ∃ op, r.1 = (create_ast_node .AST_BINOP).set_binop op)
        ?_ ?_
      · refine yields_ite (fun _ => ?_) (fun _ => ?_) <;>
          exact yields_bind_any (fun _ => yields_ok ⟨_, rfl⟩)
      · rintro ⟨node, p1⟩ ⟨op, hop⟩
        refine yields_bind (ih4 _) (fun a ha => ih6 _ _ ?_)
        simp only at hop
        subst hop
        simp_all [ExprResult, expression_tree, expression_node_ok, create_ast_node,
          ASTNode.set_left, ASTNode.set_right, ASTNode.set_binop, ASTNode.is_null]
    · intro p
      rw [parse_additive]
      exact yields_bind (ih5 _) (fun a ha => ih8 _ _ ha)
    · intro l p hl
      rw [parse_additive_loop]
      refine yields_ite (fun _ => ?_) (fun _ => yields_ok hl)
      refine yields_bind (Q := fun r => ∃ op, r.1 = (create_ast_node .AST_BINOP).set_binop op)
        ?_ ?_
      · refine yields_ite (fun _ => ?_) (fun _ => ?_) <;>
          exact yields_bind_any (fun _ => yields_ok ⟨_, rfl⟩)
      · rintro ⟨node, p1⟩ ⟨op, hop⟩
        refine yields_bind (ih5 _) (fun a ha => ih8 _ _ ?_)
        simp only at hop
        subst hop
        simp_all [ExprResult, expression_tree, expression_node_ok, create_ast_node,
          ASTNode.set_left, ASTNode.set_right, ASTNode.set_binop, ASTNode.is_null]
    · intro p
      rw [parse_comparison]
      refine yields_bind (ih7 _) (fun a ha => ?_)
      refine yields_ite (fun _ => ?_) (fun _ => yields_ok ha)
      refine yields_bind
        (Q := fun r => ∃ op, r.1 = (create_ast_node .AST_COMPARE).set_compare_op op) ?_ ?_
      · repeat' first
          | refine yields_ite (fun _ => ?_) (fun _ => ?_)
          | exact yields_bind_any (fun _ => yields_ok ⟨_, rfl⟩)
      · rintro ⟨node, p1⟩ ⟨op, hop⟩
        refine yields_bind (ih7 _) (fun b hb => yields_ok ?_)
        simp only at hop
        subst hop
        simp_all [ExprResult, expression_tree, expression_node_ok, create_ast_node,
          ASTNode.set_left, ASTNode.set_right, ASTNode.set_compare_op, ASTNode.is_null]
    · intro p
      rw [parse_expression]
      exact ih9 p

theorem link_right_closed (T : ASTNode → Bool) (hnull : T .null = true)
    (hset : ∀ n x, T n = true → T x = true → T (n.set_right x) = true) (nodes : List ASTNode)
    (h : ∀ n ∈ nodes, T n = true) : T (link_right nodes) = true := by
  induction nodes with
  | nil => exact hnull
  | cons n rest ih =>
    cases rest with
    | nil => exact h n (by simp)
    | cons m rest =>
      rw [link_right]
      exact hset _ _ (h n (by simp)) (ih (fun k hk => h k (List.mem_cons_of_mem _ hk)))

theorem link_after_closed (T : ASTNode → Bool) (hnull : T .null = true)
    (hset : ∀ n x, T n = true → T x = true → T (n.set_right x) = true) (ch : NodeChain)
    (s : ASTNode) (hch : ∀ n ∈ ch.nodes, T n = true) (hs : T s = true) :
    Yields (fun ch1 : NodeChain => ∀ n ∈ ch1.nodes, T n = true) (ch.link_after s) := by
  intro ch1 h1
  simp only [NodeChain.link_after] at h1
  split_ifs at h1 with h2 h3
  · cases h1
    intro k hk
    rcases List.mem_append.1 hk with hk | hk
    · exact hch k (List.dropLast_subset _ hk)
    · simp only [List.mem_map, Option.mem_toList, Option.mem_def] at hk
      obtain ⟨l, hl, rfl⟩ := hk
      exact hset _ _ (hch l (List.mem_of_getLast?_eq_some hl)) hnull
  · cases h1
    intro k hk
    rcases List.mem_append.1 hk with hk | hk
    · exact hch k hk
    · simp only [List.mem_singleton] at hk
      subst hk
      exact hs

theorem append_stmt_closed (T : ASTNode → Bool) (hnull : T .null = true)
    (hset : ∀ n x, T n = true → T x = true → T (n.set_right x) = true) (ch : NodeChain)
    (s : ASTNode) (hch : ∀ n ∈ ch.nodes, T n = true) (hs : T s = true) :
    Yields (fun ch1 : NodeChain => ∀ n ∈ ch1.nodes, T n = true) (ch.append_stmt s) := by
  rw [NodeChain.append_stmt]
  refine yields_ite (fun _ => yields_ok ?_) (fun _ => link_after_closed T hnull hset ch s hch hs)
  intro k hk
  simp only [NodeChain.first] at hk
  split_ifs at hk
  · simp at hk
  · simp only [List.mem_singleton] at hk
    subst hk
    exact hs

theorem statement_tree_set_right (n x : ASTNode) (hn : statement_tree n = true)
    (hx : statement_tree x = true) : statement_tree (n.set_right x) = true := by
  cases n with
  | null => rfl
  | node ty l r c tb eb b fnm ps bn cnm ar vn iv sv bo co st sc =>
    simp only [ASTNode.set_right, statement_tree, Bool.and_eq_true] at hn ⊢
    exact ⟨hn.1, hx⟩

theorem toplevel_tree_set_right (n x : ASTNode) (hn : toplevel_tree n = true)
    (hx : toplevel_tree x = true) : toplevel_tree (n.set_right x) = true := by
  cases n with
  | null => rfl
  | node ty l r c tb eb b fnm ps bn cnm ar vn iv sv bo co st sc =>
    simp only [ASTNode.set_right, toplevel_tree, Bool.and_eq_true] at hn ⊢
    exact ⟨hn.1, hx⟩

theorem param_chain_set_right (n x : ASTNode) (hn : param_chain n = true)
    (hx : param_chain x = true) : param_chain (n.set_right x) = true := by
  cases n with
  | null => rfl
  | node ty l r c tb eb b fnm ps bn cnm ar vn iv sv bo co st sc =>
    simp only [ASTNode.set_right, param_chain, Bool.and_eq_true] at hn ⊢
    exact ⟨hn.1, hx⟩

theorem toplevel_of_statement (n : ASTNode) (h : statement_tree n = true) :
    toplevel_tree n = true := by
  induction n with
  | null => rfl
  | node ty l r c tb eb b fnm ps bn cnm ar vn iv sv bo co st sc _ ihr _ _ _ _ _ _ _ _ =>
    simp only [statement_tree, Bool.and_eq_true] at h
    have hty : ty ≠ .AST_FN_DEF := by
      rintro rfl
      simp [statement_node_ok] at h
    simp only [toplevel_tree, hty, if_false, Bool.and_eq_true]
    exact ⟨h.1, ihr h.2⟩

theorem parse_statement_trees (fuel : Nat) :
    (∀ p, Yields (fun r => statement_tree r.1 = true) (parse_block fuel p))
    ∧ (∀ ch c p, StmtChain ch →
        Yields (fun r => StmtChain r.1) (parse_block_loop fuel ch c p))
    ∧ (∀ p, Yields (fun r => statement_tree r.1 = true) (parse_statement fuel p)) := by
  induction fuel with
  | zero =>
    refine ⟨?_, ?_, ?_⟩ <;> intros <;> intro r h
    · simp [parse_block] at h
    · simp [parse_block_loop] at h
    · simp [parse_statement] at h
  | succ n ih =>
    obtain ⟨ih1, ih2, ih3⟩ := ih
    have ihe := (parse_expression_trees n).2.2.2.2.2.2.2.2.2
    have iha := (parse_expression_trees n).2.1
    refine ⟨?_, ?_, ?_⟩
    · intro p
      rw [parse_block]
      refine yields_bind_any (fun p1 => ?_)
      refine yields_bind (ih2 _ _ _ (fun k hk => by simp [NodeChain.empty] at hk))
        (fun a ha => ?_)
      refine yields_bind_any (fun p3 => yields_ok ?_)
      have := link_right_closed statement_tree rfl statement_tree_set_right _ ha
      simp_all [statement_tree, statement_node_ok, create_ast_node, ASTNode.set_statements,
        ASTNode.set_stmt_count, expression_tree]
    · intro ch c p hch
      rw [parse_block_loop]
      refine yields_ite (fun _ => ?_) (fun _ => yields_ok hch)
      refine yields_bind (ih3 _) (fun a ha => ?_)
      refine yields_bind
        (append_stmt_closed statement_tree rfl statement_tree_set_right _ _ hch ha)
        (fun ch1 hch1 => ih2 _ _ _ hch1)
    · intro p
      rw [parse_statement]
      repeat' first
        | with_reducible exact yields_error
        | with_reducible exact ih1 _
        | with_reducible refine yields_bind (ihe _) ?_
        | with_reducible refine yields_bind (iha _) ?_
        | with_reducible refine yields_bind (ih1 _) ?_
        | with_reducible refine yields_bind (ih3 _) ?_
        | with_reducible refine yields_bind_any ?_
        | with_reducible refine yields_ite ?_ ?_
        | with_reducible refine yields_ok ?_
        | with_reducible intro _
        | split
      all_goals
        simp_all [ExprResult, statement_tree, statement_node_ok, expression_tree,
          create_ast_node, ASTNode.set_left, ASTNode.set_int_value, ASTNode.set_condition,
          ASTNode.set_then_block, ASTNode.set_else_block, ASTNode.set_body,
          ASTNode.set_call_name, ASTNode.set_args, ASTNode.set_var_name,
          ASTNode.set_statements, ASTNode.set_stmt_count]

theorem parse_param_tree (p : Parser) :
    Yields (fun r => param_chain r.1 = true) (parse_param p) := by
  rw [parse_param]
  repeat' first
    | with_reducible refine yields_bind_any ?_
    | with_reducible refine yields_ok ?_
    | with_reducible intro _
  rfl

theorem parse_params_loop_tree (fuel : Nat) (ch : NodeChain) (p : Parser) (hch : ParamChain ch) :
    Yields (fun r => ParamChain r.1) (parse_params_loop fuel ch p) := by
  induction fuel generalizing ch p with
  | zero =>
    intro r h
    simp [parse_params_loop] at h
  | succ n ih =>
    rw [parse_params_loop]
    refine yields_ite (fun _ => ?_) (fun _ => yields_ok hch)
    refine yields_bind_any (fun p1 => ?_)
    refine yields_bind (parse_param_tree _) (fun a ha => ?_)
    exact yields_bind (link_after_closed param_chain rfl param_chain_set_right _ _ hch ha)
      (fun ch1 hch1 => ih _ _ hch1)

theorem parse_function_tree (fuel : Nat) (p : Parser) :
    Yields (fun r => toplevel_tree r.1 = true) (parse_function fuel p) := by
  rw [parse_function]
  refine yields_bind_any (fun p1 => ?_)
  refine yields_bind_any (fun fn_name => ?_)
  refine yields_bind_any (fun p2 => ?_)
  refine yields_bind_any (fun p3 => ?_)
  refine yields_bind
    (Q := fun r => ∃ ps, param_chain ps = true
      ∧ r.1 = ((create_ast_node .AST_FN_DEF).set_fn_name (some fn_name)).set_params ps) ?_ ?_
  · refine yields_ite (fun _ => ?_) (fun _ => yields_ok ⟨.null, rfl, rfl⟩)
    refine yields_bind (parse_param_tree _) (fun a ha => ?_)
    have hfirst : ParamChain (NodeChain.first a.1) := by
      intro k hk
      simp only [NodeChain.first] at hk
      split_ifs at hk
      · simp at hk
      · simp only [List.mem_singleton] at hk
        subst hk
        exact ha
    refine yields_bind (parse_params_loop_tree _ _ _ hfirst) (fun b hb => yields_ok ?_)
    exact ⟨_, link_right_closed param_chain rfl param_chain_set_right _ hb, rfl⟩
  · rintro ⟨stmt, p5⟩ ⟨ps, hps, hstmt⟩
    simp only at hstmt
    subst hstmt
    refine yields_bind_any (fun p6 => ?_)
    refine yields_bind_any (fun p7 => ?_)
    refine yields_bind_any (fun p8 => ?_)
    refine yields_bind ((parse_statement_trees fuel).1 _) (fun a ha => yields_ok ?_)
    simp_all [toplevel_tree, create_ast_node, ASTNode.set_fn_name, ASTNode.set_params,
      ASTNode.set_body_nodes]

theorem parse_program_loop_tree (fuel : Nat) (ch : NodeChain) (c : Int) (p : Parser)
    (hch : TopChain ch) : Yields (fun r => TopChain r.1) (parse_program_loop fuel ch c p) := by
  induction fuel generalizing ch c p with
  | zero =>
    intro r h
    simp [parse_program_loop] at h
  | succ n ih =>
    rw [parse_program_loop]
    refine yields_ite (fun _ => ?_) (fun _ => yields_ok hch)
    refine yields_bind (Q := fun r => toplevel_tree r.1 = true) ?_ ?_
    · refine yields_ite (fun _ => parse_function_tree _ _) (fun _ => ?_)
      intro r hr
      exact toplevel_of_statement _ ((parse_statement_trees n).2.2 _ r hr)
    · intro a ha
      exact yields_bind (append_stmt_closed toplevel_tree rfl toplevel_tree_set_right _ _ hch ha)
        (fun ch1 hch1 => ih _ _ _ hch1)

theorem parse_program_tree (fuel : Nat) (source : List Char) :
    Yields (fun ast => toplevel_tree ast.get_statements = true) (parse_program fuel source) := by
  rw [parse_program]
  refine yields_bind (parse_program_loop_tree _ _ _ _
    (fun k hk => by simp [NodeChain.empty] at hk)) (fun a ha => yields_ok ?_)
  exact link_right_closed toplevel_tree rfl toplevel_tree_set_right _ ha

theorem only_ok {α : Type} {a : α} : OnlyUndefined (Except.ok a : Except Fatal α) := by
  intro e h
  cases h

theorem only_bind {α β : Type} {x : Except Fatal α} {k : α → Except Fatal β}
    (hx : OnlyUndefined x) (hk : ∀ a, OnlyUndefined (k a)) : OnlyUndefined (x >>= k) := by
  intro e h
  cases x with
  | error e1 =>
    have h1 : e1 = e := by simpa [bind, Except.bind] using h
    subst h1
    exact hx e1 rfl
  | ok a => exact hk a e h

theorem only_ite {α : Type} {c : Prop} [Decidable c] {a b : Except Fatal α}
    (ha : OnlyUndefined a) (hb : OnlyUndefined b) : OnlyUndefined (if c then a else b) := by
  by_cases hc : c
  · simpa [hc] using ha
  · simpa [hc] using hb

theorem only_undefined {α : Type} {name : String} :
    OnlyUndefined (Except.error (.undefined_variable name) : Except Fatal α) := by
  intro e h
  cases h
  exact ⟨name, rfl⟩

theorem scan_expression_node_only (type : ASTNodeType) (left right : ASTNode)
    (sl sr sa : Except Fatal Unit) (call_name var_name : Option String) (visible : List String)
    (hok : expression_node_ok type left right call_name var_name = true)
    (hl : OnlyUndefined sl) (hr : OnlyUndefined sr) (ha : OnlyUndefined sa) :
    OnlyUndefined (scan_expression_node type sl sr sa call_name var_name visible) := by
  cases type <;> simp only [expression_node_ok, Bool.false_eq_true] at hok <;>
    simp only [scan_expression_node] <;>
    first
      | exact only_ok
      | exact hl
      | exact only_bind hl (fun _ => hr)
      | (obtain ⟨name, rfl⟩ := Option.isSome_iff_exists.1 hok
         first
           | exact only_ite only_ok only_undefined
           | exact only_bind ha (fun _ => only_ok))

theorem scan_expression_only (visible : List String) (n : ASTNode)
    (h : expression_tree n = true) :
    OnlyUndefined (scan_expression visible n) ∧ OnlyUndefined (scan_call_args visible n) := by
  induction n with
  | null => exact ⟨only_ok, only_ok⟩
  | node ty l r c tb eb b fnm ps bn cnm ar vn iv sv bo co st sc ihl ihr _ _ _ _ _ _ iha _ =>
    simp only [expression_tree, Bool.and_eq_true] at h
    have hnode := scan_expression_node_only ty l r _ _ _ cnm vn visible h.1.1.1
      (ihl h.1.1.2).1 (ihr h.1.2).1 (iha h.2).2
    rw [scan_expression, scan_call_args]
    exact ⟨hnode, only_bind hnode (fun _ => (ihr h.1.2).2)⟩

theorem scan_statement_node_only (type : ASTNodeType) (left condition : ASTNode)
    (sl sc sa : Except Fatal Unit)
    (s_then s_else s_body s_self : List String → Except Fatal (List String)) (has_else : Bool)
    (call_name var_name : Option String) (visible : List String)
    (hok : statement_node_ok type left condition call_name var_name = true)
    (hl : OnlyUndefined sl) (hc : OnlyUndefined sc) (ha : OnlyUndefined sa)
    (h_then : ∀ v, OnlyUndefined (s_then v)) (h_else : ∀ v, OnlyUndefined (s_else v))
    (h_body : ∀ v, OnlyUndefined (s_body v)) (h_self : ∀ v, OnlyUndefined (s_self v)) :
    OnlyUndefined (scan_statement_node type sl sc sa s_then s_else s_body s_self has_else
      call_name var_name visible) := by
  cases type <;> simp only [statement_node_ok, Bool.false_eq_true, Bool.and_eq_true] at hok <;>
    simp only [scan_statement_node] <;>
    first
      | exact h_self _
      | exact only_bind hl (fun _ => only_ok)
      | exact only_bind hc (fun _ => h_body _)
      | exact only_bind hc (fun _ => only_bind (h_then _)
          (fun _ => only_ite (h_else _) only_ok))
      | (obtain ⟨name, rfl⟩ := Option.isSome_iff_exists.1 hok
         exact only_bind ha (fun _ => only_ok))
      | (obtain ⟨name, rfl⟩ := Option.isSome_iff_exists.1 hok.1
         first
           | exact only_bind hl (fun _ => only_ok)
           | exact only_bind hl (fun _ => only_ite only_ok only_undefined))

theorem scan_statement_only (n : ASTNode) (h : statement_tree n = true) :
    (∀ v, OnlyUndefined (scan_statement n v)) ∧ (∀ v, OnlyUndefined (scan_block n v))
    ∧ (∀ v, OnlyUndefined (scan_statement_list n v)) := by
  induction n with
  | null => exact ⟨fun _ => only_ok, fun _ => only_ok, fun _ => only_ok⟩
  | node ty l r c tb eb b fnm ps bn cnm ar vn iv sv bo co st sc _ ihr _ ihtb iheb ihb _ _ _
      ihst =>
    simp only [statement_tree, Bool.and_eq_true] at h
    obtain ⟨⟨⟨⟨⟨⟨⟨⟨hok, hl⟩, hc⟩, ha⟩, htb⟩, heb⟩, hb⟩, hst⟩, hr⟩ := h
    have hnode : ∀ v, OnlyUndefined (scan_statement_node ty (scan_expression v l)
        (scan_expression v c) (scan_call_args v ar) (scan_block tb) (scan_block eb)
        (scan_block b) (scan_statement_list st) (!eb.is_null) cnm vn v) := fun v =>
      scan_statement_node_only ty l c _ _ _ _ _ _ _ _ cnm vn v hok
        (scan_expression_only v l hl).1 (scan_expression_only v c hc).1
        (scan_expression_only v ar ha).2 (ihtb htb).2.1 (iheb heb).2.1 (ihb hb).2.1
        (ihst hst).2.2
    refine ⟨fun v => ?_, fun v => ?_, fun v => ?_⟩
    · rw [scan_statement]
      exact hnode v
    · rw [scan_block]
      exact only_ite only_ok ((ihst hst).2.2 v)
    · rw [scan_statement_list]
      exact only_bind (hnode v) (fun v1 => (ihr hr).2.2 v1)

theorem scan_params_only (n : ASTNode) (h : param_chain n = true) (v : List String) :
    OnlyUndefined (scan_params n v) := by
  induction n generalizing v with
  | null => exact only_ok
  | node ty l r c tb eb b fnm ps bn cnm ar vn iv sv bo co st sc _ ihr _ _ _ _ _ _ _ _ =>
    simp only [param_chain, Bool.and_eq_true] at h
    obtain ⟨name, rfl⟩ := Option.isSome_iff_exists.1 h.1
    rw [scan_params]
    exact ihr h.2 _

theorem scan_toplevel_only (n : ASTNode) (h : toplevel_tree n = true) (v : List String) :
    OnlyUndefined (scan_toplevel n v) := by
  induction n generalizing v with
  | null => exact only_ok
  | node ty l r c tb eb b fnm ps bn cnm ar vn iv sv bo co st sc _ ihr _ _ _ _ _ _ _ _ =>
    simp only [toplevel_tree, Bool.and_eq_true] at h
    rw [scan_toplevel]
    refine only_bind ?_ (fun v1 => ihr h.2 v1)
    by_cases hty : ty = .AST_FN_DEF
    · simp only [hty, if_true, Bool.and_eq_true] at h ⊢
      obtain ⟨name, rfl⟩ := Option.isSome_iff_exists.1 h.1.1.1
      rw [scan_function]
      exact only_bind (scan_params_only _ h.1.1.2 _)
        (fun _ => only_bind ((scan_statement_only _ h.1.2).2.1 _) (fun _ => only_ok))
    · simp only [hty, if_false] at h ⊢
      have hs : statement_tree (.node ty l .null c tb eb b fnm ps bn cnm ar vn iv sv bo co st sc)
          = true := by
        simp only [statement_tree, Bool.and_eq_true] at h ⊢
        exact ⟨h.1, trivial⟩
      have hscan := (scan_statement_only _ hs).1 v
      rw [scan_statement] at hscan ⊢
      exact hscan

theorem scan_program_only (ast : ASTNode) (h : toplevel_tree ast.get_statements = true) :
    OnlyUndefined (scan_program ast) := by
  cases ast with
  | null => exact only_ok
  | node ty l r c tb eb b fnm ps bn cnm ar vn iv sv bo co st sc =>
    rw [scan_program]
    exact only_ite only_ok (only_bind (scan_toplevel_only _ h _) (fun _ => only_ok))

/-- C40: a tree `parse_program` returns is built of nodes the generator has a case for: every
node in expression position is an integer literal, a string literal, a variable, a binary
operation, a comparison, a call expression or a `malloc`, with the fields its case reads, and
every node in statement position is of a kind `gen_statement` handles (`toplevel_tree`). So
`generate_code` on it never takes the `unexpected node type` exit of `gen_expression` or of
`gen_statement`: when it fails, it fails with an undefined variable, and so does the pipeline
once the parser has accepted the source. -/
theorem C40_parser_trees_accepted (fuel : Nat) (source : List Char) (ast : ASTNode)
    (h : parse_program fuel source = .ok ast) :
    toplevel_tree ast.get_statements = true
    ∧ (∀ t, generate_code ast ≠ .error (.unexpected_expression_node t))
    ∧ (∀ t, generate_code ast ≠ .error (.unexpected_statement_node t))
    ∧ (∀ e, generate_code ast = .error e → ∃ name, e = .undefined_variable name)
    ∧ (∀ e, compile fuel source = .error e → ∃ name, e = .undefined_variable name) := by
  have htree := parse_program_tree fuel source ast h
  have honly : ∀ e, generate_code ast = .error e → ∃ name, e = .undefined_variable name :=
    fun e he => scan_program_only ast htree e ((generate_code_scan ast e).1 he)
  refine ⟨htree, fun t ht => ?_, fun t ht => ?_, honly, fun e he => ?_⟩
  · obtain ⟨name, hname⟩ := honly _ ht
    cases hname
  · obtain ⟨name, hname⟩ := honly _ ht
    cases hname
  · refine honly e ?_
    rw [compile, h] at he
    exact he

set_option maxRecDepth 20000 in
/-- Witness of C40: the function of `loop_function_source` is accepted by the parser and its
tree is lowered without failure; a program that reads a name never declared is accepted by
the parser and fails in the generator with that undefined variable. -/
theorem C40_parser_trees_accepted_witness :
    parse_program 100 loop_function_source.data = .ok (program_tree loop_function_source)
    ∧ toplevel_tree (program_tree loop_function_source).get_statements = true
    ∧ (∀ e, generate_code (program_tree loop_function_source) = .error e →
        ∃ name, e = .undefined_variable name)
    ∧ compile 100 "print(y);".data = .error (.undefined_variable "y") :=
  ⟨by decide,
   (C40_parser_trees_accepted 100 loop_function_source.data
      (program_tree loop_function_source) (by decide)).1,
   (C40_parser_trees_accepted 100 loop_function_source.data
      (program_tree loop_function_source) (by decide)).2.2.2.1,
   by decide⟩

/-! ### Stack effect of the lowered IR -/

theorem net_effect_append (a b : List IRInstruction) :
    net_effect (a ++ b) = net_effect a + net_effect b := by
  simp [net_effect]

theorem call_arguments_append (a b : List IRInstruction) :
    call_arguments (a ++ b) = call_arguments a + call_arguments b := by
  simp [call_arguments]

theorem net_effect_binop (op : BinOpType) : net_effect [binop_ir op] = -1 := by
  cases op <;> rfl

theorem call_arguments_binop (op : BinOpType) : call_arguments [binop_ir op] = 0 := by
  cases op <;> rfl

theorem net_effect_single (op : IROp) (operand : Int) (label : Option String)
    (str_value : Option String) :
    net_effect [{ op := op, operand := operand, label := label, str_value := str_value }]
      = spec_stack_effect op := by
  simp [net_effect]

theorem call_arguments_single (op : IROp) (operand : Int) (label : Option String)
    (str_value : Option String) :
    call_arguments [{ op := op, operand := operand, label := label, str_value := str_value }]
      = if op = .IR_CALL then operand else 0 := by
  simp [call_arguments]

theorem expression_node_effect (ρ : String → Int) (type : ASTNodeType) (left right : ASTNode)
    (low_left low_right low_args : List IRInstruction) (arg_count : Int)
    (call_name var_name : Option String) (int_value : Int) (string_value : Option String)
    (binop : BinOpType) (compare_op : CompareOpType)
    (hok : expression_node_ok type left right call_name var_name = true)
    (hl : left.is_null = false → net_effect low_left = 1 + call_arguments low_left)
    (hr : right.is_null = false → net_effect low_right = 1 + call_arguments low_right)
    (ha : net_effect low_args = arg_count + call_arguments low_args) :
    net_effect (lower_expression_node ρ type low_left low_right low_args arg_count call_name
        var_name int_value string_value binop compare_op)
      = 1 + call_arguments (lower_expression_node ρ type low_left low_right low_args arg_count
          call_name var_name int_value string_value binop compare_op) := by
  cases type <;>
    simp only [expression_node_ok, Bool.false_eq_true, Bool.and_eq_true, Bool.not_eq_true']
      at hok <;>
    simp only [lower_expression_node, net_effect_append, call_arguments_append,
      net_effect_binop, call_arguments_binop, ir, ir_label, net_effect_single,
      call_arguments_single, spec_stack_effect, reduceCtorEq, if_false, if_true]
  all_goals
    first
      | rfl
      | omega
      | (have h1 := hl hok.1
         have h2 := hr hok.2
         omega)
      | (have h1 := hl hok
         omega)

theorem expression_effect (ρ : String → Int) (n : ASTNode) (h : expression_tree n = true) :
    (n.is_null = false →
      net_effect (lower_expression ρ n) = 1 + call_arguments (lower_expression ρ n))
    ∧ net_effect (lower_call_args ρ n)
        = chain_length n + call_arguments (lower_call_args ρ n) := by
  induction n with
  | null => exact ⟨fun h => by simp [ASTNode.is_null] at h, rfl⟩
  | node ty l r c tb eb b fnm ps bn cnm ar vn iv sv bo co st sc ihl ihr _ _ _ _ _ _ iha _ =>
    simp only [expression_tree, Bool.and_eq_true] at h
    have hnode := expression_node_effect ρ ty l r (lower_expression ρ l) (lower_expression ρ r)
      (lower_call_args ρ ar) (chain_length ar) cnm vn iv sv bo co h.1.1.1
      (ihl h.1.1.2).1 (ihr h.1.2).1 (iha h.2).2
    rw [lower_expression, lower_call_args, net_effect_append, call_arguments_append,
      chain_length]
    refine ⟨fun _ => hnode, ?_⟩
    have h2 := (ihr h.1.2).2
    omega

theorem net_effect_nil : net_effect [] = 0 := rfl

theorem call_arguments_nil : call_arguments [] = 0 := rfl

theorem net_effect_cons (instr : IRInstruction) (rest : List IRInstruction) :
    net_effect (instr :: rest) = spec_stack_effect instr.op + net_effect rest := by
  simp [net_effect]

theorem call_arguments_cons (instr : IRInstruction) (rest : List IRInstruction) :
    call_arguments (instr :: rest)
      = (if instr.op = .IR_CALL then instr.operand else 0) + call_arguments rest := by
  simp [call_arguments]

theorem statement_node_effect (ρ : String → Int) (type : ASTNodeType) (left condition : ASTNode)
    (low_left low_condition low_args : List IRInstruction) (arg_count : Int)
    (low_then low_else low_body low_self : Nat → List IRInstruction) (n_then : Nat)
    (has_else : Bool) (call_name var_name : Option String) (k : Nat)
    (hok : statement_node_ok type left condition call_name var_name = true)
    (hl : left.is_null = false → net_effect low_left = 1 + call_arguments low_left)
    (hc : condition.is_null = false →
      net_effect low_condition = 1 + call_arguments low_condition)
    (ha : net_effect low_args = arg_count + call_arguments low_args)
    (h_then : ∀ j, net_effect (low_then j) = call_arguments (low_then j))
    (h_else : ∀ j, net_effect (low_else j) = call_arguments (low_else j))
    (h_body : ∀ j, net_effect (low_body j) = call_arguments (low_body j))
    (h_self : ∀ j, net_effect (low_self j) = call_arguments (low_self j)) :
    net_effect (lower_statement_node ρ type low_left low_condition low_args arg_count low_then
        low_else low_body low_self n_then has_else call_name var_name k)
      = call_arguments (lower_statement_node ρ type low_left low_condition low_args arg_count
          low_then low_else low_body low_self n_then has_else call_name var_name k) := by
  cases type <;>
    simp only [statement_node_ok, Bool.false_eq_true, Bool.and_eq_true, Bool.not_eq_true']
      at hok <;>
    simp only [lower_statement_node]
  all_goals
    try cases has_else
  all_goals
    try simp only [net_effect_append, call_arguments_append, ir, ir_label, net_effect_cons,
      call_arguments_cons, net_effect_nil, call_arguments_nil, spec_stack_effect, reduceCtorEq,
      if_false, if_true, Bool.false_eq_true]
  all_goals
    first
      | exact h_self _
      | (have h1 := hl hok
         omega)
      | (have h1 := hl hok.2
         omega)
      | (have h1 := hc hok
         have h2 := h_then (k + 2)
         have h3 := h_else (k + 2 + n_then)
         have h4 := h_body (k + 2)
         omega)
      | omega

theorem statement_effect (ρ : String → Int) (n : ASTNode) (h : statement_tree n = true) :
    (∀ k, net_effect (lower_statement ρ n k) = call_arguments (lower_statement ρ n k))
    ∧ (∀ k, net_effect (lower_block ρ n k) = call_arguments (lower_block ρ n k))
    ∧ (∀ k, net_effect (lower_statement_list ρ n k)
        = call_arguments (lower_statement_list ρ n k)) := by
  induction n with
  | null => exact ⟨fun _ => rfl, fun _ => rfl, fun _ => rfl⟩
  | node ty l r c tb eb b fnm ps bn cnm ar vn iv sv bo co st sc _ ihr _ ihtb iheb ihb _ _ _
      ihst =>
    simp only [statement_tree, Bool.and_eq_true] at h
    obtain ⟨⟨⟨⟨⟨⟨⟨⟨hok, hl⟩, hc⟩, ha⟩, htb⟩, heb⟩, hb⟩, hst⟩, hr⟩ := h
    have hnode := fun k => statement_node_effect ρ ty l c (lower_expression ρ l)
      (lower_expression ρ c) (lower_call_args ρ ar) (chain_length ar) (lower_block ρ tb)
      (lower_block ρ eb) (lower_block ρ b) (lower_statement_list ρ st) (label_count_block tb)
      (!eb.is_null) cnm vn k hok (expression_effect ρ l hl).1 (expression_effect ρ c hc).1
      (expression_effect ρ ar ha).2 (ihtb htb).2.1 (iheb heb).2.1 (ihb hb).2.1 (ihst hst).2.2
    refine ⟨fun k => ?_, fun k => ?_, fun k => ?_⟩
    · rw [lower_statement]
      exact hnode k
    · rw [lower_block]
      split_ifs
      · rfl
      · exact (ihst hst).2.2 k
    · rw [lower_statement_list, net_effect_append, call_arguments_append, hnode k,
        (ihr hr).2.2]

theorem asm_instruction_net_words (macos : Bool) (program : List IRInstruction)
    (instruction_num : Nat) (instr : IRInstruction) (hret : instr.op ≠ .IR_RET)
    (hcmp : instr.op ≠ .IR_CMP) (hlabel : instr.op ≠ .IR_LABEL) :
    net_words (asm_instruction macos program instruction_num instr)
      = spec_stack_effect instr.op := by
  unfold asm_instruction
  cases hop : instr.op <;> simp only [hop, ne_eq, not_true_eq_false] at hret hcmp hlabel ⊢
  all_goals
    try split_ifs
  all_goals
    first
      | (simp [net_words, count_pushes, count_pops, spec_stack_effect, String.data_append,
          List.isPrefixOf, asm_print_call, List.filter]
         done)
      | (cases instr.label <;>
          simp [net_words, count_pushes, count_pops, spec_stack_effect, String.data_append,
            List.isPrefixOf, asm_print_call, List.filter]
         done)
      | (cases macos <;>
          simp [net_words, count_pushes, count_pops, spec_stack_effect, String.data_append,
            List.isPrefixOf, asm_print_call, List.filter])

theorem asm_ret_net_words (macos : Bool) (program : List IRInstruction)
    (instruction_num : Nat) (instr : IRInstruction) (hret : instr.op = .IR_RET) :
    net_words (asm_instruction macos program instruction_num instr) = -2 := by
  unfold asm_instruction
  simp [hret, net_words, count_pushes, count_pops, List.isPrefixOf, List.filter]

theorem asm_cmp_net_words (macos : Bool) (program : List IRInstruction)
    (instruction_num : Nat) (op : CompareOpType) :
    net_words ((asm_instruction macos program instruction_num (ir .IR_CMP op.toInt)).take 6)
      = -1
    ∧ net_words ((asm_instruction macos program instruction_num (ir .IR_CMP op.toInt)).take 4
        ++ (asm_instruction macos program instruction_num (ir .IR_CMP op.toInt)).drop 6) = -1
    ∧ (asm_instruction macos program instruction_num (ir .IR_CMP op.toInt)).drop 4
        = ["    push 0\n", "    jmp " ++ (".cmp_end_" ++ Nat.repr instruction_num) ++ "\n",
           ".cmp_true_" ++ Nat.repr instruction_num ++ ":\n", "    push 1\n",
           ".cmp_end_" ++ Nat.repr instruction_num ++ ":\n"] := by
  cases op <;>
    simp [asm_instruction, ir, CompareOpType.toInt, net_words, count_pushes, count_pops,
      String.data_append, List.isPrefixOf, List.filter]

theorem call_arguments_zero (code : List IRInstruction)
    (h : ∀ instr ∈ code, instr.op = .IR_CALL → instr.operand = 0) : call_arguments code = 0 := by
  induction code with
  | nil => rfl
  | cons instr rest ih =>
    rw [call_arguments_cons, ih (fun i hi => h i (List.mem_cons_of_mem _ hi))]
    by_cases hop : instr.op = .IR_CALL
    · simp [hop, h instr (List.mem_cons_self _ _) hop]
    · simp [hop]

/-- C34 (counterexample): the call statement `f(1);` is lowered to PUSH 1, CALL 1 `_f`, POP,
whose tabulated effects sum to +1, not 0; the call expression `f(1, 2)` is lowered to PUSH 1,
PUSH 2, CALL 2 `_f`, whose effects sum to +3, not +1; and the translation of the CALL is
`call _f` followed by `push rax`, which pops no argument. -/
theorem C34_call_arguments_stay_on_stack :
    gen_statement call_statement_tree CodeGen.init
      = .ok { CodeGen.init with
          current_program := [ir .IR_PUSH 1, ir_label .IR_CALL 1 "_f", ir .IR_POP 0] }
    ∧ net_effect [ir .IR_PUSH 1, ir_label .IR_CALL 1 "_f", ir .IR_POP 0] = 1
    ∧ gen_expression call_expression_tree CodeGen.init
      = .ok { CodeGen.init with
          current_program := [ir .IR_PUSH 1, ir .IR_PUSH 2, ir_label .IR_CALL 2 "_f"] }
    ∧ net_effect [ir .IR_PUSH 1, ir .IR_PUSH 2, ir_label .IR_CALL 2 "_f"] = 3
    ∧ asm_instruction false [ir .IR_PUSH 1, ir_label .IR_CALL 1 "_f", ir .IR_POP 0] 1
        (ir_label .IR_CALL 1 "_f") = ["    call _f\n", "    push rax\n"] := by
  decide

/-- C34 (amended): with the tabulated effects, the IR that `gen_expression` appends for an
expression the parser returns sums to 1 plus the argument counts carried by its CALL
instructions, and the IR that `gen_statement` appends for a statement the parser returns sums to
those argument counts; the same holds of the lowering under every assignment of offsets, and the
argument counts sum to 0 when every CALL carries the count 0. The tabulated effect of an
instruction is the number of `push` lines minus the number of `pop` lines of its translation,
for every kind but LABEL (a label line), RET (two `pop` lines, for the result and for `rbp`)
and CMP (two `pop` lines, then one `push` line on either path of its branch). -/
theorem C34_stack_effect_counts_call_arguments (fuel : Nat) (p p1 : Parser) (tree : ASTNode)
    (cg cg1 : CodeGen) :
    (parse_expression fuel p = .ok (tree, p1) →
      (∀ ρ, net_effect (lower_expression ρ tree)
          = 1 + call_arguments (lower_expression ρ tree))
      ∧ (gen_expression tree cg = .ok cg1 →
          ∃ code, cg1.current_program = cg.current_program ++ code
            ∧ net_effect code = 1 + call_arguments code))
    ∧ (parse_statement fuel p = .ok (tree, p1) →
      (∀ ρ k, net_effect (lower_statement ρ tree k)
          = call_arguments (lower_statement ρ tree k))
      ∧ (gen_statement tree cg = .ok cg1 →
          ∃ code, cg1.current_program = cg.current_program ++ code
            ∧ net_effect code = call_arguments code))
    ∧ (∀ code : List IRInstruction,
        (∀ instr ∈ code, instr.op = .IR_CALL → instr.operand = 0) → call_arguments code = 0)
    ∧ (∀ macos program instruction_num instr, instr.op ≠ .IR_RET → instr.op ≠ .IR_CMP →
        instr.op ≠ .IR_LABEL →
        net_words (asm_instruction macos program instruction_num instr)
          = spec_stack_effect instr.op)
    ∧ (∀ macos program instruction_num instr, instr.op = .IR_RET →
        net_words (asm_instruction macos program instruction_num instr) = -2)
    ∧ (∀ macos program instruction_num (op : CompareOpType),
        net_words
            ((asm_instruction macos program instruction_num (ir .IR_CMP op.toInt)).take 6) = -1
        ∧ net_words
            ((asm_instruction macos program instruction_num (ir .IR_CMP op.toInt)).take 4
              ++ (asm_instruction macos program instruction_num (ir .IR_CMP op.toInt)).drop 6)
            = -1) := by
  refine ⟨fun h => ?_, fun h => ?_, call_arguments_zero, asm_instruction_net_words,
    asm_ret_net_words, fun macos program i op => ?_⟩
  · have ht := (parse_expression_trees fuel).2.2.2.2.2.2.2.2.2 p _ h
    refine ⟨fun ρ => (expression_effect ρ tree ht.2).1 ht.1, fun hg => ?_⟩
    exact ⟨_, gen_expression_program tree cg cg1 hg, (expression_effect _ tree ht.2).1 ht.1⟩
  · have ht := (parse_statement_trees fuel).2.2 p _ h
    refine ⟨fun ρ k => (statement_effect ρ tree ht).1 k, fun hg => ?_⟩
    obtain ⟨_, _, hp⟩ := (gen_statement_spec tree).1 cg cg1 hg
    exact ⟨_, hp _ (agrees_scope_offsets _), (statement_effect _ tree ht).1 _⟩
  · exact ⟨(asm_cmp_net_words macos program i op).1, (asm_cmp_net_words macos program i op).2.1⟩

set_option maxRecDepth 20000 in
/-- Witness of C34: the statement `f(1);` sums to its one argument, and the expression
`1 + g()`, whose call has no argument, sums to +1. -/
theorem C34_stack_effect_counts_call_arguments_witness :
    net_effect (lower_statement (fun _ => 0) call_statement_tree 0)
      = call_arguments (lower_statement (fun _ => 0) call_statement_tree 0)
    ∧ call_arguments (lower_statement (fun _ => 0) call_statement_tree 0) = 1
    ∧ net_effect (lower_expression (fun _ => 0)
        (parsed_node (parse_expression 100 (parser_at "1 + g()")))) = 1 :=
  ⟨((C34_stack_effect_counts_call_arguments 100 (parser_at "f(1);")
      (parsed_rest (parse_statement 100 (parser_at "f(1);")) (parser_at "f(1);"))
      call_statement_tree CodeGen.init CodeGen.init).2.1 (by decide)).1 _ 0,
   by decide, by decide⟩

/-! ### Arithmetic expressions: parsing, lowering, evaluation -/

theorem advance_by_add (m n : Nat) (p : Parser) :
    advance_by (m + n) p = advance_by n (advance_by m p) := by
  induction m generalizing p with
  | zero => simp [advance_by]
  | succ m ih =>
    rw [Nat.succ_add, advance_by, advance_by, ih]

theorem advance_by_succ (n : Nat) (p : Parser) :
    advance_by (n + 1) p = (advance_by n p).advance := by
  rw [advance_by_add]
  rfl

theorem reads_append (a b : List (TokenType × Option String)) (p : Parser) :
    reads (a ++ b) p = (reads a p && reads b (advance_by a.length p)) := by
  induction a generalizing p with
  | nil => simp [reads, advance_by]
  | cons t rest ih =>
    obtain ⟨type, text⟩ := t
    simp only [List.cons_append, reads, List.append_eq, ih, List.length_cons, advance_by,
      Bool.and_assoc]

theorem reads_cons {type : TokenType} {text : Option String}
    {rest : List (TokenType × Option String)} {p : Parser}
    (h : reads ((type, text) :: rest) p = true) :
    p.current_token.type = type ∧ (type = .TOKEN_INT_LIT → p.current_token.value = text)
      ∧ reads rest p.advance = true := by
  simp only [reads, Bool.and_eq_true, decide_eq_true_eq] at h
  exact ⟨h.1.1, h.1.2, h.2⟩

theorem arith_tree_not_null (e : Arith) : e.tree.is_null = false := by
  induction e with
  | lit digits => rfl
  | neg operand _ => rfl
  | paren inner ih => exact ih
  | bin op left right _ _ => rfl

theorem arith_render_length (e : Arith) : 0 < e.render.length := by
  cases e <;> simp [Arith.render]

theorem arith_unary_to_multiplicative {p p1 : Parser} {tree : ASTNode}
    (h : Returns (fun n => parse_unary n p) (tree, p1)) (res : ASTNode × Parser)
    (hloop : Returns (fun n => parse_multiplicative_loop n tree p1) res) :
    Returns (fun n => parse_multiplicative n p) res :=
  returns_multiplicative h hloop

theorem arith_multiplicative_to_additive {p p1 : Parser} {tree : ASTNode}
    (h : ∀ res, Returns (fun n => parse_multiplicative_loop n tree p1) res →
      Returns (fun n => parse_multiplicative n p) res)
    (hnext : multiplicative_op p1.current_token.type = none) (res : ASTNode × Parser)
    (hloop : Returns (fun n => parse_additive_loop n tree p1) res) :
    Returns (fun n => parse_additive n p) res :=
  returns_additive_of (h _ (returns_multiplicative_stop tree p1 hnext)) hloop

theorem arith_parsed (e : Arith) (hwf : e.well_formed = true) :
    ∀ p, reads e.render p = true →
      (e.level ≤ 1 →
        Returns (fun n => parse_unary n p) (e.tree, advance_by e.render.length p))
      ∧ (e.level ≤ 2 → ∀ res,
          Returns (fun n => parse_multiplicative_loop n e.tree
            (advance_by e.render.length p)) res →
          Returns (fun n => parse_multiplicative n p) res)
      ∧ (multiplicative_op (advance_by e.render.length p).current_token.type = none →
          ∀ res,
          Returns (fun n => parse_additive_loop n e.tree (advance_by e.render.length p)) res →
          Returns (fun n => parse_additive n p) res) := by
  induction e with
  | lit digits =>
    intro p hr
    obtain ⟨htype, hvalue, _⟩ := reads_cons hr
    have hu : Returns (fun n => parse_unary n p)
        ((Arith.lit digits).tree, advance_by (Arith.lit digits).render.length p) :=
      returns_unary_primary (by rw [htype]; decide) (returns_primary_int htype (hvalue rfl))
    exact ⟨fun _ => hu, fun _ => arith_unary_to_multiplicative hu,
      fun hnext => arith_multiplicative_to_additive (arith_unary_to_multiplicative hu) hnext⟩
  | neg operand ih =>
    intro p hr
    simp only [Arith.well_formed, Bool.and_eq_true, decide_eq_true_eq] at hwf
    obtain ⟨htype, _, hrest⟩ := reads_cons hr
    have hu : Returns (fun n => parse_unary n p)
        ((Arith.neg operand).tree, advance_by (Arith.neg operand).render.length p) :=
      returns_unary_minus htype ((ih hwf.2 p.advance hrest).1 hwf.1)
    exact ⟨fun _ => hu, fun _ => arith_unary_to_multiplicative hu,
      fun hnext => arith_multiplicative_to_additive (arith_unary_to_multiplicative hu) hnext⟩
  | paren inner ih =>
    intro p hr
    simp only [Arith.well_formed] at hwf
    simp only [Arith.render, List.cons_append] at hr
    obtain ⟨htype, _, hrest⟩ := reads_cons hr
    rw [reads_append, Bool.and_eq_true] at hrest
    obtain ⟨hclose, _, _⟩ := reads_cons hrest.2
    obtain ⟨hm, ha, hc⟩ := rparen_not_operator hclose
    have hinner := (ih hwf p.advance hrest.1).2.2 hm _ (returns_additive_stop _ _ ha)
    have hprimary := returns_primary_paren htype
      (returns_expression_of (returns_comparison_none hinner hc)) (arith_tree_not_null inner)
      hclose
    have hlen : advance_by (Arith.paren inner).render.length p
        = (advance_by inner.render.length p.advance).advance := by
      simp only [Arith.render, List.length_cons, List.length_append, List.length_nil]
      rw [advance_by_succ]
      rfl
    have hu : Returns (fun n => parse_unary n p)
        ((Arith.paren inner).tree, advance_by (Arith.paren inner).render.length p) := by
      rw [hlen]
      exact returns_unary_primary (by rw [htype]; decide) hprimary
    exact ⟨fun _ => hu, fun _ => arith_unary_to_multiplicative hu,
      fun hnext => arith_multiplicative_to_additive (arith_unary_to_multiplicative hu) hnext⟩
  | bin op left right ihl ihr =>
    intro p hr
    simp only [Arith.well_formed, Bool.and_eq_true, decide_eq_true_eq] at hwf
    obtain ⟨⟨⟨hll, hrl⟩, hwl⟩, hwr⟩ := hwf
    simp only [Arith.render] at hr ⊢
    rw [reads_append, Bool.and_eq_true] at hr
    obtain ⟨hop, _, hrr⟩ := reads_cons hr.2
    have hlen : advance_by (left.render ++ (op_token op, none) :: right.render).length p
        = advance_by right.render.length (advance_by left.render.length p).advance := by
      rw [List.length_append, List.length_cons, advance_by_add, Nat.add_comm, advance_by_add]
      rfl
    rw [hlen]
    have hmult : Arith.level (Arith.bin op left right) ≤ 2 → ∀ res,
        Returns (fun n => parse_multiplicative_loop n (Arith.bin op left right).tree
          (advance_by right.render.length (advance_by left.render.length p).advance)) res →
        Returns (fun n => parse_multiplicative n p) res := by
      intro hlevel res hloop
      have hop2 : multiplicative_op (advance_by left.render.length p).current_token.type
          = some op := by
        rw [hop]
        cases op <;> simp [Arith.level, op_level] at hlevel <;> rfl
      have hlevel2 : op_level op = 2 := by
        cases op <;> simp [Arith.level, op_level] at hlevel ⊢
      refine (ihl hwl p hr.1).2.1 (by omega) res ?_
      exact returns_multiplicative_step hop2
        ((ihr hwr _ hrr).1 (by omega)) hloop
    refine ⟨fun hlevel => ?_, hmult, fun hnext res hloop => ?_⟩
    · cases op <;> simp [Arith.level, op_level] at hlevel
    · by_cases hlevel : op_level op = 2
      · exact arith_multiplicative_to_additive
          (hmult (by simp [Arith.level, hlevel])) hnext res hloop
      · have hop3 : additive_op (advance_by left.render.length p).current_token.type
            = some op := by
          rw [hop]
          cases op <;> simp [op_level] at hlevel <;> rfl
        have hlevel3 : op_level op = 3 := by
          cases op <;> simp [op_level] at hlevel ⊢
        have hm : multiplicative_op (advance_by left.render.length p).current_token.type
            = none := by
          rw [hop]
          cases op <;> simp [op_level] at hlevel <;> rfl
        refine (ihl hwl p hr.1).2.2 hm res ?_
        refine returns_additive_step hop3 ?_ hloop
        exact (ihr hwr _ hrr).2.1 (by omega) _ (returns_multiplicative_stop _ _ hnext)

theorem gen_binop_tree (op : BinOpType) (l r : ASTNode) (cg cg1 cg2 : CodeGen)
    (hl : gen_expression l cg = .ok cg1) (hr : gen_expression r cg1 = .ok cg2) :
    ∃ cg3, gen_expression (binop_tree op l r) cg = .ok cg3 := by
  simp only [binop_tree, create_ast_node, ASTNode.set_binop, ASTNode.set_left,
    ASTNode.set_right, gen_expression, gen_expression_node, hl, hr, bind, Except.bind]
  cases op <;> exact ⟨_, rfl⟩

theorem gen_arith_ok (e : Arith) : ∀ cg, ∃ cg1, gen_expression e.tree cg = .ok cg1 := by
  induction e with
  | lit digits => exact fun cg => ⟨_, rfl⟩
  | neg operand ih =>
    intro cg
    obtain ⟨cg1, h1⟩ := ih (cg.emit .IR_PUSH 0 none)
    exact gen_binop_tree _ _ _ cg _ _ rfl h1
  | paren inner ih => exact ih
  | bin op left right ihl ihr =>
    intro cg
    obtain ⟨cg1, h1⟩ := ihl cg
    obtain ⟨cg2, h2⟩ := ihr cg1
    exact gen_binop_tree _ _ _ cg _ _ h1 h2

theorem gen_arith (e : Arith) (cg : CodeGen) :
    gen_expression e.tree cg
      = .ok { cg with current_program :=
          cg.current_program ++ lower_expression (scope_offsets cg.current_scope) e.tree } := by
  obtain ⟨cg1, h⟩ := gen_arith_ok e cg
  obtain ⟨hs, hl, hp⟩ := (gen_expression_spec e.tree).1 cg cg1 h
  rw [h]
  congr 1
  cases cg1
  simp only at hs hl
  simp only [hs, hl, CodeGen.mk.injEq, and_true]
  exact hp _ (agrees_scope_offsets _)

theorem lower_arith_offsets (e : Arith) (ρ σ : String → Int) :
    lower_expression ρ e.tree = lower_expression σ e.tree := by
  induction e with
  | lit digits => rfl
  | neg operand ih =>
    simp only [Arith.tree, lower_binop_tree, ih]
    rfl
  | paren inner ih => exact ih
  | bin op left right ihl ihr => simp only [Arith.tree, lower_binop_tree, ihl, ihr]

theorem run_ir_append (a b : List IRInstruction) (stack : List Int) :
    run_ir (a ++ b) stack = (run_ir a stack).bind (run_ir b) := by
  induction a generalizing stack with
  | nil => rfl
  | cons instr rest ih =>
    simp only [List.cons_append, run_ir]
    cases ir_step instr stack with
    | none => rfl
    | some stack1 => exact ih stack1

theorem wrap64_of_range (v : Int) (hlo : -(2 : Int) ^ 63 ≤ v) (hhi : v < 2 ^ 63) :
    wrap64 v = v := by
  unfold wrap64
  rw [Int.emod_eq_of_lt (by omega) (by omega)]
  omega

theorem run_binop (op : BinOpType) (l r : Int) (stack : List Int)
    (hdiv : op = .BINOP_DIV → r ≠ 0)
    (hlo : -(2 : Int) ^ 63 ≤ (match op with
      | .BINOP_PLUS => l + r
      | .BINOP_MINUS => l - r
      | .BINOP_MULT => l * r
      | .BINOP_DIV => Int.tdiv l r))
    (hhi : (match op with
      | .BINOP_PLUS => l + r
      | .BINOP_MINUS => l - r
      | .BINOP_MULT => l * r
      | .BINOP_DIV => Int.tdiv l r) < 2 ^ 63) :
    run_ir [binop_ir op] (r :: l :: stack) = some ((match op with
      | .BINOP_PLUS => l + r
      | .BINOP_MINUS => l - r
      | .BINOP_MULT => l * r
      | .BINOP_DIV => Int.tdiv l r) :: stack) := by
  cases op <;> simp only [binop_ir, ir, run_ir, ir_step] at hlo hhi ⊢
  · rw [wrap64_of_range _ hlo hhi]
  · rw [wrap64_of_range _ hlo hhi]
  · rw [wrap64_of_range _ hlo hhi]
  · have hr : r ≠ 0 := hdiv rfl
    have hnot : ¬ (r = 0 ∨ Int.tdiv l r ≥ 2 ^ 63) := by
      rintro (h | h)
      · exact hr h
      · omega
    rw [if_neg hnot]

theorem run_arith (e : Arith) (hwf : e.well_formed = true) (hsmall : e.small_literals = true)
    (hrange : e.in_range = true) (ρ : String → Int) :
    ∀ stack, run_ir (lower_expression ρ e.tree) stack = some (e.value :: stack) := by
  induction e with
  | lit digits =>
    intro stack
    simp only [Arith.well_formed, Bool.and_eq_true, List.all_eq_true] at hwf
    simp only [Arith.small_literals, decide_eq_true_eq] at hsmall
    simp only [Arith.tree, lower_int_tree, Arith.value, atoi_digits digits hwf.2 hsmall]
    rfl
  | neg operand ih =>
    intro stack
    simp only [Arith.well_formed, Bool.and_eq_true, decide_eq_true_eq] at hwf
    simp only [Arith.small_literals] at hsmall
    simp only [Arith.in_range, Bool.and_eq_true, decide_eq_true_eq] at hrange
    simp only [Arith.tree, lower_binop_tree, lower_int_tree, List.append_assoc, run_ir_append]
    have h0 : run_ir [ir .IR_PUSH 0] stack = some (0 :: stack) := rfl
    rw [h0, Option.some_bind, ih hwf.2 hsmall hrange.1, Option.some_bind]
    have h := run_binop .BINOP_MINUS 0 operand.value stack (fun h => by cases h)
      (by simpa using hrange.2.1) (by simpa using hrange.2.2)
    simpa [Arith.value] using h
  | paren inner ih =>
    simp only [Arith.well_formed] at hwf
    simp only [Arith.small_literals] at hsmall
    simp only [Arith.in_range] at hrange
    exact ih hwf hsmall hrange
  | bin op left right ihl ihr =>
    intro stack
    simp only [Arith.well_formed, Bool.and_eq_true, decide_eq_true_eq] at hwf
    simp only [Arith.small_literals, Bool.and_eq_true] at hsmall
    simp only [Arith.in_range, Bool.and_eq_true, decide_eq_true_eq] at hrange
    obtain ⟨⟨⟨hrl, hrr⟩, hdiv⟩, hlo, hhi⟩ := hrange
    simp only [Arith.tree, lower_binop_tree, List.append_assoc, run_ir_append]
    rw [ihl hwf.1.2 hsmall.1 hrl, Option.some_bind, ihr hwf.2 hsmall.2 hrr, Option.some_bind]
    have h := run_binop op left.value right.value stack hdiv
      (by cases op <;> simpa [Arith.value] using hlo)
      (by cases op <;> simpa [Arith.value] using hhi)
    rw [h]
    cases op <;> rfl

theorem next_token_of_skip (a b : Lexer) (h : skip_whitespace a = skip_whitespace b) :
    next_token a = next_token b := by
  simp only [next_token, h]

theorem lex_blank (lx : Lexer) (tail : List Char) (h : lx.remaining = ' ' :: tail) :
    ∃ lx1 : Lexer, next_token lx = next_token lx1 ∧ lx1.remaining = tail := by
  obtain ⟨lx1, hskip, hrem⟩ := skip_blanks [' '] (by simp) lx tail h
  exact ⟨lx1, next_token_of_skip _ _ hskip, hrem⟩

theorem lex_digits (lx : Lexer) (digits tail : List Char) (h : lx.remaining = digits ++ tail)
    (hne : digits ≠ []) (hall : ∀ c ∈ digits, isdigit c = true)
    (htail : ∀ c ∈ tail.head?, isdigit c = false) :
    (next_token lx).1.type = .TOKEN_INT_LIT
    ∧ (next_token lx).1.value = some (String.mk digits)
    ∧ (next_token lx).2.remaining = tail := by
  obtain ⟨c, w, rfl⟩ := List.exists_cons_of_ne_nil hne
  have hc : lx.char_at lx.pos = c := by
    rw [char_at_cursor, h]
    rfl
  have hd : isdigit c = true := hall c (List.mem_cons_self _ _)
  have hskip : skip_whitespace lx = lx := by
    apply skip_whitespace_fixed <;> rw [hc]
    · rintro rfl; simp [isdigit] at hd
    · rintro rfl; simp [isdigit] at hd
    · rintro rfl; simp [isdigit] at hd
    · rintro ⟨rfl, _⟩; simp [isdigit] at hd
  have hrun : maximal_run isdigit (c :: w) (skip_whitespace lx).remaining := by
    rw [hskip]
    exact ⟨tail, h, hall, htail⟩
  rw [next_token_digits lx c w hrun, hskip]
  refine ⟨rfl, rfl, ?_⟩
  rw [remaining_advance, h, List.drop_left]

theorem char_after_cursor (lx : Lexer) (c : Char) (tail : List Char)
    (h : lx.remaining = c :: tail) (d : Char) (hd : ∀ x ∈ tail.head?, x ≠ d) (hnul : d ≠ NUL) :
    lx.char_at (lx.pos + 1) ≠ d := by
  rw [char_at_remaining, h]
  cases tail with
  | nil => exact fun h => hnul h.symm
  | cons x rest => exact hd x rfl

theorem lex_operator (lx : Lexer) (c : Char) (tail : List Char) (t : TokenType)
    (h : lx.remaining = c :: tail)
    (hct : (c, t) ∈ [('+', TokenType.TOKEN_PLUS), ('-', .TOKEN_MINUS), ('*', .TOKEN_STAR),
      ('/', .TOKEN_SLASH), ('(', .TOKEN_LPAREN), (')', .TOKEN_RPAREN), (';', .TOKEN_SEMICOLON)])
    (hminus : c = '-' → ∀ x ∈ tail.head?, x ≠ '>')
    (hslash : c = '/' → ∀ x ∈ tail.head?, x ≠ '/') :
    (next_token lx).1.type = t ∧ (next_token lx).2.remaining = tail := by
  have hc : lx.char_at lx.pos = c := by
    rw [char_at_cursor, h]
    rfl
  have hrem : ({ lx with pos := lx.pos + 1, col := lx.col + 1 } : Lexer).remaining = tail := by
    rw [remaining_advance, h]
    rfl
  have hskip : skip_whitespace lx = lx := by
    apply skip_whitespace_fixed <;> rw [hc]
    · rintro rfl; simp at hct
    · rintro rfl; simp at hct
    · rintro rfl; simp at hct
    · rintro ⟨rfl, h2⟩
      exact char_after_cursor lx _ tail h '/' (hslash rfl) (by decide) h2
  simp only [List.mem_cons, Prod.mk.injEq, List.mem_singleton, List.not_mem_nil, or_false]
    at hct
  rcases hct with ⟨rfl, rfl⟩ | ⟨rfl, rfl⟩ | ⟨rfl, rfl⟩ | ⟨rfl, rfl⟩ | ⟨rfl, rfl⟩ | ⟨rfl, rfl⟩
    | ⟨rfl, rfl⟩
  · simp [next_token, hskip, hc, operator_token, make_token, NUL, isdigit, isalpha, hrem]
  · have hgt : ({ lx with pos := lx.pos + 1, col := lx.col + 1 } : Lexer).char_at (lx.pos + 1)
        ≠ '>' := char_after_cursor lx _ tail h '>' (hminus rfl) (by decide)
    rw [next_token_operator lx '-' hc (Or.inl rfl)]
    simp [operator_token, make_token, hgt, hrem]
  · simp [next_token, hskip, hc, operator_token, make_token, NUL, isdigit, isalpha, hrem]
  · have h1 := char_after_cursor lx _ tail h '/' (hslash rfl) (by decide)
    rw [next_token_slash lx hc h1]
    exact ⟨rfl, hrem⟩
  · simp [next_token, hskip, hc, operator_token, make_token, NUL, isdigit, isalpha, hrem]
  · simp [next_token, hskip, hc, operator_token, make_token, NUL, isdigit, isalpha, hrem]
  · simp [next_token, hskip, hc, operator_token, make_token, NUL, isdigit, isalpha, hrem]

theorem parser_on_advance (lx : Lexer) : (parser_on lx).advance = parser_on (next_token lx).2 :=
  rfl

theorem parser_on_of_next (a b : Lexer) (h : next_token a = next_token b) :
    parser_on a = parser_on b := by
  simp only [parser_on, h]

theorem advance_by_parser_on (n : Nat) :
    ∀ lx : Lexer, advance_by n (parser_on lx) = parser_on (lexer_after n lx) := by
  induction n with
  | zero => exact fun _ => rfl
  | succ n ih =>
    intro lx
    rw [advance_by, parser_on_advance, ih]
    rfl

theorem lexer_after_of_next (a b : Lexer) (h : next_token a = next_token b) (n : Nat)
    (hn : 0 < n) : lexer_after n a = lexer_after n b := by
  cases n with
  | zero => exact absurd hn (by decide)
  | succ n => simp only [lexer_after, h]

theorem arith_text_head (e : Arith) (hwf : e.well_formed = true) :
    ∃ c rest, e.text = c :: rest ∧ (isdigit c = true ∨ c = '-' ∨ c = '(') := by
  cases e with
  | lit digits =>
    simp only [Arith.well_formed, Bool.and_eq_true, List.all_eq_true, Bool.not_eq_true',
      List.isEmpty_eq_false] at hwf
    obtain ⟨c, w, rfl⟩ := List.exists_cons_of_ne_nil hwf.1
    exact ⟨c, w, rfl, Or.inl (hwf.2 c (List.mem_cons_self _ _))⟩
  | neg operand => exact ⟨_, _, rfl, Or.inr (Or.inl rfl)⟩
  | paren inner => exact ⟨_, _, rfl, Or.inr (Or.inr rfl)⟩
  | bin op left right =>
    simp only [Arith.well_formed, Bool.and_eq_true] at hwf
    obtain ⟨c, rest, hc, hkind⟩ := arith_text_head left hwf.1.2
    exact ⟨c, rest ++ ' ' :: op_char op :: ' ' :: right.text, by simp [Arith.text, hc], hkind⟩

theorem op_char_token (op : BinOpType) :
    (op_char op, op_token op) ∈ [('+', TokenType.TOKEN_PLUS), ('-', .TOKEN_MINUS),
      ('*', .TOKEN_STAR), ('/', .TOKEN_SLASH), ('(', .TOKEN_LPAREN), (')', .TOKEN_RPAREN),
      (';', .TOKEN_SEMICOLON)] := by
  cases op <;> simp [op_char, op_token]

theorem arith_lexed (e : Arith) (hwf : e.well_formed = true) :
    ∀ (lx : Lexer) (tail : List Char), lx.remaining = e.text ++ tail →
      (∀ c ∈ tail.head?, isdigit c = false) →
      reads e.render (parser_on lx) = true
      ∧ (lexer_after e.render.length lx).remaining = tail := by
  induction e with
  | lit digits =>
    intro lx tail h htail
    simp only [Arith.well_formed, Bool.and_eq_true, List.all_eq_true, Bool.not_eq_true',
      List.isEmpty_eq_false] at hwf
    obtain ⟨htype, hvalue, hrem⟩ := lex_digits lx digits tail h hwf.1 hwf.2 htail
    refine ⟨?_, hrem⟩
    simp [Arith.render, reads, parser_on, htype, hvalue]
  | neg operand ih =>
    intro lx tail h htail
    simp only [Arith.well_formed, Bool.and_eq_true, decide_eq_true_eq] at hwf
    simp only [Arith.text, List.cons_append] at h
    obtain ⟨c, rest, hc, hkind⟩ := arith_text_head operand hwf.2
    obtain ⟨htype, hrem⟩ := lex_operator lx '-' _ .TOKEN_MINUS h (by simp)
      (fun _ x hx => by
        rw [hc] at hx
        simp only [List.cons_append, List.head?_cons, Option.mem_def, Option.some.injEq] at hx
        subst hx
        rcases hkind with hd | rfl | rfl
        · rintro rfl
          simp [isdigit] at hd
        · decide
        · decide)
      (fun h => by simp at h)
    obtain ⟨hreads, hafter⟩ := ih hwf.2 _ tail hrem htail
    refine ⟨?_, hafter⟩
    simp only [Arith.render, reads, Bool.and_eq_true, decide_eq_true_eq, parser_on_advance]
    exact ⟨⟨htype, fun h => by simp at h⟩, hreads⟩
  | paren inner ih =>
    intro lx tail h htail
    simp only [Arith.well_formed] at hwf
    simp only [Arith.text, List.cons_append, List.append_assoc] at h
    obtain ⟨htype, hrem⟩ := lex_operator lx '(' _ .TOKEN_LPAREN h (by simp)
      (fun h => by simp at h) (fun h => by simp at h)
    obtain ⟨hreads, hafter⟩ := ih hwf _ (')' :: tail) hrem
      (fun c hc => by
        simp only [List.head?_cons, Option.mem_def, Option.some.injEq] at hc
        subst hc
        decide)
    obtain ⟨hclose, hrem2⟩ := lex_operator _ ')' tail .TOKEN_RPAREN hafter (by simp)
      (fun h => by simp at h) (fun h => by simp at h)
    constructor
    · simp only [Arith.render, reads, Bool.and_eq_true, decide_eq_true_eq, parser_on_advance,
        reads_append, advance_by_parser_on]
      exact ⟨⟨htype, fun h => by simp at h⟩, hreads,
        ⟨hclose, fun h => by simp at h⟩, trivial⟩
    · simp only [Arith.render, List.length_cons, List.length_append, List.length_nil]
      rw [lexer_after_succ, show inner.render.length + 0 + 1 = 1 + inner.render.length by omega,
        lexer_after_add]
      exact hrem2
  | bin op left right ihl ihr =>
    intro lx tail h htail
    simp only [Arith.well_formed, Bool.and_eq_true, decide_eq_true_eq] at hwf
    simp only [Arith.text, List.append_assoc, List.cons_append] at h
    obtain ⟨hreadl, hafterl⟩ := ihl hwf.1.2 lx _ h
      (fun c hc => by
        simp only [List.head?_cons, Option.mem_def, Option.some.injEq] at hc
        subst hc
        decide)
    obtain ⟨lb, hnb, hremb⟩ := lex_blank _ _ hafterl
    obtain ⟨hop, hremc⟩ := lex_operator lb (op_char op) _ (op_token op) hremb
      (op_char_token op)
      (fun _ x hx => by
        simp only [List.head?_cons, Option.mem_def, Option.some.injEq] at hx
        subst hx
        decide)
      (fun _ x hx => by
        simp only [List.head?_cons, Option.mem_def, Option.some.injEq] at hx
        subst hx
        decide)
    rw [← hnb] at hop hremc
    obtain ⟨ld, hnd, hremd⟩ := lex_blank _ _ hremc
    obtain ⟨hreadr, hafterr⟩ := ihr hwf.2 ld tail hremd htail
    constructor
    · simp only [Arith.render, reads_append, reads, Bool.and_eq_true, decide_eq_true_eq,
        advance_by_parser_on, parser_on_advance]
      refine ⟨hreadl, ⟨hop, fun h => ?_⟩, ?_⟩
      · cases op <;> simp [op_token] at h
      · rw [parser_on_of_next _ _ hnd]
        exact hreadr
    · simp only [Arith.render, List.length_append, List.length_cons]
      rw [lexer_after_add, show right.render.length + 1 = 1 + right.render.length by omega,
        lexer_after_add]
      rw [show lexer_after 1 (lexer_after left.render.length lx)
        = (next_token (lexer_after left.render.length lx)).2 from rfl,
        lexer_after_of_next _ _ hnd _ (arith_render_length right)]
      exact hafterr

/-- C33 (counterexample): the literal `3000000000` is an expression whose value is within the
64-bit range, yet the parser stores the 32-bit value `atoi` leaves (-1294967296 with glibc; the
fields `int_value` and `operand` are C `int`s), so the lowered IR is PUSH -1294967296 and the
stack machine ends with that value on the stack, not 3000000000. -/
theorem C33_large_literal_wraps :
    (Arith.lit "3000000000".data).well_formed = true
    ∧ (Arith.lit "3000000000".data).in_range = true
    ∧ (Arith.lit "3000000000".data).value = 3000000000
    ∧ reads (Arith.lit "3000000000".data).render (parser_at "3000000000;") = true
    ∧ parse_expression 100 (parser_at "3000000000;")
        = .ok (int_tree (-1294967296), (parser_at "3000000000;").advance)
    ∧ gen_expression (int_tree (-1294967296)) CodeGen.init
        = .ok { CodeGen.init with current_program := [ir .IR_PUSH (-1294967296)] }
    ∧ run_ir [ir .IR_PUSH (-1294967296)] [] = some [-1294967296] := by
  decide

/-- C33 (amended): let `e` be an arithmetic expression written as precedence and left
associativity read it, whose literals are at most 2147483647, without division by zero and with
every intermediate value within the 64-bit range. From every parser state that has the tokens
of `e` ahead, followed by a token that is no arithmetic and no relational operator,
`parse_expression` returns with enough fuel the tree of `e` after the tokens of `e`; so it does
on the text of `e` followed by `;`, whatever comes after. `gen_expression` succeeds on the tree
and appends its lowering, and the stack machine run over that lowering pushes exactly one value
on the stack it starts with, the value of `e`. The backend translates ADD, SUB, MUL and DIV to
`pop rbx; pop rax`, the operation on `rax` and `rbx` (`cqo; idiv rbx` for DIV), and
`push rax`. -/
theorem C33_arithmetic_compiled (e : Arith) (cg : CodeGen) (stack : List Int)
    (hwf : e.well_formed = true) (hsmall : e.small_literals = true)
    (hrange : e.in_range = true) :
    (∀ p, reads e.render p = true →
      multiplicative_op (advance_by e.render.length p).current_token.type = none →
      additive_op (advance_by e.render.length p).current_token.type = none →
      comparison_op (advance_by e.render.length p).current_token.type = none →
      Returns (fun fuel => parse_expression fuel p) (e.tree, advance_by e.render.length p))
    ∧ (∀ tail : List Char,
        Returns (fun fuel => parse_expression fuel (parser_at (String.mk (e.text ++ ';' :: tail))))
          (e.tree, advance_by e.render.length (parser_at (String.mk (e.text ++ ';' :: tail))))
        ∧ (advance_by e.render.length
            (parser_at (String.mk (e.text ++ ';' :: tail)))).current_token.type
          = .TOKEN_SEMICOLON)
    ∧ gen_expression e.tree cg
        = .ok { cg with current_program :=
            cg.current_program ++ lower_expression (scope_offsets cg.current_scope) e.tree }
    ∧ run_ir (lower_expression (scope_offsets cg.current_scope) e.tree) stack
        = some (e.value :: stack)
    ∧ (∀ macos program instruction_num,
        asm_instruction macos program instruction_num (ir .IR_ADD 0)
          = ["    pop rbx\n", "    pop rax\n", "    add rax, rbx\n", "    push rax\n"]
        ∧ asm_instruction macos program instruction_num (ir .IR_SUB 0)
          = ["    pop rbx\n", "    pop rax\n", "    sub rax, rbx\n", "    push rax\n"]
        ∧ asm_instruction macos program instruction_num (ir .IR_MUL 0)
          = ["    pop rbx\n", "    pop rax\n", "    imul rax, rbx\n", "    push rax\n"]
        ∧ asm_instruction macos program instruction_num (ir .IR_DIV 0)
          = ["    pop rbx\n", "    pop rax\n", "    cqo\n", "    idiv rbx\n",
             "    push rax\n"]) := by
  have hparse : ∀ p, reads e.render p = true →
      multiplicative_op (advance_by e.render.length p).current_token.type = none →
      additive_op (advance_by e.render.length p).current_token.type = none →
      comparison_op (advance_by e.render.length p).current_token.type = none →
      Returns (fun fuel => parse_expression fuel p)
        (e.tree, advance_by e.render.length p) := fun p hreads hm ha hc =>
    returns_expression_of (returns_comparison_none
      ((arith_parsed e hwf p hreads).2.2 hm _ (returns_additive_stop _ _ ha)) hc)
  refine ⟨hparse, fun tail => ?_, gen_arith e cg, run_arith e hwf hsmall hrange _ stack,
    fun _ _ _ => ⟨rfl, rfl, rfl, rfl⟩⟩
  have hp : parser_at (String.mk (e.text ++ ';' :: tail))
      = parser_on (init_lexer (e.text ++ ';' :: tail)) := rfl
  obtain ⟨hreads, hafter⟩ := arith_lexed e hwf (init_lexer (e.text ++ ';' :: tail))
    (';' :: tail) rfl
    (fun c hc => by
      simp only [List.head?_cons, Option.mem_def, Option.some.injEq] at hc
      subst hc
      decide)
  obtain ⟨hsemi, _⟩ := lex_operator _ ';' tail .TOKEN_SEMICOLON hafter (by simp)
    (fun h => by simp at h) (fun h => by simp at h)
  have hnext : (advance_by e.render.length
      (parser_on (init_lexer (e.text ++ ';' :: tail)))).current_token.type
      = .TOKEN_SEMICOLON := by
    rw [advance_by_parser_on]
    exact hsemi
  rw [hp]
  exact ⟨hparse _ hreads (by rw [hnext]; rfl) (by rw [hnext]; rfl) (by rw [hnext]; rfl), hnext⟩

set_option maxRecDepth 20000 in
/-- Witness of C33: `2 + 3 * 4` is the text of `sum_product_arith`; followed by `;` it is
parsed with fuel 100, lowered to PUSH 2, PUSH 3, PUSH 4, MUL, ADD and leaves 14; and
`(2 + 3) * 4 - -7 / 2` leaves 23. -/
theorem C33_arithmetic_compiled_witness :
    sum_product_arith.text = "2 + 3 * 4".data
    ∧ sum_product_arith.value = 14
    ∧ parse_expression 100 (parser_at "2 + 3 * 4;")
        = .ok (sum_product_arith.tree,
            advance_by sum_product_arith.render.length (parser_at "2 + 3 * 4;"))
    ∧ lower_expression (fun _ => 0) sum_product_arith.tree
        = [ir .IR_PUSH 2, ir .IR_PUSH 3, ir .IR_PUSH 4, ir .IR_MUL 0, ir .IR_ADD 0]
    ∧ run_ir (lower_expression (scope_offsets CodeGen.init.current_scope)
        sum_product_arith.tree) [] = some [14]
    ∧ run_ir (lower_expression (fun _ => 0)
        (parsed_node (parse_expression 100 (parser_at "(2 + 3) * 4 - -7 / 2;")))) []
        = some [23] :=
  ⟨by decide, by decide, by decide, by decide,
   (C33_arithmetic_compiled sum_product_arith CodeGen.init []
      (by decide) (by decide) (by decide)).2.2.2.1.trans (by decide),
   by decide⟩

/-! ### Frame set-up in the assembly text -/

theorem text_lines_cons (text : List Char) :
    text_lines text = (text_lines text).headD [] :: (text_lines text).tail := by
  cases text with
  | nil => rfl
  | cons c rest =>
    rw [text_lines]
    split_ifs <;> rfl

theorem text_lines_plain (text : List Char) (h : '\n' ∉ text) : text_lines text = [text] := by
  induction text with
  | nil => rfl
  | cons c rest ih =>
    rw [List.mem_cons, not_or] at h
    rw [text_lines, if_neg (fun e => h.1 e.symm), ih h.2]
    rfl

theorem text_lines_newline (a b : List Char) :
    text_lines (a ++ '\n' :: b) = text_lines a ++ text_lines b := by
  induction a with
  | nil => rfl
  | cons c rest ih =>
    rw [List.cons_append, text_lines, text_lines, ih]
    split_ifs
    · rfl
    · rw [text_lines_cons rest]
      rfl

theorem text_lines_plain_append (a b : List Char) (h : '\n' ∉ a) :
    text_lines (a ++ b) = (a ++ (text_lines b).headD []) :: (text_lines b).tail := by
  induction a with
  | nil => exact text_lines_cons b
  | cons c rest ih =>
    rw [List.mem_cons, not_or] at h
    rw [List.cons_append, text_lines, if_neg (fun e => h.1 e.symm), ih h.2]
    rfl

theorem file_text_append (a b : List String) :
    file_text (a ++ b) = file_text a ++ file_text b := by
  induction a with
  | nil => rfl
  | cons t rest ih => rw [List.cons_append, file_text, file_text, ih, List.append_assoc]

theorem text_safe_split (text : String) (h : text_safe text = true) :
    ∃ body, text.data = body ++ ['\n']
      ∧ (text_lines body).all (fun line => !frame_setup_line line) = true := by
  simp only [text_safe, Bool.and_eq_true, beq_iff_eq] at h
  obtain ⟨hlast, hall⟩ := h
  have hne : text.data ≠ [] := by
    intro e
    rw [e] at hlast
    cases hlast
  have hsplit : text.data = text.data.dropLast ++ ['\n'] := by
    have h1 := List.dropLast_append_getLast hne
    rw [List.getLast?_eq_getLast _ hne, Option.some.injEq] at hlast
    rw [hlast] at h1
    exact h1.symm
  refine ⟨text.data.dropLast, hsplit, ?_⟩
  rw [hsplit, text_lines_newline, List.all_append, Bool.and_eq_true] at hall
  exact hall.1

theorem file_lines_safe (texts : List String) (h : ∀ text ∈ texts, text_safe text = true) :
    (text_lines (file_text texts)).all (fun line => !frame_setup_line line) = true := by
  induction texts with
  | nil => decide
  | cons text rest ih =>
    obtain ⟨body, hbody, hsafe⟩ := text_safe_split text (h text (List.mem_cons_self _ _))
    rw [file_text, hbody, List.append_assoc, List.singleton_append, text_lines_newline,
      List.all_append, hsafe, ih (fun t ht => h t (List.mem_cons_of_mem _ ht))]
    rfl

theorem text_safe_of_line (text : String) (line : List Char) (h : text.data = line ++ ['\n'])
    (hnl : '\n' ∉ line) (hsafe : frame_setup_line line = false) : text_safe text = true := by
  simp only [text_safe, h, Bool.and_eq_true, beq_iff_eq]
  refine ⟨by simp, ?_⟩
  rw [text_lines_newline, text_lines_plain line hnl]
  simp [text_lines, hsafe]
  decide

theorem text_safe_line (body suf : String)
    (hsuf : suf ∈ ["\n", "]\n", "], rax\n", ":\n", "\", 0\n"])
    (hnl : '\n' ∉ body.data) (hsafe : ∀ y, frame_setup_line (body.data ++ y) = false) :
    text_safe (body ++ suf) = true := by
  simp only [List.mem_cons, List.mem_singleton, List.not_mem_nil, or_false] at hsuf
  rcases hsuf with rfl | rfl | rfl | rfl | rfl
  · exact text_safe_of_line _ (body.data ++ []) (by simp [String.data_append])
      (by simpa using hnl) (hsafe _)
  · exact text_safe_of_line _ (body.data ++ [']']) (by simp [String.data_append])
      (by simpa using hnl) (hsafe _)
  · exact text_safe_of_line _ (body.data ++ "], rax".data) (by simp [String.data_append])
      (by simpa using hnl) (hsafe _)
  · exact text_safe_of_line _ (body.data ++ [':']) (by simp [String.data_append])
      (by simpa using hnl) (hsafe _)
  · exact text_safe_of_line _ (body.data ++ "\", 0".data) (by simp [String.data_append])
      (by simpa using hnl) (hsafe _)

theorem frame_setup_prefixed (pre : String)
    (hpre : pre ∈ ["    lea rax, [rel str_", "    mov rax, [rbp + ", "    mov rax, [rbp ", "    mov [rbp + ", "    mov [rbp ", "    call ", "    je ", "    jne ", "    jl ", "    jg ", "    jle ", "    jge ", "    jmp ", "    jz ", "    jnz ", ".cmp_true_", ".cmp_end_", ".print_str_", ".print_end_", "str_", "    lea rdi, [rel "])
    (y : List Char) : frame_setup_line (pre.data ++ y) = false := by
  simp only [List.mem_cons, List.mem_singleton, List.not_mem_nil, or_false] at hpre
  rcases hpre with rfl | rfl | rfl | rfl | rfl | rfl | rfl | rfl | rfl | rfl | rfl | rfl | rfl
    | rfl | rfl | rfl | rfl | rfl | rfl | rfl | rfl
  all_goals
    simp [frame_setup_line, List.isPrefixOf]

theorem repr_plain (n : Nat) : '\n' ∉ (Nat.repr n).data := by
  intro h
  exact absurd (repr_digits n _ h) (by decide)

theorem format_int_plain (n : Int) : '\n' ∉ (format_int n).data := by
  cases n with
  | ofNat m => exact repr_plain m
  | negSucc m =>
    simp only [format_int, String.data_append, List.mem_append, not_or]
    exact ⟨by decide, repr_plain _⟩

theorem push_text_safe (n : Int) : text_safe ("    push " ++ format_int n ++ "\n") = true := by
  refine text_safe_of_line _ ("    push ".data ++ (format_int n).data)
    (by simp [String.data_append]) ?_ ?_
  · simp only [List.mem_append, not_or]
    exact ⟨by decide, format_int_plain n⟩
  · have hc := format_int_head n
    cases hf : (format_int n).data with
    | nil => simp [frame_setup_line, List.isPrefixOf]
    | cons c rest =>
      have hc : c ≠ 'r' := hc c (by simp [hf])
      simp [frame_setup_line, List.isPrefixOf, Ne.symm hc]

theorem label_text_safe (label : String)
    (h : label.data.all (fun c => !white_space c) = true) :
    text_safe (label ++ ":\n") = true := by
  have hmem : ∀ c ∈ label.data ++ [':'], white_space c = false := by
    intro c hc
    rcases List.mem_append.1 hc with hc | hc
    · simpa using List.all_eq_true.1 h c hc
    · simp only [List.mem_singleton] at hc
      subst hc
      decide
  refine text_safe_of_line _ (label.data ++ [':']) (by simp [String.data_append]) ?_ ?_
  · intro hc
    exact absurd (hmem _ hc) (by decide)
  · have hdrop : (label.data ++ [':']).dropWhile (fun c => c == ' ' || c == '\t')
        = label.data ++ [':'] := by
      cases hl : label.data ++ [':'] with
      | nil => rfl
      | cons c rest =>
        have hc := hmem c (by rw [hl]; exact List.mem_cons_self _ _)
        have hb : (c == ' ' || c == '\t') = false := by
          simp only [white_space, Bool.or_eq_false_iff] at hc ⊢
          exact hc.1
        rw [List.dropWhile_cons, hb]
        rfl
    have hno : ∀ w : List Char, ' ' ∈ w → w.isPrefixOf (label.data ++ [':']) = false := by
      intro w hw
      by_contra hp
      rw [Bool.not_eq_false, List.isPrefixOf_iff_prefix] at hp
      exact absurd (hmem ' ' (hp.subset hw)) (by decide)
    simp only [frame_setup_line, hdrop, hno _ (show ' ' ∈ "push rbp".data by decide),
      hno _ (show ' ' ∈ "mov rbp".data by decide), hno _ (show ' ' ∈ "sub rsp".data by decide)]
    rfl

theorem plain_instruction_label (instr : IRInstruction) (label : String)
    (h : plain_instruction instr = true) (hl : instr.label = some label) :
    label.data.all (fun c => !white_space c) = true := by
  simp only [plain_instruction, hl, Bool.and_eq_true] at h
  exact h.1

theorem plain_label_no_newline (label : String)
    (h : label.data.all (fun c => !white_space c) = true) : '\n' ∉ label.data := by
  intro hc
  have := List.all_eq_true.1 h _ hc
  simp [white_space] at this

set_option maxHeartbeats 2000000 in
theorem asm_instruction_safe (macos : Bool) (program : List IRInstruction)
    (instruction_num : Nat) (instr : IRInstruction) (h : plain_instruction instr = true) :
    (asm_instruction macos program instruction_num instr).all text_safe = true := by
  unfold asm_instruction
  cases hop : instr.op <;> simp only [hop]
  all_goals
    try cases hl : instr.label
  all_goals
    try cases macos
  all_goals
    simp only [List.all_cons, List.all_nil, List.all_append, asm_print_call, Bool.and_true,
      Bool.and_eq_true, List.cons_append, List.nil_append]
  all_goals
    try split_ifs
  all_goals
    try simp only [List.all_cons, List.all_nil, List.all_append, Bool.and_true,
      Bool.and_eq_true]
  all_goals
    repeat' apply And.intro
  all_goals
    first
      | with_reducible exact push_text_safe _
      | with_reducible exact label_text_safe _ (plain_instruction_label instr _ h hl)
      | (with_reducible apply text_safe_line
         · simp
         · simp only [String.data_append, List.mem_append, not_or]
           first
             | exact ⟨by decide, plain_label_no_newline _ (plain_instruction_label instr _ h hl)⟩
             | exact ⟨by decide, repr_plain _⟩
             | exact ⟨by decide, format_int_plain _⟩
             | exact ⟨by decide, by decide, repr_plain _⟩
             | exact ⟨by decide, by decide⟩
         · intro y
           simp only [String.data_append, List.append_assoc]
           exact frame_setup_prefixed _ (by simp) _)
      | decide

theorem asm_code_loop_safe (macos : Bool) (program : List IRInstruction) :
    ∀ (rest : List IRInstruction) (instruction_num : Nat), rest.all plain_instruction = true →
      (asm_code_loop macos program instruction_num rest).all text_safe = true := by
  intro rest
  induction rest with
  | nil => exact fun _ _ => rfl
  | cons instr rest ih =>
    intro instruction_num h
    rw [List.all_cons, Bool.and_eq_true] at h
    rw [asm_code_loop, List.all_append, asm_instruction_safe _ _ _ _ h.1, ih _ h.2]
    rfl

theorem data_entries_loop_safe :
    ∀ (program : List IRInstruction) (str_idx : Nat), program.all plain_instruction = true →
      (data_entries_loop str_idx program).all text_safe = true := by
  intro program
  induction program with
  | nil => exact fun _ _ => rfl
  | cons instr rest ih =>
    intro str_idx h
    rw [List.all_cons, Bool.and_eq_true] at h
    rw [data_entries_loop]
    split_ifs
    · cases hs : instr.str_value with
      | none => exact ih _ h.2
      | some payload =>
        have hp : '\n' ∉ payload.data := by
          have h1 := h.1
          simp only [plain_instruction, hs, Bool.and_eq_true] at h1
          intro hc
          simpa using List.all_eq_true.1 h1.2 _ hc
        simp only [List.all_cons, Bool.and_eq_true]
        refine ⟨?_, ih _ h.2⟩
        apply text_safe_line
        · simp
        · simp only [String.data_append, List.mem_append, not_or]
          exact ⟨⟨⟨by decide, repr_plain _⟩, by decide⟩, hp⟩
        · intro y
          simp only [String.data_append, List.append_assoc]
          exact frame_setup_prefixed _ (by simp) _
    · exact ih _ h.2

theorem generate_assembly_safe (macos : Bool) (program : List IRInstruction)
    (h : plain_program program = true) :
    ∀ line ∈ file_lines (generate_assembly macos program), frame_setup_line line = false := by
  have hdata : (asm_data_section program).all text_safe = true := by
    unfold asm_data_section
    split_ifs
    · rw [List.all_append, List.all_append, data_entries_loop_safe program 0 h]
      decide
    · decide
  have hhead : (asm_text_header macos program).all text_safe = true := by
    unfold asm_text_header
    cases macos <;> cases has_main program <;> decide
  have hexit : (asm_exit macos program).all text_safe = true := by
    unfold asm_exit
    cases macos <;> cases has_main program <;> decide
  have hall : (generate_assembly macos program).all text_safe = true := by
    rw [generate_assembly, List.all_append, List.all_append, List.all_append, hdata, hhead,
      asm_code_loop_safe macos program program 0 h, hexit]
    rfl
  have hlines := file_lines_safe _ (fun text ht => List.all_eq_true.1 hall text ht)
  intro line hline
  simpa using List.all_eq_true.1 hlines line hline

theorem mangle_plain (name : String) (h : name.data.all (fun c => !white_space c) = true) :
    (mangle name).data.all (fun c => !white_space c) = true := by
  simp only [mangle, String.data_append, List.all_append, h, Bool.and_true]
  decide

theorem label_text_plain (pfx : String) (hpfx : pfx ∈ label_prefixes) (n : Nat) :
    (label_text pfx n).data.all (fun c => !white_space c) = true := by
  have hall : (pfx ++ "_" ++ Nat.repr n).data.all (fun c => !white_space c) = true := by
    have hrepr : (Nat.repr n).data.all (fun c => !white_space c) = true := by
      rw [List.all_eq_true]
      intro c hc
      have hd := repr_digits n c hc
      simp only [white_space, Bool.not_eq_true', Bool.or_eq_false_iff, beq_eq_false_iff_ne]
      refine ⟨⟨?_, ?_⟩, ?_⟩ <;> rintro rfl <;> exact absurd hd (by decide)
    simp only [label_prefixes, List.mem_cons, List.mem_singleton, List.not_mem_nil,
      or_false] at hpfx
    rcases hpfx with rfl | rfl | rfl | rfl <;>
      simp only [String.data_append, List.all_append, hrepr, Bool.and_true] <;> decide
  rw [List.all_eq_true] at hall ⊢
  intro c hc
  exact hall c (List.mem_of_mem_take hc)

set_option maxRecDepth 20000 in
/-- C32 (counterexample): the program `frame_lines_source` prints a string literal that spans
lines; its payload is written as it is into the data entry, so the file the backend writes has
the lines `    push rbp`, `    mov rbp, rsp` and `    sub rsp, 16`. A JMP whose label holds a
newline puts such a line into the code. -/
theorem C32_payload_lines_are_emitted :
    compile 100 frame_lines_source.toList = .ok frame_lines_ir
    ∧ "    push rbp".data ∈ file_lines (generate_assembly false frame_lines_ir)
    ∧ "    mov rbp, rsp".data ∈ file_lines (generate_assembly false frame_lines_ir)
    ∧ "    sub rsp, 16".data ∈ file_lines (generate_assembly false frame_lines_ir)
    ∧ frame_setup_line "    push rbp".data = true
    ∧ frame_setup_line "    mov rbp, rsp".data = true
    ∧ frame_setup_line "    sub rsp, 16".data = true
    ∧ "    push rbp".data
        ∈ file_lines (generate_assembly false [ir_label .IR_JMP 0 "done\n    push rbp"]) := by
  decide

/-- C32 (amended): for every IR program whose labels hold no white space and whose string
payloads hold no newline, and for both platforms, no line of the file the backend writes is an
instruction that saves the frame pointer (`push rbp`), establishes it (`mov rbp, ...`) or
reserves local storage (`sub rsp, ...`). The labels the generator makes, the mangled name of a
function whose name holds no white space and the labels of `if` and `while`, hold none. A LABEL
with a label is translated to the one text `<label>:`, a RET to `pop rax`, `mov rsp, rbp`,
`pop rbp`, `ret`, and a LOAD and a STORE address memory at `rbp` plus or minus the operand. -/
theorem C32_no_frame_setup_line :
    (∀ (macos : Bool) (program : List IRInstruction), plain_program program = true →
        ∀ line ∈ file_lines (generate_assembly macos program), frame_setup_line line = false)
    ∧ (∀ name : String, name.data.all (fun c => !white_space c) = true →
        (mangle name).data.all (fun c => !white_space c) = true)
    ∧ (∀ pfx ∈ label_prefixes, ∀ n : Nat,
        (label_text pfx n).data.all (fun c => !white_space c) = true)
    ∧ (∀ (macos : Bool) (program : List IRInstruction) (instruction_num : Nat) (operand : Int)
        (label : String) (str_value : Option String),
        asm_instruction macos program instruction_num
            { op := .IR_LABEL, operand := operand, label := some label, str_value := str_value }
          = [label ++ ":\n"])
    ∧ (∀ (macos : Bool) (program : List IRInstruction) (instruction_num : Nat) (operand : Int)
        (label str_value : Option String),
        asm_instruction macos program instruction_num
            { op := .IR_RET, operand := operand, label := label, str_value := str_value }
          = ["    pop rax\n", "    mov rsp, rbp\n", "    pop rbp\n", "    ret\n"]
        ∧ asm_instruction macos program instruction_num
            { op := .IR_LOAD, operand := operand, label := label, str_value := str_value }
          = [if operand ≥ 0 then "    mov rax, [rbp + " ++ format_int operand ++ "]\n"
             else "    mov rax, [rbp " ++ format_int operand ++ "]\n",
             "    push rax\n"]
        ∧ asm_instruction macos program instruction_num
            { op := .IR_STORE, operand := operand, label := label, str_value := str_value }
          = ["    pop rax\n",
             if operand ≥ 0 then "    mov [rbp + " ++ format_int operand ++ "], rax\n"
             else "    mov [rbp " ++ format_int operand ++ "], rax\n"])
    ∧ frame_setup_line "    push rbp".data = true
    ∧ frame_setup_line "    mov rbp, rsp".data = true
    ∧ frame_setup_line "    sub rsp, 16".data = true :=
  ⟨generate_assembly_safe, mangle_plain, label_text_plain, fun _ _ _ _ _ _ => rfl,
   fun _ _ _ _ _ _ => ⟨rfl, rfl, rfl⟩, by decide, by decide, by decide⟩

set_option maxRecDepth 20000 in
/-- Witness of C32: the IR of a function that loads its parameter, stores it in a local and
returns it holds plain texts only; its translation is the eleven lines given, and no line of
the file written for it is a frame set-up instruction. -/
theorem C32_no_frame_setup_line_witness :
    plain_program [ir_label .IR_LABEL 0 "_f", ir .IR_LOAD 16, ir .IR_STORE (-8),
        ir .IR_LOAD (-8), ir .IR_RET 0] = true
    ∧ asm_code_loop false [ir_label .IR_LABEL 0 "_f", ir .IR_LOAD 16, ir .IR_STORE (-8),
          ir .IR_LOAD (-8), ir .IR_RET 0] 0
        [ir_label .IR_LABEL 0 "_f", ir .IR_LOAD 16, ir .IR_STORE (-8), ir .IR_LOAD (-8),
          ir .IR_RET 0]
        = ["_f:\n", "    mov rax, [rbp + 16]\n", "    push rax\n", "    pop rax\n",
           "    mov [rbp -8], rax\n", "    mov rax, [rbp -8]\n", "    push rax\n",
           "    pop rax\n", "    mov rsp, rbp\n", "    pop rbp\n", "    ret\n"]
    ∧ ∀ line ∈ file_lines (generate_assembly false [ir_label .IR_LABEL 0 "_f", ir .IR_LOAD 16,
        ir .IR_STORE (-8), ir .IR_LOAD (-8), ir .IR_RET 0]), frame_setup_line line = false :=
  ⟨by decide, by decide,
   C32_no_frame_setup_line.1 false [ir_label .IR_LABEL 0 "_f", ir .IR_LOAD 16,
     ir .IR_STORE (-8), ir .IR_LOAD (-8), ir .IR_RET 0] (by decide)⟩

end Jive
